import Mathlib

/-!
# ouzel audio core: PCM streams and the `Audio` front end

A shallow embedding of `ouzel/audio/PCMSound.cpp` (the `PCMData` source and the
`PCMSource` stream with its pull primitive `getData`), of the members of
`mixer::Stream` declared in `ouzel/audio/mixer/Stream.hpp`, and of the
producer-side methods of `ouzel/audio/Audio.cpp`. Behind the audio core come
`Matrix4::invert` (`ouzel/math/Matrix4.cpp`), `TextureResource::calculateSizes`
(`ouzel/graphics/TextureResource.cpp`), the particle system
(`ouzel/scene/ParticleSystem.cpp`) and the binary format OBF (`ouzel/utils/OBF.cpp`), each
in a namespace of its own.

Conventions.
* Machine integers are natural numbers; every operation that can wrap around
  carries its modulus explicitly (`UINT32_MOD` for `uint32_t`, `SIZE_MOD` for
  `size_t`, taken 64 bits wide).
* Samples are values of an arbitrary type `α` with a zero (`0.0F` in the
  source): `getData` only moves samples, it never computes with them.
* An out-of-range iterator handed to `std::copy` / `std::fill` is undefined
  behaviour in the source and is the fault `outOfRange` here.
* The `while` loop of `getData` is run with fuel; `outOfFuel` means that the
  loop has not finished within the given number of iterations.
-/

namespace ouzel
namespace audio

/-! ## Machine arithmetic -/

/-- Number of values of a `uint32_t`. -/
def UINT32_MOD : Nat := 4294967296

/-- Number of values of a `size_t` (64-bit target). -/
def SIZE_MOD : Nat := 18446744073709551616

/-- Subtraction `a - b` of two `size_t` values (wraps around below zero). -/
def sizeSub (a b : Nat) : Nat := (a % SIZE_MOD + SIZE_MOD - b % SIZE_MOD) % SIZE_MOD

/-- The conversion `static_cast<uint32_t>(x)`. -/
def toUInt32 (x : Nat) : Nat := x % UINT32_MOD

/-- Addition of two `uint32_t` values. -/
def addUInt32 (a b : Nat) : Nat := (a + b) % UINT32_MOD

/-- Subtraction of two `uint32_t` values. -/
def subUInt32 (a b : Nat) : Nat := (a % UINT32_MOD + UINT32_MOD - b % UINT32_MOD) % UINT32_MOD

/-- Multiplication `frames * channels` carried out in `uint32_t`. -/
def mulUInt32 (a b : Nat) : Nat := (a * b) % UINT32_MOD

/-! ## Faults -/

/-- Ways in which a run of the embedded code fails to deliver a result. -/
inductive Fault where
  | outOfFuel
  | outOfRange
  deriving DecidableEq, Repr

deriving instance DecidableEq for Except

/-! ## `std::vector` primitives used by `getData` -/

/-- The call `v.resize(n)` on a vector of samples: keeps the first `n` elements and
pads with value-initialised (zero) elements. -/
def vectorResize {α : Type} [Zero α] (v : List α) (n : Nat) : List α :=
  v.take n ++ List.replicate (n - v.length) 0

/-- The call `std::copy(src.begin() + first, src.begin() + last, dst.begin() + pos)`.
The source range must lie inside `src` and the destination range inside `dst`. -/
def stdCopy {α : Type} (src : List α) (first last : Nat) (dst : List α) (pos : Nat) :
    Except Fault (List α) :=
  if first ≤ last ∧ last ≤ src.length ∧ pos + (last - first) ≤ dst.length then
    .ok (dst.take pos ++ (src.drop first).take (last - first) ++ dst.drop (pos + (last - first)))
  else
    .error .outOfRange

/-- The call `std::fill(v.begin() + pos, v.end(), 0.0F)`. -/
def stdFillZero {α : Type} [Zero α] (v : List α) (pos : Nat) : Except Fault (List α) :=
  if pos ≤ v.length then
    .ok (v.take pos ++ List.replicate (v.length - pos) 0)
  else
    .error .outOfRange

/-! ## `PCMData` and `PCMSource` -/

/-- The class `PCMData` (a `mixer::Source`): channel count, sample rate and the decoded
samples. -/
structure PCMData (α : Type) where
  channels : Nat
  sampleRate : Nat
  samples : List α
  deriving DecidableEq, Repr

/-- The class `PCMSource`: the members of `mixer::Stream` (`source`, `output`, `playing`,
`repeating`) and the private `position`. `output` is the `Bus*`, `none` for `nullptr`. -/
structure PCMSource (α : Type) where
  source : PCMData α
  output : Option Nat
  playing : Bool
  repeating : Bool
  position : Nat
  deriving DecidableEq, Repr

variable {α : Type}

namespace PCMSource

/-- The constructor `PCMSource(PCMData&)`, that is `Stream(pcmData)`: binds `source`; the
other members take their default member initialisers (`output = nullptr`,
`playing = false`, `repeating = false`, `position = 0`). -/
def new (pcmData : PCMData α) : PCMSource α :=
  { source := pcmData, output := none, playing := false, repeating := false, position := 0 }

/-- The getter `Stream::isPlaying`. -/
def isPlaying (s : PCMSource α) : Bool := s.playing

/-- The getter `Stream::isRepeating`. -/
def isRepeating (s : PCMSource α) : Bool := s.repeating

/-- The getter `Stream::getSource`. -/
def getSource (s : PCMSource α) : PCMData α := s.source

/-- The method `PCMSource::reset`. -/
def reset (s : PCMSource α) : PCMSource α := { s with position := 0 }

/-- The local variables of `getData` together with the stream and the output vector,
as they stand at the head of the `while` loop. -/
structure Loop (α : Type) where
  stream : PCMSource α
  neededSize : Nat
  totalSize : Nat
  samples : List α
  deriving DecidableEq, Repr

/-- The first statement of the loop body of `getData`:
`if (isRepeating() && (data.size() - position) == 0) reset();`. -/
def rewindAtEnd (s : PCMSource α) : PCMSource α :=
  if s.isRepeating && sizeSub s.source.samples.length s.position == 0 then s.reset else s

/-- One run of the body of the `while` loop of `getData`, up to (not including) the
`if (!isRepeating()) break;`. -/
def loopBody (l : Loop α) : Except Fault (Loop α) :=
  let data := l.stream.source.samples
  let stream := rewindAtEnd l.stream
  if sizeSub data.length stream.position < l.neededSize then
    match stdCopy data stream.position data.length l.samples l.totalSize with
    | .error e => .error e
    | .ok samples =>
      .ok { stream := { stream with position := toUInt32 data.length }
            neededSize := subUInt32 l.neededSize (toUInt32 (sizeSub data.length stream.position))
            totalSize := addUInt32 l.totalSize (toUInt32 (sizeSub data.length stream.position))
            samples := samples }
  else
    match stdCopy data stream.position (stream.position + l.neededSize) l.samples l.totalSize with
    | .error e => .error e
    | .ok samples =>
      .ok { stream := { stream with position := addUInt32 stream.position l.neededSize }
            neededSize := 0
            totalSize := addUInt32 l.totalSize l.neededSize
            samples := samples }

/-- The `while (neededSize > 0)` loop of `getData`, run for at most `fuel` iterations. -/
def copyLoop : Nat → Loop α → Except Fault (Loop α)
  | 0, l => if l.neededSize > 0 then .error .outOfFuel else .ok l
  | fuel + 1, l =>
    if l.neededSize > 0 then
      match loopBody l with
      | .error e => .error e
      | .ok l' => if !l'.stream.isRepeating then .ok l' else copyLoop fuel l'
    else .ok l

/-- The end-of-data check that follows the loop of `getData`:
`if ((data.size() - position) == 0) { if (!isRepeating()) playing = false; reset(); }`. -/
def endOfData (s : PCMSource α) : PCMSource α :=
  if sizeSub s.source.samples.length s.position == 0 then
    (if !s.isRepeating then { s with playing := false } else s).reset
  else s

/-- The method `PCMSource::getData(frames, samples)`: returns the stream after the call and
the contents of `samples` after the call. -/
def getData [Zero α] (fuel : Nat) (s : PCMSource α) (frames : Nat) (samples : List α) :
    Except Fault (PCMSource α × List α) :=
  let neededSize := mulUInt32 frames s.source.channels
  let samples := vectorResize samples neededSize
  match copyLoop fuel { stream := s, neededSize := neededSize, totalSize := 0, samples := samples } with
  | .error e => .error e
  | .ok l =>
    match stdFillZero l.samples l.totalSize with
    | .error e => .error e
    | .ok out => .ok (endOfData l.stream, out)

/-- What the copy loop of a repeating stream over a non-empty source achieves between a
loop state `l` and its final state `r`. -/
def CyclicRun (l r : Loop α) : Prop :=
  r.neededSize = 0 ∧ r.totalSize = l.totalSize + l.neededSize ∧
  r.samples.length = l.samples.length ∧
  r.stream = { l.stream with position := r.stream.position } ∧
  r.stream.position ≤ l.stream.source.samples.length ∧
  r.stream.position % l.stream.source.samples.length =
    (l.stream.position + l.neededSize) % l.stream.source.samples.length ∧
  (∀ i, i < l.totalSize → r.samples[i]? = l.samples[i]?) ∧
  (∀ i, i < l.neededSize →
    r.samples[l.totalSize + i]? =
      l.stream.source.samples[(l.stream.position + i) % l.stream.source.samples.length]?)

/-- The number of samples a `getData(frames, ...)` call on stream `s` asks for:
`neededSize = frames * source.getChannels()`. -/
def requested (s : PCMSource α) (frames : Nat) : Nat := mulUInt32 frames s.source.channels

/-- The total number of samples asked for by a sequence of calls. -/
def requestedTotal (s : PCMSource α) (reqs : List (Nat × List α)) : Nat :=
  (reqs.map fun r => requested s r.1).sum

/-- A sequence of `getData` calls on one stream. Each call comes with its `frames` argument
and with the vector handed in; the result is the stream after the last call and the
concatenation of the vectors as they are after each call. -/
def pulls [Zero α] (fuel : Nat) : PCMSource α → List (Nat × List α) →
    Except Fault (PCMSource α × List α)
  | s, [] => .ok (s, [])
  | s, r :: rest =>
    match getData fuel s r.1 r.2 with
    | .error e => .error e
    | .ok (s', out) =>
      match pulls fuel s' rest with
      | .error e => .error e
      | .ok (s3, outs) => .ok (s3, out ++ outs)

end PCMSource

/-- The method `PCMData::createStream`. -/
def PCMData.createStream {α : Type} (d : PCMData α) : PCMSource α := PCMSource.new d

/-! ## Sample streams used as concrete inputs -/

/-- A mono source with the four samples `1, 2, 3, 4`. -/
def demoData : PCMData Int := { channels := 1, sampleRate := 44100, samples := [1, 2, 3, 4] }

/-- A stream over `demoData`, started without repeat. -/
def demoStream : PCMSource Int := { PCMSource.new demoData with playing := true }

/-- The stream `demoStream` after two samples have been read. -/
def demoStreamMid : PCMSource Int := { demoStream with position := 2 }

/-- The stream `demoStream` after its source has been read to the end. -/
def demoStreamEnd : PCMSource Int := { demoStream with position := 0, playing := false }

/-- A mono source with the three samples `5, 6, 7`. -/
def shortData : PCMData Int := { channels := 1, sampleRate := 22050, samples := [5, 6, 7] }

/-- A stream over `shortData`, started without repeat. -/
def shortStream : PCMSource Int := { PCMSource.new shortData with playing := true }

/-- A stereo source with three frames. -/
def stereoData : PCMData Int :=
  { channels := 2, sampleRate := 48000, samples := [10, 11, 20, 21, 30, 31] }

/-- A repeating stream over `stereoData`, standing at the second frame. -/
def stereoLoop : PCMSource Int :=
  { PCMSource.new stereoData with playing := true, repeating := true, position := 2 }

/-! ## The mixer's command queue and the `Audio` front end -/

namespace mixer

/-- The commands built in `Audio.cpp`, each with the arguments its constructor is given
there. `F` is the type of source factories, `P` of processors, `U` of processor updates. -/
inductive Command (F P U : Type) where
  | DeleteObjectCommand (objectId : Nat)
  | InitBusCommand (busId : Nat)
  | InitStreamCommand (streamId sourceId : Nat)
  | InitSourceCommand (sourceId : Nat) (initFunction : F)
  | InitProcessorCommand (processorId : Nat) (processor : P)
  | UpdateProcessorCommand (processorId : Nat) (updateFunction : U)
  | SetMasterBusCommand (busId : Nat)
  deriving DecidableEq, Repr

/-- The producer-visible part of `mixer::Mixer`: the id counter and the queue of commands
not yet applied (oldest first). -/
structure Mixer (F P U : Type) where
  objectIdCounter : Nat
  commandQueue : List (Command F P U)
  deriving DecidableEq, Repr

/-- Modelled from the spec: `Mixer::getObjectId` (declared in `Mixer.hpp`, which is not among
the sources). The spec has ids "allocated by the producer side via an atomically
incrementing counter": the call hands out the counter's value and increments the counter.
Ids are "process-wide-unique" in the spec, so the counter is not made to wrap around. -/
def Mixer.getObjectId {F P U : Type} (m : Mixer F P U) : Nat × Mixer F P U :=
  (m.objectIdCounter, { m with objectIdCounter := m.objectIdCounter + 1 })

/-- Modelled from the spec: `Mixer::addCommand` (declared in `Mixer.hpp`, which is not among
the sources). The spec has the command queue "a single-producer/single-consumer FIFO" whose
commands "are applied in the exact order enqueued": the command goes to the back. -/
def Mixer.addCommand {F P U : Type} (m : Mixer F P U) (c : Command F P U) : Mixer F P U :=
  { m with commandQueue := m.commandQueue ++ [c] }

end mixer

/-- The class `Audio`, reduced to the member its producer-side methods use. -/
structure Audio (F P U : Type) where
  mixer : mixer.Mixer F P U
  deriving DecidableEq, Repr

namespace Audio

variable {F P U : Type}

/-- The method `Audio::deleteObject(objectId)` (returns `void`). -/
def deleteObject (a : Audio F P U) (objectId : Nat) : Audio F P U :=
  { a with mixer := a.mixer.addCommand (.DeleteObjectCommand objectId) }

/-- The method `Audio::initBus()`: the returned id and the state after the call. -/
def initBus (a : Audio F P U) : Nat × Audio F P U :=
  let (busId, m) := a.mixer.getObjectId
  (busId, { a with mixer := m.addCommand (.InitBusCommand busId) })

/-- The method `Audio::initStream(sourceId)`. -/
def initStream (a : Audio F P U) (sourceId : Nat) : Nat × Audio F P U :=
  let (streamId, m) := a.mixer.getObjectId
  (streamId, { a with mixer := m.addCommand (.InitStreamCommand streamId sourceId) })

/-- The method `Audio::initSource(initFunction)`. -/
def initSource (a : Audio F P U) (initFunction : F) : Nat × Audio F P U :=
  let (sourceId, m) := a.mixer.getObjectId
  (sourceId, { a with mixer := m.addCommand (.InitSourceCommand sourceId initFunction) })

/-- The method `Audio::initProcessor(processor)`. -/
def initProcessor (a : Audio F P U) (processor : P) : Nat × Audio F P U :=
  let (processorId, m) := a.mixer.getObjectId
  (processorId, { a with mixer := m.addCommand (.InitProcessorCommand processorId processor) })

/-- The method `Audio::updateProcessor(processorId, updateFunction)` (returns `void`). -/
def updateProcessor (a : Audio F P U) (processorId : Nat) (updateFunction : U) : Audio F P U :=
  { a with mixer := a.mixer.addCommand (.UpdateProcessorCommand processorId updateFunction) }

/-- A call of one of the producer-side methods, with its arguments. -/
inductive Call (F P U : Type) where
  | deleteObject (objectId : Nat)
  | initBus
  | initStream (sourceId : Nat)
  | initSource (initFunction : F)
  | initProcessor (processor : P)
  | updateProcessor (processorId : Nat) (updateFunction : U)
  deriving DecidableEq, Repr

/-- Runs a sequence of producer-side calls: the ids returned, in call order (the two `void`
methods return none), and the state afterwards. -/
def run : Audio F P U → List (Call F P U) → List Nat × Audio F P U
  | a, [] => ([], a)
  | a, .deleteObject objectId :: rest => run (a.deleteObject objectId) rest
  | a, .updateProcessor processorId f :: rest => run (a.updateProcessor processorId f) rest
  | a, .initBus :: rest =>
    let r := run a.initBus.2 rest
    (a.initBus.1 :: r.1, r.2)
  | a, .initStream sourceId :: rest =>
    let r := run (a.initStream sourceId).2 rest
    ((a.initStream sourceId).1 :: r.1, r.2)
  | a, .initSource f :: rest =>
    let r := run (a.initSource f).2 rest
    ((a.initSource f).1 :: r.1, r.2)
  | a, .initProcessor p :: rest =>
    let r := run (a.initProcessor p).2 rest
    ((a.initProcessor p).1 :: r.1, r.2)

end Audio

/-- An `Audio` whose mixer has handed out no id and holds no command. -/
def freshAudio : Audio Unit Unit Unit := { mixer := { objectIdCounter := 0, commandQueue := [] } }

/-! ## Driver selection (`Audio::getDriver`, `Audio::getAvailableAudioDrivers`) -/

/-- The enumeration `Driver`, with the values named in `Audio.cpp`. -/
inductive Driver where
  | EMPTY
  | OPENAL
  | DIRECTSOUND
  | XAUDIO2
  | OPENSL
  | COREAUDIO
  | ALSA
  | WASAPI
  deriving DecidableEq, Repr

/-- The `OUZEL_COMPILE_*` macros of `core/Setup.h` (which is not among the sources), one flag
for each backend that can be compiled in. -/
structure CompileFlags where
  OUZEL_COMPILE_OPENAL : Bool
  OUZEL_COMPILE_DIRECTSOUND : Bool
  OUZEL_COMPILE_XAUDIO2 : Bool
  OUZEL_COMPILE_OPENSL : Bool
  OUZEL_COMPILE_COREAUDIO : Bool
  OUZEL_COMPILE_ALSA : Bool
  OUZEL_COMPILE_WASAPI : Bool
  deriving DecidableEq, Repr

/-- The function `Audio::getAvailableAudioDrivers`. The `std::set<Driver>` is a list without
duplicates; the second argument is the function's `static availableDrivers` as it stands
before the call. Returns the set handed to the caller and the `static` after the call. -/
def getAvailableAudioDrivers (flags : CompileFlags) (availableDrivers : List Driver) :
    List Driver × List Driver :=
  let availableDrivers :=
    if availableDrivers.isEmpty then
      let s := availableDrivers.insert Driver.EMPTY
      let s := if flags.OUZEL_COMPILE_OPENAL then s.insert Driver.OPENAL else s
      let s := if flags.OUZEL_COMPILE_DIRECTSOUND then s.insert Driver.DIRECTSOUND else s
      let s := if flags.OUZEL_COMPILE_XAUDIO2 then s.insert Driver.XAUDIO2 else s
      let s := if flags.OUZEL_COMPILE_OPENSL then s.insert Driver.OPENSL else s
      let s := if flags.OUZEL_COMPILE_COREAUDIO then s.insert Driver.COREAUDIO else s
      let s := if flags.OUZEL_COMPILE_ALSA then s.insert Driver.ALSA else s
      let s := if flags.OUZEL_COMPILE_WASAPI then s.insert Driver.WASAPI else s
      s
    else availableDrivers
  (availableDrivers, availableDrivers)

/-- The chain of `availableDrivers.find(...) != availableDrivers.end()` tests that
`Audio::getDriver` runs for the names `""` and `"default"`. -/
def defaultDriver (availableDrivers : List Driver) : Driver :=
  if Driver.WASAPI ∈ availableDrivers then Driver.WASAPI
  else if Driver.COREAUDIO ∈ availableDrivers then Driver.COREAUDIO
  else if Driver.ALSA ∈ availableDrivers then Driver.ALSA
  else if Driver.OPENAL ∈ availableDrivers then Driver.OPENAL
  else if Driver.XAUDIO2 ∈ availableDrivers then Driver.XAUDIO2
  else if Driver.DIRECTSOUND ∈ availableDrivers then Driver.DIRECTSOUND
  else if Driver.OPENSL ∈ availableDrivers then Driver.OPENSL
  else Driver.EMPTY

/-- The function `Audio::getDriver(driver)`: the driver, or the message of the
`std::runtime_error` thrown, together with the `static availableDrivers` of
`getAvailableAudioDrivers` after the call (the second argument is that `static` before
the call). -/
def getDriver (flags : CompileFlags) (availableDrivers : List Driver) (driver : String) :
    Except String Driver × List Driver :=
  if driver.isEmpty ∨ driver = "default" then
    let r := getAvailableAudioDrivers flags availableDrivers
    (.ok (defaultDriver r.1), r.2)
  else if driver = "empty" then (.ok Driver.EMPTY, availableDrivers)
  else if driver = "openal" then (.ok Driver.OPENAL, availableDrivers)
  else if driver = "directsound" then (.ok Driver.DIRECTSOUND, availableDrivers)
  else if driver = "xaudio2" then (.ok Driver.XAUDIO2, availableDrivers)
  else if driver = "opensl" then (.ok Driver.OPENSL, availableDrivers)
  else if driver = "coreaudio" then (.ok Driver.COREAUDIO, availableDrivers)
  else if driver = "alsa" then (.ok Driver.ALSA, availableDrivers)
  else if driver = "wasapi" then (.ok Driver.WASAPI, availableDrivers)
  else (.error "Invalid audio driver", availableDrivers)

/-- The names `Audio::getDriver` accepts. -/
def driverNames : List String :=
  ["", "default", "empty", "openal", "directsound", "xaudio2", "opensl", "coreaudio", "alsa",
    "wasapi"]

/-- The names of the backends, `"empty"` included (the accepted names other than `""` and
`"default"`). -/
def backendNames : List String :=
  ["empty", "openal", "directsound", "xaudio2", "opensl", "coreaudio", "alsa", "wasapi"]

/-- The order in which `Audio::getDriver` looks for a default driver. -/
def defaultPriority : List Driver :=
  [Driver.WASAPI, Driver.COREAUDIO, Driver.ALSA, Driver.OPENAL, Driver.XAUDIO2,
    Driver.DIRECTSOUND, Driver.OPENSL]

/-- A build with the OpenAL and ALSA backends only. -/
def linuxFlags : CompileFlags :=
  { OUZEL_COMPILE_OPENAL := true, OUZEL_COMPILE_DIRECTSOUND := false,
    OUZEL_COMPILE_XAUDIO2 := false, OUZEL_COMPILE_OPENSL := false,
    OUZEL_COMPILE_COREAUDIO := false, OUZEL_COMPILE_ALSA := true,
    OUZEL_COMPILE_WASAPI := false }


/-! ## Construction of a `PCMData` -/

/-- The constructor `PCMData(initChannels, initSampleRate, initSamples)`. -/
def PCMData.new {α : Type} (initChannels initSampleRate : Nat) (initSamples : List α) :
    PCMData α :=
  { channels := initChannels, sampleRate := initSampleRate, samples := initSamples }

/-- The getter `PCMData::getSamples`. -/
def PCMData.getSamples {α : Type} (d : PCMData α) : List α := d.samples

/-- The getter `getChannels` that `PCMData` inherits from `mixer::Source` (it returns the member
`channels`, which the constructor of `PCMData` assigns). -/
def PCMData.getChannels {α : Type} (d : PCMData α) : Nat := d.channels

/-- The getter `getSampleRate` that `PCMData` inherits from `mixer::Source` (it returns the
member `sampleRate`, which the constructor of `PCMData` assigns). -/
def PCMData.getSampleRate {α : Type} (d : PCMData α) : Nat := d.sampleRate


/-! ## The consumer side of the mixer: object table, command application, drain, render

`Mixer.hpp`, `Mixer.cpp`, `Bus.hpp`, `Bus.cpp` and the command classes are not among the
sources. What `Audio.cpp` calls in them is modelled here from the spec. The object table and
the master bus designation are owned by the consumer thread; they are passed along with the
`Mixer` of the producer side (id counter and command queue). -/

namespace mixer

/-- Modelled from the spec: the entities of the mixer's object table (spec, Data model: "Entities
are of three kinds ... `Bus`, `Source`(+ its derived `Stream`s), `Processor`"). Of a bus the
model keeps "an ordered set of input buses" and streams (the ids of its inputs, in
registration order) and "an ordered sequence of attached Processors" (their ids); the output
of a bus is the bus that lists it as an input. A source is what its factory returned, a stream
refers to its source, a processor carries the updates applied to it so far. -/
inductive Object (F P U : Type) where
  | bus (inputs : List Nat) (processors : List Nat)
  | source (initFunction : F)
  | stream (sourceId : Nat)
  | processor (processor : P) (updates : List U)
  deriving DecidableEq, Repr

/-- Modelled from the spec: the object table ("a mapping from id → owned entity") and the
designation of the master bus ("Exactly one Bus is designated master"). The mapping is a
list of entries with pairwise different ids. -/
structure ObjectTable (F P U : Type) where
  objects : List (Nat × Object F P U)
  masterBus : Option Nat
  deriving DecidableEq, Repr

/-- The entry with key `id` in a list of entries. -/
def entryAt {β : Type} : List (Nat × β) → Nat → Option β
  | [], _ => none
  | e :: rest, id => if e.1 = id then some e.2 else entryAt rest id

namespace ObjectTable

variable {F P U : Type}

/-- The table without any object. -/
def empty : ObjectTable F P U := { objects := [], masterBus := none }

/-- The entity stored at `id`, if any. -/
def find (t : ObjectTable F P U) (id : Nat) : Option (Object F P U) := entryAt t.objects id

/-- Stores `o` at `id`, in place of what was there. -/
def store (t : ObjectTable F P U) (id : Nat) (o : Object F P U) : ObjectTable F P U :=
  { t with objects := (id, o) :: t.objects.filter fun e => e.1 ≠ id }

/-- Removes the entry at `id`. -/
def erase (t : ObjectTable F P U) (id : Nat) : ObjectTable F P U :=
  { t with objects := t.objects.filter fun e => e.1 ≠ id }

/-- Rewrites every entry (the function is given the id and the entity). -/
def mapObjects (t : ObjectTable F P U) (f : Nat → Object F P U → Object F P U) :
    ObjectTable F P U :=
  { t with objects := t.objects.map fun e => (e.1, f e.1 e.2) }

/-- Whether `id` names a bus. -/
def isBus (t : ObjectTable F P U) (id : Nat) : Bool :=
  match t.find id with
  | some (.bus _ _) => true
  | _ => false

/-- Whether `id` names something a bus can take as an input: a bus or a stream. -/
def isInput (t : ObjectTable F P U) (id : Nat) : Bool :=
  match t.find id with
  | some (.bus _ _) => true
  | some (.stream _) => true
  | _ => false

end ObjectTable

/-- Removes every reference to `id` from an entity: from the input list and the processor
list of a bus. -/
def Object.purge {F P U : Type} (id : Nat) : Object F P U → Object F P U
  | .bus inputs processors =>
    .bus (inputs.filter fun i => i ≠ id) (processors.filter fun p => p ≠ id)
  | o => o

/-- Modelled from the spec: the effect of one command on the object table (spec, table of
command kinds in "Command Queue & Mixer"), with its failure semantics: "a malformed command
(e.g., referencing a non-existent id) is dropped" and leaves the table as it is.
* `SetMasterBus(id)`: "Designates bus `id` as the graph's master/root for rendering."
* `InitBus(id)`: "Allocates a new Bus entry at `id`."
* `InitSource(id, factory)`: "Invokes factory to obtain a Source, stores at `id`."
* `InitStream(id, sourceId)`: "Invokes `Source[sourceId].createStream()`, stores at `id`."
* `InitProcessor(id, processor)`: "Stores a pre-built Processor at `id`."
* `UpdateProcessor(id, updateFn)`: "Invokes `updateFn(Processor*)` against the stored
  processor"; "applied to a nonexistent id is a no-op".
* `DeleteObject(id)`: "Removes the id's entry from whichever table it belongs to, after
  clearing all back-references to it elsewhere (bus input lists ...)"; the designation as
  master bus is such a back-reference. -/
def applyCommand {F P U : Type} (t : ObjectTable F P U) : Command F P U → ObjectTable F P U
  | .SetMasterBusCommand busId =>
    if t.isBus busId then { t with masterBus := some busId } else t
  | .InitBusCommand busId => t.store busId (.bus [] [])
  | .InitSourceCommand sourceId initFunction => t.store sourceId (.source initFunction)
  | .InitStreamCommand streamId sourceId =>
    match t.find sourceId with
    | some (.source _) => t.store streamId (.stream sourceId)
    | _ => t
  | .InitProcessorCommand processorId processor => t.store processorId (.processor processor [])
  | .UpdateProcessorCommand processorId updateFunction =>
    match t.find processorId with
    | some (.processor processor updates) =>
      t.store processorId (.processor processor (updates ++ [updateFunction]))
    | _ => t
  | .DeleteObjectCommand objectId =>
    match t.find objectId with
    | none => t
    | some _ =>
      { objects := ((t.erase objectId).mapObjects fun _ o => o.purge objectId).objects
        masterBus := if t.masterBus = some objectId then none else t.masterBus }

/-- Applies the commands of a queue to the table, front first, until the queue is empty. -/
def drain {F P U : Type} : ObjectTable F P U → List (Command F P U) → ObjectTable F P U
  | t, [] => t
  | t, c :: rest => drain (applyCommand t c) rest

/-- Modelled from the spec: `Mixer::process` (called by `Audio::getData`; its body is not among
the sources). "The mixer drains *all* currently-enqueued commands", "applied in the exact
order enqueued": every queued command is applied to the table and the queue is left empty. -/
def Mixer.process {F P U : Type} (m : Mixer F P U) (t : ObjectTable F P U) :
    Mixer F P U × ObjectTable F P U :=
  ({ m with commandQueue := [] }, drain t m.commandQueue)

/-- One step of a render: what the render does with the table entry it has just read. -/
inductive RenderStep where
  | mixBus (busId : Nat)
  | readStream (streamId sourceId : Nat)
  | applyProcessor (processorId : Nat)
  | silence (id : Nat)
  deriving DecidableEq, Repr

/-- The id of the table entry a render step has read. -/
def RenderStep.id : RenderStep → Nat
  | .mixBus busId => busId
  | .readStream streamId _ => streamId
  | .applyProcessor processorId => processorId
  | .silence id => id

/-- The step for an attached processor: the entry is read and, if it is a processor, applied. -/
def processorStep {F P U : Type} (t : ObjectTable F P U) (p : Nat) : RenderStep :=
  match t.find p with
  | some (.processor _ _) => .applyProcessor p
  | _ => .silence p

/-- Modelled from the spec: `Bus.process` (spec, component Bus): the accumulator of bus `id` is
set up, then "for each connected input (in registration order)" its rendered output is
summed in, "each input is itself either a Stream (`getData`) or another Bus (recursive
`process`)", then each attached processor is applied "in attachment order". An id that names
nothing renderable gives silence for that node. The result is the sequence of these steps, in
order; the samples are what the streams and processors met produce. The recursion goes at
most `depth` levels deep. -/
def Bus.process {F P U : Type} (t : ObjectTable F P U) : Nat → Nat → List RenderStep
  | 0, _ => []
  | depth + 1, id =>
    match t.find id with
    | some (.bus inputs processors) =>
      .mixBus id :: ((inputs.flatMap fun i => Bus.process t depth i) ++
        processors.map fun p => processorStep t p)
    | some (.stream sourceId) => [.readStream id sourceId]
    | _ => [.silence id]

/-- One block of output, as `getData(frames, channels, sampleRate, samples)` renders it: the
request and the steps of the render. -/
structure Block where
  frames : Nat
  channels : Nat
  sampleRate : Nat
  steps : List RenderStep
  deriving DecidableEq, Repr

/-- The render of one block from the master bus of a table (no master bus: nothing is
rendered). An acyclic graph is never deeper than the table is long. -/
def render {F P U : Type} (t : ObjectTable F P U) (frames channels sampleRate : Nat) : Block :=
  { frames := frames, channels := channels, sampleRate := sampleRate
    steps := match t.masterBus with
      | some busId => Bus.process t t.objects.length busId
      | none => [] }

/-- Modelled from the spec: `Mixer::getData` (the pull method that `createAudioDevice` binds as
the data getter of the device; its body is not among the sources). Spec, External
interfaces: "the mixer performs its command drain + bus-graph render synchronously inside
this call". -/
def Mixer.getData {F P U : Type} (m : Mixer F P U) (t : ObjectTable F P U)
    (frames channels sampleRate : Nat) : Mixer F P U × ObjectTable F P U × Block :=
  let r := m.process t
  (r.1, r.2, render r.2 frames channels sampleRate)

/-- Modelled from the spec: the constructor of `mixer::Mixer` (not among the sources): a mixer
that has handed out no id and holds no command; the spec's scenario creates the first bus
with id 0. -/
def Mixer.new {F P U : Type} : Mixer F P U := { objectIdCounter := 0, commandQueue := [] }

end mixer


/-! ## Routing commands and the acyclic bus graph (modelled from the spec) -/

namespace mixer

/-- Modelled from the spec: the routing commands of the spec's command table,
"SetBusOutput(busId, outputBusId) / connect-input / disconnect-input". `Audio.cpp` builds
none of them. -/
inductive RoutingCommand where
  | SetBusOutput (busId outputBusId : Nat)
  | ConnectInput (busId inputId : Nat)
  | DisconnectInput (busId inputId : Nat)
  deriving DecidableEq, Repr

/-- The bus `x` lists `y` among its inputs. -/
def inputEdge {F P U : Type} (t : ObjectTable F P U) (x y : Nat) : Prop :=
  ∃ inputs processors, t.find x = some (.bus inputs processors) ∧ y ∈ inputs

/-- Modelled from the spec: the invariant of the bus graph, "a bus may never (transitively) list
itself as an input". -/
def Acyclic {F P U : Type} (t : ObjectTable F P U) : Prop :=
  ∀ x, ¬ Relation.TransGen (inputEdge t) x x

/-- Modelled from the spec: the "reachability check (DFS/BFS from the proposed new input,
checking whether it can already reach the target bus)" of the design notes: a depth-first
search from `start` along input lists, at most `depth` levels deep. Where the search has to
stop for lack of depth it answers that `target` may be reached. -/
def reaches {F P U : Type} (t : ObjectTable F P U) : Nat → Nat → Nat → Bool
  | 0, _, _ => true
  | depth + 1, start, target =>
    start == target ||
      match t.find start with
      | some (.bus inputs _) => inputs.any fun i => reaches t depth i target
      | _ => false

/-- The entity `o` stored at `j` after `inputId` has been made an input of `busId`: `inputId`
leaves every input list it was in and is appended to the inputs of `busId`. -/
def Object.connected {F P U : Type} (inputId busId j : Nat) : Object F P U → Object F P U
  | .bus inputs processors =>
    if j = busId then .bus ((inputs.filter fun i => i ≠ inputId) ++ [inputId]) processors
    else .bus (inputs.filter fun i => i ≠ inputId) processors
  | o => o

/-- The entity `o` stored at `j` after `inputId` has been taken from the inputs of `busId`. -/
def Object.disconnected {F P U : Type} (inputId busId j : Nat) : Object F P U → Object F P U
  | .bus inputs processors =>
    if j = busId then .bus (inputs.filter fun i => i ≠ inputId) processors
    else .bus inputs processors
  | o => o

/-- Modelled from the spec: whether a routing command passes validation. Both ends must exist
(a command "referencing a non-existent id" is malformed), and a connection "must re-validate
acyclicity before committing": it is refused if the new input can already reach the bus it
is to feed, itself included. -/
def accepts {F P U : Type} (t : ObjectTable F P U) : RoutingCommand → Bool
  | .SetBusOutput busId outputBusId =>
    t.isBus busId && t.isBus outputBusId &&
      !reaches t (t.objects.length + 1) busId outputBusId
  | .ConnectInput busId inputId =>
    t.isBus busId && t.isInput inputId && !reaches t (t.objects.length + 1) inputId busId
  | .DisconnectInput busId inputId => t.isBus busId && t.isInput inputId

/-- The routing a command asks for, carried out without validation. -/
def performRouting {F P U : Type} (t : ObjectTable F P U) : RoutingCommand → ObjectTable F P U
  | .SetBusOutput busId outputBusId => t.mapObjects (Object.connected busId outputBusId)
  | .ConnectInput busId inputId => t.mapObjects (Object.connected inputId busId)
  | .DisconnectInput busId inputId => t.mapObjects (Object.disconnected inputId busId)

/-- Modelled from the spec: the effect of a routing command on the object table, "atomic
validate-then-apply with drop-and-log on rejection": a command that fails validation leaves
the table as it is. -/
def applyRouting {F P U : Type} (t : ObjectTable F P U) (r : RoutingCommand) :
    ObjectTable F P U :=
  if accepts t r then performRouting t r else t

/-- A change of the object table on the consumer thread: a queued command or a routing
command. -/
inductive Mutation (F P U : Type) where
  | command (c : Command F P U)
  | routing (r : RoutingCommand)

/-- The effect of a mutation on the object table. -/
def applyMutation {F P U : Type} (t : ObjectTable F P U) : Mutation F P U → ObjectTable F P U
  | .command c => applyCommand t c
  | .routing r => applyRouting t r

/-- The mixer states that can be reached: the tables obtained from the empty table by
mutations. -/
def Reachable {F P U : Type} (t : ObjectTable F P U) : Prop :=
  ∃ ms : List (Mutation F P U), t = ms.foldl applyMutation ObjectTable.empty

end mixer


/-! ## Deleted objects -/

namespace mixer

/-- The id a command creates an entry for, if it is one of the `Init` commands. -/
def Command.creates {F P U : Type} : Command F P U → Option Nat
  | .InitBusCommand busId => some busId
  | .InitStreamCommand streamId _ => some streamId
  | .InitSourceCommand sourceId _ => some sourceId
  | .InitProcessorCommand processorId _ => some processorId
  | _ => none

/-- The id a mutation creates an entry for, if any (routing commands create none). -/
def Mutation.creates {F P U : Type} : Mutation F P U → Option Nat
  | .command c => c.creates
  | .routing _ => none

/-- Nothing in the table refers to `id`: there is no entry at `id`, `id` is not the master
bus, and no bus lists `id` among its inputs or processors. -/
def Unreferenced {F P U : Type} (t : ObjectTable F P U) (id : Nat) : Prop :=
  t.find id = none ∧ t.masterBus ≠ some id ∧
    ∀ j inputs processors, t.find j = some (.bus inputs processors) →
      id ∉ inputs ∧ id ∉ processors

end mixer

/-! ## The audio device and the constructor of `Audio` -/

/-- The type of the data getter handed to an audio device: a call of it works on the mixer
(and on the object table the mixer owns) as they are at the time of the call. -/
abbrev DataGetter (F P U : Type) : Type :=
  mixer.Mixer F P U → mixer.ObjectTable F P U → Nat → Nat → Nat →
    mixer.Mixer F P U × mixer.ObjectTable F P U × mixer.Block

/-- The audio devices `createAudioDevice` can construct, each with the arguments its
constructor is given in `Audio.cpp`. `G` is the type of the data getter, `W` of the window. -/
inductive AudioDevice (G W : Type) where
  | OALAudioDevice (dataGetter : G)
  | DSAudioDevice (dataGetter : G) (window : W)
  | XA2AudioDevice (dataGetter : G) (debugAudio : Bool)
  | OSLAudioDevice (dataGetter : G)
  | CAAudioDevice (dataGetter : G)
  | ALSAAudioDevice (dataGetter : G)
  | WASAPIAudioDevice (dataGetter : G)
  | EmptyAudioDevice (dataGetter : G)

/-- The data getter an audio device was constructed with. -/
def AudioDevice.getDataGetter {G W : Type} : AudioDevice G W → G
  | .OALAudioDevice g => g
  | .DSAudioDevice g _ => g
  | .XA2AudioDevice g _ => g
  | .OSLAudioDevice g => g
  | .CAAudioDevice g => g
  | .ALSAAudioDevice g => g
  | .WASAPIAudioDevice g => g
  | .EmptyAudioDevice g => g

/-- The local `dataGetter` of `createAudioDevice`:
`std::bind(&mixer::Mixer::getData, &mixer, _1, _2, _3, _4)`. -/
def dataGetter {F P U : Type} : DataGetter F P U :=
  fun m t frames channels sampleRate => m.getData t frames channels sampleRate

/-- Whether the backend of a driver is compiled in (the `#if` around its `case`). `EMPTY`
has no `case` of its own. -/
def CompileFlags.compiled (flags : CompileFlags) : Driver → Bool
  | Driver.EMPTY => false
  | Driver.OPENAL => flags.OUZEL_COMPILE_OPENAL
  | Driver.DIRECTSOUND => flags.OUZEL_COMPILE_DIRECTSOUND
  | Driver.XAUDIO2 => flags.OUZEL_COMPILE_XAUDIO2
  | Driver.OPENSL => flags.OUZEL_COMPILE_OPENSL
  | Driver.COREAUDIO => flags.OUZEL_COMPILE_COREAUDIO
  | Driver.ALSA => flags.OUZEL_COMPILE_ALSA
  | Driver.WASAPI => flags.OUZEL_COMPILE_WASAPI

/-- The function `createAudioDevice(driver, mixer, debugAudio, window)`: the line it logs and
the device it returns. The `case` of a backend is present only if the backend is compiled
in; every other driver falls through to `default`. -/
def createAudioDevice {F P U W : Type} (flags : CompileFlags) (driver : Driver)
    (debugAudio : Bool) (window : W) : String × AudioDevice (DataGetter F P U) W :=
  match driver, flags.compiled driver with
  | Driver.OPENAL, true => ("Using OpenAL audio driver", .OALAudioDevice dataGetter)
  | Driver.DIRECTSOUND, true => ("Using DirectSound audio driver", .DSAudioDevice dataGetter window)
  | Driver.XAUDIO2, true => ("Using XAudio 2 audio driver", .XA2AudioDevice dataGetter debugAudio)
  | Driver.OPENSL, true => ("Using OpenSL ES audio driver", .OSLAudioDevice dataGetter)
  | Driver.COREAUDIO, true => ("Using CoreAudio audio driver", .CAAudioDevice dataGetter)
  | Driver.ALSA, true => ("Using ALSA audio driver", .ALSAAudioDevice dataGetter)
  | Driver.WASAPI, true => ("Using WASAPI audio driver", .WASAPIAudioDevice dataGetter)
  | _, _ => ("Not using audio driver", .EmptyAudioDevice dataGetter)

/-- The class `Mix`, reduced to the id of its bus. -/
structure Mix where
  busId : Nat
  deriving DecidableEq, Repr

/-- The getter `Mix::getBusId`, called by the constructor of `Audio`. -/
def Mix.getBusId (m : Mix) : Nat := m.busId

/-- Modelled from the spec: the constructor `Mix(Audio&)` (`Mix.hpp` and `Mix.cpp` are not among
the sources). The spec has the front end create every mixer object through the producer-side
methods ("facade allocates an id and enqueues a Command") and has "application-side handles
only ever hold the id": the mix creates its bus with `initBus` and keeps the id returned. -/
def Mix.new {F P U : Type} (a : Audio F P U) : Mix × Audio F P U :=
  ({ busId := a.initBus.1 }, a.initBus.2)

/-- The members of an `Audio` once its constructor has run: the mixer (inside `audio`), the
master mix and the device, with the line logged on creating the device. -/
structure Audio.Members (F P U W : Type) where
  audio : Audio F P U
  masterMix : Mix
  device : AudioDevice (DataGetter F P U) W
  deviceLog : String

/-- The constructor `Audio(driver, debugAudio, window)`: the member initialisers `mixer(...)`,
`masterMix(*this)`, `device(createAudioDevice(...))` in this order, then the body, which
enqueues `SetMasterBusCommand(masterMix.getBusId())`. -/
def Audio.new {F P U W : Type} (flags : CompileFlags) (driver : Driver) (debugAudio : Bool)
    (window : W) : Audio.Members F P U W :=
  let a0 : Audio F P U := { mixer := mixer.Mixer.new }
  let r := Mix.new a0
  let d := createAudioDevice flags driver debugAudio window
  { audio := { r.2 with
      mixer := r.2.mixer.addCommand (.SetMasterBusCommand r.1.getBusId) }
    masterMix := r.1
    device := d.2
    deviceLog := d.1 }

/-- The method `Audio::getData(frames, channels, sampleRate, samples)`:
`mixer.process();` then `mixer.getData(frames, channels, sampleRate, samples);`. The body of
`Mixer::getData` is not among the sources: it is the argument `mixerGetData`, which runs on
the mixer and the table as the call `mixer.process()` has left them. -/
def Audio.getData {F P U : Type} (a : Audio F P U) (mixerGetData : DataGetter F P U)
    (t : mixer.ObjectTable F P U) (frames channels sampleRate : Nat) :
    Audio F P U × mixer.ObjectTable F P U × mixer.Block :=
  let r := a.mixer.process t
  let g := mixerGetData r.1 r.2 frames channels sampleRate
  ({ a with mixer := g.1 }, g.2.1, g.2.2)

/-! ## Producer calls and pulls, interleaved -/

/-- The command a producer-side call enqueues in state `a`. -/
def Audio.commandOf {F P U : Type} (a : Audio F P U) :
    Audio.Call F P U → mixer.Command F P U
  | .deleteObject objectId => .DeleteObjectCommand objectId
  | .initBus => .InitBusCommand a.initBus.1
  | .initStream sourceId => .InitStreamCommand (a.initStream sourceId).1 sourceId
  | .initSource f => .InitSourceCommand (a.initSource f).1 f
  | .initProcessor p => .InitProcessorCommand (a.initProcessor p).1 p
  | .updateProcessor processorId f => .UpdateProcessorCommand processorId f

/-- The state after a producer-side call. -/
def Audio.call {F P U : Type} (a : Audio F P U) : Audio.Call F P U → Audio F P U
  | .deleteObject objectId => a.deleteObject objectId
  | .initBus => a.initBus.2
  | .initStream sourceId => (a.initStream sourceId).2
  | .initSource f => (a.initSource f).2
  | .initProcessor p => (a.initProcessor p).2
  | .updateProcessor processorId f => a.updateProcessor processorId f

/-- What happens to an `Audio`: the producer calls one of its methods, or the consumer pulls a
block with `getData`. -/
inductive Event (F P U : Type) where
  | call (c : Audio.Call F P U)
  | pull (frames channels sampleRate : Nat)

/-- The record of a run: the state, the commands enqueued so far and the commands applied so
far (each in the order in which it happened), and the blocks rendered, each with the
commands that had been enqueued before its pull. -/
structure History (F P U : Type) where
  audio : Audio F P U
  table : mixer.ObjectTable F P U
  enqueued : List (mixer.Command F P U)
  applied : List (mixer.Command F P U)
  blocks : List (mixer.Block × List (mixer.Command F P U))

/-- One event of a run. A pull is `Audio::getData` with the body of `Mixer::getData` as modelled
from the spec; it applies what is in the queue at that moment. -/
def History.step {F P U : Type} (h : History F P U) : Event F P U → History F P U
  | .call c =>
    { h with audio := h.audio.call c, enqueued := h.enqueued ++ [h.audio.commandOf c] }
  | .pull frames channels sampleRate =>
    let g := h.audio.getData mixer.Mixer.getData h.table frames channels sampleRate
    { h with
      audio := g.1
      table := g.2.1
      applied := h.applied ++ h.audio.mixer.commandQueue
      blocks := h.blocks ++ [(g.2.2, h.enqueued)] }

/-- A run from the state `(a, t)`; the commands already in the queue count as enqueued. -/
def History.run {F P U : Type} (a : Audio F P U) (t : mixer.ObjectTable F P U)
    (events : List (Event F P U)) : History F P U :=
  events.foldl History.step
    { audio := a, table := t, enqueued := a.mixer.commandQueue, applied := [], blocks := [] }

/-- The commands that the producer calls among `events` enqueue, in call order, from the state
`a` on (a pull leaves the id counter as it is). -/
def Audio.enqueuedBy {F P U : Type} : Audio F P U → List (Event F P U) →
    List (mixer.Command F P U)
  | _, [] => []
  | a, .call c :: rest => a.commandOf c :: Audio.enqueuedBy (a.call c) rest
  | a, .pull _ _ _ :: rest =>
    Audio.enqueuedBy { a with mixer := { a.mixer with commandQueue := [] } } rest

/-- The `Audio` a constructor call leaves, with `Unit` for sources, processors and updates. -/
def constructedAudio : Audio Unit Unit Unit :=
  (Audio.new linuxFlags Driver.ALSA false () : Audio.Members Unit Unit Unit Unit).audio

/-! ## Sample object tables -/

/-- The table after two buses have been created and bus 1 has been made an input of bus 0. -/
def twoBusTable : mixer.ObjectTable Unit Unit Unit :=
  [mixer.Mutation.command (.InitBusCommand 0), .command (.InitBusCommand 1),
    .command (.SetMasterBusCommand 0), .routing (.ConnectInput 0 1)].foldl
    mixer.applyMutation mixer.ObjectTable.empty


/-! ## Sequences of operations on a `PCMSource` -/

namespace PCMSource

/-- What can be done to a stream from outside: a pull, `reset()`, or a change of one of the
flags `repeating` and `playing` of `mixer::Stream` (through `play` and `stop`). -/
inductive Op (α : Type) where
  | getData (frames : Nat) (samples : List α)
  | reset
  | setRepeating (repeating : Bool)
  | setPlaying (playing : Bool)

/-- One operation on a stream; a pull runs with the given fuel. -/
def applyOp [Zero α] (fuel : Nat) (s : PCMSource α) : Op α → Except Fault (PCMSource α)
  | .getData frames samples =>
    match PCMSource.getData fuel s frames samples with
    | .error e => .error e
    | .ok r => .ok r.1
  | .reset => .ok s.reset
  | .setRepeating repeating => .ok { s with repeating := repeating }
  | .setPlaying playing => .ok { s with playing := playing }

/-- A sequence of operations on a stream, first to last. -/
def runOps [Zero α] (fuel : Nat) : PCMSource α → List (Op α) → Except Fault (PCMSource α)
  | s, [] => .ok s
  | s, op :: rest =>
    match applyOp fuel s op with
    | .error e => .error e
    | .ok s' => runOps fuel s' rest

/-- The state of the loop of `getData(frames, samples)` on stream `s` when the loop is
entered. -/
def enterLoop [Zero α] (s : PCMSource α) (frames : Nat) (samples : List α) : Loop α :=
  { stream := s
    neededSize := mulUInt32 frames s.source.channels
    totalSize := 0
    samples := vectorResize samples (mulUInt32 frames s.source.channels) }

end PCMSource

/-- A repeating stream over a source without samples. -/
def emptyLoop : PCMSource Int :=
  { PCMSource.new { channels := 1, sampleRate := 44100, samples := [] } with
    playing := true, repeating := true }

/-- A mono source of `2^32 + 2` samples: `1, 2, 3` and then zeros. -/
def wideData : PCMData Int :=
  { channels := 1, sampleRate := 44100, samples := [1, 2, 3] ++ List.replicate 4294967295 0 }

/-- A repeating stream over `wideData`, at position 0. -/
def wideLoop : PCMSource Int :=
  { PCMSource.new wideData with playing := true, repeating := true }

/-- The stream `wideLoop` standing three samples before the end of its source. -/
def wideLoopEnd : PCMSource Int := { wideLoop with position := 4294967295 }

/-- A mono source of `2^32` samples, all zero. -/
def fullData : PCMData Int :=
  { channels := 1, sampleRate := 44100, samples := List.replicate 4294967296 0 }

/-- A stream without repeat over `fullData`, playing, standing at the last sample. -/
def fullStream : PCMSource Int :=
  { PCMSource.new fullData with playing := true, position := 4294967295 }


end audio

/-! ## `Matrix4`: inversion and multiplication, over exact arithmetic -/

/-- The class `Matrix4<T>`: the sixteen elements `m[0]` to `m[15]` of its array `m`. -/
@[ext]
structure Matrix4 (T : Type) where
  m0 : T
  m1 : T
  m2 : T
  m3 : T
  m4 : T
  m5 : T
  m6 : T
  m7 : T
  m8 : T
  m9 : T
  m10 : T
  m11 : T
  m12 : T
  m13 : T
  m14 : T
  m15 : T
  deriving DecidableEq, Repr

namespace Matrix4

variable {T : Type}

/-- The identity matrix. -/
def identity [Zero T] [One T] : Matrix4 T :=
  { m0 := 1, m1 := 0, m2 := 0, m3 := 0
    m4 := 0, m5 := 1, m6 := 0, m7 := 0
    m8 := 0, m9 := 0, m10 := 1, m11 := 0
    m12 := 0, m13 := 0, m14 := 0, m15 := 1 }

/-- The constant `std::numeric_limits<float>::min()`, the smallest positive normal `float`:
`2^-126`. -/
def FLT_MIN [Field T] : T := 1 / 2 ^ 126

/-- The function `multiply(m, scalar, dst)` (the generic template): the value written to
`dst`. -/
def multiplyScalar [Mul T] (m : Matrix4 T) (scalar : T) : Matrix4 T :=
  { m0 := m.m0 * scalar, m1 := m.m1 * scalar, m2 := m.m2 * scalar, m3 := m.m3 * scalar
    m4 := m.m4 * scalar, m5 := m.m5 * scalar, m6 := m.m6 * scalar, m7 := m.m7 * scalar
    m8 := m.m8 * scalar, m9 := m.m9 * scalar, m10 := m.m10 * scalar, m11 := m.m11 * scalar
    m12 := m.m12 * scalar, m13 := m.m13 * scalar, m14 := m.m14 * scalar
    m15 := m.m15 * scalar }

/-- The function `multiply(m1, m2, dst)` (the generic template): the value written to
`dst`. -/
def multiply [Add T] [Mul T] (m1 m2 : Matrix4 T) : Matrix4 T :=
  { m0 := m1.m0 * m2.m0 + m1.m4 * m2.m1 + m1.m8 * m2.m2 + m1.m12 * m2.m3
    m1 := m1.m1 * m2.m0 + m1.m5 * m2.m1 + m1.m9 * m2.m2 + m1.m13 * m2.m3
    m2 := m1.m2 * m2.m0 + m1.m6 * m2.m1 + m1.m10 * m2.m2 + m1.m14 * m2.m3
    m3 := m1.m3 * m2.m0 + m1.m7 * m2.m1 + m1.m11 * m2.m2 + m1.m15 * m2.m3
    m4 := m1.m0 * m2.m4 + m1.m4 * m2.m5 + m1.m8 * m2.m6 + m1.m12 * m2.m7
    m5 := m1.m1 * m2.m4 + m1.m5 * m2.m5 + m1.m9 * m2.m6 + m1.m13 * m2.m7
    m6 := m1.m2 * m2.m4 + m1.m6 * m2.m5 + m1.m10 * m2.m6 + m1.m14 * m2.m7
    m7 := m1.m3 * m2.m4 + m1.m7 * m2.m5 + m1.m11 * m2.m6 + m1.m15 * m2.m7
    m8 := m1.m0 * m2.m8 + m1.m4 * m2.m9 + m1.m8 * m2.m10 + m1.m12 * m2.m11
    m9 := m1.m1 * m2.m8 + m1.m5 * m2.m9 + m1.m9 * m2.m10 + m1.m13 * m2.m11
    m10 := m1.m2 * m2.m8 + m1.m6 * m2.m9 + m1.m10 * m2.m10 + m1.m14 * m2.m11
    m11 := m1.m3 * m2.m8 + m1.m7 * m2.m9 + m1.m11 * m2.m10 + m1.m15 * m2.m11
    m12 := m1.m0 * m2.m12 + m1.m4 * m2.m13 + m1.m8 * m2.m14 + m1.m12 * m2.m15
    m13 := m1.m1 * m2.m12 + m1.m5 * m2.m13 + m1.m9 * m2.m14 + m1.m13 * m2.m15
    m14 := m1.m2 * m2.m12 + m1.m6 * m2.m13 + m1.m10 * m2.m14 + m1.m14 * m2.m15
    m15 := m1.m3 * m2.m12 + m1.m7 * m2.m13 + m1.m11 * m2.m14 + m1.m15 * m2.m15 }

/-- The locals `a0` to `a5`, `b0` to `b5` and `det` of `invert`. -/
structure Minors (T : Type) where
  a0 : T
  a1 : T
  a2 : T
  a3 : T
  a4 : T
  a5 : T
  b0 : T
  b1 : T
  b2 : T
  b3 : T
  b4 : T
  b5 : T
  det : T

/-- The first statements of `invert`: the twelve 2x2 sub-determinants and `det`. -/
def minors [Ring T] (m : Matrix4 T) : Minors T :=
  let a0 := m.m0 * m.m5 - m.m1 * m.m4
  let a1 := m.m0 * m.m6 - m.m2 * m.m4
  let a2 := m.m0 * m.m7 - m.m3 * m.m4
  let a3 := m.m1 * m.m6 - m.m2 * m.m5
  let a4 := m.m1 * m.m7 - m.m3 * m.m5
  let a5 := m.m2 * m.m7 - m.m3 * m.m6
  let b0 := m.m8 * m.m13 - m.m9 * m.m12
  let b1 := m.m8 * m.m14 - m.m10 * m.m12
  let b2 := m.m8 * m.m15 - m.m11 * m.m12
  let b3 := m.m9 * m.m14 - m.m10 * m.m13
  let b4 := m.m9 * m.m15 - m.m11 * m.m13
  let b5 := m.m10 * m.m15 - m.m11 * m.m14
  { a0 := a0, a1 := a1, a2 := a2, a3 := a3, a4 := a4, a5 := a5
    b0 := b0, b1 := b1, b2 := b2, b3 := b3, b4 := b4, b5 := b5
    det := a0 * b5 - a1 * b4 + a2 * b3 + a3 * b2 - a4 * b1 + a5 * b0 }

/-- The local `inverse` of `invert` (the adjugate), before it is scaled by `1 / det`. -/
def adjugate [Ring T] (m : Matrix4 T) : Matrix4 T :=
  let k := minors m
  { m0 := m.m5 * k.b5 - m.m6 * k.b4 + m.m7 * k.b3
    m1 := -m.m1 * k.b5 + m.m2 * k.b4 - m.m3 * k.b3
    m2 := m.m13 * k.a5 - m.m14 * k.a4 + m.m15 * k.a3
    m3 := -m.m9 * k.a5 + m.m10 * k.a4 - m.m11 * k.a3
    m4 := -m.m4 * k.b5 + m.m6 * k.b2 - m.m7 * k.b1
    m5 := m.m0 * k.b5 - m.m2 * k.b2 + m.m3 * k.b1
    m6 := -m.m12 * k.a5 + m.m14 * k.a2 - m.m15 * k.a1
    m7 := m.m8 * k.a5 - m.m10 * k.a2 + m.m11 * k.a1
    m8 := m.m4 * k.b4 - m.m5 * k.b2 + m.m7 * k.b0
    m9 := -m.m0 * k.b4 + m.m1 * k.b2 - m.m3 * k.b0
    m10 := m.m12 * k.a4 - m.m13 * k.a2 + m.m15 * k.a0
    m11 := -m.m8 * k.a4 + m.m9 * k.a2 - m.m11 * k.a0
    m12 := -m.m4 * k.b3 + m.m5 * k.b1 - m.m6 * k.b0
    m13 := m.m0 * k.b3 - m.m1 * k.b1 + m.m2 * k.b0
    m14 := -m.m12 * k.a3 + m.m13 * k.a1 - m.m14 * k.a0
    m15 := m.m8 * k.a3 - m.m9 * k.a1 + m.m10 * k.a0 }

/-- The method `invert(dst)` over exact arithmetic: the value of `dst` after the call.
`if (fabs(det) < std::numeric_limits<float>::min()) return;` leaves `dst` as it was. -/
def invert [LinearOrderedField T] (m : Matrix4 T) (dst : Matrix4 T) : Matrix4 T :=
  if |(minors m).det| < FLT_MIN then dst
  else multiplyScalar (adjugate m) (1 / (minors m).det)

/-- The matrix as a 4x4 matrix: the array `m` holds it column by column. -/
def toMatrix (m : Matrix4 T) : Matrix (Fin 4) (Fin 4) T :=
  !![m.m0, m.m4, m.m8, m.m12;
     m.m1, m.m5, m.m9, m.m13;
     m.m2, m.m6, m.m10, m.m14;
     m.m3, m.m7, m.m11, m.m15]

/-- The diagonal matrix with `2^-127` in the first place and 1 in the others. -/
def tiny : Matrix4 ℚ := { (identity : Matrix4 ℚ) with m0 := 1 / 2 ^ 127 }

/-- The diagonal matrix with the entries 2, 4, 5, 10. -/
def scaling : Matrix4 ℚ := { (identity : Matrix4 ℚ) with m0 := 2, m5 := 4, m10 := 5, m15 := 10 }

end Matrix4

/-! ## `TextureResource::calculateSizes` -/

namespace graphics

/-- The struct `Texture::Level`: size (width, height), pitch and data. Sizes are `Size2`
(a pair of `float`) in the source; here they are the integers the code computes them from. -/
structure Level where
  size : Nat × Nat
  pitch : Nat
  data : List Nat
  deriving DecidableEq, Repr

/-- The members of `TextureResource` that `calculateSizes` reads or writes. -/
structure TextureResource where
  size : Nat × Nat
  mipmaps : Bool
  renderTarget : Bool
  levels : List Level
  deriving DecidableEq, Repr

/-- The locals `newWidth`, `newHeight`, `pitch` of `calculateSizes` and the member
`levels`, as they stand at the head of one of its loops. -/
structure Sizes where
  newWidth : Nat
  newHeight : Nat
  pitch : Nat
  levels : List Level
  deriving DecidableEq, Repr

/-- The loop `while (newWidth >= 2 && newHeight >= 2)` of `calculateSizes`, run for at most
`fuel` iterations (`none`: not finished within them). -/
def shrinkBoth (pixelSize : Nat) : Nat → Sizes → Option Sizes
  | 0, s => if s.newWidth ≥ 2 ∧ s.newHeight ≥ 2 then none else some s
  | fuel + 1, s =>
    if s.newWidth ≥ 2 ∧ s.newHeight ≥ 2 then
      let newWidth := s.newWidth >>> 1
      let newHeight := s.newHeight >>> 1
      let pitch := audio.mulUInt32 newWidth pixelSize
      shrinkBoth pixelSize fuel
        { newWidth := newWidth, newHeight := newHeight, pitch := pitch
          levels := s.levels ++ [{ size := (newWidth, newHeight), pitch := pitch, data := [] }] }
    else some s

/-- The loop `for (; newWidth >= 2;)` of `calculateSizes`. -/
def shrinkWidth (pixelSize : Nat) : Nat → Sizes → Option Sizes
  | 0, s => if s.newWidth ≥ 2 then none else some s
  | fuel + 1, s =>
    if s.newWidth ≥ 2 then
      let newWidth := s.newWidth >>> 1
      let pitch := audio.mulUInt32 newWidth pixelSize
      shrinkWidth pixelSize fuel
        { s with
          newWidth := newWidth, pitch := pitch
          levels := s.levels ++
            [{ size := (newWidth, s.newHeight), pitch := pitch, data := [] }] }
    else some s

/-- The loop `for (; newHeight >= 2;)` of `calculateSizes`; it does not touch `pitch`. -/
def shrinkHeight : Nat → Sizes → Option Sizes
  | 0, s => if s.newHeight ≥ 2 then none else some s
  | fuel + 1, s =>
    if s.newHeight ≥ 2 then
      let newHeight := s.newHeight >>> 1
      shrinkHeight fuel
        { s with
          newHeight := newHeight
          levels := s.levels ++
            [{ size := (s.newWidth, newHeight), pitch := s.pitch, data := [] }] }
    else some s

/-- The method `TextureResource::calculateSizes(newSize)`: the resource after the call (the
method always returns `true`). `newSize` is the size already converted to `uint32_t`;
`pixelSize` is `getPixelSize(pixelFormat)`, `npot` is what
`sharedEngine->getRenderer()->isNPOTTexturesSupported()` answers and `isPOT` is the helper of
that name; every loop runs for at most `fuel` iterations. -/
def calculateSizes (pixelSize : Nat) (npot : Bool) (isPOT : Nat → Bool) (fuel : Nat)
    (t : TextureResource) (newSize : Nat × Nat) : Option TextureResource :=
  let newWidth := newSize.1
  let newHeight := newSize.2
  let pitch := audio.mulUInt32 newWidth pixelSize
  let levels : List Level := [{ size := newSize, pitch := pitch, data := [] }]
  if t.mipmaps && !t.renderTarget && (npot || (isPOT newWidth && isPOT newHeight)) then
    match shrinkBoth pixelSize fuel
        { newWidth := newWidth, newHeight := newHeight, pitch := pitch, levels := levels } with
    | none => none
    | some s =>
      match (if s.newWidth > s.newHeight then shrinkWidth pixelSize fuel s
             else shrinkHeight fuel s) with
      | none => none
      | some s2 => some { t with size := newSize, levels := s2.levels }
  else some { t with size := newSize, levels := levels }

/-- The level with index `i` of the mipmap chain of a `w` x `h` texture in closed form: size
`(max(1, w >> i), max(1, h >> i))`, pitch `max(1, w >> i) * pixelSize` in `uint32_t`. -/
def mipLevel (pixelSize w h i : Nat) : Level :=
  { size := (max 1 (w >>> i), max 1 (h >>> i))
    pitch := audio.mulUInt32 (max 1 (w >>> i)) pixelSize
    data := [] }

/-- A texture resource with mipmaps that is no render target. -/
def mipmapped : TextureResource :=
  { size := (0, 0), mipmaps := true, renderTarget := false, levels := [] }

/-- A texture resource without mipmaps. -/
def flat : TextureResource :=
  { size := (0, 0), mipmaps := false, renderTarget := false, levels := [] }

end graphics

/-! ## `ParticleSystem`: the particle array and its count -/

namespace scene

/-- Ways in which a run of the embedded particle code fails to deliver a result:
an index outside the `particles` vector (undefined behaviour in the source), a loop that has
not finished within the fuel, and the exception `init` throws for data without texture. -/
inductive Fault where
  | outOfRange
  | outOfFuel
  | noTexture
  deriving DecidableEq, Repr

/-- The enum `ParticleSystemData::EmitterType`. -/
inductive EmitterType where
  | GRAVITY
  | RADIUS
  deriving DecidableEq, Repr

/-- The enum `ParticleSystemData::PositionType`. -/
inductive PositionType where
  | FREE
  | PARENT
  | GROUPED
  deriving DecidableEq, Repr

/-- The struct `Particle`: the member `life` and, in `rest`, all its other members
(position, direction, colours, size, rotation, radius, ...). Both are `float` data: the
types are left open. -/
structure Particle (L R : Type) where
  life : L
  rest : R
  deriving DecidableEq, Repr

/-- The members of `ParticleSystemData` the control flow of the particle system depends on:
`maxParticles`, whether `emissionRate > 0.0F`, `emitterType`, `positionType` and whether
`texture` is set. -/
structure ParticleSystemData where
  maxParticles : Nat
  emissionRatePositive : Bool
  emitterType : EmitterType
  positionType : PositionType
  texture : Bool
  deriving DecidableEq, Repr

/-- The `float` computations on a particle, left open: `life - UPDATE_STEP`, the test
`life >= 0.0F`, the new values of the other members of a live particle in `update`, and the
value of a default-constructed `Particle`. -/
structure Floats (L R : Type) where
  subStep : L → L
  nonneg : L → Bool
  move : ParticleSystemData → Particle L R → R
  fresh : Particle L R

/-- What one call of `emitParticles` draws from `randomEngine` for the slot `i`: the new
`life` (gravity emitter only) and the new values of the other members, which may depend on
what the slot holds. -/
structure Draw (L R : Type) where
  life : Nat → L
  rest : Nat → Particle L R → R

/-- The members of `ParticleSystem` the particle code reads or writes. `actor` says whether
the component is attached to an actor; `indices` and `vertices` are the sizes of the two
mesh vectors. -/
structure ParticleSystem (L R : Type) where
  particleSystemData : ParticleSystemData
  particles : List (Particle L R)
  particleCount : Nat
  running : Bool
  active : Bool
  finished : Bool
  actor : Bool
  needsMeshUpdate : Bool
  indices : Nat
  vertices : Nat
  deriving DecidableEq, Repr

variable {L R : Type}

/-- The body of the `for` loop of `emitParticles` for the slot `i` holding `p`: a gravity
emitter sets `life` and then the other members; a radius emitter leaves `life` as it is. -/
def emitted (draw : Draw L R) (d : ParticleSystemData) (i : Nat) (p : Particle L R) :
    Particle L R :=
  match d.emitterType with
  | .GRAVITY => { life := draw.life i, rest := draw.rest i { p with life := draw.life i } }
  | .RADIUS => { p with rest := draw.rest i p }

/-- The loop `for (uint32_t i = particleCount; i < particleCount + count; ++i)` of
`emitParticles`, for the `n` slots from `i` on. -/
def emitLoop (draw : Draw L R) (d : ParticleSystemData) :
    Nat → Nat → List (Particle L R) → Except Fault (List (Particle L R))
  | 0, _, ps => .ok ps
  | n + 1, i, ps =>
    match ps[i]? with
    | none => .error .outOfRange
    | some p => emitLoop draw d n (i + 1) (ps.set i (emitted draw d i p))

/-- The method `ParticleSystem::emitParticles(count)`, in `uint32_t` arithmetic. -/
def emitParticles (draw : Draw L R) (count : Nat) (s : ParticleSystem L R) :
    Except Fault (ParticleSystem L R) :=
  let count :=
    if audio.addUInt32 s.particleCount count > s.particleSystemData.maxParticles then
      audio.subUInt32 s.particleSystemData.maxParticles s.particleCount
    else count
  if count ≠ 0 ∧ s.actor = true then
    match emitLoop draw s.particleSystemData
        (audio.addUInt32 s.particleCount count - s.particleCount) s.particleCount
        s.particles with
    | .error e => .error e
    | .ok ps =>
      .ok { s with particles := ps, particleCount := audio.addUInt32 s.particleCount count }
  else .ok s

/-- The loop `for (uint32_t counter = particleCount; counter > 0; --counter)` of `update`,
from `counter` down: the particle array and `particleCount`. -/
def lifeLoop (f : Floats L R) (d : ParticleSystemData) :
    Nat → List (Particle L R) × Nat → Except Fault (List (Particle L R) × Nat)
  | 0, st => .ok st
  | counter + 1, (ps, particleCount) =>
    match ps[counter]? with
    | none => .error .outOfRange
    | some p =>
      let p1 : Particle L R := { p with life := f.subStep p.life }
      if f.nonneg p1.life = true then
        lifeLoop f d counter (ps.set counter { p1 with rest := f.move d p1 }, particleCount)
      else
        let ps1 := ps.set counter p1
        match ps1[audio.subUInt32 particleCount 1]? with
        | none => .error .outOfRange
        | some q => lifeLoop f d counter (ps1.set counter q, audio.subUInt32 particleCount 1)

/-- The method `ParticleSystem::stop`. -/
def stop (s : ParticleSystem L R) : ParticleSystem L R := { s with running := false }

/-- The method `ParticleSystem::resume` (the events it sends are left out). -/
def resume (s : ParticleSystem L R) : ParticleSystem L R :=
  if !s.running then { s with finished := false, running := true, active := true } else s

/-- The method `ParticleSystem::reset` (the three `float` counters are not modelled). -/
def reset (s : ParticleSystem L R) : ParticleSystem L R :=
  { s with particleCount := 0, finished := false }

/-- One run of the body of `while (timeSinceUpdate >= UPDATE_STEP)` in `update`. The `float`
part is given from outside: `emitCount` is the value of the local of that name and
`durationOver` the value of `duration >= 0.0F && duration < elapsed`. The result says
whether the body left `update` through its `return`. -/
def updateStep (f : Floats L R) (draw : Draw L R) (emitCount : Nat) (durationOver : Bool)
    (s : ParticleSystem L R) : Except Fault (ParticleSystem L R × Bool) :=
  let emitting : Except Fault (ParticleSystem L R × Bool) :=
    if s.running && s.particleSystemData.emissionRatePositive then
      match emitParticles draw emitCount s with
      | .error e => .error e
      | .ok s1 => .ok (if durationOver then stop { s1 with finished := true } else s1, false)
    else if s.active && s.particleCount == 0 then
      .ok ({ s with active := false }, true)
    else .ok (s, false)
  match emitting with
  | .error e => .error e
  | .ok (s1, true) => .ok (s1, true)
  | .ok (s1, false) =>
    if s1.active then
      match lifeLoop f s1.particleSystemData s1.particleCount (s1.particles, s1.particleCount) with
      | .error e => .error e
      | .ok st =>
        .ok ({ s1 with particles := st.1, particleCount := st.2, needsMeshUpdate := true }, false)
    else .ok (s1, false)

/-- The loops over `particles[i]`, `i < particleCount`, that end `update` when the bounding
box needs an update: every index must lie inside the vector. -/
def updateBoundingBox (s : ParticleSystem L R) : Except Fault (ParticleSystem L R) :=
  let reads :=
    match s.particleSystemData.positionType with
    | .GROUPED => true
    | _ => s.actor
  if reads && decide (s.particles.length < s.particleCount) then .error .outOfRange else .ok s

/-- The steps of the `while` loop of `update`, one per element of `steps` (the draws,
`emitCount` and `durationOver` of that step): the state, and whether a step has left through
`return`, and whether the bounding box needs an update. -/
def updateSteps (f : Floats L R) :
    List (Draw L R × Nat × Bool) → ParticleSystem L R × Bool →
    Except Fault (ParticleSystem L R × Bool × Bool)
  | [], (s, needsBoundingBoxUpdate) => .ok (s, false, needsBoundingBoxUpdate)
  | (draw, emitCount, durationOver) :: rest, (s, needsBoundingBoxUpdate) =>
    match updateStep f draw emitCount durationOver s with
    | .error e => .error e
    | .ok (s1, true) => .ok (s1, true, needsBoundingBoxUpdate)
    | .ok (s1, false) => updateSteps f rest (s1, needsBoundingBoxUpdate || s1.active)

/-- The method `ParticleSystem::update(delta)`; `steps` has one element for each turn of the
`while` loop that `delta` allows. -/
def update (f : Floats L R) (steps : List (Draw L R × Nat × Bool)) (s : ParticleSystem L R) :
    Except Fault (ParticleSystem L R) :=
  match updateSteps f steps (s, false) with
  | .error e => .error e
  | .ok (s1, true, _) => .ok s1
  | .ok (s1, false, needsBoundingBoxUpdate) =>
    if needsBoundingBoxUpdate then updateBoundingBox s1 else .ok s1

/-- The loop `for (uint16_t i = 0; i < particleSystemData.maxParticles; ++i)` of
`createParticleMesh`: each turn appends six indices and four vertices; `i` is a `uint16_t`. -/
def meshLoop (maxParticles : Nat) : Nat → Nat → Nat × Nat → Except Fault (Nat × Nat)
  | 0, i, sizes => if i < maxParticles then .error .outOfFuel else .ok sizes
  | fuel + 1, i, sizes =>
    if i < maxParticles then
      meshLoop maxParticles fuel ((i + 1) % 65536) (sizes.1 + 6, sizes.2 + 4)
    else .ok sizes

/-- The method `ParticleSystem::createParticleMesh`: the mesh loop, then
`particles.resize(particleSystemData.maxParticles)`. -/
def createParticleMesh (f : Floats L R) (fuel : Nat) (s : ParticleSystem L R) :
    Except Fault (ParticleSystem L R) :=
  match meshLoop s.particleSystemData.maxParticles fuel 0 (s.indices, s.vertices) with
  | .error e => .error e
  | .ok sizes =>
    .ok { s with
      indices := sizes.1
      vertices := sizes.2
      particles := s.particles.take s.particleSystemData.maxParticles ++
        List.replicate (s.particleSystemData.maxParticles - s.particles.length) f.fresh }

/-- The method `ParticleSystem::init(newParticleSystemData)`. -/
def init (f : Floats L R) (fuel : Nat) (newParticleSystemData : ParticleSystemData)
    (s : ParticleSystem L R) : Except Fault (ParticleSystem L R) :=
  let s1 := { s with particleSystemData := newParticleSystemData }
  if !s1.particleSystemData.texture then .error .noTexture
  else
    match createParticleMesh f fuel s1 with
    | .error e => .error e
    | .ok s2 => .ok (resume s2)

/-- The `float` operations on `life` over the integers, in units of `UPDATE_STEP`. -/
def intFloats : Floats Int Unit :=
  { subStep := fun l => l - 1, nonneg := fun l => decide (0 ≤ l), move := fun _ _ => ()
    fresh := { life := 0, rest := () } }

/-- Draws that give every emitted particle three steps of life. -/
def threeSteps : Draw Int Unit := { life := fun _ => 3, rest := fun _ _ => () }

/-- Particle data for at most `n` particles with a gravity emitter. -/
def gravityData (n : Nat) : ParticleSystemData :=
  { maxParticles := n, emissionRatePositive := true, emitterType := .GRAVITY
    positionType := .FREE, texture := true }

/-- A particle system as its default constructor leaves it, attached to an actor. -/
def attached : ParticleSystem Int Unit :=
  { particleSystemData := { gravityData 0 with texture := false }
    particles := [], particleCount := 0, running := false, active := false, finished := false
    actor := true, needsMeshUpdate := false, indices := 0, vertices := 0 }

/-- The particle count is at most `maxParticles`, which is the size of the particle array
and a `uint32_t`. -/
def CountInRange (s : ParticleSystem L R) : Prop :=
  s.particleCount ≤ s.particleSystemData.maxParticles ∧
  s.particles.length = s.particleSystemData.maxParticles ∧
  s.particleSystemData.maxParticles < audio.UINT32_MOD

/-- Every particle at an index below `particleCount` passes the test `life >= 0.0F`. -/
def AllAlive (f : Floats L R) (s : ParticleSystem L R) : Prop :=
  ∀ i p, i < s.particleCount → s.particles[i]? = some p → f.nonneg p.life = true

/-- The state after `init` with data for two particles and one update step that emits two
particles. -/
def twoParticles : Except Fault (ParticleSystem Int Unit) :=
  (init intFloats 2 (gravityData 2) attached).bind (update intFloats [(threeSteps, 2, false)])

end scene

/-! ## OBF: the binary format of `ouzel/utils/OBF.cpp` -/

namespace obf

/-- Ways in which a run of the embedded OBF code fails to deliver a result: the two
exceptions of `decode` (`"Not enough data"`, `"Unsupported marker"`), a read outside the
buffer (undefined behaviour in the source), and a recursion deeper than the fuel. -/
inductive Error where
  | notEnoughData
  | unsupportedMarker
  | outOfBounds
  | outOfFuel
  deriving DecidableEq, Repr

/-- The enum `Marker`, by the names `OBF.cpp` uses. -/
inductive Marker where
  | NONE
  | INT8
  | INT16
  | INT32
  | INT64
  | FLOAT
  | DOUBLE
  | STRING
  | LONG_STRING
  | BYTE_ARRAY
  | OBJECT
  | ARRAY
  | DICTIONARY
  deriving DecidableEq, Repr

/-- What `OBF.cpp` takes from outside: the numeric value of each marker (`OBF.hpp`), and the
in-memory bytes of a `float` and of a `double` (the value type `D` stands for `double`):
`floatBytes d` are the bytes of `static_cast<float>(d)`, `ofFloatBytes` reads a `float` and
widens it. -/
structure Format (D : Type) where
  code : Marker → Nat
  floatBytes : D → List Nat
  doubleBytes : D → List Nat
  ofFloatBytes : List Nat → D
  ofDoubleBytes : List Nat → D

/-- The class `Value`, by its `type` and the member that type selects: `intValue`,
`doubleValue`, `stringValue`, `byteArrayValue`, `objectValue` (a `std::map` keyed by
`uint32_t`, as the list of its entries in key order), `arrayValue`, `dictionaryValue` (a
`std::map` keyed by `std::string`). Bytes and characters are numbers below 256. -/
inductive Value (D : Type) where
  | NONE
  | INT (intValue : Nat)
  | FLOAT (doubleValue : D)
  | DOUBLE (doubleValue : D)
  | STRING (stringValue : List Nat)
  | BYTE_ARRAY (byteArrayValue : List Nat)
  | OBJECT (objectValue : List (Nat × Value D))
  | ARRAY (arrayValue : List (Value D))
  | DICTIONARY (dictionaryValue : List (List Nat × Value D))

variable {D : Type}

/-- Number of values of a `uint8_t`. -/
def UINT8_MOD : Nat := 256

/-- Number of values of a `uint16_t`. -/
def UINT16_MOD : Nat := 65536

/-- Modelled from the spec: the helper `encodeBigEndian<T>(data, value)` of `Utils.hpp`
(which is not among the sources) for a type `T` of `n` bytes: the `n` bytes written to `data`,
"in big-endian byte order", most significant byte first. -/
def encodeBigEndian : Nat → Nat → List Nat
  | 0, _ => []
  | n + 1, value => encodeBigEndian n (value / 256) ++ [value % 256]

/-- Modelled from the spec: the helper `decodeBigEndian<T>(buffer)` of `Utils.hpp` (which is
not among the sources) on the bytes it reads, most significant byte first. -/
def decodeBigEndian (bytes : List Nat) : Nat :=
  bytes.foldl (fun acc b => acc * 256 + b) 0

/-- The test `buffer.size() - offset < n` of the readers, in `size_t`. -/
def notEnough (buffer : List Nat) (offset n : Nat) : Bool :=
  decide (audio.sizeSub buffer.length offset < n)

/-- The `n` bytes at `buffer.data() + offset`. Reading outside the buffer is undefined
behaviour in the source. -/
def bytesAt (buffer : List Nat) (offset n : Nat) : Except Error (List Nat) :=
  if offset + n ≤ buffer.length then .ok ((buffer.drop offset).take n)
  else .error .outOfBounds

/-- The functions `readInt8`, `readInt16`, `readInt32`, `readInt64` (`n` is `sizeof(result)`):
the result and the returned size. -/
def readInt (n : Nat) (buffer : List Nat) (offset : Nat) : Except Error (Nat × Nat) :=
  if notEnough buffer offset n then .error .notEnoughData
  else
    match bytesAt buffer offset n with
    | .error e => .error e
    | .ok bytes => .ok (decodeBigEndian bytes, n)

/-- The functions `readFloat` and `readDouble` (`n` is 4 or 8): the raw bytes read and the
returned size. -/
def readRaw (n : Nat) (buffer : List Nat) (offset : Nat) : Except Error (List Nat × Nat) :=
  if notEnough buffer offset n then .error .notEnoughData
  else
    match bytesAt buffer offset n with
    | .error e => .error e
    | .ok bytes => .ok (bytes, n)

/-- The functions `readString` (`n = 2`, a `uint16_t` length), `readLongString` and
`readByteArray` (`n = 4`, a `uint32_t` length): the bytes assigned to the result and the
returned size `offset - originalOffset`. -/
def readBytes (n : Nat) (buffer : List Nat) (offset : Nat) : Except Error (List Nat × Nat) :=
  let originalOffset := offset
  if notEnough buffer offset n then .error .notEnoughData
  else
    match bytesAt buffer offset n with
    | .error e => .error e
    | .ok lengthBytes =>
      let length := decodeBigEndian lengthBytes
      let offset := audio.addUInt32 offset n
      if notEnough buffer offset length then .error .notEnoughData
      else
        match bytesAt buffer offset length with
        | .error e => .error e
        | .ok result =>
          let offset := audio.addUInt32 offset length
          .ok (result, audio.subUInt32 offset originalOffset)

/-- The comparison `a < b` of two `std::string`s. -/
def stringLess : List Nat → List Nat → Bool
  | [], [] => false
  | [], _ :: _ => true
  | _ :: _, [] => false
  | a :: as, b :: bs => if a < b then true else if b < a then false else stringLess as bs

/-- The assignment `result[key] = node` on a `std::map` held as the list of its entries in
key order; `less` is the order of the keys. -/
def mapAssign {K V : Type} (less : K → K → Bool) (key : K) (node : V) :
    List (K × V) → List (K × V)
  | [] => [(key, node)]
  | (k, v) :: rest =>
    if less key k then (key, node) :: (k, v) :: rest
    else if less k key then (k, v) :: mapAssign less key node rest
    else (k, node) :: rest

/-- The loop of `readArray`, for the `count` elements still to read: `decode` is
`Value::decode` on this buffer. Result: the vector and the offset after the loop. -/
def readArrayLoop (decode : Nat → Except Error (Value D × Nat)) :
    Nat → Nat → List (Value D) → Except Error (List (Value D) × Nat)
  | 0, offset, result => .ok (result, offset)
  | count + 1, offset, result =>
    match decode offset with
    | .error e => .error e
    | .ok (node, ret) => readArrayLoop decode count (audio.addUInt32 offset ret) (result ++ [node])

/-- The loop of `readObject`. -/
def readObjectLoop (decode : Nat → Except Error (Value D × Nat)) (buffer : List Nat) :
    Nat → Nat → List (Nat × Value D) → Except Error (List (Nat × Value D) × Nat)
  | 0, offset, result => .ok (result, offset)
  | count + 1, offset, result =>
    if notEnough buffer offset 4 then .error .notEnoughData
    else
      match bytesAt buffer offset 4 with
      | .error e => .error e
      | .ok keyBytes =>
        let key := decodeBigEndian keyBytes
        let offset := audio.addUInt32 offset 4
        match decode offset with
        | .error e => .error e
        | .ok (node, ret) =>
          readObjectLoop decode buffer count (audio.addUInt32 offset ret)
            (mapAssign (fun a b => decide (a < b)) key node result)

/-- The loop of `readDictionary`. -/
def readDictionaryLoop (decode : Nat → Except Error (Value D × Nat)) (buffer : List Nat) :
    Nat → Nat → List (List Nat × Value D) → Except Error (List (List Nat × Value D) × Nat)
  | 0, offset, result => .ok (result, offset)
  | count + 1, offset, result =>
    if notEnough buffer offset 2 then .error .notEnoughData
    else
      match bytesAt buffer offset 2 with
      | .error e => .error e
      | .ok lengthBytes =>
        let length := decodeBigEndian lengthBytes
        let offset := audio.addUInt32 offset 2
        if notEnough buffer offset length then .error .notEnoughData
        else
          match bytesAt buffer offset length with
          | .error e => .error e
          | .ok key =>
            let offset := audio.addUInt32 offset length
            match decode offset with
            | .error e => .error e
            | .ok (node, ret) =>
              readDictionaryLoop decode buffer count (audio.addUInt32 offset ret)
                (mapAssign stringLess key node result)

/-- The head of `readObject`, `readArray` and `readDictionary`: the check, the `uint32_t`
count and the offset behind it. -/
def readCount (buffer : List Nat) (offset : Nat) : Except Error (Nat × Nat) :=
  if notEnough buffer offset 4 then .error .notEnoughData
  else
    match bytesAt buffer offset 4 with
    | .error e => .error e
    | .ok countBytes => .ok (decodeBigEndian countBytes, audio.addUInt32 offset 4)

/-- The function `readArray`: the vector and the returned size. -/
def readArray (decode : Nat → Except Error (Value D × Nat)) (buffer : List Nat)
    (offset : Nat) : Except Error (List (Value D) × Nat) :=
  match readCount buffer offset with
  | .error e => .error e
  | .ok (count, offset1) =>
    match readArrayLoop decode count offset1 [] with
    | .error e => .error e
    | .ok (result, offset2) => .ok (result, audio.subUInt32 offset2 offset)

/-- The function `readObject`: the map and the returned size. -/
def readObject (decode : Nat → Except Error (Value D × Nat)) (buffer : List Nat)
    (offset : Nat) : Except Error (List (Nat × Value D) × Nat) :=
  match readCount buffer offset with
  | .error e => .error e
  | .ok (count, offset1) =>
    match readObjectLoop decode buffer count offset1 [] with
    | .error e => .error e
    | .ok (result, offset2) => .ok (result, audio.subUInt32 offset2 offset)

/-- The function `readDictionary`: the map and the returned size. -/
def readDictionary (decode : Nat → Except Error (Value D × Nat)) (buffer : List Nat)
    (offset : Nat) : Except Error (List (List Nat × Value D) × Nat) :=
  match readCount buffer offset with
  | .error e => .error e
  | .ok (count, offset1) =>
    match readDictionaryLoop decode buffer count offset1 [] with
    | .error e => .error e
    | .ok (result, offset2) => .ok (result, audio.subUInt32 offset2 offset)

/-- The `switch (marker)` of `decode`: the marker a byte stands for, in the order of the
`case` labels; `none` is the `default` label. -/
def markerOf (fmt : Format D) (byte : Nat) : Option Marker :=
  [Marker.NONE, .INT8, .INT16, .INT32, .INT64, .FLOAT, .DOUBLE, .STRING, .LONG_STRING,
    .BYTE_ARRAY, .OBJECT, .ARRAY, .DICTIONARY].find? fun m => decide (fmt.code m = byte)

/-- The body of one `case` of `decode`: the value read into a new `Value` and `ret`. -/
def decodeCase (fmt : Format D) (decode : Nat → Except Error (Value D × Nat))
    (buffer : List Nat) (offset : Nat) : Marker → Except Error (Value D × Nat)
  | .NONE => .ok (.NONE, 0)
  | .INT8 => (readInt 1 buffer offset).map fun r => (.INT r.1, r.2)
  | .INT16 => (readInt 2 buffer offset).map fun r => (.INT r.1, r.2)
  | .INT32 => (readInt 4 buffer offset).map fun r => (.INT r.1, r.2)
  | .INT64 => (readInt 8 buffer offset).map fun r => (.INT r.1, r.2)
  | .FLOAT => (readRaw 4 buffer offset).map fun r => (.FLOAT (fmt.ofFloatBytes r.1), r.2)
  | .DOUBLE => (readRaw 8 buffer offset).map fun r => (.DOUBLE (fmt.ofDoubleBytes r.1), r.2)
  | .STRING => (readBytes 2 buffer offset).map fun r => (.STRING r.1, r.2)
  | .LONG_STRING => (readBytes 4 buffer offset).map fun r => (.STRING r.1, r.2)
  | .BYTE_ARRAY => (readBytes 4 buffer offset).map fun r => (.BYTE_ARRAY r.1, r.2)
  | .OBJECT => (readObject decode buffer offset).map fun r => (.OBJECT r.1, r.2)
  | .ARRAY => (readArray decode buffer offset).map fun r => (.ARRAY r.1, r.2)
  | .DICTIONARY => (readDictionary decode buffer offset).map fun r => (.DICTIONARY r.1, r.2)

/-- The method `Value::decode(buffer, offset)` on a newly constructed `Value`: the value and
the returned size. `fuel` bounds the depth of the recursion through `readObject`,
`readArray` and `readDictionary`. -/
def Value.decode (fmt : Format D) : Nat → List Nat → Nat → Except Error (Value D × Nat)
  | 0, _, _ => .error .outOfFuel
  | fuel + 1, buffer, offset =>
    let originalOffset := offset
    if notEnough buffer offset 1 then .error .notEnoughData
    else
      match bytesAt buffer offset 1 with
      | .error e => .error e
      | .ok markerBytes =>
        let offset := audio.addUInt32 offset 1
        match markerOf fmt (decodeBigEndian markerBytes) with
        | none => .error .unsupportedMarker
        | some marker =>
          match decodeCase fmt (Value.decode fmt fuel buffer) buffer offset marker with
          | .error e => .error e
          | .ok (value, ret) =>
            let offset := audio.addUInt32 offset ret
            .ok (value, audio.subUInt32 offset originalOffset)

/-- The functions `writeString`, `writeLongString` and `writeByteArray` (`n` is the size of
the length field): the buffer after the call and the returned size. -/
def writeBytes (n : Nat) (buffer : List Nat) (value : List Nat) : List Nat × Nat :=
  let buffer := buffer ++ encodeBigEndian n value.length
  let size := n
  let buffer := buffer ++ value
  (buffer, audio.addUInt32 size (audio.toUInt32 value.length))

mutual

/-- The method `Value::encode(buffer)`: the buffer after the call and the returned size,
computed in `uint32_t` as in the source. -/
def Value.encode (fmt : Format D) : Value D → List Nat → List Nat × Nat
  | .NONE, buffer => (buffer ++ [fmt.code .NONE], audio.addUInt32 (audio.addUInt32 0 1) 0)
  | .INT intValue, buffer =>
    if intValue > 4294967295 then
      (buffer ++ [fmt.code .INT64] ++ encodeBigEndian 8 intValue,
        audio.addUInt32 (audio.addUInt32 0 1) 8)
    else if intValue > 65535 then
      (buffer ++ [fmt.code .INT32] ++ encodeBigEndian 4 intValue,
        audio.addUInt32 (audio.addUInt32 0 1) 4)
    else if intValue > 255 then
      (buffer ++ [fmt.code .INT16] ++ encodeBigEndian 2 intValue,
        audio.addUInt32 (audio.addUInt32 0 1) 2)
    else
      (buffer ++ [fmt.code .INT8] ++ encodeBigEndian 1 intValue,
        audio.addUInt32 (audio.addUInt32 0 1) 1)
  | .FLOAT doubleValue, buffer =>
    (buffer ++ [fmt.code .FLOAT] ++ fmt.floatBytes doubleValue,
      audio.addUInt32 (audio.addUInt32 0 1) 4)
  | .DOUBLE doubleValue, buffer =>
    (buffer ++ [fmt.code .DOUBLE] ++ fmt.doubleBytes doubleValue,
      audio.addUInt32 (audio.addUInt32 0 1) 8)
  | .STRING stringValue, buffer =>
    if stringValue.length > 65535 then
      let r := writeBytes 4 (buffer ++ [fmt.code .LONG_STRING]) stringValue
      (r.1, audio.addUInt32 (audio.addUInt32 0 1) r.2)
    else
      let r := writeBytes 2 (buffer ++ [fmt.code .STRING]) stringValue
      (r.1, audio.addUInt32 (audio.addUInt32 0 1) r.2)
  | .BYTE_ARRAY byteArrayValue, buffer =>
    let r := writeBytes 4 (buffer ++ [fmt.code .BYTE_ARRAY]) byteArrayValue
    (r.1, audio.addUInt32 (audio.addUInt32 0 1) r.2)
  | .OBJECT objectValue, buffer =>
    let r := writeObjectLoop fmt objectValue
      (buffer ++ [fmt.code .OBJECT] ++ encodeBigEndian 4 objectValue.length, 4)
    (r.1, audio.addUInt32 (audio.addUInt32 0 1) r.2)
  | .ARRAY arrayValue, buffer =>
    let r := writeArrayLoop fmt arrayValue
      (buffer ++ [fmt.code .ARRAY] ++ encodeBigEndian 4 arrayValue.length, 4)
    (r.1, audio.addUInt32 (audio.addUInt32 0 1) r.2)
  | .DICTIONARY dictionaryValue, buffer =>
    let r := writeDictionaryLoop fmt dictionaryValue
      (buffer ++ [fmt.code .DICTIONARY] ++ encodeBigEndian 4 dictionaryValue.length, 4)
    (r.1, audio.addUInt32 (audio.addUInt32 0 1) r.2)

/-- The loop `for (const auto& i : value)` of `writeObject` on the buffer and `size`. -/
def writeObjectLoop (fmt : Format D) : List (Nat × Value D) → List Nat × Nat → List Nat × Nat
  | [], state => state
  | (key, value) :: rest, (buffer, size) =>
    let r := Value.encode fmt value (buffer ++ encodeBigEndian 4 key)
    writeObjectLoop fmt rest (r.1, audio.addUInt32 (audio.addUInt32 size 4) r.2)

/-- The loop `for (const auto& i : value)` of `writeArray` on the buffer and `size`. -/
def writeArrayLoop (fmt : Format D) : List (Value D) → List Nat × Nat → List Nat × Nat
  | [], state => state
  | value :: rest, (buffer, size) =>
    let r := Value.encode fmt value buffer
    writeArrayLoop fmt rest (r.1, audio.addUInt32 size r.2)

/-- The loop `for (const auto& i : value)` of `writeDictionary` on the buffer and `size`. -/
def writeDictionaryLoop (fmt : Format D) :
    List (List Nat × Value D) → List Nat × Nat → List Nat × Nat
  | [], state => state
  | (key, value) :: rest, (buffer, size) =>
    let r := Value.encode fmt value (buffer ++ encodeBigEndian 2 key.length ++ key)
    writeDictionaryLoop fmt rest
      (r.1, audio.addUInt32
        (audio.addUInt32 (audio.addUInt32 size 2) (audio.toUInt32 key.length)) r.2)

end

/-- A sample numbering of the markers, in the order of the `case` labels of `decode`. -/
def sampleCode : Marker → Nat
  | .NONE => 0
  | .INT8 => 1
  | .INT16 => 2
  | .INT32 => 3
  | .INT64 => 4
  | .FLOAT => 5
  | .DOUBLE => 6
  | .STRING => 7
  | .LONG_STRING => 8
  | .BYTE_ARRAY => 9
  | .OBJECT => 10
  | .ARRAY => 11
  | .DICTIONARY => 12

/-- A sample format: the sample numbering, and floating-point values held as their bytes. -/
def sampleFormat : Format (List Nat) :=
  { code := sampleCode
    floatBytes := fun d => (d.take 4) ++ List.replicate (4 - d.length) 0
    doubleBytes := fun d => (d.take 8) ++ List.replicate (8 - d.length) 0
    ofFloatBytes := fun b => b
    ofDoubleBytes := fun b => b }

/-- The outcomes of a read at `offset` that stay inside a buffer of `size` bytes: a result
whose returned size ends inside the buffer, or one of the two exceptions; running out of fuel
counts only when `strict` is off. A read outside the buffer is never among them. -/
def Within {α : Type} (size offset : Nat) (strict : Bool) : Except Error (α × Nat) → Prop
  | .ok r => offset + r.2 ≤ size
  | .error e => e = .notEnoughData ∨ e = .unsupportedMarker ∨ (strict = false ∧ e = .outOfFuel)

/-- The outcomes of a loop started at `offset` that stay inside a buffer of `size` bytes:
the loop ends at an offset inside the buffer, not before `offset`, or with an exception. -/
def LoopWithin {α : Type} (size offset : Nat) (strict : Bool) : Except Error (α × Nat) → Prop
  | .ok r => offset ≤ r.2 ∧ r.2 ≤ size
  | .error e => e = .notEnoughData ∨ e = .unsupportedMarker ∨ (strict = false ∧ e = .outOfFuel)

/-- A byte array of `2^32 - 5` zero bytes. -/
def bigBytes : List Nat := List.replicate 4294967291 0

/-- A buffer of `2^32` bytes, each the `INT8` marker of the sample numbering. -/
def allInt8 : List Nat := List.replicate 4294967296 1

/-- One dictionary holding one entry with a key of one byte, up to the value of the entry,
in the sample numbering: marker, count 1, key length 1, key. -/
def nestPattern : List Nat := [12, 0, 0, 0, 1, 0, 1, 0]

/-- A buffer of `2^32` bytes: `2^29` copies of `nestPattern`. -/
def nestForever : List Nat := (List.replicate 536870912 nestPattern).flatten

/-- The bytes `encode` appends for a value: what it leaves in an empty buffer. -/
def Value.bytes (fmt : Format D) (v : Value D) : List Nat := (v.encode fmt []).1

/-- The bytes the loop of `writeArray` appends for the elements. -/
def arrayBytes (fmt : Format D) (values : List (Value D)) : List Nat :=
  (writeArrayLoop fmt values ([], 0)).1

/-- The bytes the loop of `writeObject` appends for the entries. -/
def objectBytes (fmt : Format D) (entries : List (Nat × Value D)) : List Nat :=
  (writeObjectLoop fmt entries ([], 0)).1

/-- The bytes the loop of `writeDictionary` appends for the entries. -/
def dictionaryBytes (fmt : Format D) (entries : List (List Nat × Value D)) : List Nat :=
  (writeDictionaryLoop fmt entries ([], 0)).1

/-- The bytes `chunk` stand in `full` at offset `offset`. -/
def At (full : List Nat) (offset : Nat) (chunk : List Nat) : Prop :=
  offset ≤ full.length ∧ ∃ post, full.drop offset = chunk ++ post

mutual

/-- The values the claims on the round trip speak of: what the C++ types hold by
themselves (a `uint64_t` integer, `uint32_t` keys of an object, the entries of a `std::map`
in strictly increasing key order), strings, byte arrays and containers of fewer than `2^32`
elements, and dictionary keys of at most 65535 bytes. A `FLOAT` or `DOUBLE` value has to be
one that its own bytes give back. -/
def Value.WellFormed (fmt : Format D) : Value D → Prop
  | .NONE => True
  | .INT intValue => intValue < 18446744073709551616
  | .FLOAT doubleValue => fmt.ofFloatBytes (fmt.floatBytes doubleValue) = doubleValue
  | .DOUBLE doubleValue => fmt.ofDoubleBytes (fmt.doubleBytes doubleValue) = doubleValue
  | .STRING stringValue => stringValue.length < audio.UINT32_MOD
  | .BYTE_ARRAY byteArrayValue => byteArrayValue.length < audio.UINT32_MOD
  | .OBJECT objectValue =>
    objectValue.length < audio.UINT32_MOD ∧
    (objectValue.map Prod.fst).Pairwise (fun a b => a < b) ∧
    objectWellFormed fmt objectValue
  | .ARRAY arrayValue =>
    arrayValue.length < audio.UINT32_MOD ∧ arrayWellFormed fmt arrayValue
  | .DICTIONARY dictionaryValue =>
    dictionaryValue.length < audio.UINT32_MOD ∧
    (dictionaryValue.map Prod.fst).Pairwise (fun a b => stringLess a b = true) ∧
    dictionaryWellFormed fmt dictionaryValue

/-- The entries of a well-formed object: 32-bit keys, well-formed values. -/
def objectWellFormed (fmt : Format D) : List (Nat × Value D) → Prop
  | [] => True
  | (key, value) :: rest =>
    key < audio.UINT32_MOD ∧ value.WellFormed fmt ∧ objectWellFormed fmt rest

/-- The elements of a well-formed array. -/
def arrayWellFormed (fmt : Format D) : List (Value D) → Prop
  | [] => True
  | value :: rest => value.WellFormed fmt ∧ arrayWellFormed fmt rest

/-- The entries of a well-formed dictionary: keys of at most 65535 bytes, well-formed
values. -/
def dictionaryWellFormed (fmt : Format D) : List (List Nat × Value D) → Prop
  | [] => True
  | (key, value) :: rest =>
    key.length ≤ 65535 ∧ value.WellFormed fmt ∧ dictionaryWellFormed fmt rest

end

end obf

namespace audio

variable {α : Type}

/-! ## Basic facts on the machine arithmetic and the vector primitives -/

theorem sizeSub_of_le {a b : Nat} (hb : b ≤ a) (ha : a < UINT32_MOD) : sizeSub a b = a - b := by
  unfold sizeSub SIZE_MOD
  unfold UINT32_MOD at ha
  omega

theorem mulUInt32_lt (a b : Nat) : mulUInt32 a b < UINT32_MOD := by
  unfold mulUInt32 UINT32_MOD
  omega

theorem length_vectorResize {α : Type} [Zero α] (v : List α) (n : Nat) :
    (vectorResize v n).length = n := by
  simp [vectorResize]
  omega

theorem stdCopy_ok {α : Type} (src dst : List α) (first last pos : Nat)
    (h1 : first ≤ last) (h2 : last ≤ src.length) (h3 : pos + (last - first) ≤ dst.length) :
    stdCopy src first last dst pos =
      .ok (dst.take pos ++ (src.drop first).take (last - first) ++ dst.drop (pos + (last - first))) := by
  simp [stdCopy, h1, h2, h3]

namespace PCMSource

variable {α : Type}

/-- Rewinding leaves a stream alone unless it repeats and stands at the end. -/
theorem rewindAtEnd_eq_self (s : PCMSource α)
    (hrw : s.repeating = false ∨ s.position < s.source.samples.length)
    (hN : s.source.samples.length < UINT32_MOD) : rewindAtEnd s = s := by
  unfold rewindAtEnd isRepeating
  rcases hrw with h | h
  · simp [h]
  · have h1 : sizeSub s.source.samples.length s.position ≠ 0 := by
      rw [sizeSub_of_le (Nat.le_of_lt h) hN]; omega
    simp [h1]

/-- A repeating stream standing at the end of its source is rewound. -/
theorem rewindAtEnd_at_end (s : PCMSource α) (hrep : s.repeating = true)
    (hp : s.position = s.source.samples.length) (hN : s.source.samples.length < UINT32_MOD) :
    rewindAtEnd s = s.reset := by
  have h1 : sizeSub s.source.samples.length s.position = 0 := by
    rw [sizeSub_of_le (Nat.le_of_eq hp) hN]; omega
  simp [rewindAtEnd, isRepeating, hrep, h1]

/-- Rewinding twice is rewinding once. -/
theorem rewindAtEnd_idem (s : PCMSource α) : rewindAtEnd (rewindAtEnd s) = rewindAtEnd s := by
  by_cases h : (s.isRepeating && sizeSub s.source.samples.length s.position == 0) = true
  · have h1 : rewindAtEnd s = s.reset := by simp only [rewindAtEnd, h, if_true]
    rw [h1]
    by_cases h2 : (s.reset.isRepeating &&
        sizeSub s.reset.source.samples.length s.reset.position == 0) = true
    · simp only [rewindAtEnd, h2, if_true]; rfl
    · simp only [rewindAtEnd, h2, if_false, Bool.false_eq_true]
  · have h1 : rewindAtEnd s = s := by simp only [rewindAtEnd, h, if_false, Bool.false_eq_true]
    rw [h1, h1]

/-- The loop body starts by rewinding, so rewinding beforehand changes nothing. -/
theorem loopBody_rewind (l : Loop α) :
    loopBody { l with stream := rewindAtEnd l.stream } = loopBody l := by
  have hsrc : (rewindAtEnd l.stream).source = l.stream.source := by
    unfold rewindAtEnd reset; split <;> rfl
  simp only [loopBody, rewindAtEnd_idem, hsrc]

/-- The loop body when the rest of the source is shorter than the request and no rewind is
due: the rest of the source is copied and the position moves to the end. -/
theorem loopBody_short (l : Loop α)
    (hrw : l.stream.repeating = false ∨ l.stream.position < l.stream.source.samples.length)
    (hp : l.stream.position ≤ l.stream.source.samples.length)
    (hN : l.stream.source.samples.length < UINT32_MOD)
    (hshort : l.stream.source.samples.length - l.stream.position < l.neededSize)
    (hfit : l.totalSize + l.neededSize ≤ l.samples.length)
    (hlen : l.samples.length < UINT32_MOD) :
    loopBody l = .ok
      { stream := { l.stream with position := l.stream.source.samples.length }
        neededSize := l.neededSize - (l.stream.source.samples.length - l.stream.position)
        totalSize := l.totalSize + (l.stream.source.samples.length - l.stream.position)
        samples := l.samples.take l.totalSize ++ l.stream.source.samples.drop l.stream.position ++
          l.samples.drop (l.totalSize + (l.stream.source.samples.length - l.stream.position)) } := by
  have hrs := rewindAtEnd_eq_self l.stream hrw hN
  obtain ⟨⟨⟨ch, sr, data⟩, output, playing, repeating, p⟩, m, t, v⟩ := l
  simp only at hrw hp hN hshort hfit hlen hrs ⊢
  have hsub : sizeSub data.length p = data.length - p := sizeSub_of_le hp hN
  have h32 : toUInt32 (data.length - p) = data.length - p := by
    unfold toUInt32; unfold UINT32_MOD at *; omega
  have h32N : toUInt32 data.length = data.length := by
    unfold toUInt32; unfold UINT32_MOD at *; omega
  have hsubm : subUInt32 m (data.length - p) = m - (data.length - p) := by
    unfold subUInt32; unfold UINT32_MOD at *; omega
  have haddt : addUInt32 t (data.length - p) = t + (data.length - p) := by
    unfold addUInt32; unfold UINT32_MOD at *; omega
  have hcopy := stdCopy_ok data v p data.length t
    hp (le_refl _) (by omega)
  have htake : List.take (data.length - p) (List.drop p data) = List.drop p data :=
    List.take_of_length_le (by simp)
  simp only [loopBody, hrs, hsub, hshort, if_true, hcopy, h32, h32N, hsubm, haddt, htake]

/-- The loop body when the rest of the source covers the request and no rewind is due:
the requested samples are copied and the position advances by the request. -/
theorem loopBody_long (l : Loop α)
    (hrw : l.stream.repeating = false ∨ l.stream.position < l.stream.source.samples.length)
    (hp : l.stream.position ≤ l.stream.source.samples.length)
    (hN : l.stream.source.samples.length < UINT32_MOD)
    (hlong : ¬ l.stream.source.samples.length - l.stream.position < l.neededSize)
    (hfit : l.totalSize + l.neededSize ≤ l.samples.length)
    (hlen : l.samples.length < UINT32_MOD) :
    loopBody l = .ok
      { stream := { l.stream with position := l.stream.position + l.neededSize }
        neededSize := 0
        totalSize := l.totalSize + l.neededSize
        samples := l.samples.take l.totalSize ++
          (l.stream.source.samples.drop l.stream.position).take l.neededSize ++
          l.samples.drop (l.totalSize + l.neededSize) } := by
  have hrs := rewindAtEnd_eq_self l.stream hrw hN
  obtain ⟨⟨⟨ch, sr, data⟩, output, playing, repeating, p⟩, m, t, v⟩ := l
  simp only at hrw hp hN hlong hfit hlen hrs ⊢
  have hsub : sizeSub data.length p = data.length - p := sizeSub_of_le hp hN
  have haddp : addUInt32 p m = p + m := by
    unfold addUInt32; unfold UINT32_MOD at *; omega
  have haddt : addUInt32 t m = t + m := by
    unfold addUInt32; unfold UINT32_MOD at *; omega
  have hcopy := stdCopy_ok data v p (p + m) t
    (by omega) (by omega) (by omega)
  simp only [Nat.add_sub_cancel_left] at hcopy
  simp only [loopBody, hrs, hsub, hlong, if_false, hcopy, haddp, haddt]

/-- The end-of-data check on a stream whose position lies inside the source. -/
theorem endOfData_eq (s : PCMSource α) (hp : s.position ≤ s.source.samples.length)
    (hN : s.source.samples.length < UINT32_MOD) :
    endOfData s =
      if s.position = s.source.samples.length then
        { s with position := 0, playing := s.playing && s.repeating }
      else s := by
  obtain ⟨⟨ch, sr, data⟩, output, playing, repeating, p⟩ := s
  simp only at hp hN ⊢
  have hsub : sizeSub data.length p = data.length - p := sizeSub_of_le hp hN
  by_cases h : p = data.length
  · subst h
    cases repeating <;> simp [endOfData, hsub, isRepeating, reset]
  · have : data.length - p ≠ 0 := by omega
    simp [endOfData, hsub, this, h]

/-- Filling with zeros after `t` copied samples that sit at the front of the vector. -/
theorem stdFillZero_splice [Zero α] (v chunk : List α) (hfit : chunk.length ≤ v.length) :
    stdFillZero (v.take 0 ++ chunk ++ v.drop (0 + chunk.length)) (0 + chunk.length) =
      .ok (chunk ++ List.replicate (v.length - chunk.length) 0) := by
  have hlen : (v.take 0 ++ chunk ++ v.drop (0 + chunk.length)).length = v.length := by
    simp; omega
  unfold stdFillZero
  rw [hlen]
  simp [hfit]

/-- A single `getData` call on a non-repeating stream whose position lies inside a source
of fewer than `2^32` samples, in closed form. -/
theorem getData_nonrepeating [Zero α] (s : PCMSource α) (frames fuel : Nat) (buf : List α)
    (hrep : s.repeating = false) (hp : s.position ≤ s.source.samples.length)
    (hN : s.source.samples.length < UINT32_MOD) (hfuel : 1 ≤ fuel) :
    getData fuel s frames buf =
      .ok (if s.source.samples.length ≤ s.position + mulUInt32 frames s.source.channels then
             { s with position := 0, playing := false }
           else { s with position := s.position + mulUInt32 frames s.source.channels },
           (s.source.samples.drop s.position).take (mulUInt32 frames s.source.channels) ++
             List.replicate (mulUInt32 frames s.source.channels -
               (s.source.samples.length - s.position)) 0) := by
  obtain ⟨fuel, rfl⟩ : ∃ f, fuel = f + 1 := ⟨fuel - 1, by omega⟩
  obtain ⟨⟨ch, sr, data⟩, output, playing, repeating, p⟩ := s
  simp only at hrep hp hN ⊢
  subst hrep
  have hn := mulUInt32_lt frames ch
  have hlen := length_vectorResize buf (mulUInt32 frames ch)
  simp only [getData]
  generalize mulUInt32 frames ch = n at hn hlen ⊢
  generalize vectorResize buf n = v at hlen ⊢
  rcases Nat.eq_zero_or_pos n with h0 | hpos
  · subst h0
    have hv : v = [] := List.length_eq_zero.mp hlen
    subst hv
    simp only [copyLoop, gt_iff_lt, lt_self_iff_false, if_false, stdFillZero, List.length_nil,
      le_refl, if_true, List.take_nil, Nat.sub_self, List.replicate_zero, List.append_nil,
      Nat.add_zero, List.take_zero, Nat.zero_sub]
    rw [endOfData_eq ⟨⟨ch, sr, data⟩, output, playing, false, p⟩ hp hN]
    by_cases h : p = data.length
    · simp [h]
    · have : ¬ data.length ≤ p := by omega
      simp [h, this]
  · by_cases hshort : data.length - p < n
    · have hb := loopBody_short ⟨⟨⟨ch, sr, data⟩, output, playing, false, p⟩, n, 0, v⟩
        (Or.inl rfl) hp hN hshort (by simp; omega) (by simp; omega)
      simp only at hb
      simp only [copyLoop, gt_iff_lt, hpos, if_true, hb, isRepeating, Bool.not_false]
      have hfill := stdFillZero_splice v (data.drop p) (by simp; omega)
      simp only [List.length_drop] at hfill
      rw [hfill]
      simp only
      rw [endOfData_eq ⟨⟨ch, sr, data⟩, output, playing, false, data.length⟩ (le_refl _) hN]
      have h1 : data.length ≤ p + n := by omega
      have h2 : List.take n (List.drop p data) = List.drop p data :=
        List.take_of_length_le (by simp; omega)
      simp [h1, h2, hlen]
    · have hb := loopBody_long ⟨⟨⟨ch, sr, data⟩, output, playing, false, p⟩, n, 0, v⟩
        (Or.inl rfl) hp hN hshort (by simp; omega) (by simp; omega)
      simp only at hb
      simp only [copyLoop, gt_iff_lt, hpos, if_true, hb, isRepeating, Bool.not_false]
      have hcl : ((data.drop p).take n).length = n := by simp; omega
      have hfill := stdFillZero_splice v ((data.drop p).take n) (by rw [hcl]; omega)
      rw [hcl] at hfill
      rw [hfill]
      simp only
      rw [endOfData_eq ⟨⟨ch, sr, data⟩, output, playing, false, p + n⟩ (by simp; omega) hN]
      have h0 : n - (data.length - p) = 0 := by omega
      by_cases h1 : data.length ≤ p + n
      · have h2 : p + n = data.length := by omega
        simp [h1, h2, hlen, h0]
      · have h2 : p + n ≠ data.length := by omega
        simp [h1, h2, hlen, h0]

/-- Once nothing is needed any more the loop stops, whatever the fuel. -/
theorem copyLoop_done (fuel : Nat) (l : Loop α) (h : l.neededSize = 0) :
    copyLoop fuel l = .ok l := by
  cases fuel <;> simp [copyLoop, h]

/-- Length of a vector after a chunk has been copied into it. -/
theorem length_splice (v chunk : List α) (t : Nat) (hfit : t + chunk.length ≤ v.length) :
    (v.take t ++ chunk ++ v.drop (t + chunk.length)).length = v.length := by
  simp
  omega

/-- The part of a vector in front of a copied chunk is untouched. -/
theorem getElem?_splice_left (v chunk : List α) (t i : Nat) (hfit : t + chunk.length ≤ v.length)
    (hi : i < t) : (v.take t ++ chunk ++ v.drop (t + chunk.length))[i]? = v[i]? := by
  rw [List.append_assoc, List.getElem?_append_left (by simp; omega)]
  exact List.getElem?_take_of_lt hi

/-- The copied chunk sits at its destination. -/
theorem getElem?_splice_mid (v chunk : List α) (t i : Nat) (hfit : t + chunk.length ≤ v.length)
    (hi : i < chunk.length) :
    (v.take t ++ chunk ++ v.drop (t + chunk.length))[t + i]? = chunk[i]? := by
  have ht : (v.take t).length = t := by simp; omega
  rw [List.append_assoc, List.getElem?_append_right (by omega), ht,
    List.getElem?_append_left (by omega)]
  congr 1
  omega

/-- A loop state with nothing left to copy is its own final state. -/
theorem cyclicRun_refl (l : Loop α) (h0 : l.neededSize = 0)
    (hp : l.stream.position ≤ l.stream.source.samples.length) : CyclicRun l l := by
  simp [CyclicRun, h0, hp]

/-- The position a repeating stream copies from: the position itself, or `0` at the end. -/
theorem rewindAtEnd_repeating (src : PCMData α) (output : Option Nat) (playing : Bool) (p : Nat)
    (hpos : 0 < src.samples.length) (hN : src.samples.length < UINT32_MOD)
    (hp : p ≤ src.samples.length) :
    ∃ q, q < src.samples.length ∧
      (∀ k, (p + k) % src.samples.length = (q + k) % src.samples.length) ∧
      rewindAtEnd ⟨src, output, playing, true, p⟩ = ⟨src, output, playing, true, q⟩ := by
  by_cases h : p = src.samples.length
  · refine ⟨0, hpos, ?_, ?_⟩
    · intro k
      rw [h, Nat.add_mod_left, Nat.zero_add]
    · rw [rewindAtEnd_at_end _ rfl h hN]; rfl
  · refine ⟨p, by omega, fun _ => rfl, ?_⟩
    exact rewindAtEnd_eq_self _ (Or.inr (by simp only; omega)) hN

/-- The copy loop of a repeating stream over a non-empty source finishes within
`neededSize` iterations and reads the source cyclically. -/
theorem copyLoop_repeating (fuel : Nat) : ∀ (l : Loop α),
    l.stream.repeating = true → 0 < l.stream.source.samples.length →
    l.stream.source.samples.length < UINT32_MOD →
    l.stream.position ≤ l.stream.source.samples.length →
    l.neededSize ≤ fuel → l.totalSize + l.neededSize ≤ l.samples.length →
    l.samples.length < UINT32_MOD →
    ∃ r, copyLoop fuel l = .ok r ∧ CyclicRun l r := by
  induction fuel with
  | zero =>
    intro l _ _ _ hp hm _ _
    have h0 : l.neededSize = 0 := by omega
    exact ⟨l, copyLoop_done 0 l h0, cyclicRun_refl l h0 hp⟩
  | succ fuel ih =>
    intro l hrep hpos hN hp hm hfit hlen
    rcases Nat.eq_zero_or_pos l.neededSize with h0 | hm0
    · exact ⟨l, copyLoop_done _ l h0, cyclicRun_refl l h0 hp⟩
    · obtain ⟨⟨src, output, playing, repeating, p⟩, m, t, v⟩ := l
      simp only at hrep hpos hN hp hm hfit hlen hm0
      subst hrep
      obtain ⟨q, hq, hqmod, hrw⟩ := rewindAtEnd_repeating src output playing p hpos hN hp
      have hb0 := loopBody_rewind ⟨⟨src, output, playing, true, p⟩, m, t, v⟩
      simp only [hrw] at hb0
      by_cases hshort : src.samples.length - q < m
      · have hb := loopBody_short ⟨⟨src, output, playing, true, q⟩, m, t, v⟩
          (Or.inr hq) (Nat.le_of_lt hq) hN hshort hfit hlen
        simp only at hb
        have hcl : (src.samples.drop q).length = src.samples.length - q := by simp
        have hsl := length_splice v (src.samples.drop q) t (by rw [hcl]; omega)
        rw [hcl] at hsl
        obtain ⟨r, hr, hrun⟩ := ih
          ⟨⟨src, output, playing, true, src.samples.length⟩, m - (src.samples.length - q),
            t + (src.samples.length - q),
            List.take t v ++ List.drop q src.samples ++
              List.drop (t + (src.samples.length - q)) v⟩
          rfl hpos hN (le_refl _)
          (by simp only; omega) (by simp only; rw [hsl]; omega) (by simp only; rw [hsl]; exact hlen)
        refine ⟨r, ?_, ?_⟩
        · simp only [copyLoop, gt_iff_lt, hm0, if_true, ← hb0, hb, isRepeating, Bool.not_true,
            Bool.false_eq_true, if_false]
          exact hr
        · obtain ⟨r1, r2, r3, r4, r5, r6, r7, r8⟩ := hrun
          simp only at r1 r2 r3 r4 r5 r6 r7 r8
          refine ⟨r1, by simp only; omega, by simp only; rw [r3, hsl], r4, r5, ?_, ?_, ?_⟩
          · simp only
            rw [r6, hqmod]
            congr 1
            omega
          · intro i hi
            simp only at hi ⊢
            rw [r7 i (by omega)]
            have := getElem?_splice_left v (src.samples.drop q) t i (by rw [hcl]; omega) hi
            rw [hcl] at this
            exact this
          · intro i hi
            simp only at hi ⊢
            by_cases hid : i < src.samples.length - q
            · rw [r7 (t + i) (by omega)]
              have := getElem?_splice_mid v (src.samples.drop q) t i (by rw [hcl]; omega)
                (by rw [hcl]; exact hid)
              rw [hcl] at this
              rw [this, List.getElem?_drop, hqmod, Nat.mod_eq_of_lt (by omega)]
            · have h8 := r8 (i - (src.samples.length - q)) (by omega)
              have e1 : t + (src.samples.length - q) + (i - (src.samples.length - q)) = t + i := by
                omega
              have e2 : src.samples.length + (i - (src.samples.length - q)) = q + i := by omega
              rw [e1, e2] at h8
              rw [h8, hqmod]
      · have hb := loopBody_long ⟨⟨src, output, playing, true, q⟩, m, t, v⟩
          (Or.inr hq) (Nat.le_of_lt hq) hN hshort hfit hlen
        simp only at hb
        have hcl : ((src.samples.drop q).take m).length = m := by simp; omega
        have hsl := length_splice v ((src.samples.drop q).take m) t (by rw [hcl]; omega)
        rw [hcl] at hsl
        refine ⟨⟨⟨src, output, playing, true, q + m⟩, 0, t + m,
          List.take t v ++ List.take m (List.drop q src.samples) ++ List.drop (t + m) v⟩, ?_, ?_⟩
        · simp only [copyLoop, gt_iff_lt, hm0, if_true, ← hb0, hb, isRepeating, Bool.not_true,
            Bool.false_eq_true, if_false]
          exact copyLoop_done _ _ rfl
        · refine ⟨rfl, rfl, hsl, rfl, by simp only; omega, ?_, ?_, ?_⟩
          · simp only
            rw [hqmod]
          · intro i hi
            simp only at hi ⊢
            have := getElem?_splice_left v ((src.samples.drop q).take m) t i
              (by rw [hcl]; omega) hi
            rw [hcl] at this
            exact this
          · intro i hi
            simp only at hi ⊢
            have := getElem?_splice_mid v ((src.samples.drop q).take m) t i
              (by rw [hcl]; omega) (by rw [hcl]; exact hi)
            rw [hcl] at this
            rw [this, List.getElem?_take_of_lt hi, List.getElem?_drop, hqmod,
              Nat.mod_eq_of_lt (by omega)]

/-- A single `getData` call on a repeating stream over a non-empty source of fewer than
`2^32` samples: the call returns, the vector holds the source read cyclically from the
position, and the position advances cyclically. -/
theorem getData_repeating [Zero α] (s : PCMSource α) (frames fuel : Nat) (buf : List α)
    (hrep : s.repeating = true) (hpos : 0 < s.source.samples.length)
    (hN : s.source.samples.length < UINT32_MOD) (hp : s.position ≤ s.source.samples.length)
    (hfuel : requested s frames ≤ fuel) :
    ∃ out, getData fuel s frames buf =
        .ok ({ s with position := (s.position + requested s frames) % s.source.samples.length },
             out) ∧
      out.length = requested s frames ∧
      ∀ i, i < requested s frames →
        out[i]? = s.source.samples[(s.position + i) % s.source.samples.length]? := by
  have hn := mulUInt32_lt frames s.source.channels
  have hlen := length_vectorResize buf (mulUInt32 frames s.source.channels)
  obtain ⟨r, hr, r1, r2, r3, r4, r5, r6, r7, r8⟩ := copyLoop_repeating fuel
    ⟨s, mulUInt32 frames s.source.channels, 0, vectorResize buf (mulUInt32 frames s.source.channels)⟩
    hrep hpos hN hp hfuel (by simp only; omega) (by simp only; omega)
  simp only at r1 r2 r3 r4 r5 r6 r7 r8
  have htot : r.totalSize = r.samples.length := by omega
  refine ⟨r.samples, ?_, by rw [r3, hlen]; rfl, ?_⟩
  · simp only [getData, hr, stdFillZero, htot, le_refl, if_true, List.take_length, Nat.sub_self,
      List.replicate_zero, List.append_nil]
    congr 2
    rw [r4, endOfData_eq ⟨s.source, s.output, s.playing, s.repeating, r.stream.position⟩ r5 hN]
    simp only [requested]
    by_cases h : r.stream.position = s.source.samples.length
    · rw [if_pos h, ← r6, h, Nat.mod_self, hrep, Bool.and_true]
    · rw [if_neg h, ← r6, Nat.mod_eq_of_lt (by omega)]
  · intro i hi
    have := r8 i hi
    simpa using this

/-- The number of samples asked for does not depend on the position. -/
theorem requestedTotal_cons (s : PCMSource α) (r : Nat × List α) (rest : List (Nat × List α)) :
    requestedTotal s (r :: rest) = requested s r.1 + requestedTotal s rest := by
  simp [requestedTotal]

/-- A sequence of calls on a repeating stream over a non-empty source reads the source
cyclically, across call boundaries. -/
theorem pulls_repeating [Zero α] (fuel : Nat) (reqs : List (Nat × List α)) :
    ∀ (s : PCMSource α), s.repeating = true →
    s.source.samples.length < UINT32_MOD → s.position < s.source.samples.length →
    (∀ r ∈ reqs, requested s r.1 ≤ fuel) →
    ∃ out, pulls fuel s reqs =
        .ok ({ s with position := (s.position + requestedTotal s reqs) % s.source.samples.length },
             out) ∧
      out.length = requestedTotal s reqs ∧
      ∀ i, i < requestedTotal s reqs →
        out[i]? = s.source.samples[(s.position + i) % s.source.samples.length]? := by
  induction reqs with
  | nil =>
    intro s _ _ hp _
    refine ⟨[], ?_, rfl, ?_⟩
    · simp [pulls, requestedTotal, Nat.mod_eq_of_lt hp]
    · intro i hi
      simp [requestedTotal] at hi
  | cons r rest ih =>
    intro s hrep hN hp hfuel
    obtain ⟨out1, h1, hl1, hg1⟩ := getData_repeating s r.1 fuel r.2 hrep (by omega) hN
      (Nat.le_of_lt hp) (hfuel r (List.mem_cons_self _ _))
    obtain ⟨out2, h2, hl2, hg2⟩ := ih
      { s with position := (s.position + requested s r.1) % s.source.samples.length }
      hrep hN (Nat.mod_lt _ (by omega))
      (fun x hx => hfuel x (List.mem_cons_of_mem _ hx))
    simp only at h2 hl2 hg2
    have hreq : ∀ t, requestedTotal
        { s with position := (s.position + requested s r.1) % s.source.samples.length } t =
        requestedTotal s t := fun _ => rfl
    rw [hreq] at h2 hl2 hg2
    refine ⟨out1 ++ out2, ?_, ?_, ?_⟩
    · simp only [pulls, h1, h2, requestedTotal_cons, Nat.mod_add_mod, Nat.add_assoc]
    · rw [List.length_append, hl1, hl2, requestedTotal_cons]
    · intro i hi
      rw [requestedTotal_cons] at hi
      by_cases hlt : i < requested s r.1
      · rw [List.getElem?_append_left (by omega)]
        exact hg1 i hlt
      · rw [List.getElem?_append_right (by omega), hl1, hg2 _ (by omega), Nat.mod_add_mod]
        congr 2
        omega

/-- Indexing into `k` copies of a list laid end to end. -/
theorem getElem?_flatten_replicate (data : List α) (k : Nat) :
    ∀ i, i < k * data.length → (List.replicate k data).flatten[i]? = data[i % data.length]? := by
  induction k with
  | zero => intro i hi; simp at hi
  | succ k ih =>
    intro i hi
    rw [List.replicate_succ, List.flatten_cons]
    by_cases hlt : i < data.length
    · rw [List.getElem?_append_left hlt, Nat.mod_eq_of_lt hlt]
    · have hk : i - data.length < k * data.length := by
        rw [Nat.succ_mul] at hi; omega
      have hge : i ≥ data.length := by omega
      rw [List.getElem?_append_right hge, ih _ hk, Nat.mod_eq_sub_mod hge]

/-- Length of `k` copies of a list laid end to end. -/
theorem length_flatten_replicate (data : List α) (k : Nat) :
    (List.replicate k data).flatten.length = k * data.length := by
  induction k with
  | zero => simp
  | succ k ih => rw [List.replicate_succ, List.flatten_cons, List.length_append, ih, Nat.succ_mul]; omega

/-- A sequence of calls on a non-repeating stream that stays short of the end of the
source returns the samples passed over, and only advances the position. -/
theorem pulls_nonrepeating_inside [Zero α] (fuel : Nat) (hfuel : 1 ≤ fuel)
    (reqs : List (Nat × List α)) :
    ∀ (s : PCMSource α), s.repeating = false → s.source.samples.length < UINT32_MOD →
    s.position + requestedTotal s reqs < s.source.samples.length →
    pulls fuel s reqs =
      .ok ({ s with position := s.position + requestedTotal s reqs },
           (s.source.samples.drop s.position).take (requestedTotal s reqs)) := by
  induction reqs with
  | nil =>
    intro s _ _ _
    simp [pulls, requestedTotal]
  | cons r rest ih =>
    intro s hrep hN hp
    rw [requestedTotal_cons] at hp
    have h1 := getData_nonrepeating s r.1 fuel r.2 hrep (by omega) hN hfuel
    rw [if_neg (by unfold requested at hp; omega)] at h1
    have h2 := ih { s with position := s.position + requested s r.1 } hrep hN
      (by simp only; exact (by rw [Nat.add_assoc]; exact hp))
    have hreq : ∀ t, requestedTotal { s with position := s.position + requested s r.1 } t =
        requestedTotal s t := fun _ => rfl
    simp only [hreq] at h2
    have hz : mulUInt32 r.1 s.source.channels - (s.source.samples.length - s.position) = 0 := by
      unfold requested at hp; omega
    simp only [pulls, h1, hz, List.replicate_zero, List.append_nil]
    simp only [requested] at h2
    rw [h2]
    simp only [requestedTotal_cons, requested, Nat.add_assoc, List.take_add, List.drop_drop]

/-- Two sequences of calls run one after the other. -/
theorem pulls_append [Zero α] (fuel : Nat) (a b : List (Nat × List α)) :
    ∀ (s s1 s2 : PCMSource α) (o1 o2 : List α), pulls fuel s a = .ok (s1, o1) →
    pulls fuel s1 b = .ok (s2, o2) → pulls fuel s (a ++ b) = .ok (s2, o1 ++ o2) := by
  induction a with
  | nil =>
    intro s s1 s2 o1 o2 h1 h2
    simp only [pulls, Except.ok.injEq, Prod.mk.injEq] at h1
    obtain ⟨rfl, rfl⟩ := h1
    simpa using h2
  | cons r rest ih =>
    intro s s1 s2 o1 o2 h1 h2
    simp only [pulls, List.cons_append] at h1 ⊢
    cases hg : getData fuel s r.1 r.2 with
    | error e => simp [hg] at h1
    | ok res =>
      obtain ⟨s', out⟩ := res
      simp only [hg] at h1 ⊢
      cases hr : pulls fuel s' rest with
      | error e => simp [hr] at h1
      | ok res2 =>
        obtain ⟨s3, outs⟩ := res2
        simp only [hr, Except.ok.injEq, Prod.mk.injEq] at h1
        obtain ⟨rfl, rfl⟩ := h1
        have hih := ih s' s3 s2 outs o2 hr h2
        simp only [List.append_eq, hih, List.append_assoc]

/-- A sequence of one call. -/
theorem pulls_single [Zero α] (fuel : Nat) (s r : PCMSource α) (q : Nat × List α) (out : List α)
    (h : getData fuel s q.1 q.2 = .ok (r, out)) : pulls fuel s [q] = .ok (r, out) := by
  simp [pulls, h]

/-- The total asked for by two sequences of calls. -/
theorem requestedTotal_append (s : PCMSource α) (a b : List (Nat × List α)) :
    requestedTotal s (a ++ b) = requestedTotal s a + requestedTotal s b := by
  simp [requestedTotal]

/-- A non-repeating stream over an empty source returns nothing but zeros. -/
theorem pulls_nonrepeating_empty [Zero α] (fuel : Nat) (hfuel : 1 ≤ fuel)
    (reqs : List (Nat × List α)) :
    ∀ (s : PCMSource α), s.repeating = false → s.source.samples.length = 0 → s.position = 0 →
    ∃ s', pulls fuel s reqs = .ok (s', List.replicate (requestedTotal s reqs) 0) ∧
      s'.repeating = false ∧ s'.position = 0 ∧ s'.source = s.source := by
  induction reqs with
  | nil =>
    intro s hrep _ hp
    exact ⟨s, by simp [pulls, requestedTotal], hrep, hp, rfl⟩
  | cons r rest ih =>
    intro s hrep hN hp
    have h1 := getData_nonrepeating s r.1 fuel r.2 hrep (by omega) (by rw [hN]; decide) hfuel
    rw [if_pos (by omega)] at h1
    obtain ⟨s', h2, e1, e2, e3⟩ := ih { s with position := 0, playing := false } hrep hN rfl
    have hreq : ∀ t, requestedTotal { s with position := 0, playing := false } t =
        requestedTotal s t := fun _ => rfl
    rw [hreq] at h2
    refine ⟨s', ?_, e1, e2, e3⟩
    have hd : s.source.samples = [] := List.length_eq_zero.mp hN
    simp only [pulls, h1, h2, hd, List.drop_nil, List.take_nil, List.nil_append, List.length_nil,
      Nat.zero_sub, Nat.sub_zero, requestedTotal_cons, requested, List.replicate_add]

/-- A successful `std::copy` keeps the length of its destination. -/
theorem stdCopy_length {α : Type} (src dst r : List α) (first last pos : Nat)
    (h : stdCopy src first last dst pos = .ok r) : r.length = dst.length := by
  unfold stdCopy at h
  split at h
  · simp only [Except.ok.injEq] at h
    subst h
    simp only [List.length_append, List.length_take, List.length_drop]
    omega
  · simp at h

/-- The vector keeps its length through the loop body. -/
theorem loopBody_length (l r : Loop α) (h : loopBody l = .ok r) :
    r.samples.length = l.samples.length := by
  unfold loopBody at h
  simp only at h
  split at h
  · cases hc : stdCopy l.stream.source.samples (rewindAtEnd l.stream).position
        l.stream.source.samples.length l.samples l.totalSize with
    | error e => simp [hc] at h
    | ok v =>
      simp only [hc, Except.ok.injEq] at h
      subst h
      exact stdCopy_length _ _ _ _ _ _ hc
  · cases hc : stdCopy l.stream.source.samples (rewindAtEnd l.stream).position
        ((rewindAtEnd l.stream).position + l.neededSize) l.samples l.totalSize with
    | error e => simp [hc] at h
    | ok v =>
      simp only [hc, Except.ok.injEq] at h
      subst h
      exact stdCopy_length _ _ _ _ _ _ hc

/-- The vector keeps its length through the whole loop, for every state and fuel. -/
theorem copyLoop_length (fuel : Nat) : ∀ (l r : Loop α), copyLoop fuel l = .ok r →
    r.samples.length = l.samples.length := by
  induction fuel with
  | zero =>
    intro l r h
    unfold copyLoop at h
    split at h
    · simp at h
    · simp only [Except.ok.injEq] at h
      rw [h]
  | succ fuel ih =>
    intro l r h
    unfold copyLoop at h
    split at h
    · cases hb : loopBody l with
      | error e => simp [hb] at h
      | ok l' =>
        simp only [hb] at h
        split at h
        · simp only [Except.ok.injEq] at h
          rw [← h]
          exact loopBody_length l l' hb
        · rw [ih l' r h]
          exact loopBody_length l l' hb
    · simp only [Except.ok.injEq] at h
      rw [h]

/-- Whenever `getData` returns, the vector has exactly `neededSize` elements. -/
theorem getData_length [Zero α] (fuel : Nat) (s : PCMSource α) (frames : Nat) (buf : List α)
    (r : PCMSource α × List α) (h : getData fuel s frames buf = .ok r) :
    r.2.length = requested s frames := by
  unfold getData at h
  simp only at h
  cases hl : copyLoop fuel ⟨s, mulUInt32 frames s.source.channels, 0,
      vectorResize buf (mulUInt32 frames s.source.channels)⟩ with
  | error e => simp [hl] at h
  | ok l =>
    simp only [hl] at h
    have hlen := copyLoop_length fuel _ _ hl
    simp only [length_vectorResize] at hlen
    unfold stdFillZero at h
    split at h
    · simp at h
    · rename_i out hout
      split at hout
      · simp only [Except.ok.injEq] at hout h
        subst hout
        subst h
        simp only [List.length_append, List.length_take, List.length_replicate, requested]
        omega
      · simp at hout

end PCMSource

/-! ## The claims on `PCMSource` -/

open PCMSource

/-- C1 (as stated, refuted): a non-repeating stream over the three samples `5, 6, 7` pulled
for 3 and then 2 samples (5 in total, more than 3) returns `5, 6, 7, 5, 6`, not the source
followed by zeros: the call that reaches the end rewinds the position. -/
theorem c1_pulls_past_end_restart :
    shortStream.repeating = false ∧ shortStream.position = 0 ∧
    shortStream.source.samples.length < requestedTotal shortStream [(3, []), (2, [])] ∧
    pulls 3 shortStream [(3, []), (2, [])] =
      .ok ({ shortStream with position := 2, playing := false }, [5, 6, 7, 5, 6]) ∧
    ([5, 6, 7, 5, 6] : List Int) ≠
      shortStream.source.samples ++
        List.replicate (requestedTotal shortStream [(3, []), (2, [])] -
          shortStream.source.samples.length) 0 := by
  decide

/-- C1 (amended): for a non-repeating stream at position 0 over a source of `N < 2^32`
samples, a sequence of `getData` calls that reaches the end of the source only in its last
call (the calls before it ask for fewer than `N` samples in total, or `N = 0`) and asks for
at least `N` samples in total returns, concatenated, exactly the `N` source samples
followed only by zeros, and afterwards `isPlaying()` is false. -/
theorem c1_pulls_to_end [Zero α] (s : PCMSource α) (init : List (Nat × List α))
    (last : Nat × List α) (fuel : Nat) (hfuel : 1 ≤ fuel)
    (hrep : s.repeating = false) (hp : s.position = 0)
    (hN : s.source.samples.length < UINT32_MOD)
    (hinit : requestedTotal s init < s.source.samples.length ∨ s.source.samples.length = 0)
    (htot : s.source.samples.length ≤ requestedTotal s (init ++ [last])) :
    ∃ r, pulls fuel s (init ++ [last]) =
        .ok (r, s.source.samples ++
          List.replicate (requestedTotal s (init ++ [last]) - s.source.samples.length) 0) ∧
      r.isPlaying = false := by
  have htotal : requestedTotal s (init ++ [last]) =
      requestedTotal s init + mulUInt32 last.1 s.source.channels := by
    rw [requestedTotal_append]; simp [requestedTotal, requested]
  rw [htotal] at htot ⊢
  rcases hinit with hlt | hzero
  · have hA := pulls_nonrepeating_inside fuel hfuel init s hrep hN (by rw [hp]; omega)
    have hB := getData_nonrepeating { s with position := s.position + requestedTotal s init }
      last.1 fuel last.2 hrep (by simp only; omega) hN hfuel
    simp only at hB
    rw [if_pos (by omega)] at hB
    refine ⟨{ s with position := 0, playing := false }, ?_, rfl⟩
    rw [pulls_append fuel init [last] s _ _ _ _ hA (pulls_single fuel _ _ last _ hB)]
    congr 2
    have ht : List.take (mulUInt32 last.1 s.source.channels)
        (List.drop (s.position + requestedTotal s init) s.source.samples) =
        List.drop (s.position + requestedTotal s init) s.source.samples :=
      List.take_of_length_le (by simp; omega)
    rw [ht, hp, ← List.append_assoc]
    simp only [Nat.zero_add, List.drop_zero, List.take_append_drop]
    congr 2
    omega
  · obtain ⟨r, hA, e1, e2, e3⟩ := pulls_nonrepeating_empty fuel hfuel init s hrep hzero hp
    have hB := getData_nonrepeating r last.1 fuel last.2 e1 (by omega) (by rw [e3]; exact hN) hfuel
    rw [if_pos (by rw [e3]; omega)] at hB
    refine ⟨{ r with position := 0, playing := false }, ?_, rfl⟩
    rw [pulls_append fuel init [last] s _ _ _ _ hA (pulls_single fuel _ _ last _ hB)]
    have hnil : s.source.samples = [] := List.length_eq_zero.mp hzero
    rw [e3, hnil]
    simp only [List.drop_nil, List.take_nil, List.nil_append, List.length_nil, Nat.zero_sub,
      Nat.sub_zero, List.replicate_add]

/-- Witness of `c1_pulls_to_end`: the stream over `1, 2, 3, 4` pulled for 2 and then 3
samples. -/
theorem c1_pulls_to_end_witness :
    demoStream.repeating = false ∧ demoStream.position = 0 ∧
    demoStream.source.samples.length < UINT32_MOD ∧
    ∃ r, pulls 1 demoStream ([(2, [])] ++ [(3, [9, 9, 9, 9])]) =
        .ok (r, demoStream.source.samples ++
          List.replicate (requestedTotal demoStream ([(2, [])] ++ [(3, [9, 9, 9, 9])]) -
            demoStream.source.samples.length) 0) ∧
      r.isPlaying = false :=
  ⟨by decide, by decide, by decide,
    c1_pulls_to_end demoStream [(2, [])] (3, [9, 9, 9, 9]) 1 (by decide) (by decide) (by decide)
      (by decide) (Or.inl (by decide)) (by decide)⟩

/-- C2 (amended): a `getData` call on a repeating stream at position `p < N` over a source of
`1 ≤ N < 2^32` samples, asking for `n` samples (`n` the `uint32_t` product
`frames * channels`), returns (given at least `n` iterations of fuel) a vector of `n`
samples whose `i`-th sample is `source[(p + i) mod N]`, with no zero fill, and leaves the
position at `(p + n) mod N`; nothing else of the stream changes. -/
theorem c2_repeating_getData_cyclic [Zero α] (s : PCMSource α) (frames fuel : Nat)
    (buf : List α) (hrep : s.repeating = true) (hpos : 1 ≤ s.source.samples.length)
    (hN : s.source.samples.length < UINT32_MOD) (hp : s.position < s.source.samples.length)
    (hfuel : requested s frames ≤ fuel) :
    ∃ out, getData fuel s frames buf =
        .ok ({ s with position := (s.position + requested s frames) % s.source.samples.length },
             out) ∧
      out.length = requested s frames ∧
      ∀ i, i < requested s frames →
        out[i]? = s.source.samples[(s.position + i) % s.source.samples.length]? :=
  getData_repeating s frames fuel buf hrep hpos hN (Nat.le_of_lt hp) hfuel

/-- Witness of `c2_repeating_getData_cyclic`: the stereo loop standing at its second frame,
asked for four frames. -/
theorem c2_repeating_getData_cyclic_witness :
    stereoLoop.repeating = true ∧ 1 ≤ stereoLoop.source.samples.length ∧
    stereoLoop.source.samples.length < UINT32_MOD ∧
    stereoLoop.position < stereoLoop.source.samples.length ∧
    requested stereoLoop 4 ≤ 8 ∧
    ∃ out, getData 8 stereoLoop 4 [7] =
        .ok ({ stereoLoop with
                position := (stereoLoop.position + requested stereoLoop 4) %
                  stereoLoop.source.samples.length },
             out) ∧
      out.length = requested stereoLoop 4 ∧
      ∀ i, i < requested stereoLoop 4 →
        out[i]? = stereoLoop.source.samples[(stereoLoop.position + i) %
          stereoLoop.source.samples.length]? :=
  ⟨by decide, by decide, by decide, by decide, by decide,
    c2_repeating_getData_cyclic stereoLoop 4 8 [7] (by decide) (by decide) (by decide)
      (by decide) (by decide)⟩

/-- C3 (amended): for a repeating stream at position 0 over a source of `1 ≤ N < 2^32`
samples and every `k`, any sequence of `getData` calls whose requested sample counts total
`k * N` returns (given fuel for the largest request) vectors whose concatenation is the
source repeated exactly `k` times, and leaves the stream as it was. -/
theorem c3_repeating_pulls_whole_cycles [Zero α] (s : PCMSource α)
    (reqs : List (Nat × List α)) (k fuel : Nat) (hrep : s.repeating = true)
    (hp : s.position = 0) (hpos : 1 ≤ s.source.samples.length)
    (hN : s.source.samples.length < UINT32_MOD)
    (htot : requestedTotal s reqs = k * s.source.samples.length)
    (hfuel : ∀ r ∈ reqs, requested s r.1 ≤ fuel) :
    pulls fuel s reqs = .ok (s, (List.replicate k s.source.samples).flatten) := by
  obtain ⟨out, h, hl, hg⟩ := pulls_repeating fuel reqs s hrep hN (by omega) hfuel
  have hs : ({ s with position :=
      (s.position + requestedTotal s reqs) % s.source.samples.length } : PCMSource α) = s := by
    rw [hp, htot, Nat.zero_add, Nat.mul_mod_left, ← hp]
  rw [h, hs]
  congr 2
  apply List.ext_getElem?
  intro i
  by_cases hi : i < requestedTotal s reqs
  · rw [hg i hi, getElem?_flatten_replicate _ _ _ (by omega), hp, Nat.zero_add]
  · rw [List.getElem?_eq_none (by omega),
      List.getElem?_eq_none (by rw [length_flatten_replicate]; omega)]

/-- Witness of `c3_repeating_pulls_whole_cycles`: two turns of the stereo source, pulled as
1, 3 and 2 frames. -/
theorem c3_repeating_pulls_whole_cycles_witness :
    ({ stereoLoop with position := 0 } : PCMSource Int).repeating = true ∧
    requestedTotal { stereoLoop with position := 0 } [(1, []), (3, [0]), (2, [])] =
      2 * stereoLoop.source.samples.length ∧
    pulls 6 { stereoLoop with position := 0 } [(1, []), (3, [0]), (2, [])] =
      .ok ({ stereoLoop with position := 0 },
        (List.replicate 2 stereoLoop.source.samples).flatten) :=
  ⟨by decide, by decide,
    c3_repeating_pulls_whole_cycles { stereoLoop with position := 0 }
      [(1, []), (3, [0]), (2, [])] 2 6 (by decide) (by decide) (by decide) (by decide)
      (by decide) (by decide)⟩

/-- C4 (as stated, refuted): three `getData` calls with `frames = 2` on the non-repeating
stream over `1, 2, 3, 4` return `1, 2, 3, 4, 1, 2` in all; the third vector is `1, 2`, not
`0, 0`. -/
theorem c4_third_call_not_silent :
    pulls 2 demoStream [(2, []), (2, []), (2, [])] =
      .ok ({ demoStreamEnd with position := 2 }, [1, 2] ++ [3, 4] ++ [1, 2]) ∧
    pulls 2 demoStream [(2, []), (2, []), (2, [])] ≠
      .ok ({ demoStreamEnd with position := 2 }, [1, 2] ++ [3, 4] ++ [0, 0]) := by
  decide

/-- C4 (amended): on the non-repeating stream over the mono source `1, 2, 3, 4`, two
successive `getData` calls with `frames = 2` return `1, 2` and then `3, 4`; after the second
call the stream is not playing and its position is 0 again; a third call returns `1, 2`
once more, and the stream is still not playing. -/
theorem c4_demo_three_calls :
    getData 2 demoStream 2 [] = .ok (demoStreamMid, [1, 2]) ∧
    getData 2 demoStreamMid 2 [1, 2] = .ok (demoStreamEnd, [3, 4]) ∧
    demoStreamEnd.isPlaying = false ∧ demoStreamEnd.position = 0 ∧
    getData 2 demoStreamEnd 2 [3, 4] = .ok ({ demoStreamEnd with position := 2 }, [1, 2]) ∧
    ({ demoStreamEnd with position := 2 } : PCMSource Int).isPlaying = false := by
  decide

/-- C5 (amended): a single `getData` call for `n` samples on a non-repeating stream at
position `p ≤ N` over a source of `N < 2^32` samples returns (given one iteration of fuel)
`source[p..N)` followed by `n - (N - p)` zeros if `N - p < n`, and `source[p..p+n)` if
`N - p ≥ n`; the playing flag is cleared exactly when `p + n ≥ N` and is otherwise left as
it was. -/
theorem c5_nonrepeating_getData [Zero α] (s : PCMSource α) (frames fuel : Nat) (buf : List α)
    (hrep : s.repeating = false) (hp : s.position ≤ s.source.samples.length)
    (hN : s.source.samples.length < UINT32_MOD) (hfuel : 1 ≤ fuel) :
    ∃ r out, getData fuel s frames buf = .ok (r, out) ∧
      (s.source.samples.length - s.position < requested s frames →
        out = s.source.samples.drop s.position ++
          List.replicate (requested s frames - (s.source.samples.length - s.position)) 0) ∧
      (requested s frames ≤ s.source.samples.length - s.position →
        out = (s.source.samples.drop s.position).take (requested s frames)) ∧
      (s.source.samples.length ≤ s.position + requested s frames → r.isPlaying = false) ∧
      (s.position + requested s frames < s.source.samples.length →
        r.isPlaying = s.isPlaying) := by
  refine ⟨_, _, getData_nonrepeating s frames fuel buf hrep hp hN hfuel, ?_, ?_, ?_, ?_⟩
  · intro h
    rw [List.take_of_length_le (by simp only [List.length_drop]; exact Nat.le_of_lt h)]
    rfl
  · intro h
    have h0 : mulUInt32 frames s.source.channels - (s.source.samples.length - s.position) = 0 :=
      Nat.sub_eq_zero_of_le h
    rw [h0, List.replicate_zero, List.append_nil]
    rfl
  · intro h
    unfold requested at h
    rw [if_pos h]
    rfl
  · intro h
    unfold requested at h
    rw [if_neg (by omega)]
    rfl

/-- Witness of `c5_nonrepeating_getData`: the stream over `1, 2, 3, 4` at position 2 asked
for three samples. -/
theorem c5_nonrepeating_getData_witness :
    demoStreamMid.repeating = false ∧
    demoStreamMid.position ≤ demoStreamMid.source.samples.length ∧
    demoStreamMid.source.samples.length < UINT32_MOD ∧
    ∃ r out, getData 1 demoStreamMid 3 [] = .ok (r, out) ∧
      (demoStreamMid.source.samples.length - demoStreamMid.position < requested demoStreamMid 3 →
        out = demoStreamMid.source.samples.drop demoStreamMid.position ++
          List.replicate (requested demoStreamMid 3 -
            (demoStreamMid.source.samples.length - demoStreamMid.position)) 0) ∧
      (requested demoStreamMid 3 ≤ demoStreamMid.source.samples.length - demoStreamMid.position →
        out = (demoStreamMid.source.samples.drop demoStreamMid.position).take
          (requested demoStreamMid 3)) ∧
      (demoStreamMid.source.samples.length ≤ demoStreamMid.position + requested demoStreamMid 3 →
        r.isPlaying = false) ∧
      (demoStreamMid.position + requested demoStreamMid 3 < demoStreamMid.source.samples.length →
        r.isPlaying = demoStreamMid.isPlaying) :=
  ⟨by decide, by decide, by decide,
    c5_nonrepeating_getData demoStreamMid 3 1 [] (by decide) (by decide) (by decide)
      (by decide)⟩

/-- C7: `reset` sets the position to 0, is idempotent, and changes no other member
(`playing`, `repeating`, `output` and `source` are as before). -/
theorem c7_reset_idempotent (s : PCMSource α) :
    s.reset.position = 0 ∧ s.reset.reset = s.reset ∧
    s.reset.playing = s.playing ∧ s.reset.repeating = s.repeating ∧
    s.reset.output = s.output ∧ s.reset.source = s.source :=
  ⟨rfl, rfl, rfl, rfl, rfl, rfl⟩

/-- C8: `createStream` on a `PCMData` returns a stream that refers to that source and has
position 0, `playing = false`, `repeating = false` and no output bus. -/
theorem c8_createStream_fresh (d : PCMData α) :
    d.createStream.getSource = d ∧ d.createStream.position = 0 ∧
    d.createStream.isPlaying = false ∧ d.createStream.isRepeating = false ∧
    d.createStream.output = none :=
  ⟨rfl, rfl, rfl, rfl, rfl⟩

/-! ## The claims on the `Audio` front end -/

section front

variable {F P U : Type}

open mixer

/-- The four `init` methods only ever hand out ids at or above the counter, and leave the
counter above every id handed out. -/
theorem Audio.run_ids (calls : List (Audio.Call F P U)) : ∀ (a : Audio F P U),
    a.mixer.objectIdCounter ≤ (a.run calls).2.mixer.objectIdCounter ∧
    (∀ i ∈ (a.run calls).1, a.mixer.objectIdCounter ≤ i ∧
      i < (a.run calls).2.mixer.objectIdCounter) ∧
    (a.run calls).1.Nodup := by
  induction calls with
  | nil => intro a; simp [Audio.run]
  | cons c rest ih =>
    intro a
    cases c with
    | deleteObject objectId => exact ih (a.deleteObject objectId)
    | updateProcessor processorId f => exact ih (a.updateProcessor processorId f)
    | initBus =>
      obtain ⟨h1, h2, h3⟩ := ih a.initBus.2
      have hc : a.initBus.2.mixer.objectIdCounter = a.mixer.objectIdCounter + 1 := rfl
      have hi : a.initBus.1 = a.mixer.objectIdCounter := rfl
      simp only [Audio.run, List.mem_cons, List.nodup_cons]
      refine ⟨by omega, ?_, ?_, h3⟩
      · rintro i (rfl | hmem)
        · omega
        · have := h2 i hmem; omega
      · intro hmem
        have := h2 _ hmem; omega
    | initStream sourceId =>
      obtain ⟨h1, h2, h3⟩ := ih (a.initStream sourceId).2
      have hc : (a.initStream sourceId).2.mixer.objectIdCounter =
        a.mixer.objectIdCounter + 1 := rfl
      have hi : (a.initStream sourceId).1 = a.mixer.objectIdCounter := rfl
      simp only [Audio.run, List.mem_cons, List.nodup_cons]
      refine ⟨by omega, ?_, ?_, h3⟩
      · rintro i (rfl | hmem)
        · omega
        · have := h2 i hmem; omega
      · intro hmem
        have := h2 _ hmem; omega
    | initSource f =>
      obtain ⟨h1, h2, h3⟩ := ih (a.initSource f).2
      have hc : (a.initSource f).2.mixer.objectIdCounter = a.mixer.objectIdCounter + 1 := rfl
      have hi : (a.initSource f).1 = a.mixer.objectIdCounter := rfl
      simp only [Audio.run, List.mem_cons, List.nodup_cons]
      refine ⟨by omega, ?_, ?_, h3⟩
      · rintro i (rfl | hmem)
        · omega
        · have := h2 i hmem; omega
      · intro hmem
        have := h2 _ hmem; omega
    | initProcessor p =>
      obtain ⟨h1, h2, h3⟩ := ih (a.initProcessor p).2
      have hc : (a.initProcessor p).2.mixer.objectIdCounter = a.mixer.objectIdCounter + 1 := rfl
      have hi : (a.initProcessor p).1 = a.mixer.objectIdCounter := rfl
      simp only [Audio.run, List.mem_cons, List.nodup_cons]
      refine ⟨by omega, ?_, ?_, h3⟩
      · rintro i (rfl | hmem)
        · omega
        · have := h2 i hmem; omega
      · intro hmem
        have := h2 _ hmem; omega

/-- C9 (as stated, refuted): `deleteObject(7)` and `updateProcessor(7, f)` on a fresh `Audio`
allocate no id: the counter stays where it was, and the one command enqueued carries the
caller's id 7, not the id the counter would hand out. -/
theorem c9_void_methods_allocate_nothing :
    (freshAudio.deleteObject 7).mixer.objectIdCounter = freshAudio.mixer.objectIdCounter ∧
    (freshAudio.deleteObject 7).mixer.commandQueue = [Command.DeleteObjectCommand 7] ∧
    (freshAudio.updateProcessor 7 ()).mixer.objectIdCounter = freshAudio.mixer.objectIdCounter ∧
    (freshAudio.updateProcessor 7 ()).mixer.commandQueue =
      [Command.UpdateProcessorCommand 7 ()] ∧
    freshAudio.mixer.getObjectId.1 ≠ 7 := by
  decide

/-- C9 (amended): each of `initBus`, `initStream`, `initSource` and `initProcessor` takes the
next id from the mixer's counter (which moves past it), enqueues exactly one command of its
kind carrying that id, and returns that id; `updateProcessor` and `deleteObject` allocate
and return no id: each enqueues exactly one command of its kind carrying the id passed by
the caller and leaves the counter as it was. -/
theorem c9_producer_methods (a : Audio F P U) (sourceId processorId objectId : Nat)
    (initFunction : F) (processor : P) (updateFunction : U) :
    (a.initBus.1 = a.mixer.getObjectId.1 ∧
      a.initBus.2.mixer.objectIdCounter = a.initBus.1 + 1 ∧
      a.initBus.2.mixer.commandQueue =
        a.mixer.commandQueue ++ [Command.InitBusCommand a.initBus.1]) ∧
    ((a.initStream sourceId).1 = a.mixer.getObjectId.1 ∧
      (a.initStream sourceId).2.mixer.objectIdCounter = (a.initStream sourceId).1 + 1 ∧
      (a.initStream sourceId).2.mixer.commandQueue =
        a.mixer.commandQueue ++ [Command.InitStreamCommand (a.initStream sourceId).1 sourceId]) ∧
    ((a.initSource initFunction).1 = a.mixer.getObjectId.1 ∧
      (a.initSource initFunction).2.mixer.objectIdCounter = (a.initSource initFunction).1 + 1 ∧
      (a.initSource initFunction).2.mixer.commandQueue =
        a.mixer.commandQueue ++
          [Command.InitSourceCommand (a.initSource initFunction).1 initFunction]) ∧
    ((a.initProcessor processor).1 = a.mixer.getObjectId.1 ∧
      (a.initProcessor processor).2.mixer.objectIdCounter = (a.initProcessor processor).1 + 1 ∧
      (a.initProcessor processor).2.mixer.commandQueue =
        a.mixer.commandQueue ++
          [Command.InitProcessorCommand (a.initProcessor processor).1 processor]) ∧
    ((a.updateProcessor processorId updateFunction).mixer.objectIdCounter =
        a.mixer.objectIdCounter ∧
      (a.updateProcessor processorId updateFunction).mixer.commandQueue =
        a.mixer.commandQueue ++ [Command.UpdateProcessorCommand processorId updateFunction]) ∧
    ((a.deleteObject objectId).mixer.objectIdCounter = a.mixer.objectIdCounter ∧
      (a.deleteObject objectId).mixer.commandQueue =
        a.mixer.commandQueue ++ [Command.DeleteObjectCommand objectId]) :=
  ⟨⟨rfl, rfl, rfl⟩, ⟨rfl, rfl, rfl⟩, ⟨rfl, rfl, rfl⟩, ⟨rfl, rfl, rfl⟩, ⟨rfl, rfl⟩, ⟨rfl, rfl⟩⟩

/-- C10: for every `Audio` state and every sequence of calls to `initBus`, `initStream`,
`initSource` and `initProcessor` (with calls to `updateProcessor` and `deleteObject` in
between, if any), the ids returned are pairwise distinct: no call returns an id that an
earlier call returned. -/
theorem c10_returned_ids_distinct (a : Audio F P U) (calls : List (Audio.Call F P U)) :
    (a.run calls).1.Nodup :=
  (Audio.run_ids calls a).2.2

end front

/-! ## The claims on driver selection -/

/-- The accepted names, spelled out. -/
theorem mem_driverNames (driver : String) :
    driver ∈ driverNames ↔
      driver = "" ∨ driver = "default" ∨ driver = "empty" ∨ driver = "openal" ∨
      driver = "directsound" ∨ driver = "xaudio2" ∨ driver = "opensl" ∨ driver = "coreaudio" ∨
      driver = "alsa" ∨ driver = "wasapi" := by
  simp [driverNames]

/-- The result of `Audio::getDriver` as one chain of tests on the name. -/
theorem getDriver_fst (flags : CompileFlags) (availableDrivers : List Driver) (driver : String) :
    (getDriver flags availableDrivers driver).1 =
      if driver = "" ∨ driver = "default" then
        .ok (defaultDriver (getAvailableAudioDrivers flags availableDrivers).1)
      else if driver = "empty" then .ok Driver.EMPTY
      else if driver = "openal" then .ok Driver.OPENAL
      else if driver = "directsound" then .ok Driver.DIRECTSOUND
      else if driver = "xaudio2" then .ok Driver.XAUDIO2
      else if driver = "opensl" then .ok Driver.OPENSL
      else if driver = "coreaudio" then .ok Driver.COREAUDIO
      else if driver = "alsa" then .ok Driver.ALSA
      else if driver = "wasapi" then .ok Driver.WASAPI
      else .error "Invalid audio driver" := by
  unfold getDriver
  simp only [String.isEmpty_iff, apply_ite Prod.fst]

/-- C11: `Audio::getDriver` fails, with the message "Invalid audio driver", if and only if
the name is none of `""`, `"default"`, `"empty"`, `"openal"`, `"directsound"`, `"xaudio2"`,
`"opensl"`, `"coreaudio"`, `"alsa"`, `"wasapi"`; for each of these names it returns a
`Driver` without error. This holds for every build and every state of the `static` set. -/
theorem c11_getDriver_invalid_iff (flags : CompileFlags) (availableDrivers : List Driver)
    (driver : String) :
    ((getDriver flags availableDrivers driver).1 = .error "Invalid audio driver" ↔
      driver ∉ driverNames) ∧
    (driver ∉ driverNames ∨ ∃ d, (getDriver flags availableDrivers driver).1 = .ok d) := by
  rw [mem_driverNames]
  generalize hr : (getDriver flags availableDrivers driver).1 = r
  rw [getDriver_fst] at hr
  by_cases h1 : driver = "" ∨ driver = "default"
  · rw [if_pos h1] at hr
    subst hr
    exact ⟨⟨fun h => (by cases h), fun h => absurd (h1.elim Or.inl fun e => Or.inr (Or.inl e)) h⟩,
      Or.inr ⟨_, rfl⟩⟩
  rw [if_neg h1] at hr
  by_cases h2 : driver = "empty"
  · rw [if_pos h2] at hr
    subst hr
    exact ⟨⟨fun h => (by cases h), fun h => absurd (Or.inr (Or.inr (Or.inl h2))) h⟩,
      Or.inr ⟨_, rfl⟩⟩
  rw [if_neg h2] at hr
  by_cases h3 : driver = "openal"
  · rw [if_pos h3] at hr
    subst hr
    exact ⟨⟨fun h => (by cases h), fun h => absurd (Or.inr (Or.inr (Or.inr (Or.inl h3)))) h⟩,
      Or.inr ⟨_, rfl⟩⟩
  rw [if_neg h3] at hr
  by_cases h4 : driver = "directsound"
  · rw [if_pos h4] at hr
    subst hr
    exact ⟨⟨fun h => (by cases h), fun h => absurd (Or.inr (Or.inr (Or.inr (Or.inr (Or.inl h4))))) h⟩,
      Or.inr ⟨_, rfl⟩⟩
  rw [if_neg h4] at hr
  by_cases h5 : driver = "xaudio2"
  · rw [if_pos h5] at hr
    subst hr
    exact ⟨⟨fun h => (by cases h), fun h => absurd (Or.inr (Or.inr (Or.inr (Or.inr (Or.inr (Or.inl h5)))))) h⟩,
      Or.inr ⟨_, rfl⟩⟩
  rw [if_neg h5] at hr
  by_cases h6 : driver = "opensl"
  · rw [if_pos h6] at hr
    subst hr
    exact ⟨⟨fun h => (by cases h), fun h => absurd (Or.inr (Or.inr (Or.inr (Or.inr (Or.inr (Or.inr (Or.inl h6))))))) h⟩,
      Or.inr ⟨_, rfl⟩⟩
  rw [if_neg h6] at hr
  by_cases h7 : driver = "coreaudio"
  · rw [if_pos h7] at hr
    subst hr
    exact ⟨⟨fun h => (by cases h), fun h => absurd (Or.inr (Or.inr (Or.inr (Or.inr (Or.inr (Or.inr (Or.inr (Or.inl h7)))))))) h⟩,
      Or.inr ⟨_, rfl⟩⟩
  rw [if_neg h7] at hr
  by_cases h8 : driver = "alsa"
  · rw [if_pos h8] at hr
    subst hr
    exact ⟨⟨fun h => (by cases h), fun h => absurd (Or.inr (Or.inr (Or.inr (Or.inr (Or.inr (Or.inr (Or.inr (Or.inr (Or.inl h8))))))))) h⟩,
      Or.inr ⟨_, rfl⟩⟩
  rw [if_neg h8] at hr
  by_cases h9 : driver = "wasapi"
  · rw [if_pos h9] at hr
    subst hr
    exact ⟨⟨fun h => (by cases h), fun h => absurd (Or.inr (Or.inr (Or.inr (Or.inr (Or.inr (Or.inr (Or.inr (Or.inr (Or.inr (h9)))))))))) h⟩,
      Or.inr ⟨_, rfl⟩⟩
  rw [if_neg h9] at hr
  subst hr
  have hD : ¬ (driver = "" ∨ driver = "default" ∨ driver = "empty" ∨ driver = "openal" ∨
      driver = "directsound" ∨ driver = "xaudio2" ∨ driver = "opensl" ∨
      driver = "coreaudio" ∨ driver = "alsa" ∨ driver = "wasapi") := by
    rintro (h | h | h | h | h | h | h | h | h | h)
    · exact h1 (Or.inl h)
    · exact h1 (Or.inr h)
    · exact h2 h
    · exact h3 h
    · exact h4 h
    · exact h5 h
    · exact h6 h
    · exact h7 h
    · exact h8 h
    · exact h9 h
  exact ⟨⟨fun _ => hD, fun _ => rfl⟩, Or.inl hD⟩

/-- The `static` set of `getAvailableAudioDrivers` once it has been filled always holds
`EMPTY`. -/
theorem mem_getAvailableAudioDrivers_nil (flags : CompileFlags) :
    Driver.EMPTY ∈ (getAvailableAudioDrivers flags []).1 := by
  have step : ∀ (c : Bool) (s : List Driver) (y : Driver), Driver.EMPTY ∈ s →
      Driver.EMPTY ∈ (if c = true then s.insert y else s) := by
    intro c s y h
    split
    · exact List.mem_insert_iff.mpr (Or.inr h)
    · exact h
  simp only [getAvailableAudioDrivers, List.isEmpty_nil, if_true]
  exact step _ _ _ (step _ _ _ (step _ _ _ (step _ _ _ (step _ _ _ (step _ _ _ (step _ _ _
    (List.mem_insert_iff.mpr (Or.inl rfl))))))))

/-- The `static` set is filled by the first call and handed out unchanged afterwards. -/
theorem getAvailableAudioDrivers_filled (flags : CompileFlags) :
    getAvailableAudioDrivers flags (getAvailableAudioDrivers flags []).2 =
      getAvailableAudioDrivers flags [] := by
  have hmem := mem_getAvailableAudioDrivers_nil flags
  have hne : (getAvailableAudioDrivers flags []).2.isEmpty = false := by
    cases h : (getAvailableAudioDrivers flags []).2 with
    | nil =>
      have h2 : (getAvailableAudioDrivers flags []).1 = [] := h
      rw [h2] at hmem
      cases hmem
    | cons a l => rfl
  generalize hs : (getAvailableAudioDrivers flags []).2 = s at hne
  have hfst : getAvailableAudioDrivers flags [] = (s, s) := by
    rw [← hs]
    rfl
  rw [hfst]
  simp only [getAvailableAudioDrivers, hne, Bool.false_eq_true, if_false]

/-- The default driver is the first entry of the priority list that is available. -/
theorem defaultDriver_eq_find (availableDrivers : List Driver) :
    defaultDriver availableDrivers =
      (defaultPriority.find? fun d => decide (d ∈ availableDrivers)).getD Driver.EMPTY := by
  unfold defaultDriver defaultPriority
  split_ifs <;>
    simp only [List.find?, *, decide_True, decide_False, Option.getD_some, Option.getD_none]

/-- The default driver is available as soon as `EMPTY` is. -/
theorem defaultDriver_mem (availableDrivers : List Driver)
    (h : Driver.EMPTY ∈ availableDrivers) : defaultDriver availableDrivers ∈ availableDrivers := by
  unfold defaultDriver
  split_ifs <;> assumption

/-- C12: for every set of available drivers the default choice is the first member of the
list WASAPI, COREAUDIO, ALSA, OPENAL, XAUDIO2, DIRECTSOUND, OPENSL that is in the set, and
EMPTY if none is; for the names `""` and `"default"` `Audio::getDriver` returns that choice
for the set `getAvailableAudioDrivers()` hands out, the result is a member of that set, and
the set contains EMPTY (the `static` set being empty, as at start, or filled by an earlier
call). -/
theorem c12_default_driver (flags : CompileFlags) (availableDrivers : List Driver)
    (driver : String) (hname : driver = "" ∨ driver = "default")
    (hstatic : availableDrivers = [] ∨
      availableDrivers = (getAvailableAudioDrivers flags []).2) :
    (∀ set : List Driver, defaultDriver set =
      (defaultPriority.find? fun d => decide (d ∈ set)).getD Driver.EMPTY) ∧
    (getDriver flags availableDrivers driver).1 =
      .ok ((defaultPriority.find? fun d =>
        decide (d ∈ (getAvailableAudioDrivers flags availableDrivers).1)).getD Driver.EMPTY) ∧
    (defaultPriority.find? fun d =>
        decide (d ∈ (getAvailableAudioDrivers flags availableDrivers).1)).getD Driver.EMPTY ∈
      (getAvailableAudioDrivers flags availableDrivers).1 ∧
    Driver.EMPTY ∈ (getAvailableAudioDrivers flags availableDrivers).1 := by
  have hempty : Driver.EMPTY ∈ (getAvailableAudioDrivers flags availableDrivers).1 := by
    rcases hstatic with h | h
    · rw [h]; exact mem_getAvailableAudioDrivers_nil flags
    · rw [h, getAvailableAudioDrivers_filled]; exact mem_getAvailableAudioDrivers_nil flags
  refine ⟨defaultDriver_eq_find, ?_, ?_, hempty⟩
  · rw [getDriver_fst, if_pos hname, defaultDriver_eq_find]
  · rw [← defaultDriver_eq_find]
    exact defaultDriver_mem _ hempty

/-- Witness of `c12_default_driver`: a build with OpenAL and ALSA, first call, name
`"default"`. -/
theorem c12_default_driver_witness :
    (("default" : String) = "" ∨ ("default" : String) = "default") ∧
    (getDriver linuxFlags [] "default").1 = .ok Driver.ALSA ∧
    ((∀ set : List Driver, defaultDriver set =
      (defaultPriority.find? fun d => decide (d ∈ set)).getD Driver.EMPTY) ∧
    (getDriver linuxFlags [] "default").1 =
      .ok ((defaultPriority.find? fun d =>
        decide (d ∈ (getAvailableAudioDrivers linuxFlags []).1)).getD Driver.EMPTY) ∧
    (defaultPriority.find? fun d =>
        decide (d ∈ (getAvailableAudioDrivers linuxFlags []).1)).getD Driver.EMPTY ∈
      (getAvailableAudioDrivers linuxFlags []).1 ∧
    Driver.EMPTY ∈ (getAvailableAudioDrivers linuxFlags []).1) :=
  ⟨Or.inr rfl, by decide,
    c12_default_driver linuxFlags [] "default" (Or.inr rfl) (Or.inl rfl)⟩


/-- What `Audio::getDriver` returns for each backend name. -/
theorem getDriver_backend (flags : CompileFlags) (availableDrivers : List Driver) :
    (getDriver flags availableDrivers "empty").1 = .ok Driver.EMPTY ∧
    (getDriver flags availableDrivers "openal").1 = .ok Driver.OPENAL ∧
    (getDriver flags availableDrivers "directsound").1 = .ok Driver.DIRECTSOUND ∧
    (getDriver flags availableDrivers "xaudio2").1 = .ok Driver.XAUDIO2 ∧
    (getDriver flags availableDrivers "opensl").1 = .ok Driver.OPENSL ∧
    (getDriver flags availableDrivers "coreaudio").1 = .ok Driver.COREAUDIO ∧
    (getDriver flags availableDrivers "alsa").1 = .ok Driver.ALSA ∧
    (getDriver flags availableDrivers "wasapi").1 = .ok Driver.WASAPI := by
  refine ⟨?_, ?_, ?_, ?_, ?_, ?_, ?_, ?_⟩
  · rw [getDriver_fst, if_neg (by decide), if_pos rfl]
  · rw [getDriver_fst, if_neg (by decide), if_neg (by decide), if_pos rfl]
  · rw [getDriver_fst, if_neg (by decide), if_neg (by decide), if_neg (by decide), if_pos rfl]
  · rw [getDriver_fst, if_neg (by decide), if_neg (by decide), if_neg (by decide),
      if_neg (by decide), if_pos rfl]
  · rw [getDriver_fst, if_neg (by decide), if_neg (by decide), if_neg (by decide),
      if_neg (by decide), if_neg (by decide), if_pos rfl]
  · rw [getDriver_fst, if_neg (by decide), if_neg (by decide), if_neg (by decide),
      if_neg (by decide), if_neg (by decide), if_neg (by decide), if_pos rfl]
  · rw [getDriver_fst, if_neg (by decide), if_neg (by decide), if_neg (by decide),
      if_neg (by decide), if_neg (by decide), if_neg (by decide), if_neg (by decide),
      if_pos rfl]
  · rw [getDriver_fst, if_neg (by decide), if_neg (by decide), if_neg (by decide),
      if_neg (by decide), if_neg (by decide), if_neg (by decide), if_neg (by decide),
      if_neg (by decide), if_pos rfl]

/-- C13: for each backend name `"empty"`, `"openal"`, `"directsound"`, `"xaudio2"`,
`"opensl"`, `"coreaudio"`, `"alsa"`, `"wasapi"`, `Audio::getDriver` returns the `Driver` value
of that name, and two backend names with the same result are the same name. -/
theorem c13_backend_names (flags : CompileFlags) (availableDrivers : List Driver) :
    ((getDriver flags availableDrivers "empty").1 = .ok Driver.EMPTY ∧
     (getDriver flags availableDrivers "openal").1 = .ok Driver.OPENAL ∧
     (getDriver flags availableDrivers "directsound").1 = .ok Driver.DIRECTSOUND ∧
     (getDriver flags availableDrivers "xaudio2").1 = .ok Driver.XAUDIO2 ∧
     (getDriver flags availableDrivers "opensl").1 = .ok Driver.OPENSL ∧
     (getDriver flags availableDrivers "coreaudio").1 = .ok Driver.COREAUDIO ∧
     (getDriver flags availableDrivers "alsa").1 = .ok Driver.ALSA ∧
     (getDriver flags availableDrivers "wasapi").1 = .ok Driver.WASAPI) ∧
    ∀ n1 ∈ backendNames, ∀ n2 ∈ backendNames,
      (getDriver flags availableDrivers n1).1 = (getDriver flags availableDrivers n2).1 →
      n1 = n2 := by
  obtain ⟨v1, v2, v3, v4, v5, v6, v7, v8⟩ := getDriver_backend flags availableDrivers
  refine ⟨⟨v1, v2, v3, v4, v5, v6, v7, v8⟩, ?_⟩
  intro n1 h1 n2 h2
  simp only [backendNames, List.mem_cons, List.mem_singleton, List.not_mem_nil, or_false] at h1 h2
  rcases h1 with rfl | rfl | rfl | rfl | rfl | rfl | rfl | rfl <;>
    rcases h2 with rfl | rfl | rfl | rfl | rfl | rfl | rfl | rfl <;>
    first
      | (intro _; rfl)
      | (intro h
         simp only [v1, v2, v3, v4, v5, v6, v7, v8] at h
         cases h)


/-! ## The source of a stream is never written -/

namespace PCMSource

/-- Rewinding keeps the source. -/
theorem rewindAtEnd_source (s : PCMSource α) : (rewindAtEnd s).source = s.source := by
  unfold rewindAtEnd reset
  split <;> rfl

/-- The end-of-data check keeps the source. -/
theorem endOfData_source (s : PCMSource α) : (endOfData s).source = s.source := by
  unfold endOfData reset
  split
  · split <;> rfl
  · rfl

/-- One run of the loop body keeps the source. -/
theorem loopBody_source (l r : Loop α) (h : loopBody l = .ok r) :
    r.stream.source = l.stream.source := by
  unfold loopBody at h
  simp only at h
  split at h
  · cases hc : stdCopy l.stream.source.samples (rewindAtEnd l.stream).position
        l.stream.source.samples.length l.samples l.totalSize with
    | error e => simp [hc] at h
    | ok v =>
      simp only [hc, Except.ok.injEq] at h
      subst h
      exact rewindAtEnd_source l.stream
  · cases hc : stdCopy l.stream.source.samples (rewindAtEnd l.stream).position
        ((rewindAtEnd l.stream).position + l.neededSize) l.samples l.totalSize with
    | error e => simp [hc] at h
    | ok v =>
      simp only [hc, Except.ok.injEq] at h
      subst h
      exact rewindAtEnd_source l.stream

/-- The whole loop keeps the source, for every state and fuel. -/
theorem copyLoop_source (fuel : Nat) : ∀ (l r : Loop α), copyLoop fuel l = .ok r →
    r.stream.source = l.stream.source := by
  induction fuel with
  | zero =>
    intro l r h
    unfold copyLoop at h
    split at h
    · simp at h
    · simp only [Except.ok.injEq] at h
      rw [h]
  | succ fuel ih =>
    intro l r h
    unfold copyLoop at h
    split at h
    · cases hb : loopBody l with
      | error e => simp [hb] at h
      | ok l' =>
        simp only [hb] at h
        split at h
        · simp only [Except.ok.injEq] at h
          rw [← h]
          exact loopBody_source l l' hb
        · rw [ih l' r h]
          exact loopBody_source l l' hb
    · simp only [Except.ok.injEq] at h
      rw [h]

/-- Whenever `getData` returns, the stream still has the source it had. -/
theorem getData_source [Zero α] (fuel : Nat) (s : PCMSource α) (frames : Nat) (buf : List α)
    (r : PCMSource α × List α) (h : getData fuel s frames buf = .ok r) :
    r.1.source = s.source := by
  unfold getData at h
  simp only at h
  cases hl : copyLoop fuel ⟨s, mulUInt32 frames s.source.channels, 0,
      vectorResize buf (mulUInt32 frames s.source.channels)⟩ with
  | error e => simp [hl] at h
  | ok l =>
    simp only [hl] at h
    have hsrc := copyLoop_source fuel _ _ hl
    simp only at hsrc
    cases hf : stdFillZero l.samples l.totalSize with
    | error e => simp [hf] at h
    | ok out =>
      simp only [hf, Except.ok.injEq] at h
      subst h
      simp only [endOfData_source, hsrc]

end PCMSource

/-- C15: `PCMSource::getData` never modifies its source: for every stream state, request,
incoming vector and fuel, the stream a returning call leaves has the very source it had
(sample vector, channel count and sample rate), and so has the stream after each single
iteration of the copy loop, whether or not the loop ever ends; and a `PCMData` built from
`(channels, sampleRate, samples)` reports exactly those values. -/
theorem c15_source_untouched [Zero α] (s : PCMSource α) (frames : Nat) (buf : List α)
    (channels sampleRate : Nat) (samples : List α) :
    (∀ fuel r, getData fuel s frames buf = .ok r →
      r.1.getSource.getSamples = s.getSource.getSamples ∧
      r.1.getSource.getChannels = s.getSource.getChannels ∧
      r.1.getSource.getSampleRate = s.getSource.getSampleRate) ∧
    (∀ l r : Loop α, loopBody l = .ok r → r.stream.source = l.stream.source) ∧
    ((PCMData.new channels sampleRate samples).getChannels = channels ∧
     (PCMData.new channels sampleRate samples).getSampleRate = sampleRate ∧
     (PCMData.new channels sampleRate samples).getSamples = samples) := by
  refine ⟨?_, loopBody_source, rfl, rfl, rfl⟩
  intro fuel r h
  have hs : r.1.source = s.source := getData_source fuel s frames buf r h
  simp only [getSource, hs, and_self]


/-! ## The object table -/

namespace mixer

/-- Looking up in a list from which the entries with key `id` have been removed. -/
theorem entryAt_filter_ne {β : Type} (l : List (Nat × β)) (id j : Nat) :
    entryAt (l.filter fun e => e.1 ≠ id) j = if j = id then none else entryAt l j := by
  induction l with
  | nil => simp [entryAt]
  | cons e rest ih =>
    by_cases he : e.1 = id
    · have hf : (List.filter (fun e => decide (e.1 ≠ id)) (e :: rest)) =
          List.filter (fun e => decide (e.1 ≠ id)) rest := by
        simp [List.filter, he]
      rw [hf, ih]
      by_cases hj : j = id
      · simp [hj]
      · have : e.1 ≠ j := by rw [he]; exact fun h => hj h.symm
        simp [hj, entryAt, this]
    · have hf : (List.filter (fun e => decide (e.1 ≠ id)) (e :: rest)) =
          e :: List.filter (fun e => decide (e.1 ≠ id)) rest := by
        simp [List.filter, he]
      rw [hf]
      simp only [entryAt, ih]
      by_cases hj : j = id
      · have : e.1 ≠ j := by rw [hj]; exact he
        simp [hj, he]
      · simp [hj]

/-- Looking up in a list whose entries have been rewritten. -/
theorem entryAt_map {β : Type} (l : List (Nat × β)) (f : Nat → β → β) (j : Nat) :
    entryAt (l.map fun e => (e.1, f e.1 e.2)) j = (entryAt l j).map (f j) := by
  induction l with
  | nil => simp [entryAt]
  | cons e rest ih =>
    simp only [List.map_cons, entryAt, ih]
    by_cases he : e.1 = j
    · simp [he]
    · simp [he]

namespace ObjectTable

variable {F P U : Type}

/-- What is found after `store`. -/
theorem find_store (t : ObjectTable F P U) (id j : Nat) (o : Object F P U) :
    (t.store id o).find j = if j = id then some o else t.find j := by
  simp only [find, store, entryAt, entryAt_filter_ne]
  by_cases h : j = id
  · simp [h]
  · have : id ≠ j := fun e => h e.symm
    simp [h, this]

/-- What is found after `erase`. -/
theorem find_erase (t : ObjectTable F P U) (id j : Nat) :
    (t.erase id).find j = if j = id then none else t.find j := by
  simp only [find, erase, entryAt_filter_ne]

/-- What is found after `mapObjects`. -/
theorem find_mapObjects (t : ObjectTable F P U) (f : Nat → Object F P U → Object F P U)
    (j : Nat) : (t.mapObjects f).find j = (t.find j).map (f j) := by
  simp only [find, mapObjects, entryAt_map]

end ObjectTable

end mixer


/-! ## Routing keeps the bus graph acyclic -/

namespace mixer

variable {F P U : Type}

/-- A table whose input edges all exist in an acyclic table is acyclic. -/
theorem Acyclic.of_edges (t t2 : ObjectTable F P U)
    (h : ∀ x y, inputEdge t2 x y → inputEdge t x y) (hac : Acyclic t) : Acyclic t2 :=
  fun x hx => hac x (Relation.TransGen.mono h hx)

/-- The search answers "no" only if there is no path. -/
theorem reaches_sound (t : ObjectTable F P U) (target : Nat) : ∀ (depth start : Nat),
    reaches t depth start target = false →
    ¬ Relation.ReflTransGen (inputEdge t) start target := by
  intro depth
  induction depth with
  | zero => intro start h; simp [reaches] at h
  | succ depth ih =>
    intro start h hpath
    simp only [reaches, Bool.or_eq_false_iff, beq_eq_false_iff_ne, ne_eq] at h
    obtain ⟨hne, hrest⟩ := h
    rcases Relation.ReflTransGen.cases_head hpath with heq | ⟨y, hedge, hy⟩
    · exact hne heq
    · obtain ⟨inputs, processors, hfind, hmem⟩ := hedge
      rw [hfind] at hrest
      simp only [List.any_eq_false] at hrest
      have := hrest y hmem
      exact ih y (by simpa using this) hy

/-- The search answers "yes" whenever there is a path, whatever the depth. -/
theorem reaches_of_path (t : ObjectTable F P U) (target : Nat) : ∀ (depth start : Nat),
    Relation.ReflTransGen (inputEdge t) start target → reaches t depth start target = true := by
  intro depth
  induction depth with
  | zero => intro start _; rfl
  | succ depth ih =>
    intro start hpath
    simp only [reaches, Bool.or_eq_true, beq_iff_eq]
    rcases Relation.ReflTransGen.cases_head hpath with heq | ⟨y, hedge, hy⟩
    · exact Or.inl heq
    · obtain ⟨inputs, processors, hfind, hmem⟩ := hedge
      right
      rw [hfind]
      simp only [List.any_eq_true]
      exact ⟨y, hmem, ih y hy⟩

/-- A path in a graph with one more edge `b → i` either avoids the new edge or leads to `b` and
goes on from `i`. -/
theorem transGen_add_edge {r r2 : Nat → Nat → Prop} {b i : Nat}
    (h : ∀ x y, r2 x y → r x y ∨ (x = b ∧ y = i)) {x y : Nat}
    (hxy : Relation.TransGen r2 x y) :
    Relation.TransGen r x y ∨
      (Relation.ReflTransGen r x b ∧ Relation.ReflTransGen r i y) := by
  induction hxy with
  | single hstep =>
    rcases h _ _ hstep with hr | ⟨rfl, rfl⟩
    · exact Or.inl (Relation.TransGen.single hr)
    · exact Or.inr ⟨Relation.ReflTransGen.refl, Relation.ReflTransGen.refl⟩
  | tail _ hstep ih =>
    rcases h _ _ hstep with hr | ⟨rfl, rfl⟩
    · rcases ih with h1 | ⟨h1, h2⟩
      · exact Or.inl (Relation.TransGen.tail h1 hr)
      · exact Or.inr ⟨h1, Relation.ReflTransGen.tail h2 hr⟩
    · rcases ih with h1 | ⟨h1, _⟩
      · exact Or.inr ⟨h1.to_reflTransGen, Relation.ReflTransGen.refl⟩
      · exact Or.inr ⟨h1, Relation.ReflTransGen.refl⟩

/-- Adding the edge `b → i` to an acyclic graph in which `i` does not reach `b` gives an
acyclic graph. -/
theorem Acyclic.add_edge (t t2 : ObjectTable F P U) (b i : Nat)
    (h : ∀ x y, inputEdge t2 x y → inputEdge t x y ∨ (x = b ∧ y = i))
    (hac : Acyclic t) (hno : ¬ Relation.ReflTransGen (inputEdge t) i b) : Acyclic t2 := by
  intro x hx
  rcases transGen_add_edge h hx with h1 | ⟨h1, h2⟩
  · exact hac x h1
  · exact hno (h2.trans h1)

/-- The input edges after `inputId` has been connected to `busId`. -/
theorem inputEdge_connected (t : ObjectTable F P U) (inputId busId x y : Nat)
    (h : inputEdge (t.mapObjects (Object.connected inputId busId)) x y) :
    inputEdge t x y ∨ (x = busId ∧ y = inputId) := by
  obtain ⟨inputs, processors, hfind, hmem⟩ := h
  rw [ObjectTable.find_mapObjects] at hfind
  cases ho : t.find x with
  | none => simp [ho] at hfind
  | some o =>
    rw [ho] at hfind
    cases o with
    | bus ins procs =>
      simp only [Option.map_some', Object.connected, Option.some.injEq] at hfind
      by_cases hx : x = busId
      · rw [if_pos hx] at hfind
        simp only [Object.bus.injEq] at hfind
        obtain ⟨h1, _⟩ := hfind
        rw [← h1] at hmem
        rcases List.mem_append.mp hmem with hm | hm
        · exact Or.inl ⟨ins, procs, ho, (List.mem_filter.mp hm).1⟩
        · exact Or.inr ⟨hx, List.mem_singleton.mp hm⟩
      · rw [if_neg hx] at hfind
        simp only [Object.bus.injEq] at hfind
        obtain ⟨h1, _⟩ := hfind
        rw [← h1] at hmem
        exact Or.inl ⟨ins, procs, ho, (List.mem_filter.mp hmem).1⟩
    | source f => simp [Object.connected] at hfind
    | stream sid => simp [Object.connected] at hfind
    | processor p us => simp [Object.connected] at hfind

/-- The input edges after a disconnection are edges from before. -/
theorem inputEdge_disconnected (t : ObjectTable F P U) (inputId busId x y : Nat)
    (h : inputEdge (t.mapObjects (Object.disconnected inputId busId)) x y) :
    inputEdge t x y := by
  obtain ⟨inputs, processors, hfind, hmem⟩ := h
  rw [ObjectTable.find_mapObjects] at hfind
  cases ho : t.find x with
  | none => simp [ho] at hfind
  | some o =>
    rw [ho] at hfind
    cases o with
    | bus ins procs =>
      simp only [Option.map_some', Object.disconnected, Option.some.injEq] at hfind
      by_cases hx : x = busId
      · rw [if_pos hx] at hfind
        simp only [Object.bus.injEq] at hfind
        obtain ⟨h1, _⟩ := hfind
        rw [← h1] at hmem
        exact ⟨ins, procs, ho, (List.mem_filter.mp hmem).1⟩
      · rw [if_neg hx] at hfind
        simp only [Object.bus.injEq] at hfind
        obtain ⟨h1, _⟩ := hfind
        rw [← h1] at hmem
        exact ⟨ins, procs, ho, hmem⟩
    | source f => simp [Object.disconnected] at hfind
    | stream sid => simp [Object.disconnected] at hfind
    | processor p us => simp [Object.disconnected] at hfind

/-- A routing command leaves an acyclic bus graph acyclic. -/
theorem applyRouting_acyclic (t : ObjectTable F P U) (r : RoutingCommand) (hac : Acyclic t) :
    Acyclic (applyRouting t r) := by
  unfold applyRouting
  by_cases hacc : accepts t r = true
  · rw [if_pos hacc]
    cases r with
    | SetBusOutput busId outputBusId =>
      simp only [accepts, Bool.and_eq_true, Bool.not_eq_true'] at hacc
      exact Acyclic.add_edge t _ outputBusId busId
        (inputEdge_connected t busId outputBusId) hac (reaches_sound t _ _ _ hacc.2)
    | ConnectInput busId inputId =>
      simp only [accepts, Bool.and_eq_true, Bool.not_eq_true'] at hacc
      exact Acyclic.add_edge t _ busId inputId
        (inputEdge_connected t inputId busId) hac (reaches_sound t _ _ _ hacc.2)
    | DisconnectInput busId inputId =>
      exact Acyclic.of_edges t _ (inputEdge_disconnected t inputId busId) hac
  · rw [if_neg hacc]
    exact hac

end mixer


namespace mixer

variable {F P U : Type}

/-- Storing an entity that is not a bus with inputs adds no input edge. -/
theorem inputEdge_store (t : ObjectTable F P U) (id : Nat) (o : Object F P U)
    (ho : ∀ inputs processors, o = .bus inputs processors → inputs = []) (x y : Nat)
    (h : inputEdge (t.store id o) x y) : inputEdge t x y := by
  obtain ⟨inputs, processors, hfind, hmem⟩ := h
  rw [ObjectTable.find_store] at hfind
  by_cases hx : x = id
  · rw [if_pos hx, Option.some.injEq] at hfind
    rw [ho inputs processors hfind] at hmem
    cases hmem
  · rw [if_neg hx] at hfind
    exact ⟨inputs, processors, hfind, hmem⟩

/-- A queued command adds no input edge. -/
theorem inputEdge_applyCommand (t : ObjectTable F P U) (c : Command F P U) (x y : Nat)
    (h : inputEdge (applyCommand t c) x y) : inputEdge t x y := by
  cases c with
  | SetMasterBusCommand busId =>
    simp only [applyCommand] at h
    split at h
    · exact h
    · exact h
  | InitBusCommand busId =>
    exact inputEdge_store t busId _ (fun _ _ e => by cases e; rfl) x y h
  | InitSourceCommand sourceId f =>
    exact inputEdge_store t sourceId _ (fun _ _ e => by cases e) x y h
  | InitStreamCommand streamId sourceId =>
    simp only [applyCommand] at h
    split at h
    · exact inputEdge_store t streamId _ (fun _ _ e => by cases e) x y h
    · exact h
  | InitProcessorCommand processorId p =>
    exact inputEdge_store t processorId _ (fun _ _ e => by cases e) x y h
  | UpdateProcessorCommand processorId u =>
    simp only [applyCommand] at h
    split at h
    · exact inputEdge_store t processorId _ (fun _ _ e => by cases e) x y h
    · exact h
  | DeleteObjectCommand objectId =>
    simp only [applyCommand] at h
    split at h
    · exact h
    · obtain ⟨inputs, processors, hfind, hmem⟩ := h
      have hfind2 : ((t.erase objectId).mapObjects fun _ o => o.purge objectId).find x =
          some (.bus inputs processors) := hfind
      rw [ObjectTable.find_mapObjects, ObjectTable.find_erase] at hfind2
      by_cases hx : x = objectId
      · simp [hx] at hfind2
      · rw [if_neg hx] at hfind2
        cases ho : t.find x with
        | none => simp [ho] at hfind2
        | some o =>
          rw [ho] at hfind2
          cases o with
          | bus ins procs =>
            simp only [Option.map_some', Object.purge, Option.some.injEq,
              Object.bus.injEq] at hfind2
            rw [← hfind2.1] at hmem
            exact ⟨ins, procs, ho, (List.mem_filter.mp hmem).1⟩
          | source f => simp [Object.purge] at hfind2
          | stream sid => simp [Object.purge] at hfind2
          | processor p us => simp [Object.purge] at hfind2

/-- Every mutation leaves an acyclic bus graph acyclic. -/
theorem applyMutation_acyclic (t : ObjectTable F P U) (m : Mutation F P U) (hac : Acyclic t) :
    Acyclic (applyMutation t m) := by
  cases m with
  | command c => exact Acyclic.of_edges t _ (inputEdge_applyCommand t c) hac
  | routing r => exact applyRouting_acyclic t r hac

/-- The empty table is acyclic. -/
theorem acyclic_empty : Acyclic (ObjectTable.empty : ObjectTable F P U) := by
  intro x hx
  rcases Relation.TransGen.head'_iff.mp hx with ⟨y, ⟨inputs, processors, hfind, _⟩, _⟩
  simp [ObjectTable.find, ObjectTable.empty, entryAt] at hfind

/-- Mutations applied one after the other leave an acyclic bus graph acyclic. -/
theorem foldl_applyMutation_acyclic (ms : List (Mutation F P U)) : ∀ (t : ObjectTable F P U),
    Acyclic t → Acyclic (ms.foldl applyMutation t) := by
  induction ms with
  | nil => intro t h; exact h
  | cons m rest ih => intro t h; exact ih _ (applyMutation_acyclic t m h)

/-- The bus graph of every reachable mixer state is acyclic. -/
theorem Reachable.acyclic (t : ObjectTable F P U) (h : Reachable t) : Acyclic t := by
  obtain ⟨ms, rfl⟩ := h
  exact foldl_applyMutation_acyclic ms _ acyclic_empty

end mixer


/-! ## The reachability check is exact on acyclic tables -/

namespace mixer

variable {F P U : Type}

/-- An id that is found is among the keys of the table. -/
theorem entryAt_some_mem {β : Type} (l : List (Nat × β)) (j : Nat) (v : β)
    (h : entryAt l j = some v) : j ∈ l.map Prod.fst := by
  induction l with
  | nil => simp [entryAt] at h
  | cons e rest ih =>
    simp only [entryAt] at h
    by_cases he : e.1 = j
    · simp [he]
    · rw [if_neg he] at h
      simp [ih h]

/-- Every node of a chain of edges but the last has an outgoing edge. -/
theorem chain_dropLast_edge {r : Nat → Nat → Prop} : ∀ (l : List Nat) (a : Nat),
    List.Chain r a l → ∀ x ∈ (a :: l).dropLast, ∃ y, r x y := by
  intro l
  induction l with
  | nil => intro a _ x hx; simp at hx
  | cons b rest ih =>
    intro a hchain x hx
    rw [List.chain_cons] at hchain
    rw [List.dropLast_cons₂, List.mem_cons] at hx
    rcases hx with rfl | hx
    · exact ⟨b, hchain.1⟩
    · exact ih b hchain.2 x hx

/-- The nodes of a chain of edges of an acyclic graph are pairwise different. -/
theorem chain_nodup (t : ObjectTable F P U) (hac : Acyclic t) (l : List Nat) (a : Nat)
    (h : List.Chain (inputEdge t) a l) : (a :: l).Nodup := by
  have h1 : List.Chain (Relation.TransGen (inputEdge t)) a l :=
    List.Chain.imp (fun _ _ hxy => Relation.TransGen.single hxy) h
  have h2 : List.Pairwise (Relation.TransGen (inputEdge t)) (a :: l) :=
    List.chain_iff_pairwise.mp h1
  have h3 : ∀ x y : Nat, Relation.TransGen (inputEdge t) x y → x ≠ y := by
    intro x y hxy heq
    rw [heq] at hxy
    exact hac y hxy
  exact List.Pairwise.imp (fun {x y} hxy => h3 x y hxy) h2

/-- In an acyclic table a chain of input edges is no longer than the table. -/
theorem chain_length_le (t : ObjectTable F P U) (hac : Acyclic t) (l : List Nat) (a : Nat)
    (h : List.Chain (inputEdge t) a l) : l.length ≤ t.objects.length := by
  have hnd : ((a :: l).dropLast).Nodup :=
    List.Nodup.sublist (List.dropLast_sublist _) (chain_nodup t hac l a h)
  have hsub : (a :: l).dropLast ⊆ t.objects.map Prod.fst := by
    intro x hx
    obtain ⟨y, inputs, processors, hfind, _⟩ := chain_dropLast_edge l a h x hx
    exact entryAt_some_mem _ _ _ hfind
  have hle := (List.subperm_of_subset hnd hsub).length_le
  simpa using hle

/-- A search that answers "yes" has found a path or has run out of depth along a chain of
edges as long as the depth. -/
theorem reaches_true (t : ObjectTable F P U) (target : Nat) : ∀ (depth start : Nat),
    reaches t depth start target = true →
    Relation.ReflTransGen (inputEdge t) start target ∨
      ∃ l : List Nat, l.length = depth ∧ List.Chain (inputEdge t) start l := by
  intro depth
  induction depth with
  | zero => intro start _; exact Or.inr ⟨[], rfl, List.Chain.nil⟩
  | succ depth ih =>
    intro start h
    simp only [reaches, Bool.or_eq_true, beq_iff_eq] at h
    rcases h with heq | h
    · exact Or.inl (heq ▸ Relation.ReflTransGen.refl)
    · cases ho : t.find start with
      | none => simp [ho] at h
      | some o =>
        rw [ho] at h
        cases o with
        | bus inputs processors =>
          simp only [List.any_eq_true] at h
          obtain ⟨i, hmem, hi⟩ := h
          have hedge : inputEdge t start i := ⟨inputs, processors, ho, hmem⟩
          rcases ih i hi with hp | ⟨l, hl, hc⟩
          · exact Or.inl (Relation.ReflTransGen.head hedge hp)
          · exact Or.inr ⟨i :: l, by simp [hl], List.Chain.cons hedge hc⟩
        | source f => simp at h
        | stream sid => simp at h
        | processor p us => simp at h

/-- On an acyclic table the search as deep as the table is long decides reachability. -/
theorem reaches_iff (t : ObjectTable F P U) (hac : Acyclic t) (start target : Nat) :
    reaches t (t.objects.length + 1) start target = true ↔
      Relation.ReflTransGen (inputEdge t) start target := by
  constructor
  · intro h
    rcases reaches_true t target _ start h with hp | ⟨l, hl, hc⟩
    · exact hp
    · have := chain_length_le t hac l start hc
      omega
  · exact reaches_of_path t target _ start

end mixer


/-! ## The claims on routing and deletion -/

namespace mixer

variable {F P U : Type}

/-- C18: on every acyclic bus graph (the graph of every reachable mixer state is acyclic) and
for every routing command, the bus graph after the command is still acyclic, and a command
that is rejected leaves the object table as it was; a command that would make a bus a direct
or transitive input of itself (its new output is the bus itself or one of its transitive
inputs) is rejected, and `SetBusOutput` between two existing buses is rejected for no other
reason. -/
theorem c18_routing_keeps_graph_acyclic (t : ObjectTable F P U) (r : RoutingCommand)
    (hac : Acyclic t) :
    Acyclic (applyRouting t r) ∧
    (accepts t r = false → applyRouting t r = t) ∧
    (∀ busId outputBusId, Relation.ReflTransGen (inputEdge t) busId outputBusId →
      accepts t (.SetBusOutput busId outputBusId) = false ∧
      accepts t (.ConnectInput outputBusId busId) = false) ∧
    (∀ busId outputBusId, accepts t (.SetBusOutput busId outputBusId) = true ↔
      (t.isBus busId = true ∧ t.isBus outputBusId = true ∧
        ¬ Relation.ReflTransGen (inputEdge t) busId outputBusId)) ∧
    (∀ s : ObjectTable F P U, Reachable s → Acyclic s) := by
  refine ⟨applyRouting_acyclic t r hac, ?_, ?_, ?_, Reachable.acyclic⟩
  · intro h
    simp [applyRouting, h]
  · intro busId outputBusId hpath
    have hr := reaches_of_path t outputBusId (t.objects.length + 1) busId hpath
    simp [accepts, hr]
  · intro busId outputBusId
    have hiff := reaches_iff t hac busId outputBusId
    simp only [accepts, Bool.and_eq_true, Bool.not_eq_true', ← hiff]
    constructor
    · rintro ⟨⟨h1, h2⟩, h3⟩
      exact ⟨h1, h2, by simp [h3]⟩
    · rintro ⟨h1, h2, h3⟩
      exact ⟨⟨h1, h2⟩, by simpa using h3⟩

end mixer

/-- Witness of `c18_routing_keeps_graph_acyclic`: with bus 1 an input of bus 0, making bus 0
an input of bus 1 is refused. -/
theorem c18_routing_keeps_graph_acyclic_witness :
    mixer.Acyclic twoBusTable ∧
    mixer.applyRouting twoBusTable (.SetBusOutput 0 1) = twoBusTable ∧
    (mixer.Acyclic (mixer.applyRouting twoBusTable (.SetBusOutput 0 1)) ∧
    (mixer.accepts twoBusTable (.SetBusOutput 0 1) = false →
      mixer.applyRouting twoBusTable (.SetBusOutput 0 1) = twoBusTable) ∧
    (∀ busId outputBusId,
      Relation.ReflTransGen (mixer.inputEdge twoBusTable) busId outputBusId →
      mixer.accepts twoBusTable (.SetBusOutput busId outputBusId) = false ∧
      mixer.accepts twoBusTable (.ConnectInput outputBusId busId) = false) ∧
    (∀ busId outputBusId, mixer.accepts twoBusTable (.SetBusOutput busId outputBusId) = true ↔
      (twoBusTable.isBus busId = true ∧ twoBusTable.isBus outputBusId = true ∧
        ¬ Relation.ReflTransGen (mixer.inputEdge twoBusTable) busId outputBusId)) ∧
    (∀ s : mixer.ObjectTable Unit Unit Unit, mixer.Reachable s → mixer.Acyclic s)) :=
  ⟨mixer.Reachable.acyclic twoBusTable ⟨_, rfl⟩, by decide,
    mixer.c18_routing_keeps_graph_acyclic twoBusTable (.SetBusOutput 0 1)
      (mixer.Reachable.acyclic twoBusTable ⟨_, rfl⟩)⟩


namespace mixer

variable {F P U : Type}

/-- A render step for a processor reads the entry of that processor. -/
theorem processorStep_id (t : ObjectTable F P U) (p : Nat) : (processorStep t p).id = p := by
  unfold processorStep
  split <;> rfl

/-- A render that starts at another id never reads an id nothing refers to. -/
theorem Bus.process_not_read (t : ObjectTable F P U) (id : Nat) (h : Unreferenced t id) :
    ∀ (depth x : Nat), x ≠ id → ∀ s ∈ Bus.process t depth x, s.id ≠ id := by
  intro depth
  induction depth with
  | zero => intro x _ s hs; simp [Bus.process] at hs
  | succ depth ih =>
    intro x hx s hs
    unfold Bus.process at hs
    cases ho : t.find x with
    | none =>
      simp only [ho, List.mem_singleton] at hs
      rw [hs]; exact hx
    | some o =>
      cases o with
      | bus inputs processors =>
        simp only [ho, List.mem_cons, List.mem_append, List.mem_flatMap, List.mem_map] at hs
        obtain ⟨hin, hpr⟩ := h.2.2 x inputs processors ho
        rcases hs with rfl | ⟨i, hi, hsi⟩ | ⟨p, hp, rfl⟩
        · exact hx
        · exact ih i (fun e => hin (e ▸ hi)) s hsi
        · rw [processorStep_id]
          exact fun e => hpr (e ▸ hp)
      | source f =>
        simp only [ho, List.mem_singleton] at hs
        rw [hs]; exact hx
      | stream sid =>
        simp only [ho, List.mem_singleton] at hs
        rw [hs]; exact hx
      | processor p us =>
        simp only [ho, List.mem_singleton] at hs
        rw [hs]; exact hx

/-- A render never reads an id nothing refers to. -/
theorem render_not_read (t : ObjectTable F P U) (id : Nat) (h : Unreferenced t id)
    (frames channels sampleRate : Nat) :
    ∀ s ∈ (render t frames channels sampleRate).steps, s.id ≠ id := by
  intro s hs
  unfold render at hs
  simp only at hs
  cases hm : t.masterBus with
  | none => simp [hm] at hs
  | some busId =>
    rw [hm] at hs
    have hne : busId ≠ id := fun e => h.2.1 (e ▸ hm)
    exact Bus.process_not_read t id h _ busId hne s hs

/-- After `DeleteObject(id)` has been applied to an existing object, nothing refers to `id`. -/
theorem unreferenced_delete (t : ObjectTable F P U) (id : Nat) (o : Object F P U)
    (ho : t.find id = some o) : Unreferenced (applyCommand t (.DeleteObjectCommand id)) id := by
  have hfind : ∀ j, (applyCommand t (.DeleteObjectCommand id)).find j =
      if j = id then none else (t.find j).map fun o => o.purge id := by
    intro j
    simp only [applyCommand, ho]
    have : ObjectTable.find
        { objects := ((t.erase id).mapObjects fun _ o => o.purge id).objects
          masterBus := if t.masterBus = some id then none else t.masterBus } j =
        ((t.erase id).mapObjects fun _ o => o.purge id).find j := rfl
    rw [this, ObjectTable.find_mapObjects, ObjectTable.find_erase]
    by_cases hj : j = id
    · simp [hj]
    · simp [hj]
  refine ⟨by rw [hfind]; simp, ?_, ?_⟩
  · simp only [applyCommand, ho]
    by_cases hm : t.masterBus = some id
    · simp [hm]
    · simp [hm]
  · intro j inputs processors hj
    rw [hfind] at hj
    by_cases hji : j = id
    · simp [hji] at hj
    · rw [if_neg hji] at hj
      cases hoj : t.find j with
      | none => simp [hoj] at hj
      | some oj =>
        rw [hoj] at hj
        cases oj with
        | bus ins procs =>
          simp only [Option.map_some', Object.purge, Option.some.injEq, Object.bus.injEq] at hj
          rw [← hj.1, ← hj.2]
          simp
        | source f => simp [Object.purge] at hj
        | stream sid => simp [Object.purge] at hj
        | processor p us => simp [Object.purge] at hj

end mixer


namespace mixer

variable {F P U : Type}

/-- Storing, at another id, an entity that does not refer to `id` keeps `id` unreferenced. -/
theorem unreferenced_store (t : ObjectTable F P U) (id j : Nat) (o : Object F P U)
    (h : Unreferenced t id) (hj : j ≠ id)
    (ho : ∀ inputs processors, o = .bus inputs processors → id ∉ inputs ∧ id ∉ processors) :
    Unreferenced (t.store j o) id := by
  refine ⟨?_, h.2.1, ?_⟩
  · rw [ObjectTable.find_store, if_neg (fun e => hj e.symm)]
    exact h.1
  · intro k inputs processors hk
    rw [ObjectTable.find_store] at hk
    by_cases hkj : k = j
    · rw [if_pos hkj, Option.some.injEq] at hk
      exact ho inputs processors hk
    · rw [if_neg hkj] at hk
      exact h.2.2 k inputs processors hk

/-- Rewriting the entries keeps `id` unreferenced if no rewritten bus refers to `id`. -/
theorem unreferenced_mapObjects (t : ObjectTable F P U) (id : Nat)
    (f : Nat → Object F P U → Object F P U) (h : Unreferenced t id)
    (hf : ∀ j o inputs processors, t.find j = some o → f j o = .bus inputs processors →
      id ∉ inputs ∧ id ∉ processors) :
    Unreferenced (t.mapObjects f) id := by
  refine ⟨?_, h.2.1, ?_⟩
  · rw [ObjectTable.find_mapObjects, h.1]
    rfl
  · intro k inputs processors hk
    rw [ObjectTable.find_mapObjects] at hk
    cases ho : t.find k with
    | none => simp [ho] at hk
    | some o =>
      rw [ho, Option.map_some', Option.some.injEq] at hk
      exact hf k o inputs processors ho hk

/-- A queued command that does not create `id` keeps `id` unreferenced. -/
theorem unreferenced_applyCommand (t : ObjectTable F P U) (id : Nat) (c : Command F P U)
    (h : Unreferenced t id) (hc : c.creates ≠ some id) :
    Unreferenced (applyCommand t c) id := by
  cases c with
  | SetMasterBusCommand busId =>
    simp only [applyCommand]
    by_cases hb : t.isBus busId = true
    · rw [if_pos hb]
      refine ⟨h.1, ?_, h.2.2⟩
      intro e
      simp only [Option.some.injEq] at e
      rw [e] at hb
      simp [ObjectTable.isBus, h.1] at hb
    · rw [if_neg hb]
      exact h
  | InitBusCommand busId =>
    have hne : busId ≠ id := fun e => hc (by rw [← e]; rfl)
    exact unreferenced_store t id busId _ h hne (fun _ _ e => by cases e; simp)
  | InitSourceCommand sourceId f =>
    have hne : sourceId ≠ id := fun e => hc (by rw [← e]; rfl)
    exact unreferenced_store t id sourceId _ h hne (fun _ _ e => by cases e)
  | InitStreamCommand streamId sourceId =>
    have hne : streamId ≠ id := fun e => hc (by rw [← e]; rfl)
    simp only [applyCommand]
    split
    · exact unreferenced_store t id streamId _ h hne (fun _ _ e => by cases e)
    · exact h
  | InitProcessorCommand processorId p =>
    have hne : processorId ≠ id := fun e => hc (by rw [← e]; rfl)
    exact unreferenced_store t id processorId _ h hne (fun _ _ e => by cases e)
  | UpdateProcessorCommand processorId u =>
    simp only [applyCommand]
    split
    · rename_i p us hp
      have hne : processorId ≠ id := by
        intro e
        rw [e, h.1] at hp
        cases hp
      exact unreferenced_store t id processorId _ h hne (fun _ _ e => by cases e)
    · exact h
  | DeleteObjectCommand objectId =>
    simp only [applyCommand]
    split
    · exact h
    · refine ⟨?_, ?_, ?_⟩
      · have : ObjectTable.find
            { objects := ((t.erase objectId).mapObjects fun _ o => o.purge objectId).objects
              masterBus := if t.masterBus = some objectId then none else t.masterBus } id =
            ((t.erase objectId).mapObjects fun _ o => o.purge objectId).find id := rfl
        rw [this, ObjectTable.find_mapObjects, ObjectTable.find_erase]
        by_cases hi : id = objectId
        · simp [hi]
        · simp [hi, h.1]
      · simp only
        by_cases hm : t.masterBus = some objectId
        · simp [hm]
        · rw [if_neg hm]
          exact h.2.1
      · intro k inputs processors hk
        have hk2 : ((t.erase objectId).mapObjects fun _ o => o.purge objectId).find k =
            some (.bus inputs processors) := hk
        rw [ObjectTable.find_mapObjects, ObjectTable.find_erase] at hk2
        by_cases hko : k = objectId
        · simp [hko] at hk2
        · rw [if_neg hko] at hk2
          cases ho : t.find k with
          | none => simp [ho] at hk2
          | some o =>
            rw [ho] at hk2
            cases o with
            | bus ins procs =>
              simp only [Option.map_some', Object.purge, Option.some.injEq,
                Object.bus.injEq] at hk2
              obtain ⟨h1, h2⟩ := h.2.2 k ins procs ho
              rw [← hk2.1, ← hk2.2]
              exact ⟨fun hm => h1 (List.mem_filter.mp hm).1,
                fun hm => h2 (List.mem_filter.mp hm).1⟩
            | source f => simp [Object.purge] at hk2
            | stream sid => simp [Object.purge] at hk2
            | processor p us => simp [Object.purge] at hk2

/-- An id that names an input exists. -/
theorem isInput_ne (t : ObjectTable F P U) (id i : Nat) (h : Unreferenced t id)
    (hi : t.isInput i = true) : i ≠ id := by
  intro e
  rw [e] at hi
  simp [ObjectTable.isInput, h.1] at hi

/-- An id that names a bus exists. -/
theorem isBus_ne (t : ObjectTable F P U) (id i : Nat) (h : Unreferenced t id)
    (hi : t.isBus i = true) : i ≠ id := by
  intro e
  rw [e] at hi
  simp [ObjectTable.isBus, h.1] at hi

/-- Connecting an existing input keeps `id` unreferenced. -/
theorem unreferenced_connected (t : ObjectTable F P U) (id inputId busId : Nat)
    (h : Unreferenced t id) (hne : inputId ≠ id) :
    Unreferenced (t.mapObjects (Object.connected inputId busId)) id := by
  apply unreferenced_mapObjects t id _ h
  intro j o inputs processors ho hf
  cases o with
  | bus ins procs =>
    obtain ⟨h1, h2⟩ := h.2.2 j ins procs ho
    simp only [Object.connected] at hf
    by_cases hj : j = busId
    · rw [if_pos hj, Object.bus.injEq] at hf
      rw [← hf.1, ← hf.2]
      refine ⟨?_, h2⟩
      intro hm
      rcases List.mem_append.mp hm with hm | hm
      · exact h1 (List.mem_filter.mp hm).1
      · exact hne (List.mem_singleton.mp hm).symm
    · rw [if_neg hj, Object.bus.injEq] at hf
      rw [← hf.1, ← hf.2]
      exact ⟨fun hm => h1 (List.mem_filter.mp hm).1, h2⟩
  | source f => simp [Object.connected] at hf
  | stream sid => simp [Object.connected] at hf
  | processor p us => simp [Object.connected] at hf

/-- A routing command keeps `id` unreferenced. -/
theorem unreferenced_applyRouting (t : ObjectTable F P U) (id : Nat) (r : RoutingCommand)
    (h : Unreferenced t id) : Unreferenced (applyRouting t r) id := by
  unfold applyRouting
  by_cases hacc : accepts t r = true
  · rw [if_pos hacc]
    cases r with
    | SetBusOutput busId outputBusId =>
      simp only [accepts, Bool.and_eq_true] at hacc
      exact unreferenced_connected t id busId outputBusId h (isBus_ne t id busId h hacc.1.1)
    | ConnectInput busId inputId =>
      simp only [accepts, Bool.and_eq_true] at hacc
      exact unreferenced_connected t id inputId busId h (isInput_ne t id inputId h hacc.1.2)
    | DisconnectInput busId inputId =>
      apply unreferenced_mapObjects t id _ h
      intro j o inputs processors ho hf
      cases o with
      | bus ins procs =>
        obtain ⟨h1, h2⟩ := h.2.2 j ins procs ho
        simp only [Object.disconnected] at hf
        by_cases hj : j = busId
        · rw [if_pos hj, Object.bus.injEq] at hf
          rw [← hf.1, ← hf.2]
          exact ⟨fun hm => h1 (List.mem_filter.mp hm).1, h2⟩
        · rw [if_neg hj, Object.bus.injEq] at hf
          rw [← hf.1, ← hf.2]
          exact ⟨h1, h2⟩
      | source f => simp [Object.disconnected] at hf
      | stream sid => simp [Object.disconnected] at hf
      | processor p us => simp [Object.disconnected] at hf
  · rw [if_neg hacc]
    exact h

/-- Later mutations that do not create `id` keep `id` unreferenced. -/
theorem unreferenced_foldl (id : Nat) (ms : List (Mutation F P U)) :
    ∀ (t : ObjectTable F P U), Unreferenced t id → (∀ m ∈ ms, m.creates ≠ some id) →
    Unreferenced (ms.foldl applyMutation t) id := by
  induction ms with
  | nil => intro t h _; exact h
  | cons m rest ih =>
    intro t h hms
    apply ih
    · cases m with
      | command c =>
        exact unreferenced_applyCommand t id c h (hms _ (List.mem_cons_self _ _))
      | routing r => exact unreferenced_applyRouting t id r h
    · exact fun x hx => hms x (List.mem_cons_of_mem _ hx)

/-- C19: once a `DeleteObject` command for the id of a bus has been applied, the entry is gone,
no bus lists that id among its inputs, and no later render reads the entry at that id:
neither the next one nor one after any later commands and routing commands, as long as none
of them creates an object with that id again (ids are not handed out twice). -/
theorem c19_deleted_bus_is_purged (t : ObjectTable F P U) (id : Nat)
    (inputs processors : List Nat) (hbus : t.find id = some (.bus inputs processors))
    (later : List (Mutation F P U)) (hlater : ∀ m ∈ later, m.creates ≠ some id) :
    (applyCommand t (.DeleteObjectCommand id)).find id = none ∧
    (∀ j ins procs, (applyCommand t (.DeleteObjectCommand id)).find j = some (.bus ins procs) →
      id ∉ ins) ∧
    (∀ frames channels sampleRate,
      ∀ s ∈ (render (later.foldl applyMutation (applyCommand t (.DeleteObjectCommand id)))
        frames channels sampleRate).steps, s.id ≠ id) := by
  have h := unreferenced_delete t id _ hbus
  refine ⟨h.1, fun j ins procs hj => (h.2.2 j ins procs hj).1, ?_⟩
  intro frames channels sampleRate
  exact render_not_read _ id (unreferenced_foldl id later _ h hlater) frames channels sampleRate

end mixer


/-- Witness for C19 on the two-bus table: bus 1, an input of the master bus 0, is deleted; then
a command tries to connect it again and a third bus is created. -/
theorem c19_deleted_bus_is_purged_witness :
    twoBusTable.find 1 = some (.bus [] []) ∧
    (∀ m ∈ [mixer.Mutation.routing (.ConnectInput 0 1), .command (.InitBusCommand 2)],
      mixer.Mutation.creates (F := Unit) (P := Unit) (U := Unit) m ≠ some 1) ∧
    ((mixer.applyCommand twoBusTable (.DeleteObjectCommand 1)).find 1 = none ∧
    (∀ j ins procs,
      (mixer.applyCommand twoBusTable (.DeleteObjectCommand 1)).find j = some (.bus ins procs) →
      1 ∉ ins) ∧
    (∀ frames channels sampleRate,
      ∀ s ∈ (mixer.render
        ([mixer.Mutation.routing (.ConnectInput 0 1), .command (.InitBusCommand 2)].foldl
          mixer.applyMutation (mixer.applyCommand twoBusTable (.DeleteObjectCommand 1)))
        frames channels sampleRate).steps, s.id ≠ 1)) :=
  ⟨rfl, by intro m hm; simp only [List.mem_cons, List.mem_singleton, List.not_mem_nil, or_false] at hm; rcases hm with h | h <;> subst h <;> simp [mixer.Mutation.creates, mixer.Command.creates],
    mixer.c19_deleted_bus_is_purged twoBusTable 1 [] [] rfl
      [.routing (.ConnectInput 0 1), .command (.InitBusCommand 2)]
      (by intro m hm; simp only [List.mem_cons, List.mem_singleton, List.not_mem_nil, or_false] at hm; rcases hm with h | h <;> subst h <;> simp [mixer.Mutation.creates, mixer.Command.creates])⟩


/-! ## Drain order and the pull -/

namespace mixer

variable {F P U : Type}

/-- Draining a queue in two parts is draining it whole. -/
theorem drain_append (cs ds : List (Command F P U)) :
    ∀ t : ObjectTable F P U, drain t (cs ++ ds) = drain (drain t cs) ds := by
  induction cs with
  | nil => intro t; rfl
  | cons c rest ih => intro t; exact ih (applyCommand t c)

/-- Draining applies the commands one by one from the front. -/
theorem drain_eq_foldl (cs : List (Command F P U)) :
    ∀ t : ObjectTable F P U, drain t cs = cs.foldl applyCommand t := by
  induction cs with
  | nil => intro t; rfl
  | cons c rest ih => intro t; exact ih (applyCommand t c)

end mixer

/-- A producer-side call puts its command at the back of the queue. -/
theorem Audio.call_commandQueue {F P U : Type} (a : Audio F P U) (c : Audio.Call F P U) :
    (a.call c).mixer.commandQueue = a.mixer.commandQueue ++ [a.commandOf c] := by
  cases c <;> rfl

/-- The pull `Audio::getData`, whatever the body of `Mixer::getData`: the body runs on the
mixer with its queue emptied and on the table with the whole queue drained into it. -/
theorem Audio.getData_eq {F P U : Type} (a : Audio F P U) (mixerGetData : DataGetter F P U)
    (t : mixer.ObjectTable F P U) (frames channels sampleRate : Nat) :
    a.getData mixerGetData t frames channels sampleRate =
      ({ a with mixer := (mixerGetData { a.mixer with commandQueue := [] }
          (mixer.drain t a.mixer.commandQueue) frames channels sampleRate).1 },
        (mixerGetData { a.mixer with commandQueue := [] }
          (mixer.drain t a.mixer.commandQueue) frames channels sampleRate).2) := rfl

/-- The pull `Audio::getData` with `Mixer::getData` as the spec has it: the queue is left
empty, the table is the old one with the whole queue drained into it, and the block is
rendered from that table. -/
theorem Audio.getData_spec {F P U : Type} (a : Audio F P U) (t : mixer.ObjectTable F P U)
    (frames channels sampleRate : Nat) :
    a.getData mixer.Mixer.getData t frames channels sampleRate =
      ({ a with mixer := { a.mixer with commandQueue := [] } },
        mixer.drain t a.mixer.commandQueue,
        mixer.render (mixer.drain t a.mixer.commandQueue) frames channels sampleRate) := rfl

/-- One event keeps the bookkeeping of a run right. -/
theorem History.step_inv {F P U : Type} (t0 : mixer.ObjectTable F P U) (h : History F P U)
    (e : Event F P U)
    (h1 : h.applied ++ h.audio.mixer.commandQueue = h.enqueued)
    (h2 : h.table = mixer.drain t0 h.applied)
    (h3 : ∀ b ∈ h.blocks,
      b.1 = mixer.render (mixer.drain t0 b.2) b.1.frames b.1.channels b.1.sampleRate) :
    (h.step e).applied ++ (h.step e).audio.mixer.commandQueue = (h.step e).enqueued ∧
    (h.step e).table = mixer.drain t0 (h.step e).applied ∧
    (∀ b ∈ (h.step e).blocks,
      b.1 = mixer.render (mixer.drain t0 b.2) b.1.frames b.1.channels b.1.sampleRate) := by
  cases e with
  | call c =>
    refine ⟨?_, h2, h3⟩
    show h.applied ++ (h.audio.call c).mixer.commandQueue = h.enqueued ++ [h.audio.commandOf c]
    rw [Audio.call_commandQueue, ← List.append_assoc, h1]
  | pull frames channels sampleRate =>
    have ht : mixer.drain h.table h.audio.mixer.commandQueue = mixer.drain t0 h.enqueued := by
      rw [h2, ← mixer.drain_append, h1]
    refine ⟨?_, ?_, ?_⟩
    · show (h.applied ++ h.audio.mixer.commandQueue) ++ [] = h.enqueued
      rw [List.append_nil, h1]
    · show mixer.drain h.table h.audio.mixer.commandQueue =
        mixer.drain t0 (h.applied ++ h.audio.mixer.commandQueue)
      rw [h1, ht]
    · intro b hb
      have hb2 : b ∈ h.blocks ++
          [(mixer.render (mixer.drain h.table h.audio.mixer.commandQueue)
            frames channels sampleRate, h.enqueued)] := hb
      rcases List.mem_append.mp hb2 with hb3 | hb3
      · exact h3 b hb3
      · rw [List.mem_singleton] at hb3
        rw [hb3, ht]
        rfl

/-- The bookkeeping of a run is right after any sequence of events. -/
theorem History.foldl_inv {F P U : Type} (t0 : mixer.ObjectTable F P U)
    (events : List (Event F P U)) :
    ∀ h : History F P U,
    h.applied ++ h.audio.mixer.commandQueue = h.enqueued →
    h.table = mixer.drain t0 h.applied →
    (∀ b ∈ h.blocks,
      b.1 = mixer.render (mixer.drain t0 b.2) b.1.frames b.1.channels b.1.sampleRate) →
    (events.foldl History.step h).applied ++
        (events.foldl History.step h).audio.mixer.commandQueue =
      (events.foldl History.step h).enqueued ∧
    (events.foldl History.step h).table = mixer.drain t0 (events.foldl History.step h).applied ∧
    (∀ b ∈ (events.foldl History.step h).blocks,
      b.1 = mixer.render (mixer.drain t0 b.2) b.1.frames b.1.channels b.1.sampleRate) := by
  induction events with
  | nil => intro h h1 h2 h3; exact ⟨h1, h2, h3⟩
  | cons e rest ih =>
    intro h h1 h2 h3
    obtain ⟨k1, k2, k3⟩ := History.step_inv t0 h e h1 h2 h3
    exact ih (h.step e) k1 k2 k3

namespace mixer

variable {F P U : Type}

theorem entryAt_some_length {β : Type} (l : List (Nat × β)) (id : Nat) (b : β)
    (h : entryAt l id = some b) : 0 < l.length := by
  cases l with
  | nil => cases h
  | cons e rest => exact Nat.succ_pos _

/-- The render of a table whose master bus is a bus of the table: the first step mixes the
master bus, then come the steps of its inputs in registration order, then those of its
processors in attachment order. -/
theorem render_master (t : ObjectTable F P U) (busId : Nat) (inputs processors : List Nat)
    (frames channels sampleRate : Nat) (hm : t.masterBus = some busId)
    (hf : t.find busId = some (.bus inputs processors)) :
    (render t frames channels sampleRate).steps =
      .mixBus busId :: ((inputs.flatMap fun i => Bus.process t (t.objects.length - 1) i) ++
        processors.map fun p => processorStep t p) := by
  have hl := entryAt_some_length t.objects busId _ hf
  obtain ⟨n, hn⟩ : ∃ n, t.objects.length = n + 1 := ⟨t.objects.length - 1, by omega⟩
  unfold render
  simp only [hm, hn, Bus.process, hf, Nat.add_sub_cancel]

end mixer

/-- The commands enqueued in a run are those of its producer calls, in call order. -/
theorem History.foldl_enqueued {F P U : Type} (events : List (Event F P U)) :
    ∀ h : History F P U,
      (events.foldl History.step h).enqueued = h.enqueued ++ Audio.enqueuedBy h.audio events := by
  induction events with
  | nil => intro h; exact (List.append_nil _).symm
  | cons e rest ih =>
    intro h
    cases e with
    | call c =>
      rw [List.foldl_cons, ih]
      show (h.enqueued ++ [h.audio.commandOf c]) ++ Audio.enqueuedBy (h.audio.call c) rest = _
      rw [List.append_assoc]
      rfl
    | pull frames channels sampleRate =>
      rw [List.foldl_cons, ih]
      rfl

/-- C17: in any sequence of producer calls and pulls, started from any state, the commands
applied so far followed by the commands still queued are the commands enqueued so far, which
are the commands of the producer calls in call order; the table is the start table with the
applied commands applied front to back, one by one; every block rendered, and the block of a
pull after the whole sequence, is the render of the table that has every command enqueued
before its pull applied in that order. That render shows the table: its first step mixes the
master bus of that table, followed by the steps of the inputs and processors the table has
for it. On a newly constructed `Audio` the first pull renders the master bus the constructor
has enqueued, and the pull after `deleteObject(0)` renders nothing. -/
theorem c17_commands_applied_in_order {F P U : Type} (a : Audio F P U)
    (t : mixer.ObjectTable F P U) (events : List (Event F P U)) :
    (History.run a t events).applied ++ (History.run a t events).audio.mixer.commandQueue =
      (History.run a t events).enqueued ∧
    (History.run a t events).enqueued =
      a.mixer.commandQueue ++ Audio.enqueuedBy a events ∧
    (History.run a t events).table =
      (History.run a t events).applied.foldl mixer.applyCommand t ∧
    (∀ b ∈ (History.run a t events).blocks,
      b.1 = mixer.render (b.2.foldl mixer.applyCommand t)
        b.1.frames b.1.channels b.1.sampleRate) ∧
    (∀ frames channels sampleRate,
      ((History.run a t events).audio.getData mixer.Mixer.getData
          (History.run a t events).table frames channels sampleRate).2.2 =
        mixer.render ((a.mixer.commandQueue ++ Audio.enqueuedBy a events).foldl
          mixer.applyCommand t) frames channels sampleRate) ∧
    (∀ (table : mixer.ObjectTable F P U) (busId : Nat) (inputs processors : List Nat)
        (frames channels sampleRate : Nat),
      table.masterBus = some busId → table.find busId = some (.bus inputs processors) →
      (mixer.render table frames channels sampleRate).steps =
        .mixBus busId ::
          ((inputs.flatMap fun i => mixer.Bus.process table (table.objects.length - 1) i) ++
            processors.map fun p => mixer.processorStep table p)) ∧
    (constructedAudio.mixer.commandQueue = [.InitBusCommand 0, .SetMasterBusCommand 0] ∧
      ((History.run constructedAudio mixer.ObjectTable.empty
        [.pull 2 2 44100, .call (.deleteObject 0), .pull 2 2 44100]).blocks.map
          fun b => (b.1.steps, b.2)) =
        [([.mixBus 0], [.InitBusCommand 0, .SetMasterBusCommand 0]),
          ([], [.InitBusCommand 0, .SetMasterBusCommand 0, .DeleteObjectCommand 0])]) ∧
    (∀ c : Audio.Call F P U,
      (a.call c).mixer.commandQueue = a.mixer.commandQueue ++ [a.commandOf c]) ∧
    (∀ frames channels sampleRate,
      (a.getData mixer.Mixer.getData t frames channels sampleRate).1.mixer.commandQueue = [] ∧
      (a.getData mixer.Mixer.getData t frames channels sampleRate).2.1 =
        a.mixer.commandQueue.foldl mixer.applyCommand t ∧
      (a.getData mixer.Mixer.getData t frames channels sampleRate).2.2 =
        mixer.render (a.mixer.commandQueue.foldl mixer.applyCommand t)
          frames channels sampleRate) := by
  obtain ⟨k1, k2, k3⟩ := History.foldl_inv t events
    { audio := a, table := t, enqueued := a.mixer.commandQueue, applied := [], blocks := [] }
    (List.nil_append _) rfl (fun b hb => by cases hb)
  have k4 : (History.run a t events).enqueued =
      a.mixer.commandQueue ++ Audio.enqueuedBy a events :=
    History.foldl_enqueued events
      { audio := a, table := t, enqueued := a.mixer.commandQueue, applied := [], blocks := [] }
  refine ⟨k1, k4, ?_, ?_, ?_, ?_, by decide, Audio.call_commandQueue a, ?_⟩
  · rw [← mixer.drain_eq_foldl]
    exact k2
  · intro b hb
    rw [← mixer.drain_eq_foldl]
    exact k3 b hb
  · intro frames channels sampleRate
    have k5 : (History.run a t events).applied ++
        (History.run a t events).audio.mixer.commandQueue =
          (History.run a t events).enqueued := k1
    have k6 : (History.run a t events).table =
        mixer.drain t (History.run a t events).applied := k2
    rw [Audio.getData_spec, ← mixer.drain_eq_foldl, ← k4, ← k5, mixer.drain_append, ← k6]
  · intro table busId inputs processors frames channels sampleRate hm hf
    exact mixer.render_master table busId inputs processors frames channels sampleRate hm hf
  · intro frames channels sampleRate
    rw [Audio.getData_spec, ← mixer.drain_eq_foldl]
    exact ⟨rfl, rfl, rfl⟩


/-! ## The device and the constructor -/

/-- Every device `createAudioDevice` returns was constructed with the local `dataGetter`. -/
theorem createAudioDevice_getDataGetter {F P U W : Type} (flags : CompileFlags)
    (driver : Driver) (debugAudio : Bool) (window : W) :
    (createAudioDevice flags driver debugAudio window :
      String × AudioDevice (DataGetter F P U) W).2.getDataGetter = dataGetter := by
  unfold createAudioDevice
  cases driver <;> cases flags.compiled _ <;> rfl

/-- C14: a pull through `Audio::getData` runs `Mixer::getData`, whatever its body, on the
state the call `mixer.process()` before it has left: the queue is empty and the whole queue
of that moment has been drained into the table, front to back. With `Mixer::getData` as the
spec has it the block returned is the render of that table. The data getter of the device
(whichever device `createAudioDevice` returns, as for the device a constructed `Audio`
holds) is `Mixer::getData` bound to the mixer, with no call of `mixer.process()` before it;
as the spec has it, a pull through it drains the queue and then renders, and returns the
same mixer state, the same table and the same block as `Audio::getData`. -/
theorem c14_drain_before_render {F P U W : Type} (a : Audio F P U)
    (t : mixer.ObjectTable F P U) (frames channels sampleRate : Nat) :
    (∀ mixerGetData : DataGetter F P U,
      a.getData mixerGetData t frames channels sampleRate =
        ({ a with mixer := (mixerGetData { a.mixer with commandQueue := [] }
            (a.mixer.commandQueue.foldl mixer.applyCommand t) frames channels sampleRate).1 },
          (mixerGetData { a.mixer with commandQueue := [] }
            (a.mixer.commandQueue.foldl mixer.applyCommand t)
              frames channels sampleRate).2)) ∧
    a.mixer.process t =
      ({ a.mixer with commandQueue := [] }, a.mixer.commandQueue.foldl mixer.applyCommand t) ∧
    (a.getData mixer.Mixer.getData t frames channels sampleRate).2.2 =
      mixer.render (a.mixer.commandQueue.foldl mixer.applyCommand t)
        frames channels sampleRate ∧
    (a.getData mixer.Mixer.getData t frames channels sampleRate).2.1 =
      a.mixer.commandQueue.foldl mixer.applyCommand t ∧
    (a.getData mixer.Mixer.getData t frames channels sampleRate).1.mixer.commandQueue = [] ∧
    (∀ (flags : CompileFlags) (driver : Driver) (debugAudio : Bool) (window : W),
      (createAudioDevice flags driver debugAudio window :
        String × AudioDevice (DataGetter F P U) W).2.getDataGetter a.mixer t
          frames channels sampleRate =
        a.mixer.getData t frames channels sampleRate ∧
      (Audio.new flags driver debugAudio window : Audio.Members F P U W).device.getDataGetter
          a.mixer t frames channels sampleRate =
        a.mixer.getData t frames channels sampleRate) ∧
    a.mixer.getData t frames channels sampleRate =
      ({ a.mixer with commandQueue := [] },
        a.mixer.commandQueue.foldl mixer.applyCommand t,
        mixer.render (a.mixer.commandQueue.foldl mixer.applyCommand t)
          frames channels sampleRate) ∧
    a.mixer.getData t frames channels sampleRate =
      ((a.getData mixer.Mixer.getData t frames channels sampleRate).1.mixer,
        (a.getData mixer.Mixer.getData t frames channels sampleRate).2.1,
        (a.getData mixer.Mixer.getData t frames channels sampleRate).2.2) := by
  refine ⟨?_, ?_, ?_, ?_, rfl, ?_, ?_, rfl⟩
  · intro mixerGetData
    rw [← mixer.drain_eq_foldl]
    rfl
  · rw [← mixer.drain_eq_foldl]
    rfl
  · rw [← mixer.drain_eq_foldl]
    rfl
  · rw [← mixer.drain_eq_foldl]
    rfl
  · intro flags driver debugAudio window
    have h := createAudioDevice_getDataGetter (F := F) (P := P) (U := U) flags driver
      debugAudio window
    refine ⟨?_, ?_⟩
    · rw [h]
      rfl
    · show (createAudioDevice flags driver debugAudio window :
        String × AudioDevice (DataGetter F P U) W).2.getDataGetter a.mixer t
          frames channels sampleRate = _
      rw [h]
      rfl
  · rw [← mixer.drain_eq_foldl]
    rfl

/-- C16: for the driver `EMPTY`, and for a driver whose backend is not compiled in,
`createAudioDevice` returns (it is a total function) the empty audio device, constructed
with the data getter that is `Mixer::getData` bound to the mixer, and logs that no audio
driver is used. -/
theorem c16_empty_device_fallback {F P U W : Type} (flags : CompileFlags) (driver : Driver)
    (debugAudio : Bool) (window : W)
    (h : driver = Driver.EMPTY ∨ flags.compiled driver = false) :
    (createAudioDevice flags driver debugAudio window :
        String × AudioDevice (DataGetter F P U) W) =
      ("Not using audio driver", .EmptyAudioDevice dataGetter) ∧
    ∀ (m : mixer.Mixer F P U) (t : mixer.ObjectTable F P U) (frames channels sampleRate : Nat),
      (createAudioDevice flags driver debugAudio window :
        String × AudioDevice (DataGetter F P U) W).2.getDataGetter m t
          frames channels sampleRate = m.getData t frames channels sampleRate := by
  have hc : flags.compiled driver = false := by
    rcases h with h | h
    · rw [h]
      rfl
    · exact h
  have he : (createAudioDevice flags driver debugAudio window :
        String × AudioDevice (DataGetter F P U) W) =
      ("Not using audio driver", .EmptyAudioDevice dataGetter) := by
    unfold createAudioDevice
    rw [hc]
    cases driver <;> rfl
  refine ⟨he, ?_⟩
  intro m t frames channels sampleRate
  rw [he]
  rfl

/-- Witness for C16: a build with OpenAL and ALSA only, asked for WASAPI. -/
theorem c16_empty_device_fallback_witness :
    (Driver.WASAPI = Driver.EMPTY ∨ linuxFlags.compiled Driver.WASAPI = false) ∧
    ((createAudioDevice linuxFlags Driver.WASAPI false () :
        String × AudioDevice (DataGetter Unit Unit Unit) Unit) =
      ("Not using audio driver", .EmptyAudioDevice dataGetter) ∧
    ∀ (m : mixer.Mixer Unit Unit Unit) (t : mixer.ObjectTable Unit Unit Unit)
      (frames channels sampleRate : Nat),
      (createAudioDevice linuxFlags Driver.WASAPI false () :
        String × AudioDevice (DataGetter Unit Unit Unit) Unit).2.getDataGetter m t
          frames channels sampleRate = m.getData t frames channels sampleRate) :=
  ⟨Or.inr rfl, c16_empty_device_fallback linuxFlags Driver.WASAPI false () (Or.inr rfl)⟩

/-- C20: the queue of a newly constructed `Audio` holds two commands: the one that creates the
bus of the master mix, then one `SetMasterBusCommand`, which carries the id the master mix
reports as its bus id. So exactly one command of the queue is a `SetMasterBusCommand`, and
the command creating the bus stands before it. -/
theorem c20_constructor_sets_master_bus {F P U W : Type} (flags : CompileFlags)
    (driver : Driver) (debugAudio : Bool) (window : W) :
    (Audio.new flags driver debugAudio window : Audio.Members F P U W).audio.mixer.commandQueue =
      [.InitBusCommand
          (Audio.new flags driver debugAudio window : Audio.Members F P U W).masterMix.getBusId,
        .SetMasterBusCommand
          (Audio.new flags driver debugAudio window : Audio.Members F P U W).masterMix.getBusId] ∧
    (∀ busId, mixer.Command.SetMasterBusCommand busId ∈
        (Audio.new flags driver debugAudio window :
          Audio.Members F P U W).audio.mixer.commandQueue →
      busId = (Audio.new flags driver debugAudio window :
        Audio.Members F P U W).masterMix.getBusId) := by
  refine ⟨rfl, ?_⟩
  intro busId hmem
  have hq : (Audio.new flags driver debugAudio window :
      Audio.Members F P U W).audio.mixer.commandQueue =
      [.InitBusCommand 0, .SetMasterBusCommand 0] := rfl
  rw [hq] at hmem
  have hid : (Audio.new flags driver debugAudio window :
      Audio.Members F P U W).masterMix.getBusId = 0 := rfl
  rw [hid]
  simp only [List.mem_cons, List.mem_singleton, List.not_mem_nil, or_false] at hmem
  rcases hmem with h | h
  · cases h
  · cases h
    rfl


/-! ## Termination of `getData` and the position invariant -/

namespace PCMSource

/-- The difference `data.size() - position` when the position lies inside the source. -/
theorem sizeSub_inside {a b : Nat} (hb : b ≤ a) (ha : a < SIZE_MOD) : sizeSub a b = a - b := by
  unfold sizeSub
  unfold SIZE_MOD at *
  omega

/-- Rewinding keeps the position inside the source. -/
theorem rewindAtEnd_position_le (s : PCMSource α) (hp : s.position ≤ s.source.samples.length) :
    (rewindAtEnd s).position ≤ (rewindAtEnd s).source.samples.length := by
  unfold rewindAtEnd
  split
  · exact Nat.zero_le _
  · exact hp

/-- One run of the loop body from a state whose position lies inside the source and whose
pending request fits the output vector: no iterator leaves its vector, the position stays
inside the source, and the pending request still fits. -/
theorem loopBody_inv (l : Loop α) (hp : l.stream.position ≤ l.stream.source.samples.length)
    (hN : l.stream.source.samples.length < SIZE_MOD)
    (hfit : l.totalSize + l.neededSize ≤ l.samples.length)
    (hlen : l.samples.length < UINT32_MOD) :
    ∃ r, loopBody l = .ok r ∧ r.stream.position ≤ r.stream.source.samples.length ∧
      r.stream.source = l.stream.source ∧
      r.totalSize + r.neededSize ≤ r.samples.length ∧ r.samples.length = l.samples.length := by
  have hsrc : (rewindAtEnd l.stream).source = l.stream.source := rewindAtEnd_source l.stream
  have hq := rewindAtEnd_position_le l.stream hp
  rw [hsrc] at hq
  have hsub := sizeSub_inside hq hN
  obtain ⟨s, m, t, v⟩ := l
  simp only at hp hN hfit hlen hsrc hq hsub
  generalize hs2 : rewindAtEnd s = s2 at hsrc hq hsub
  obtain ⟨src2, o2, pl2, rp2, p2⟩ := s2
  simp only at hsrc hq hsub
  subst hsrc
  by_cases hshort : s.source.samples.length - p2 < m
  · have hcopy := stdCopy_ok s.source.samples v p2 s.source.samples.length t hq (le_refl _)
      (by omega)
    have hb : loopBody ⟨s, m, t, v⟩ = .ok
        { stream := { source := s.source, output := o2, playing := pl2, repeating := rp2,
                      position := toUInt32 s.source.samples.length }
          neededSize := subUInt32 m (toUInt32 (s.source.samples.length - p2))
          totalSize := addUInt32 t (toUInt32 (s.source.samples.length - p2))
          samples := List.take t v ++
            List.take (s.source.samples.length - p2) (List.drop p2 s.source.samples) ++
            List.drop (t + (s.source.samples.length - p2)) v } := by
      simp only [loopBody, hs2, hsub, hshort, if_true, hcopy]
    refine ⟨_, hb, ?_, ?_, ?_, ?_⟩
    · simp only [toUInt32]
      exact Nat.mod_le _ _
    · rfl
    · simp only [subUInt32, addUInt32, toUInt32, List.length_append, List.length_take,
        List.length_drop]
      unfold UINT32_MOD at *
      omega
    · simp only [List.length_append, List.length_take, List.length_drop]
      omega
  · have hcopy := stdCopy_ok s.source.samples v p2 (p2 + m) t (by omega) (by omega) (by omega)
    have hb : loopBody ⟨s, m, t, v⟩ = .ok
        { stream := { source := s.source, output := o2, playing := pl2, repeating := rp2,
                      position := addUInt32 p2 m }
          neededSize := 0
          totalSize := addUInt32 t m
          samples := List.take t v ++
            List.take (p2 + m - p2) (List.drop p2 s.source.samples) ++
            List.drop (t + (p2 + m - p2)) v } := by
      simp only [loopBody, hs2, hsub, hshort, if_false, hcopy]
    refine ⟨_, hb, ?_, ?_, ?_, ?_⟩
    · simp only [addUInt32]
      exact le_trans (Nat.mod_le _ _) (by omega)
    · rfl
    · simp only [addUInt32, List.length_append, List.length_take, List.length_drop]
      unfold UINT32_MOD at *
      omega
    · simp only [List.length_append, List.length_take, List.length_drop]
      omega

/-- The copy loop from a state whose position lies inside the source: no iterator ever
leaves its vector, and every state the loop ends in has its position inside the source. -/
theorem copyLoop_inv (fuel : Nat) : ∀ (l : Loop α),
    l.stream.position ≤ l.stream.source.samples.length →
    l.stream.source.samples.length < SIZE_MOD →
    l.totalSize + l.neededSize ≤ l.samples.length → l.samples.length < UINT32_MOD →
    copyLoop fuel l ≠ .error .outOfRange ∧
    ∀ r, copyLoop fuel l = .ok r →
      r.stream.position ≤ r.stream.source.samples.length ∧
      r.stream.source = l.stream.source ∧ r.totalSize ≤ r.samples.length := by
  induction fuel with
  | zero =>
    intro l hp _ hfit _
    unfold copyLoop
    split
    · exact ⟨(fun h => by cases h), fun r h => by cases h⟩
    · refine ⟨(fun h => by cases h), fun r h => ?_⟩
      simp only [Except.ok.injEq] at h
      subst h
      exact ⟨hp, rfl, by omega⟩
  | succ fuel ih =>
    intro l hp hN hfit hlen
    unfold copyLoop
    split
    · obtain ⟨b, hb, b1, b2, b3, b4⟩ := loopBody_inv l hp hN hfit hlen
      simp only [hb]
      split
      · refine ⟨(fun h => by cases h), fun r h => ?_⟩
        simp only [Except.ok.injEq] at h
        subst h
        exact ⟨b1, b2, by omega⟩
      · obtain ⟨i1, i2⟩ := ih b b1 (by rw [b2]; exact hN) b3 (by rw [b4]; exact hlen)
        refine ⟨i1, fun r h => ?_⟩
        obtain ⟨j1, j2, j3⟩ := i2 r h
        exact ⟨j1, by rw [j2, b2], j3⟩
    · refine ⟨(fun h => by cases h), fun r h => ?_⟩
      simp only [Except.ok.injEq] at h
      subst h
      exact ⟨hp, rfl, by omega⟩

/-- The position the end-of-data check leaves. -/
theorem endOfData_position (s : PCMSource α) (hp : s.position ≤ s.source.samples.length)
    (hN : s.source.samples.length < SIZE_MOD) :
    (endOfData s).source = s.source ∧
    (0 < s.source.samples.length → (endOfData s).position < s.source.samples.length) ∧
    (s.source.samples.length = 0 → (endOfData s).position = 0) := by
  have hsub := sizeSub_inside hp hN
  unfold endOfData
  rw [hsub]
  by_cases h : s.source.samples.length - s.position = 0
  · simp only [h, beq_self_eq_true, if_true]
    exact ⟨by unfold reset; split <;> rfl, fun h0 => h0, fun _ => rfl⟩
  · have hne : (s.source.samples.length - s.position == 0) = false := by
      simpa using h
    rw [hne, if_neg (by simp)]
    exact ⟨rfl, fun _ => by omega, fun h0 => by omega⟩

/-- A pull on a stream whose position lies inside its source hands no out-of-range iterator
to `std::copy` or `std::fill`, and on return the position is below the size of the source
(0 for a source without samples). -/
theorem getData_inv [Zero α] (fuel : Nat) (s : PCMSource α) (frames : Nat) (buf : List α)
    (hp : s.position ≤ s.source.samples.length) (hN : s.source.samples.length < SIZE_MOD) :
    getData fuel s frames buf ≠ .error .outOfRange ∧
    ∀ r, getData fuel s frames buf = .ok r →
      r.1.source = s.source ∧
      (0 < s.source.samples.length → r.1.position < s.source.samples.length) ∧
      (s.source.samples.length = 0 → r.1.position = 0) := by
  have hn := mulUInt32_lt frames s.source.channels
  have hlen := length_vectorResize buf (mulUInt32 frames s.source.channels)
  obtain ⟨i1, i2⟩ := copyLoop_inv fuel
    ⟨s, mulUInt32 frames s.source.channels, 0,
      vectorResize buf (mulUInt32 frames s.source.channels)⟩
    hp hN (by simp only; omega) (by simp only; omega)
  unfold getData
  simp only
  cases hl : copyLoop fuel ⟨s, mulUInt32 frames s.source.channels, 0,
      vectorResize buf (mulUInt32 frames s.source.channels)⟩ with
  | error e =>
    refine ⟨fun h => ?_, fun r h => by cases h⟩
    simp only [Except.error.injEq] at h
    rw [h] at hl
    exact i1 hl
  | ok l =>
    obtain ⟨j1, j2, j3⟩ := i2 l hl
    simp only at j2
    simp only [stdFillZero, j3, if_true]
    refine ⟨(fun h => by cases h), fun r h => ?_⟩
    simp only [Except.ok.injEq] at h
    subst h
    obtain ⟨e1, e2, e3⟩ := endOfData_position l.stream j1 (by rw [j2]; exact hN)
    rw [j2] at e1 e2 e3
    exact ⟨e1, e2, e3⟩

/-- A sequence of operations keeps the source and keeps the position inside it; no pull of
the sequence hands an out-of-range iterator to `std::copy` or `std::fill`. -/
theorem runOps_inv [Zero α] (fuel : Nat) (ops : List (Op α)) : ∀ (s : PCMSource α),
    s.position ≤ s.source.samples.length → s.source.samples.length < SIZE_MOD →
    runOps fuel s ops ≠ .error .outOfRange ∧
    ∀ r, runOps fuel s ops = .ok r →
      r.source = s.source ∧ r.position ≤ r.source.samples.length := by
  induction ops with
  | nil =>
    intro s hp _
    refine ⟨(fun h => by cases h), fun r h => ?_⟩
    simp only [runOps, Except.ok.injEq] at h
    subst h
    exact ⟨rfl, hp⟩
  | cons op rest ih =>
    intro s hp hN
    have hstep : applyOp fuel s op ≠ .error .outOfRange ∧
        ∀ s2, applyOp fuel s op = .ok s2 →
          s2.source = s.source ∧ s2.position ≤ s2.source.samples.length := by
      cases op with
      | getData frames samples =>
        obtain ⟨g1, g2⟩ := getData_inv fuel s frames samples hp hN
        simp only [applyOp]
        cases hg : PCMSource.getData fuel s frames samples with
        | error e =>
          refine ⟨fun h => ?_, fun s2 h => by cases h⟩
          simp only [Except.error.injEq] at h
          rw [h] at hg
          exact g1 hg
        | ok r =>
          refine ⟨(fun h => by cases h), fun s2 h => ?_⟩
          simp only [Except.ok.injEq] at h
          subst h
          obtain ⟨k1, k2, k3⟩ := g2 r hg
          refine ⟨k1, ?_⟩
          rw [k1]
          rcases Nat.eq_zero_or_pos s.source.samples.length with h0 | h0
          · rw [k3 h0]; exact Nat.zero_le _
          · exact Nat.le_of_lt (k2 h0)
      | reset =>
        refine ⟨(fun h => by cases h), fun s2 h => ?_⟩
        simp only [applyOp, Except.ok.injEq] at h
        subst h
        exact ⟨rfl, Nat.zero_le _⟩
      | setRepeating b =>
        refine ⟨(fun h => by cases h), fun s2 h => ?_⟩
        simp only [applyOp, Except.ok.injEq] at h
        subst h
        exact ⟨rfl, hp⟩
      | setPlaying b =>
        refine ⟨(fun h => by cases h), fun s2 h => ?_⟩
        simp only [applyOp, Except.ok.injEq] at h
        subst h
        exact ⟨rfl, hp⟩
    obtain ⟨t1, t2⟩ := hstep
    unfold runOps
    cases ha : applyOp fuel s op with
    | error e =>
      refine ⟨fun h => ?_, fun r h => by cases h⟩
      simp only [Except.error.injEq] at h
      rw [h] at ha
      exact t1 ha
    | ok s2 =>
      obtain ⟨u1, u2⟩ := t2 s2 ha
      obtain ⟨v1, v2⟩ := ih s2 u2 (by rw [u1]; exact hN)
      refine ⟨v1, fun r h => ?_⟩
      obtain ⟨w1, w2⟩ := v2 r h
      exact ⟨by rw [w1, u1], w2⟩

/-- A repeating stream over a source without samples: the loop body changes nothing, neither
the stream nor the pending request nor the vector. -/
theorem loopBody_empty_repeating (l : Loop α) (hrep : l.stream.repeating = true)
    (h0 : l.stream.source.samples.length = 0) (hp : l.stream.position = 0)
    (hm : l.neededSize < UINT32_MOD) (ht : l.totalSize < UINT32_MOD)
    (hfit : l.totalSize ≤ l.samples.length) (hpos : 0 < l.neededSize) : loopBody l = .ok l := by
  have hN : l.stream.source.samples.length < UINT32_MOD := by
    rw [h0]
    exact Nat.lt_of_lt_of_le hpos (Nat.le_of_lt hm)
  have hrs : rewindAtEnd l.stream = l.stream := by
    rw [rewindAtEnd_at_end l.stream hrep (by rw [hp, h0]) hN]
    obtain ⟨⟨src, output, playing, repeating, p⟩, m, t, v⟩ := l
    simp only at hp
    subst hp
    rfl
  obtain ⟨⟨⟨ch, sr, data⟩, output, playing, repeating, p⟩, m, t, v⟩ := l
  simp only at hrep h0 hp hm ht hfit hpos hN hrs
  have hsub : sizeSub data.length p = data.length - p :=
    sizeSub_of_le (by omega) hN
  have hshort : data.length - p < m := by omega
  have hcopy := stdCopy_ok data v p data.length t (by omega) (le_refl _) (by omega)
  have hv : List.take t v ++ List.take (data.length - p) (List.drop p data) ++
      List.drop (t + (data.length - p)) v = v := by
    have hz : data.length - p = 0 := by omega
    rw [hz, List.take_zero, List.append_nil, Nat.add_zero, List.take_append_drop]
  have h1 : subUInt32 m (toUInt32 (data.length - p)) = m := by
    unfold subUInt32 toUInt32
    unfold UINT32_MOD at *
    omega
  have h2 : addUInt32 t (toUInt32 (data.length - p)) = t := by
    unfold addUInt32 toUInt32
    unfold UINT32_MOD at *
    omega
  have h3 : toUInt32 data.length = p := by
    unfold toUInt32
    unfold UINT32_MOD at *
    omega
  simp only [loopBody, hrs, hsub, hshort, if_true, hcopy, hv, h1, h2, h3]

/-- A repeating stream over a source without samples with a request pending: the loop does
not end, whatever the number of iterations allowed. -/
theorem copyLoop_empty_repeating (l : Loop α) (hrep : l.stream.repeating = true)
    (h0 : l.stream.source.samples.length = 0) (hp : l.stream.position = 0)
    (hm : l.neededSize < UINT32_MOD) (ht : l.totalSize < UINT32_MOD)
    (hfit : l.totalSize ≤ l.samples.length) (hpos : 0 < l.neededSize) :
    ∀ fuel, copyLoop fuel l = .error .outOfFuel := by
  have hb := loopBody_empty_repeating l hrep h0 hp hm ht hfit hpos
  intro fuel
  induction fuel with
  | zero => simp only [copyLoop, hpos, if_true]
  | succ fuel ih =>
    have hr : (!l.stream.isRepeating) = false := by simp [isRepeating, hrep]
    rw [copyLoop, if_pos hpos, hb]
    simp only [hr, Bool.false_eq_true, if_false]
    exact ih

/-! ## Every pull returns: sources of any size -/

/-- Rewinding changes neither flag of the stream. -/
theorem rewindAtEnd_flags (s : PCMSource α) :
    (rewindAtEnd s).repeating = s.repeating ∧ (rewindAtEnd s).playing = s.playing := by
  unfold rewindAtEnd reset
  split <;> exact ⟨rfl, rfl⟩

/-- After the rewind a repeating stream over a source with samples stands before the end. -/
theorem rewindAtEnd_position_lt (s : PCMSource α) (hrep : s.repeating = true)
    (hpos : 0 < s.source.samples.length) (hp : s.position ≤ s.source.samples.length)
    (hN : s.source.samples.length < SIZE_MOD) :
    (rewindAtEnd s).position < s.source.samples.length := by
  have hsub := sizeSub_inside hp hN
  unfold rewindAtEnd isRepeating
  rw [hrep, hsub]
  by_cases h : s.source.samples.length - s.position = 0
  · rw [h]
    simp only [Bool.true_and, beq_self_eq_true, if_true]
    exact hpos
  · have hne : (s.source.samples.length - s.position == 0) = false := by simpa using h
    rw [hne]
    simp only [Bool.and_false, Bool.false_eq_true, if_false]
    omega

/-- One run of the loop body from a state whose position lies inside the source and whose
pending request fits the output vector: the body returns, keeps the source, the flags and
the size of the vector, keeps the position inside the source and the request fitting, and on
a repeating stream over a source with samples the pending request gets smaller. -/
theorem loopBody_progress (l : Loop α)
    (hp : l.stream.position ≤ l.stream.source.samples.length)
    (hN : l.stream.source.samples.length < SIZE_MOD)
    (hfit : l.totalSize + l.neededSize ≤ l.samples.length)
    (hlen : l.samples.length < UINT32_MOD) :
    ∃ r, loopBody l = .ok r ∧ r.stream.position ≤ r.stream.source.samples.length ∧
      r.stream.source = l.stream.source ∧ r.stream.repeating = l.stream.repeating ∧
      r.totalSize + r.neededSize ≤ r.samples.length ∧ r.samples.length = l.samples.length ∧
      (l.stream.repeating = true → 0 < l.stream.source.samples.length → 0 < l.neededSize →
        r.neededSize < l.neededSize) := by
  have hsrc : (rewindAtEnd l.stream).source = l.stream.source := rewindAtEnd_source l.stream
  have hq := rewindAtEnd_position_le l.stream hp
  rw [hsrc] at hq
  have hsub := sizeSub_inside hq hN
  have hfl := (rewindAtEnd_flags l.stream).1
  have hlt := fun h1 h2 => rewindAtEnd_position_lt l.stream h1 h2 hp hN
  obtain ⟨s, m, t, v⟩ := l
  simp only at hp hN hfit hlen hsrc hq hsub hfl hlt
  generalize hs2 : rewindAtEnd s = s2 at hsrc hq hsub hfl hlt
  obtain ⟨src2, o2, pl2, rp2, p2⟩ := s2
  simp only at hsrc hq hsub hfl hlt
  subst hsrc
  by_cases hshort : s.source.samples.length - p2 < m
  · have hcopy := stdCopy_ok s.source.samples v p2 s.source.samples.length t hq (le_refl _)
      (by omega)
    have hb : loopBody ⟨s, m, t, v⟩ = .ok
        { stream := { source := s.source, output := o2, playing := pl2, repeating := rp2,
                      position := toUInt32 s.source.samples.length }
          neededSize := subUInt32 m (toUInt32 (s.source.samples.length - p2))
          totalSize := addUInt32 t (toUInt32 (s.source.samples.length - p2))
          samples := List.take t v ++
            List.take (s.source.samples.length - p2) (List.drop p2 s.source.samples) ++
            List.drop (t + (s.source.samples.length - p2)) v } := by
      simp only [loopBody, hs2, hsub, hshort, if_true, hcopy]
    refine ⟨_, hb, ?_, ?_, ?_, ?_, ?_, ?_⟩
    · simp only [toUInt32]
      exact Nat.mod_le _ _
    · rfl
    · exact hfl
    · simp only [subUInt32, addUInt32, toUInt32, List.length_append, List.length_take,
        List.length_drop]
      unfold UINT32_MOD at *
      omega
    · simp only [List.length_append, List.length_take, List.length_drop]
      omega
    · intro h1 h2 h3
      have h4 := hlt h1 h2
      simp only [subUInt32, toUInt32]
      unfold UINT32_MOD at *
      omega
  · have hcopy := stdCopy_ok s.source.samples v p2 (p2 + m) t (by omega) (by omega) (by omega)
    have hb : loopBody ⟨s, m, t, v⟩ = .ok
        { stream := { source := s.source, output := o2, playing := pl2, repeating := rp2,
                      position := addUInt32 p2 m }
          neededSize := 0
          totalSize := addUInt32 t m
          samples := List.take t v ++
            List.take (p2 + m - p2) (List.drop p2 s.source.samples) ++
            List.drop (t + (p2 + m - p2)) v } := by
      simp only [loopBody, hs2, hsub, hshort, if_false, hcopy]
    refine ⟨_, hb, ?_, ?_, ?_, ?_, ?_, ?_⟩
    · simp only [addUInt32]
      exact le_trans (Nat.mod_le _ _) (by omega)
    · rfl
    · exact hfl
    · simp only [addUInt32, List.length_append, List.length_take, List.length_drop]
      unfold UINT32_MOD at *
      omega
    · simp only [List.length_append, List.length_take, List.length_drop]
      omega
    · intro _ _ h3
      exact h3

/-- The copy loop from a state whose position lies inside the source returns within as many
iterations as samples are pending, unless the stream repeats over a source without
samples. -/
theorem copyLoop_total : ∀ (fuel : Nat) (l : Loop α),
    l.stream.position ≤ l.stream.source.samples.length →
    l.stream.source.samples.length < SIZE_MOD →
    l.totalSize + l.neededSize ≤ l.samples.length → l.samples.length < UINT32_MOD →
    (l.stream.repeating = false ∨ 0 < l.stream.source.samples.length) →
    l.neededSize ≤ fuel →
    ∃ r, copyLoop fuel l = .ok r ∧ r.totalSize ≤ r.samples.length
  | 0, l, _, _, hfit, _, _, hfuel => by
    have h0 : ¬ l.neededSize > 0 := by omega
    refine ⟨l, ?_, by omega⟩
    unfold copyLoop
    rw [if_neg h0]
  | fuel + 1, l, hp, hN, hfit, hlen, hterm, hfuel => by
    unfold copyLoop
    by_cases hpos : l.neededSize > 0
    · rw [if_pos hpos]
      obtain ⟨b, hb, b1, b2, b3, b4, b5, b6⟩ := loopBody_progress l hp hN hfit hlen
      rw [hb]
      simp only
      cases hrep : l.stream.repeating with
      | false =>
        have hr : (!b.stream.isRepeating) = true := by
          unfold isRepeating
          rw [b3, hrep]
          rfl
        rw [hr, if_pos rfl]
        exact ⟨b, rfl, by omega⟩
      | true =>
        have hr : (!b.stream.isRepeating) = false := by
          unfold isRepeating
          rw [b3, hrep]
          rfl
        have hN0 : 0 < l.stream.source.samples.length := by
          rcases hterm with h | h
          · rw [hrep] at h
            cases h
          · exact h
        rw [hr, if_neg (by simp)]
        have hlt := b6 hrep hN0 hpos
        exact copyLoop_total fuel b b1 (by rw [b2]; exact hN) b4 (by rw [b5]; exact hlen)
          (Or.inr (by rw [b2]; exact hN0)) (by omega)
    · rw [if_neg hpos]
      exact ⟨l, rfl, by omega⟩

/-- A pull on a stream whose position lies inside its source returns, given one iteration of
fuel for each sample asked for, unless the stream repeats over a source without samples and
at least one sample is asked for. -/
theorem getData_total [Zero α] (s : PCMSource α) (frames : Nat) (buf : List α)
    (hp : s.position ≤ s.source.samples.length) (hN : s.source.samples.length < SIZE_MOD)
    (hterm : s.repeating = false ∨ 0 < s.source.samples.length ∨ requested s frames = 0)
    (fuel : Nat) (hfuel : requested s frames ≤ fuel) :
    ∃ r, getData fuel s frames buf = .ok r := by
  have hn := mulUInt32_lt frames s.source.channels
  have hlen := length_vectorResize buf (mulUInt32 frames s.source.channels)
  have hloop : ∃ r, copyLoop fuel ⟨s, mulUInt32 frames s.source.channels, 0,
      vectorResize buf (mulUInt32 frames s.source.channels)⟩ = .ok r ∧
      r.totalSize ≤ r.samples.length := by
    rcases hterm with h | h | h
    · exact copyLoop_total fuel _ hp hN (by simp only; omega) (by simp only; omega)
        (Or.inl h) hfuel
    · exact copyLoop_total fuel _ hp hN (by simp only; omega) (by simp only; omega)
        (Or.inr h) hfuel
    · unfold requested at h
      rw [h]
      exact ⟨_, copyLoop_done fuel _ rfl, Nat.zero_le _⟩
  obtain ⟨r, hr, hr2⟩ := hloop
  unfold getData
  simp only [hr, stdFillZero, hr2, if_true]
  exact ⟨_, rfl⟩

/-- A stream whose position lies behind the end of its source: a run of the loop body hands
`std::copy` a range outside the source. -/
theorem loopBody_outside (l : Loop α)
    (hp : l.stream.source.samples.length < l.stream.position)
    (hp32 : l.stream.position < UINT32_MOD) (hm : l.neededSize < UINT32_MOD) :
    loopBody l = .error .outOfRange := by
  obtain ⟨⟨⟨ch, sr, data⟩, output, playing, repeating, p⟩, m, t, v⟩ := l
  simp only at hp hp32 hm
  have hsub : sizeSub data.length p = SIZE_MOD + data.length - p := by
    unfold sizeSub
    unfold UINT32_MOD at *
    unfold SIZE_MOD
    omega
  have hne : (sizeSub data.length p == 0) = false := by
    rw [hsub]
    unfold UINT32_MOD at *
    unfold SIZE_MOD
    simp only [beq_eq_false_iff_ne, ne_eq]
    omega
  have hrs : rewindAtEnd ⟨⟨ch, sr, data⟩, output, playing, repeating, p⟩ =
      ⟨⟨ch, sr, data⟩, output, playing, repeating, p⟩ := by
    unfold rewindAtEnd
    simp only [hne, Bool.and_false, Bool.false_eq_true, if_false]
  have hlong : ¬ sizeSub data.length p < m := by
    rw [hsub]
    unfold UINT32_MOD at *
    unfold SIZE_MOD
    omega
  have hcopy : stdCopy data p (p + m) v t = .error .outOfRange := by
    unfold stdCopy
    rw [if_neg (by omega)]
  simp only [loopBody, hrs, hlong, if_false, hcopy]

/-- A pull never runs out of fuel, given one iteration of fuel for each sample asked for,
unless the stream repeats over a source without samples. -/
theorem getData_ne_outOfFuel [Zero α] (s : PCMSource α) (frames : Nat) (buf : List α)
    (hp32 : s.position < UINT32_MOD) (hN : s.source.samples.length < SIZE_MOD)
    (hterm : s.repeating = false ∨ 0 < s.source.samples.length)
    (fuel : Nat) (hfuel : requested s frames ≤ fuel) :
    getData fuel s frames buf ≠ .error .outOfFuel := by
  by_cases hp : s.position ≤ s.source.samples.length
  · obtain ⟨r, hr⟩ := getData_total s frames buf hp hN
      (hterm.elim Or.inl fun h => Or.inr (Or.inl h)) fuel hfuel
    rw [hr]
    exact fun h => by cases h
  · have hn := mulUInt32_lt frames s.source.channels
    unfold requested at hfuel
    unfold getData
    simp only
    by_cases hpos : mulUInt32 frames s.source.channels > 0
    · obtain ⟨fuel, rfl⟩ : ∃ f, fuel = f + 1 := ⟨fuel - 1, by omega⟩
      have hb := loopBody_outside ⟨s, mulUInt32 frames s.source.channels, 0,
        vectorResize buf (mulUInt32 frames s.source.channels)⟩ (by simp only; omega) hp32 hn
      simp only [copyLoop, hpos, if_true, hb]
      exact fun h => by cases h
    · have h0 : mulUInt32 frames s.source.channels = 0 := by omega
      rw [copyLoop_done _ _ h0]
      simp only [stdFillZero, Nat.zero_le, if_true]
      exact fun h => by cases h

/-- A pull for `n ≥ 1` samples that lie inside a source of `2^32` samples or more: the
samples are copied and the position is advanced in `uint32_t`; neither the rewind nor the
end-of-data check sees the end of the source. -/
theorem getData_wide [Zero α] (s : PCMSource α) (frames fuel : Nat) (buf : List α)
    (hwide : UINT32_MOD ≤ s.source.samples.length) (hN : s.source.samples.length < SIZE_MOD)
    (hp32 : s.position < UINT32_MOD) (hpos : 0 < requested s frames)
    (hfit : s.position + requested s frames ≤ s.source.samples.length) :
    getData (fuel + 1) s frames buf =
      .ok ({ s with position := addUInt32 s.position (requested s frames) },
        (s.source.samples.drop s.position).take (requested s frames)) := by
  obtain ⟨⟨ch, sr, data⟩, output, playing, repeating, p⟩ := s
  unfold requested at hpos hfit ⊢
  simp only at hwide hN hp32 hpos hfit ⊢
  have hn := mulUInt32_lt frames ch
  have hlen := length_vectorResize buf (mulUInt32 frames ch)
  simp only [getData]
  generalize mulUInt32 frames ch = n at hn hlen hpos hfit ⊢
  generalize vectorResize buf n = v at hlen ⊢
  have hsub : sizeSub data.length p = data.length - p := sizeSub_inside (by omega) hN
  have hne : (sizeSub data.length p == 0) = false := by
    rw [hsub]
    simp only [beq_eq_false_iff_ne, ne_eq]
    omega
  have hrs : rewindAtEnd ⟨⟨ch, sr, data⟩, output, playing, repeating, p⟩ =
      ⟨⟨ch, sr, data⟩, output, playing, repeating, p⟩ := by
    unfold rewindAtEnd
    simp only [hne, Bool.and_false, Bool.false_eq_true, if_false]
  have hlong : ¬ data.length - p < n := by omega
  have haddt : addUInt32 0 n = n := by
    unfold addUInt32
    unfold UINT32_MOD at *
    omega
  have hcopy := stdCopy_ok data v p (p + n) 0 (by omega) (by omega) (by omega)
  simp only [Nat.add_sub_cancel_left] at hcopy
  have hb : loopBody ⟨⟨⟨ch, sr, data⟩, output, playing, repeating, p⟩, n, 0, v⟩ = .ok
      ⟨⟨⟨ch, sr, data⟩, output, playing, repeating, addUInt32 p n⟩, 0, n,
        v.take 0 ++ (data.drop p).take n ++ v.drop (0 + n)⟩ := by
    simp only [loopBody, hrs, hsub, hlong, if_false, hcopy, haddt]
  have hq : addUInt32 p n < UINT32_MOD := Nat.mod_lt _ (by unfold UINT32_MOD; omega)
  have hsub2 : sizeSub data.length (addUInt32 p n) = data.length - addUInt32 p n :=
    sizeSub_inside (by omega) hN
  have hne2 : (sizeSub data.length (addUInt32 p n) == 0) = false := by
    rw [hsub2]
    simp only [beq_eq_false_iff_ne, ne_eq]
    omega
  have hend : endOfData ⟨⟨ch, sr, data⟩, output, playing, repeating, addUInt32 p n⟩ =
      ⟨⟨ch, sr, data⟩, output, playing, repeating, addUInt32 p n⟩ := by
    unfold endOfData
    simp only [hne2, Bool.false_eq_true, if_false]
  have hcl : ((data.drop p).take n).length = n := by
    simp only [List.length_take, List.length_drop]
    omega
  have hfill := stdFillZero_splice v ((data.drop p).take n) (by rw [hcl]; omega)
  rw [hcl] at hfill
  have hloop : copyLoop (fuel + 1)
      ⟨⟨⟨ch, sr, data⟩, output, playing, repeating, p⟩, n, 0, v⟩ = .ok
      ⟨⟨⟨ch, sr, data⟩, output, playing, repeating, addUInt32 p n⟩, 0, n,
        v.take 0 ++ (data.drop p).take n ++ v.drop (0 + n)⟩ := by
    rw [copyLoop, if_pos hpos, hb]
    simp only
    split
    · rfl
    · exact copyLoop_done fuel _ rfl
  rw [hloop]
  simp only
  have hfill2 : stdFillZero (v.take 0 ++ (data.drop p).take n ++ v.drop (0 + n)) n =
      .ok ((data.drop p).take n ++ List.replicate (v.length - n) 0) := by
    have := hfill
    simp only [Nat.zero_add] at this ⊢
    exact this
  rw [hfill2]
  simp only [hend, hlen, Nat.sub_self, List.replicate_zero, List.append_nil]

end PCMSource

/-- C25: a pull on any stream state (the position is a `uint32_t`, the size of the source a
`size_t`) for any request, with one iteration of fuel for each sample asked for: if the
stream does not repeat or the source has at least one sample, the run does not end for lack
of fuel, and with the position inside the source (as every pull leaves it) the call returns.
If the stream repeats over a source without samples and at least one sample is asked for,
one run of the loop body leaves the state of the loop as it was (no sample copied, the
pending request unchanged), and the call returns for no fuel at all. -/
theorem c25_getData_terminates [Zero α] (s : PCMSource α) (frames : Nat) (buf : List α)
    (hp32 : s.position < UINT32_MOD) (hN : s.source.samples.length < SIZE_MOD) :
    ((s.repeating = false ∨ 0 < s.source.samples.length) →
      ∀ fuel, requested s frames ≤ fuel →
        getData fuel s frames buf ≠ .error .outOfFuel ∧
        (s.position ≤ s.source.samples.length → ∃ r, getData fuel s frames buf = .ok r)) ∧
    (s.repeating = true → s.source.samples.length = 0 →
      s.position ≤ s.source.samples.length → 0 < requested s frames →
      loopBody (enterLoop s frames buf) = .ok (enterLoop s frames buf) ∧
      ∀ fuel, getData fuel s frames buf = .error .outOfFuel) := by
  refine ⟨?_, ?_⟩
  · intro hterm fuel hfuel
    exact ⟨getData_ne_outOfFuel s frames buf hp32 hN hterm fuel hfuel,
      fun hp => getData_total s frames buf hp hN
        (hterm.elim Or.inl fun h => Or.inr (Or.inl h)) fuel hfuel⟩
  · intro hrep h0 hp hpos
    have hp0 : s.position = 0 := by omega
    have hm := mulUInt32_lt frames s.source.channels
    have hb := loopBody_empty_repeating (enterLoop s frames buf) hrep h0 hp0 hm
      (by unfold UINT32_MOD; exact Nat.zero_lt_succ _) (Nat.zero_le _) hpos
    refine ⟨hb, fun fuel => ?_⟩
    have hc := copyLoop_empty_repeating (enterLoop s frames buf) hrep h0 hp0 hm
      (by unfold UINT32_MOD; exact Nat.zero_lt_succ _) (Nat.zero_le _) hpos fuel
    unfold enterLoop at hc
    simp only [getData, hc]

/-- Witness of `c25_getData_terminates`: the repeating stereo stream asked for four frames
returns within eight iterations; the repeating stream over the source without samples, asked
for one frame, never does. -/
theorem c25_getData_terminates_witness :
    (stereoLoop.position < UINT32_MOD ∧ stereoLoop.source.samples.length < SIZE_MOD ∧
      (stereoLoop.repeating = false ∨ 0 < stereoLoop.source.samples.length) ∧
      requested stereoLoop 4 ≤ 8 ∧
      getData 8 stereoLoop 4 [] ≠ .error .outOfFuel ∧
      (stereoLoop.position ≤ stereoLoop.source.samples.length →
        ∃ r, getData 8 stereoLoop 4 [] = .ok r)) ∧
    (emptyLoop.position < UINT32_MOD ∧ emptyLoop.source.samples.length < SIZE_MOD ∧
      loopBody (enterLoop emptyLoop 1 []) = .ok (enterLoop emptyLoop 1 []) ∧
      ∀ fuel, getData fuel emptyLoop 1 [] = .error .outOfFuel) :=
  ⟨⟨by decide, by decide, Or.inr (by decide), by decide,
      (c25_getData_terminates stereoLoop 4 [] (by decide) (by decide)).1
        (Or.inr (by decide)) 8 (by decide)⟩,
    ⟨by decide, by decide,
      (c25_getData_terminates emptyLoop 1 [] (by decide) (by decide)).2
        rfl rfl (by decide) (by decide)⟩⟩

/-- C26: from a newly created stream over a source `d`, after any sequence of pulls, resets
and changes of the flags that has returned, the stream still reads `d` and its position is
at most the number of samples `N`; no operation of the sequence, and no later pull, hands
`std::copy` or `std::fill` a range outside its vector; a later pull that returns leaves the
position below `N` (0 when `N = 0`). Inside a pull the loop is entered with the position at
most `N` and the request fitting the vector, and every run of the loop body from such a
state rewinds to a position at most `N`, copies inside both vectors, and leaves such a state
again: so `data.size() - position` is never taken with the position above `N`. -/
theorem c26_position_invariant [Zero α] (d : PCMData α) (hN : d.samples.length < SIZE_MOD)
    (fuel : Nat) (ops : List (Op α)) :
    runOps fuel (PCMSource.new d) ops ≠ .error .outOfRange ∧
    (∀ s, runOps fuel (PCMSource.new d) ops = .ok s →
      s.source = d ∧ s.position ≤ d.samples.length ∧
      ∀ fuel2 frames buf,
        getData fuel2 s frames buf ≠ .error .outOfRange ∧
        (∀ r, getData fuel2 s frames buf = .ok r →
          r.1.source = d ∧ (0 < d.samples.length → r.1.position < d.samples.length) ∧
          (d.samples.length = 0 → r.1.position = 0)) ∧
        (enterLoop s frames buf).stream.position ≤ d.samples.length ∧
        (enterLoop s frames buf).totalSize + (enterLoop s frames buf).neededSize ≤
          (enterLoop s frames buf).samples.length ∧
        (enterLoop s frames buf).samples.length < UINT32_MOD) ∧
    (∀ l : Loop α, l.stream.source = d → l.stream.position ≤ d.samples.length →
      l.totalSize + l.neededSize ≤ l.samples.length → l.samples.length < UINT32_MOD →
      (rewindAtEnd l.stream).position ≤ d.samples.length ∧
      ∃ r, loopBody l = .ok r ∧ r.stream.source = d ∧
        r.stream.position ≤ d.samples.length ∧
        r.totalSize + r.neededSize ≤ r.samples.length ∧
        r.samples.length < UINT32_MOD) := by
  obtain ⟨r1, r2⟩ := runOps_inv fuel ops (PCMSource.new d) (Nat.zero_le _) hN
  refine ⟨r1, ?_, ?_⟩
  · intro s hs
    obtain ⟨s1, s2⟩ := r2 s hs
    have s3 : s.source = d := s1
    rw [s3] at s2
    refine ⟨s3, s2, ?_⟩
    intro fuel2 frames buf
    obtain ⟨g1, g2⟩ := getData_inv fuel2 s frames buf (by rw [s3]; exact s2)
      (by rw [s3]; exact hN)
    rw [s3] at g2
    have hm := mulUInt32_lt frames s.source.channels
    have hlen := length_vectorResize buf (mulUInt32 frames s.source.channels)
    refine ⟨g1, g2, s2, ?_, ?_⟩
    · simp only [enterLoop]
      omega
    · simp only [enterLoop]
      omega
  · intro l hsrc hp hfit hlen
    have hq := rewindAtEnd_position_le l.stream (by rw [hsrc]; exact hp)
    rw [rewindAtEnd_source, hsrc] at hq
    obtain ⟨r, hr, b1, b2, b3, b4⟩ := loopBody_inv l (by rw [hsrc]; exact hp)
      (by rw [hsrc]; exact hN) hfit hlen
    refine ⟨hq, r, hr, by rw [b2, hsrc], ?_, b3, by rw [b4]; exact hlen⟩
    rw [b2, hsrc] at b1
    exact b1

/-- Witness of `c26_position_invariant`: the mono source `1, 2, 3, 4` pulled for three
samples, set to repeat, pulled for five samples and reset. -/
theorem c26_position_invariant_witness :
    demoData.samples.length < SIZE_MOD ∧
    runOps 8 (PCMSource.new demoData)
      [.getData 3 [], .setRepeating true, .getData 5 [], .reset] =
      .ok { PCMSource.new demoData with repeating := true } ∧
    (runOps 8 (PCMSource.new demoData)
      [.getData 3 [], .setRepeating true, .getData 5 [], .reset] ≠ .error .outOfRange ∧
    (∀ s, runOps 8 (PCMSource.new demoData)
        [.getData 3 [], .setRepeating true, .getData 5 [], .reset] = .ok s →
      s.source = demoData ∧ s.position ≤ demoData.samples.length ∧
      ∀ fuel2 frames buf,
        getData fuel2 s frames buf ≠ .error .outOfRange ∧
        (∀ r, getData fuel2 s frames buf = .ok r →
          r.1.source = demoData ∧
          (0 < demoData.samples.length → r.1.position < demoData.samples.length) ∧
          (demoData.samples.length = 0 → r.1.position = 0)) ∧
        (enterLoop s frames buf).stream.position ≤ demoData.samples.length ∧
        (enterLoop s frames buf).totalSize + (enterLoop s frames buf).neededSize ≤
          (enterLoop s frames buf).samples.length ∧
        (enterLoop s frames buf).samples.length < UINT32_MOD) ∧
    (∀ l : Loop Int, l.stream.source = demoData →
      l.stream.position ≤ demoData.samples.length →
      l.totalSize + l.neededSize ≤ l.samples.length → l.samples.length < UINT32_MOD →
      (rewindAtEnd l.stream).position ≤ demoData.samples.length ∧
      ∃ r, loopBody l = .ok r ∧ r.stream.source = demoData ∧
        r.stream.position ≤ demoData.samples.length ∧
        r.totalSize + r.neededSize ≤ r.samples.length ∧
        r.samples.length < UINT32_MOD)) :=
  ⟨by decide, by decide,
    c26_position_invariant demoData (by decide) 8
      [.getData 3 [], .setRepeating true, .getData 5 [], .reset]⟩


/-! ## Sources of `2^32` samples and more, and the size of the output -/

theorem wideData_length : wideData.samples.length = 4294967298 := by
  show ([1, 2, 3] ++ List.replicate 4294967295 (0 : Int)).length = 4294967298
  rw [List.length_append, List.length_replicate]
  rfl

theorem fullData_length : fullData.samples.length = 4294967296 := List.length_replicate _ _

/-- One sample asked of a mono stream is one sample, two are two, and so on below `2^32`. -/
theorem requested_mono (s : PCMSource α) (frames : Nat) (hch : s.source.channels = 1)
    (hf : frames < UINT32_MOD) : requested s frames = frames := by
  unfold requested mulUInt32
  rw [hch, Nat.mul_one, Nat.mod_eq_of_lt hf]

/-- A repeating stream three samples before the end of a source of `2^32 + 2` samples, asked
for two samples: the position wraps around in `uint32_t` and ends at 1. -/
theorem getData_wide_wraps [Zero α] (s : PCMSource α) (fuel len p : Nat) (buf : List α)
    (hch : s.source.channels = 1) (hlen : s.source.samples.length = len)
    (hl : len = 4294967298) (hp : s.position = p) (hp2 : p = 4294967295) :
    getData (fuel + 1) s 2 buf =
      .ok ({ s with position := 1 }, (s.source.samples.drop p).take 2) := by
  have hr : requested s 2 = 2 := requested_mono s 2 hch (by unfold UINT32_MOD; omega)
  have ha : addUInt32 p 2 = 1 := by
    unfold addUInt32 UINT32_MOD
    omega
  have h := getData_wide s 2 fuel buf (by rw [hlen]; unfold UINT32_MOD; omega)
    (by rw [hlen]; unfold SIZE_MOD; omega) (by rw [hp]; unfold UINT32_MOD; omega)
    (by rw [hr]; omega) (by rw [hr, hlen, hp]; omega)
  rw [hr, hp, ha] at h
  exact h

/-- A request whose `uint32_t` product `frames * channels` is 0: nothing is copied and the
vector is left empty. -/
theorem getData_nothing [Zero α] (s : PCMSource α) (frames fuel : Nat)
    (hreq : requested s frames = 0) :
    getData fuel s frames [] = .ok (endOfData s, []) := by
  have h0 : mulUInt32 frames s.source.channels = 0 := hreq
  unfold getData
  simp only
  rw [h0, copyLoop_done _ _ rfl]
  simp [vectorResize, stdFillZero]

/-- C2 (as stated, refuted): the repeating stream over a source of `N = 2^32 + 2` samples at
position `p = 2^32 - 1 < N`, asked for two samples. The call returns the two samples at `p`
and `p + 1` and leaves the position at 1, not at `(p + 2) mod N = 2^32 + 1`: the position
is a `uint32_t` and `position += neededSize` wraps around. And the repeating stereo stream
over six samples asked for `2^31` frames: `frames * channels` is `2^32`, the `uint32_t`
product is 0, and the call returns no sample at all and leaves the position at 2, not at
`(2 + 2^32) mod 6 = 0`. -/
theorem c2_position_wraps_on_wide_source :
    (wideLoopEnd.repeating = true ∧ wideLoopEnd.source.samples.length = 4294967298 ∧
      wideLoopEnd.position = 4294967295 ∧ requested wideLoopEnd 2 = 2 ∧
      (∀ fuel, getData (fuel + 1) wideLoopEnd 2 [] =
        .ok ({ wideLoopEnd with position := 1 },
          (wideLoopEnd.source.samples.drop 4294967295).take 2)) ∧
      (4294967295 + 2) % 4294967298 = 4294967297) ∧
    (stereoLoop.repeating = true ∧ stereoLoop.source.samples.length = 6 ∧
      stereoLoop.position = 2 ∧ 2147483648 * stereoLoop.source.channels = 4294967296 ∧
      (∀ fuel, getData fuel stereoLoop 2147483648 [] = .ok (stereoLoop, [])) ∧
      (2 + 4294967296) % 6 = 0) :=
  ⟨⟨rfl, wideData_length, rfl, requested_mono wideLoopEnd 2 rfl (by decide),
      fun fuel => getData_wide_wraps wideLoopEnd fuel 4294967298 4294967295 [] rfl
        wideData_length rfl rfl rfl,
      by norm_num⟩,
    ⟨rfl, rfl, rfl, by decide,
      fun fuel => getData_nothing stereoLoop 2147483648 fuel (by decide), by norm_num⟩⟩

/-- A stream without repeat at the last sample of a source of `2^32` samples, asked for one
sample: the position wraps around to 0, the end-of-data check does not see the end, and the
stream goes on playing. -/
theorem getData_full_wraps [Zero α] (s : PCMSource α) (fuel len p : Nat) (buf : List α)
    (hch : s.source.channels = 1) (hlen : s.source.samples.length = len)
    (hl : len = 4294967296) (hp : s.position = p) (hp2 : p = 4294967295) :
    getData (fuel + 1) s 1 buf =
      .ok ({ s with position := 0 }, (s.source.samples.drop p).take 1) := by
  have hr : requested s 1 = 1 := requested_mono s 1 hch (by unfold UINT32_MOD; omega)
  have ha : addUInt32 p 1 = 0 := by
    unfold addUInt32 UINT32_MOD
    omega
  have h := getData_wide s 1 fuel buf (by rw [hlen]; unfold UINT32_MOD; omega)
    (by rw [hlen]; unfold SIZE_MOD; omega) (by rw [hp]; unfold UINT32_MOD; omega)
    (by rw [hr]; omega) (by rw [hr, hlen, hp]; omega)
  rw [hr, hp, ha] at h
  exact h

/-- C5 (as stated, refuted): the playing stream without repeat at the last sample
(`p = 2^32 - 1`) of a source of `N = 2^32` samples, asked for one sample. The call consumes
the last sample (`p + n = N`), yet the stream is still playing afterwards: the `uint32_t`
position wraps around to 0, so `data.size() - position` is not 0 in the end-of-data
check. -/
theorem c5_last_sample_keeps_playing :
    fullStream.repeating = false ∧ fullStream.playing = true ∧
    fullStream.source.samples.length = 4294967296 ∧ fullStream.position = 4294967295 ∧
    requested fullStream 1 = 1 ∧
    fullStream.source.samples.length ≤ fullStream.position + requested fullStream 1 ∧
    (∀ fuel, getData (fuel + 1) fullStream 1 [] =
      .ok ({ fullStream with position := 0 },
        (fullStream.source.samples.drop 4294967295).take 1)) ∧
    ({ fullStream with position := 0 } : PCMSource Int).isPlaying = true := by
  have hr : requested fullStream 1 = 1 := requested_mono fullStream 1 rfl (by decide)
  refine ⟨rfl, rfl, fullData_length, rfl, hr, ?_, fun fuel =>
    getData_full_wraps fullStream fuel 4294967296 4294967295 [] rfl fullData_length rfl rfl
      rfl, rfl⟩
  rw [hr]
  show fullData.samples.length ≤ 4294967295 + 1
  rw [fullData_length]

/-- Four pulls on a repeating mono stream at position 0 over a source of `2^32 + 2` samples,
for `2^32 - 1`, 3, `2^32 - 1` and 3 samples (two turns of the source in all): after the first
turn the `uint32_t` position stands at 2, so the second turn starts at the third sample. -/
theorem pulls_wide_two_turns [Zero α] (s : PCMSource α) (fuel len a : Nat)
    (b1 b2 b3 b4 : List α) (hch : s.source.channels = 1)
    (hlen : s.source.samples.length = len) (hl : len = 4294967298) (hp : s.position = 0)
    (ha : a = 4294967295) :
    requestedTotal s [(a, b1), (3, b2), (a, b3), (3, b4)] = 2 * len ∧
    ∃ out, pulls (fuel + 1) s [(a, b1), (3, b2), (a, b3), (3, b4)] =
        .ok ({ s with position := 4 }, out) ∧
      out[len]? = s.source.samples[2]? := by
  have hra : ∀ q : Nat, requested ({ s with position := q } : PCMSource α) a = a :=
    fun q => requested_mono _ a hch (by unfold UINT32_MOD; omega)
  have hr3 : ∀ q : Nat, requested ({ s with position := q } : PCMSource α) 3 = 3 :=
    fun q => requested_mono _ 3 hch (by unfold UINT32_MOD; omega)
  have hs : s = { s with position := 0 } := by
    obtain ⟨src, output, playing, repeating, p⟩ := s
    simp only at hp
    subst hp
    rfl
  have hwide : UINT32_MOD ≤ len := by unfold UINT32_MOD; omega
  have hsize : len < SIZE_MOD := by unfold SIZE_MOD; omega
  have e1 : addUInt32 0 a = a := by unfold addUInt32 UINT32_MOD; omega
  have e2 : addUInt32 a 3 = 2 := by unfold addUInt32 UINT32_MOD; omega
  have e3 : addUInt32 2 a = 1 := by unfold addUInt32 UINT32_MOD; omega
  have e4 : addUInt32 1 3 = 4 := by unfold addUInt32 UINT32_MOD; omega
  have g1 := getData_wide ({ s with position := 0 } : PCMSource α) a fuel b1
    (by rw [hlen]; exact hwide) (by rw [hlen]; exact hsize)
    (by simp only; unfold UINT32_MOD; omega)
    (by rw [hra]; omega) (by rw [hra, hlen]; simp only; omega)
  have g2 := getData_wide ({ s with position := a } : PCMSource α) 3 fuel b2
    (by rw [hlen]; exact hwide) (by rw [hlen]; exact hsize)
    (by simp only; unfold UINT32_MOD; omega)
    (by rw [hr3]; omega) (by rw [hr3, hlen]; simp only; omega)
  have g3 := getData_wide ({ s with position := 2 } : PCMSource α) a fuel b3
    (by rw [hlen]; exact hwide) (by rw [hlen]; exact hsize)
    (by simp only; unfold UINT32_MOD; omega)
    (by rw [hra]; omega) (by rw [hra, hlen]; simp only; omega)
  have g4 := getData_wide ({ s with position := 1 } : PCMSource α) 3 fuel b4
    (by rw [hlen]; exact hwide) (by rw [hlen]; exact hsize)
    (by simp only; unfold UINT32_MOD; omega)
    (by rw [hr3]; omega) (by rw [hr3, hlen]; simp only; omega)
  rw [hra] at g1 g3
  rw [hr3] at g2 g4
  simp only [e1, e2, e3, e4] at g1 g2 g3 g4
  rw [← hs] at g1
  refine ⟨?_, (s.source.samples.drop 0).take a ++ ((s.source.samples.drop a).take 3 ++
    ((s.source.samples.drop 2).take a ++ ((s.source.samples.drop 1).take 3 ++ []))), ?_, ?_⟩
  · have h0 := hra s.position
    have h3 := hr3 s.position
    simp only [requestedTotal, List.map_cons, List.map_nil, List.sum_cons, List.sum_nil]
    have ea : requested s a = a := requested_mono s a hch (by unfold UINT32_MOD; omega)
    have eb : requested s 3 = 3 := requested_mono s 3 hch (by unfold UINT32_MOD; omega)
    rw [ea, eb]
    omega
  · simp only [pulls, g1, g2, g3, g4]
  · have l1 : ((s.source.samples.drop 0).take a).length = a := by
      simp only [List.length_take, List.length_drop]
      omega
    have l2 : ((s.source.samples.drop a).take 3).length = 3 := by
      simp only [List.length_take, List.length_drop]
      omega
    rw [List.getElem?_append_right (by rw [l1]; omega), l1,
      List.getElem?_append_right (by rw [l2]; omega), l2]
    have hz : len - a - 3 = 0 := by omega
    rw [hz, List.getElem?_append_left (by
      simp only [List.length_take, List.length_drop]
      omega), List.getElem?_take_of_lt (by omega), List.getElem?_drop]

/-- C3 (as stated, refuted): the repeating stream at position 0 over the `N = 2^32 + 2`
samples `1, 2, 3, 0, ...`, pulled for `2^32 - 1`, 3, `2^32 - 1` and 3 samples: `2 * N` in
all. The sample behind the first turn, at index `N` of the concatenation, is the third
sample of the source (3), not the first (1): at the end of the first turn the `uint32_t`
position wraps around to 2. -/
theorem c3_second_turn_starts_late :
    wideLoop.repeating = true ∧ wideLoop.position = 0 ∧
    wideLoop.source.samples.length = 4294967298 ∧
    requestedTotal wideLoop [(4294967295, []), (3, []), (4294967295, []), (3, [])] =
      2 * 4294967298 ∧
    (∀ fuel, ∃ out, pulls (fuel + 1) wideLoop
        [(4294967295, []), (3, []), (4294967295, []), (3, [])] =
          .ok ({ wideLoop with position := 4 }, out) ∧
        out[4294967298]? = some 3) ∧
    (List.replicate 2 wideLoop.source.samples).flatten[4294967298]? = some 1 := by
  have h := fun fuel => pulls_wide_two_turns wideLoop fuel 4294967298 4294967295 [] [] [] []
    rfl wideData_length rfl rfl rfl
  have e : wideLoop.source.samples.length = 4294967298 := wideData_length
  have e0 : wideLoop.source.samples[0]? = some 1 := by
    show ([1, 2, 3] ++ List.replicate 4294967295 (0 : Int))[0]? = some 1
    rw [List.getElem?_append_left (by decide)]
    rfl
  have e2 : wideLoop.source.samples[2]? = some 3 := by
    show ([1, 2, 3] ++ List.replicate 4294967295 (0 : Int))[2]? = some 3
    rw [List.getElem?_append_left (by decide)]
    rfl
  refine ⟨rfl, rfl, wideData_length, (h 0).1, fun fuel => ?_, ?_⟩
  · obtain ⟨out, h1, h2⟩ := (h fuel).2
    exact ⟨out, h1, h2.trans e2⟩
  · rw [getElem?_flatten_replicate _ _ _ (by rw [e]; omega), e, Nat.mod_self]
    exact e0

/-- C6 (as stated, refuted): the repeating stream over the source without samples, asked for
one frame with `frames * channels = 1 < 2^32`: whatever the number of iterations allowed,
the call does not return, so it leaves no vector of one sample. -/
theorem c6_repeating_over_empty_never_returns :
    emptyLoop.repeating = true ∧ emptyLoop.source.samples.length = 0 ∧
    1 * emptyLoop.source.channels < UINT32_MOD ∧
    ∀ fuel, getData fuel emptyLoop 1 [7, 8] = .error .outOfFuel := by
  refine ⟨rfl, rfl, by decide, fun fuel => ?_⟩
  have hc := copyLoop_empty_repeating (enterLoop emptyLoop 1 [7, 8]) rfl rfl rfl
    (mulUInt32_lt _ _) (by decide) (Nat.zero_le _) (by decide) fuel
  unfold enterLoop at hc
  simp only [getData, hc]

/-- C6 (amended): for every stream state whose position does not lie behind the end of its
source (of fewer than `2^64` samples), other than a repeating stream over a source without
samples asked for at least one sample, every vector handed in and every `frames` with
`frames * channels < 2^32`: the call returns, given one iteration of fuel for each sample
asked for, and the vector then has exactly `frames * channels` samples; and whenever the
call returns, whatever the fuel and whichever branch is taken, the vector has exactly that
many samples. -/
theorem c6_getData_output_size [Zero α] (s : PCMSource α) (frames : Nat) (buf : List α)
    (hmul : frames * s.source.channels < UINT32_MOD)
    (hp : s.position ≤ s.source.samples.length) (hN : s.source.samples.length < SIZE_MOD)
    (hterm : s.repeating = false ∨ 0 < s.source.samples.length ∨
      frames * s.source.channels = 0) :
    (∀ fuel, frames * s.source.channels ≤ fuel →
      ∃ r, getData fuel s frames buf = .ok r ∧ r.2.length = frames * s.source.channels) ∧
    (∀ fuel r, getData fuel s frames buf = .ok r → r.2.length = frames * s.source.channels) := by
  have hreq : requested s frames = frames * s.source.channels := Nat.mod_eq_of_lt hmul
  have hpart : ∀ fuel r, getData fuel s frames buf = .ok r →
      r.2.length = frames * s.source.channels := by
    intro fuel r h
    rw [getData_length fuel s frames buf r h, hreq]
  refine ⟨fun fuel hfuel => ?_, hpart⟩
  obtain ⟨r, hr⟩ := getData_total s frames buf hp hN (by rw [hreq]; exact hterm) fuel
    (by rw [hreq]; exact hfuel)
  exact ⟨r, hr, hpart fuel r hr⟩

/-- Witness of `c6_getData_output_size`: the stereo loop asked for four frames into a
vector that held ten samples. -/
theorem c6_getData_output_size_witness :
    4 * stereoLoop.source.channels < UINT32_MOD ∧
    stereoLoop.position ≤ stereoLoop.source.samples.length ∧
    stereoLoop.source.samples.length < SIZE_MOD ∧
    (stereoLoop.repeating = false ∨ 0 < stereoLoop.source.samples.length ∨
      4 * stereoLoop.source.channels = 0) ∧
    getData 8 stereoLoop 4 [1, 2, 3, 4, 5, 6, 7, 8, 9, 10] =
      .ok ({ stereoLoop with position := 4 }, [20, 21, 30, 31, 10, 11, 20, 21]) ∧
    ((∀ fuel, 4 * stereoLoop.source.channels ≤ fuel →
      ∃ r, getData fuel stereoLoop 4 [1, 2, 3, 4, 5, 6, 7, 8, 9, 10] = .ok r ∧
        r.2.length = 4 * stereoLoop.source.channels) ∧
     (∀ fuel r, getData fuel stereoLoop 4 [1, 2, 3, 4, 5, 6, 7, 8, 9, 10] = .ok r →
        r.2.length = 4 * stereoLoop.source.channels)) :=
  ⟨by decide, by decide, by decide, Or.inr (Or.inl (by decide)), by decide,
    c6_getData_output_size stereoLoop 4 [1, 2, 3, 4, 5, 6, 7, 8, 9, 10] (by decide)
      (by decide) (by decide) (Or.inr (Or.inl (by decide)))⟩

end audio
/-! ## `Matrix4`: the inverse -/

namespace Matrix4
variable {T : Type}

theorem toMatrix_multiply [CommRing T] (a b : Matrix4 T) :
    (multiply a b).toMatrix = a.toMatrix * b.toMatrix := by
  ext i j
  fin_cases i <;> fin_cases j <;>
    simp [toMatrix, multiply, Matrix.mul_apply, Fin.sum_univ_succ] <;> ring

theorem toMatrix_identity [CommRing T] : (identity : Matrix4 T).toMatrix = 1 := by
  ext i j
  fin_cases i <;> fin_cases j <;> rfl

theorem det_eq [CommRing T] (m : Matrix4 T) : (minors m).det = m.toMatrix.det := by
  have e01 : Fin.succAbove (0 : Fin 4) (0 : Fin 3) = 1 := by decide
  have e02 : Fin.succAbove (0 : Fin 4) (1 : Fin 3) = 2 := by decide
  have e03 : Fin.succAbove (0 : Fin 4) (2 : Fin 3) = 3 := by decide
  have e10 : Fin.succAbove (1 : Fin 4) (0 : Fin 3) = 0 := by decide
  have e12 : Fin.succAbove (1 : Fin 4) (1 : Fin 3) = 2 := by decide
  have e13 : Fin.succAbove (1 : Fin 4) (2 : Fin 3) = 3 := by decide
  have e20 : Fin.succAbove (2 : Fin 4) (0 : Fin 3) = 0 := by decide
  have e21 : Fin.succAbove (2 : Fin 4) (1 : Fin 3) = 1 := by decide
  have e23 : Fin.succAbove (2 : Fin 4) (2 : Fin 3) = 3 := by decide
  have e30 : Fin.succAbove (3 : Fin 4) (0 : Fin 3) = 0 := by decide
  have e31 : Fin.succAbove (3 : Fin 4) (1 : Fin 3) = 1 := by decide
  have e32 : Fin.succAbove (3 : Fin 4) (2 : Fin 3) = 2 := by decide
  have s0 : Fin.succ (0 : Fin 3) = 1 := rfl
  have s1 : Fin.succ (1 : Fin 3) = 2 := rfl
  have s2 : Fin.succ (2 : Fin 3) = 3 := rfl
  rw [Matrix.det_succ_row_zero]
  simp only [Fin.sum_univ_four, Matrix.det_fin_three, Matrix.submatrix_apply,
    e01, e02, e03, e10, e12, e13, e20, e21, e23, e30, e31, e32, s0, s1, s2]
  have v3 : ((3 : Fin 4) : ℕ) = 3 := rfl
  simp [toMatrix, minors, v3]
  ring

theorem multiply_adjugate [CommRing T] (m : Matrix4 T) :
    multiply m (adjugate m) = multiplyScalar identity (minors m).det := by
  ext <;> simp only [multiply, adjugate, minors, multiplyScalar, identity] <;> ring

theorem adjugate_multiply [CommRing T] (m : Matrix4 T) :
    multiply (adjugate m) m = multiplyScalar identity (minors m).det := by
  ext <;> simp only [multiply, adjugate, minors, multiplyScalar, identity] <;> ring

theorem multiply_multiplyScalar [CommRing T] (a b : Matrix4 T) (c : T) :
    multiply a (multiplyScalar b c) = multiplyScalar (multiply a b) c := by
  ext <;> simp only [multiply, multiplyScalar] <;> ring

theorem multiplyScalar_multiply [CommRing T] (a b : Matrix4 T) (c : T) :
    multiply (multiplyScalar b c) a = multiplyScalar (multiply b a) c := by
  ext <;> simp only [multiply, multiplyScalar] <;> ring

theorem multiplyScalar_identity_inv [Field T] (d : T) (hd : d ≠ 0) :
    multiplyScalar (multiplyScalar (identity : Matrix4 T) d) (1 / d) = identity := by
  ext <;> simp [multiplyScalar, identity, hd]

theorem FLT_MIN_pos [LinearOrderedField T] : (0 : T) < FLT_MIN := by
  unfold FLT_MIN
  positivity

/-- What `invert` writes when the determinant passes the test: the adjugate times `1 / det`,
a two-sided inverse under `multiply`. -/
theorem invert_inverse [LinearOrderedField T] (m dst : Matrix4 T)
    (h : FLT_MIN ≤ |(minors m).det|) :
    multiply m (invert m dst) = identity ∧ multiply (invert m dst) m = identity := by
  have hd : (minors m).det ≠ 0 := by
    intro h0
    rw [h0, abs_zero] at h
    exact absurd FLT_MIN_pos (not_lt.mpr h)
  have hi : invert m dst = multiplyScalar (adjugate m) (1 / (minors m).det) := by
    unfold invert
    rw [if_neg (not_lt.mpr h)]
  rw [hi, multiply_multiplyScalar, multiplyScalar_multiply, multiply_adjugate,
    adjugate_multiply]
  exact ⟨multiplyScalar_identity_inv _ hd, multiplyScalar_identity_inv _ hd⟩

/-- C27 (as stated, refuted): the diagonal matrix with diagonal `2^-127, 1, 1, 1` has the
non-zero determinant `2^-127`, yet `invert` leaves `dst` (here the identity) as it was,
and `multiply(m, dst)` is then `m`, not the identity. -/
theorem c27_tiny_determinant_not_inverted :
    (minors tiny).det = 1 / 2 ^ 127 ∧ (minors tiny).det ≠ 0 ∧
    invert tiny identity = identity ∧ multiply tiny (invert tiny identity) ≠ identity := by
  have hdet : (minors tiny).det = 1 / 2 ^ 127 := by
    simp [minors, tiny, identity]
  have hinv : invert tiny identity = identity := by
    unfold invert
    rw [if_pos]
    rw [hdet, abs_of_pos (by positivity)]
    unfold FLT_MIN
    norm_num
  refine ⟨hdet, by rw [hdet]; positivity, hinv, ?_⟩
  rw [hinv]
  intro h
  have h0 := congrArg Matrix4.m0 h
  simp [multiply, tiny, identity] at h0
  norm_num at h0

/-- C27 (amended): over exact arithmetic (any linearly ordered field), the `det` that
`invert` computes from `a0..a5`, `b0..b5` is the determinant of the matrix; when its
absolute value is at least `std::numeric_limits<float>::min()` = `2^-126`, `invert` writes to
`dst` a matrix with `multiply(m, dst)` = `multiply(dst, m)` = identity; when its absolute value
is below that bound, and so when the determinant is zero, `dst` is left as it was. -/
theorem c27_invert [LinearOrderedField T] (m dst : Matrix4 T) :
    (minors m).det = m.toMatrix.det ∧
    (FLT_MIN ≤ |(minors m).det| →
      multiply m (invert m dst) = identity ∧ multiply (invert m dst) m = identity ∧
      (invert m dst).toMatrix = m.toMatrix⁻¹) ∧
    (|(minors m).det| < FLT_MIN → invert m dst = dst) ∧
    (m.toMatrix.det = 0 → invert m dst = dst) := by
  have hlt : |(minors m).det| < FLT_MIN → invert m dst = dst := by
    intro h
    unfold invert
    rw [if_pos h]
  refine ⟨det_eq m, ?_, hlt, ?_⟩
  · intro h
    obtain ⟨h1, h2⟩ := invert_inverse m dst h
    refine ⟨h1, h2, ?_⟩
    have h3 := congrArg toMatrix h1
    rw [toMatrix_multiply, toMatrix_identity] at h3
    exact (Matrix.inv_eq_right_inv h3).symm
  · intro h
    apply hlt
    rw [det_eq, h, abs_zero]
    exact FLT_MIN_pos

/-- Witness of `c27_invert`: the diagonal matrix with diagonal 2, 4, 5, 10, whose determinant
is 400. -/
theorem c27_invert_witness :
    FLT_MIN ≤ |(minors scaling).det| ∧
    invert scaling identity =
      { (identity : Matrix4 ℚ) with m0 := 1 / 2, m5 := 1 / 4, m10 := 1 / 5, m15 := 1 / 10 } ∧
    ((minors scaling).det = scaling.toMatrix.det ∧
    (FLT_MIN ≤ |(minors scaling).det| →
      multiply scaling (invert scaling identity) = identity ∧
      multiply (invert scaling identity) scaling = identity ∧
      (invert scaling identity).toMatrix = scaling.toMatrix⁻¹) ∧
    (|(minors scaling).det| < FLT_MIN → invert scaling identity = identity) ∧
    (scaling.toMatrix.det = 0 → invert scaling identity = identity)) := by
  have hdet : (minors scaling).det = 400 := by
    simp [minors, scaling, identity]
    norm_num
  have hle : (FLT_MIN : ℚ) ≤ |(minors scaling).det| := by
    rw [hdet]
    unfold FLT_MIN
    norm_num
  refine ⟨hle, ?_, c27_invert scaling identity⟩
  unfold invert
  rw [if_neg (not_lt.mpr hle), hdet]
  ext <;> simp [multiplyScalar, adjugate, minors, scaling, identity] <;> norm_num

end Matrix4

/-! ## The mipmap chain of `calculateSizes` -/

namespace graphics

theorem shiftRight_pos {n k : Nat} (hn : 1 ≤ n) (hk : k ≤ Nat.log 2 n) : 1 ≤ n >>> k := by
  rw [Nat.shiftRight_eq_div_pow, Nat.le_div_iff_mul_le (Nat.pos_pow_of_pos k (by decide)), Nat.one_mul]
  exact (Nat.pow_le_iff_le_log (by decide) (by omega)).mpr hk

theorem two_le_shiftRight {n k : Nat} (hn : 1 ≤ n) : 2 ≤ n >>> k ↔ k < Nat.log 2 n := by
  rw [Nat.shiftRight_eq_div_pow, Nat.le_div_iff_mul_le (Nat.pos_pow_of_pos k (by decide)),
    ← Nat.pow_succ', Nat.pow_le_iff_le_log (by decide) (by omega)]
  exact Nat.succ_le_iff

theorem shiftRight_le_one {n k : Nat} (hn : 1 ≤ n) (hk : Nat.log 2 n ≤ k) : n >>> k ≤ 1 := by
  have h : ¬ 2 ≤ n >>> k := fun hc => absurd ((two_le_shiftRight hn).mp hc) (by omega)
  omega

theorem mipLevel_inside (pixelSize w h k : Nat) (hw : 1 ≤ w) (hh : 1 ≤ h)
    (hkw : k ≤ Nat.log 2 w) (hkh : k ≤ Nat.log 2 h) :
    mipLevel pixelSize w h k =
      { size := (w >>> k, h >>> k), pitch := audio.mulUInt32 (w >>> k) pixelSize, data := [] } := by
  have h1 := shiftRight_pos hw hkw
  have h2 := shiftRight_pos hh hkh
  simp only [mipLevel, Nat.max_eq_right h1, Nat.max_eq_right h2]

/-- The levels `0` to `k` of the chain in closed form. -/
theorem range_succ_map (pixelSize w h k : Nat) :
    (List.range (k + 1 + 1)).map (mipLevel pixelSize w h) =
      (List.range (k + 1)).map (mipLevel pixelSize w h) ++ [mipLevel pixelSize w h (k + 1)] := by
  rw [List.range_succ, List.map_append, List.map_singleton]

/-- The first loop: from level `k` of the chain it goes on to level `K`, the smaller of the
two logarithms. -/
theorem shrinkBoth_chain (pixelSize w h K : Nat) (hw : 1 ≤ w) (hh : 1 ≤ h)
    (hKw : K ≤ Nat.log 2 w) (hKh : K ≤ Nat.log 2 h)
    (hK : K = Nat.log 2 w ∨ K = Nat.log 2 h) :
    ∀ fuel k, k ≤ K → K ≤ k + fuel →
    shrinkBoth pixelSize fuel
      { newWidth := w >>> k, newHeight := h >>> k
        pitch := audio.mulUInt32 (w >>> k) pixelSize
        levels := (List.range (k + 1)).map (mipLevel pixelSize w h) } =
    some
      { newWidth := w >>> K, newHeight := h >>> K
        pitch := audio.mulUInt32 (w >>> K) pixelSize
        levels := (List.range (K + 1)).map (mipLevel pixelSize w h) } := by
  intro fuel
  induction fuel with
  | zero =>
    intro k hk hf
    have hkK : k = K := by omega
    subst hkK
    have hstop : ¬ (w >>> k ≥ 2 ∧ h >>> k ≥ 2) := by
      intro hc
      have c1 := (two_le_shiftRight hw).mp hc.1
      have c2 := (two_le_shiftRight hh).mp hc.2
      omega
    simp only [shrinkBoth, hstop, if_false]
  | succ fuel ih =>
    intro k hk hf
    by_cases hkK : k = K
    · subst hkK
      have hstop : ¬ (w >>> k ≥ 2 ∧ h >>> k ≥ 2) := by
        intro hc
        have c1 := (two_le_shiftRight hw).mp hc.1
        have c2 := (two_le_shiftRight hh).mp hc.2
        omega
      simp only [shrinkBoth, hstop, if_false]
    · have hgo : w >>> k ≥ 2 ∧ h >>> k ≥ 2 :=
        ⟨(two_le_shiftRight hw).mpr (by omega), (two_le_shiftRight hh).mpr (by omega)⟩
      have hnext := ih (k + 1) (by omega) (by omega)
      have hlev := mipLevel_inside pixelSize w h (k + 1) hw hh (by omega) (by omega)
      rw [range_succ_map, hlev, Nat.shiftRight_add w k 1, Nat.shiftRight_add h k 1] at hnext
      simp only [shrinkBoth, hgo, and_self, if_true]
      exact hnext

/-- The second loop when the width is the larger side: the height has reached 1. -/
theorem shrinkWidth_chain (pixelSize w h : Nat) (hw : 1 ≤ w) (hh : 1 ≤ h) :
    ∀ fuel k, Nat.log 2 h ≤ k → k ≤ Nat.log 2 w → Nat.log 2 w ≤ k + fuel →
    shrinkWidth pixelSize fuel
      { newWidth := w >>> k, newHeight := 1
        pitch := audio.mulUInt32 (w >>> k) pixelSize
        levels := (List.range (k + 1)).map (mipLevel pixelSize w h) } =
    some
      { newWidth := w >>> Nat.log 2 w, newHeight := 1
        pitch := audio.mulUInt32 (w >>> Nat.log 2 w) pixelSize
        levels := (List.range (Nat.log 2 w + 1)).map (mipLevel pixelSize w h) } := by
  intro fuel
  induction fuel with
  | zero =>
    intro k hk1 hk2 hf
    have hkK : k = Nat.log 2 w := by omega
    have hstop : ¬ (w >>> k ≥ 2) := fun hc => absurd ((two_le_shiftRight hw).mp hc) (by omega)
    simp only [shrinkWidth, hstop, if_false]
    rw [hkK]
  | succ fuel ih =>
    intro k hk1 hk2 hf
    by_cases hkK : k = Nat.log 2 w
    · have hstop : ¬ (w >>> k ≥ 2) := fun hc => absurd ((two_le_shiftRight hw).mp hc) (by omega)
      simp only [shrinkWidth, hstop, if_false]
      rw [hkK]
    · have hgo : w >>> k ≥ 2 := (two_le_shiftRight hw).mpr (by omega)
      have hnext := ih (k + 1) (by omega) (by omega) (by omega)
      have p1 : 1 ≤ w >>> (k + 1) := shiftRight_pos hw (by omega)
      have p2 : h >>> (k + 1) ≤ 1 := shiftRight_le_one hh (by omega)
      have hlev : mipLevel pixelSize w h (k + 1) =
          { size := (w >>> (k + 1), 1), pitch := audio.mulUInt32 (w >>> (k + 1)) pixelSize
            data := [] } := by
        simp only [mipLevel, Nat.max_eq_right p1, Nat.max_eq_left p2]
      rw [range_succ_map, hlev, Nat.shiftRight_add w k 1] at hnext
      simp only [shrinkWidth, hgo, if_true]
      exact hnext

/-- The second loop when the width is not the larger side: the width has reached 1 and the
pitch stays that of one pixel. -/
theorem shrinkHeight_chain (pixelSize w h : Nat) (hw : 1 ≤ w) (hh : 1 ≤ h) :
    ∀ fuel k, Nat.log 2 w ≤ k → k ≤ Nat.log 2 h → Nat.log 2 h ≤ k + fuel →
    shrinkHeight fuel
      { newWidth := 1, newHeight := h >>> k
        pitch := audio.mulUInt32 1 pixelSize
        levels := (List.range (k + 1)).map (mipLevel pixelSize w h) } =
    some
      { newWidth := 1, newHeight := h >>> Nat.log 2 h
        pitch := audio.mulUInt32 1 pixelSize
        levels := (List.range (Nat.log 2 h + 1)).map (mipLevel pixelSize w h) } := by
  intro fuel
  induction fuel with
  | zero =>
    intro k hk1 hk2 hf
    have hkK : k = Nat.log 2 h := by omega
    have hstop : ¬ (h >>> k ≥ 2) := fun hc => absurd ((two_le_shiftRight hh).mp hc) (by omega)
    simp only [shrinkHeight, hstop, if_false]
    rw [hkK]
  | succ fuel ih =>
    intro k hk1 hk2 hf
    by_cases hkK : k = Nat.log 2 h
    · have hstop : ¬ (h >>> k ≥ 2) := fun hc => absurd ((two_le_shiftRight hh).mp hc) (by omega)
      simp only [shrinkHeight, hstop, if_false]
      rw [hkK]
    · have hgo : h >>> k ≥ 2 := (two_le_shiftRight hh).mpr (by omega)
      have hnext := ih (k + 1) (by omega) (by omega) (by omega)
      have p1 : w >>> (k + 1) ≤ 1 := shiftRight_le_one hw (by omega)
      have p2 : 1 ≤ h >>> (k + 1) := shiftRight_pos hh (by omega)
      have hlev : mipLevel pixelSize w h (k + 1) =
          { size := (1, h >>> (k + 1)), pitch := audio.mulUInt32 1 pixelSize
            data := [] } := by
        simp only [mipLevel, Nat.max_eq_left p1, Nat.max_eq_right p2]
      rw [range_succ_map, hlev, Nat.shiftRight_add h k 1] at hnext
      simp only [shrinkHeight, hgo, if_true]
      exact hnext

/-- At its own logarithm a positive number is shifted down to 1. -/
theorem shiftRight_log {n : Nat} (hn : 1 ≤ n) : n >>> Nat.log 2 n = 1 :=
  Nat.le_antisymm (shiftRight_le_one hn (le_refl _)) (shiftRight_pos hn (le_refl _))

/-- The three loops together: the whole chain, down to the level `floor(log2(max(w, h)))`. -/
theorem loops_chain (pixelSize w h fuel : Nat) (hw : 1 ≤ w) (hh : 1 ≤ h)
    (hfuel : Nat.log 2 (max w h) ≤ fuel) :
    ∃ s, shrinkBoth pixelSize fuel
        { newWidth := w, newHeight := h, pitch := audio.mulUInt32 w pixelSize
          levels := [{ size := (w, h), pitch := audio.mulUInt32 w pixelSize, data := [] }] } =
          some s ∧
      ∃ s2, (if s.newWidth > s.newHeight then shrinkWidth pixelSize fuel s
             else shrinkHeight fuel s) = some s2 ∧
        s2.levels = (List.range (Nat.log 2 (max w h) + 1)).map (mipLevel pixelSize w h) := by
  have hlw : Nat.log 2 w ≤ Nat.log 2 (max w h) := Nat.log_mono_right (le_max_left w h)
  have hlh : Nat.log 2 h ≤ Nat.log 2 (max w h) := Nat.log_mono_right (le_max_right w h)
  have h0 : [({ size := (w, h), pitch := audio.mulUInt32 w pixelSize, data := [] } : Level)] =
      (List.range (0 + 1)).map (mipLevel pixelSize w h) := by
    have := mipLevel_inside pixelSize w h 0 hw hh (Nat.zero_le _) (Nat.zero_le _)
    simp only [Nat.shiftRight_zero] at this
    simp only [List.range_succ, List.range_zero, List.nil_append, List.map_cons, List.map_nil,
      this, Nat.zero_add]
  rcases Nat.le_total (Nat.log 2 w) (Nat.log 2 h) with hle | hle
  · have hmax : Nat.log 2 (max w h) = Nat.log 2 h := by
      rcases Nat.le_total w h with hwh | hwh
      · rw [max_eq_right hwh]
      · rw [max_eq_left hwh]
        exact Nat.le_antisymm (by omega) (Nat.log_mono_right hwh)
    have hb := shrinkBoth_chain pixelSize w h (Nat.log 2 w) hw hh (le_refl _) hle (Or.inl rfl)
      fuel 0 (Nat.zero_le _) (by omega)
    rw [Nat.shiftRight_zero, Nat.shiftRight_zero, ← h0, shiftRight_log hw] at hb
    refine ⟨_, hb, ?_⟩
    have hnot : ¬ (1 > h >>> Nat.log 2 w) := by
      have := shiftRight_pos hh hle
      omega
    simp only [hnot, if_false]
    have hh2 := shrinkHeight_chain pixelSize w h hw hh fuel (Nat.log 2 w) (le_refl _) hle
      (by omega)
    exact ⟨_, hh2, by rw [hmax]⟩
  · have hmax : Nat.log 2 (max w h) = Nat.log 2 w := by
      rcases Nat.le_total w h with hwh | hwh
      · rw [max_eq_right hwh]
        exact Nat.le_antisymm (by omega) (Nat.log_mono_right hwh)
      · rw [max_eq_left hwh]
    have hb := shrinkBoth_chain pixelSize w h (Nat.log 2 h) hw hh hle (le_refl _) (Or.inr rfl)
      fuel 0 (Nat.zero_le _) (by omega)
    rw [Nat.shiftRight_zero, Nat.shiftRight_zero, ← h0, shiftRight_log hh] at hb
    refine ⟨_, hb, ?_⟩
    by_cases hgt : w >>> Nat.log 2 h > 1
    · simp only [hgt, if_true]
      have hw2 := shrinkWidth_chain pixelSize w h hw hh fuel (Nat.log 2 h) (le_refl _) hle
        (by omega)
      exact ⟨_, hw2, by rw [hmax]⟩
    · have hone : w >>> Nat.log 2 h = 1 := by
        have := shiftRight_pos hw hle
        omega
      have heq : Nat.log 2 w = Nat.log 2 h := by
        have h2 : ¬ 2 ≤ w >>> Nat.log 2 h := by omega
        have := (two_le_shiftRight (k := Nat.log 2 h) hw).not.mp h2
        omega
      have hh2 := shrinkHeight_chain pixelSize w h hw hh fuel (Nat.log 2 h) (by omega)
        (le_refl _) (by omega)
      rw [shiftRight_log hh] at hh2
      simp only [hgt, if_false, hone]
      exact ⟨_, hh2, by rw [hmax, heq]⟩

/-- C29 (as stated, refuted): a 268435456 x 1 texture (width `2^28`) with 16-byte pixels and
mipmaps. The pitch of level 0 is computed in `uint32_t` and comes out as 0, not as
`max(1, w >> 0) * pixelSize` = `2^32`. -/
theorem c29_pitch_wraps :
    (calculateSizes 16 true (fun _ => true) 32 mipmapped (268435456, 1)).map
      (fun r => (r.levels.length, r.levels.head?)) =
      some (29, some { size := (268435456, 1), pitch := 0, data := [] }) ∧
    max 1 (268435456 >>> 0) * 16 = 4294967296 := by
  decide

/-- C29 (amended): for a size `w` x `h` with `w, h >= 1`, when mipmaps are enabled for a
texture that is no render target and whose size is allowed (NPOT supported, or `isPOT` holds
of both dimensions), `calculateSizes` returns (any fuel from `floor(log2(max(w, h)))` on is
enough) and produces exactly `floor(log2(max(w, h))) + 1` levels; level `i` has size
`(max(1, w >> i), max(1, h >> i))` and pitch `max(1, w >> i) * pixelSize` reduced modulo
`2^32`; the last level is 1 x 1. Otherwise it produces exactly one level, of size `w` x `h`. -/
theorem c29_calculateSizes (pixelSize : Nat) (npot : Bool) (isPOT : Nat → Bool) (fuel : Nat)
    (t : TextureResource) (w h : Nat) (hw : 1 ≤ w) (hh : 1 ≤ h)
    (hfuel : Nat.log 2 (max w h) ≤ fuel) :
    (t.mipmaps = true → t.renderTarget = false →
      (npot = true ∨ (isPOT w = true ∧ isPOT h = true)) →
      ∃ r, calculateSizes pixelSize npot isPOT fuel t (w, h) = some r ∧
        r.size = (w, h) ∧
        r.levels.length = Nat.log 2 (max w h) + 1 ∧
        (∀ i, i ≤ Nat.log 2 (max w h) →
          r.levels[i]? = some
            { size := (max 1 (w >>> i), max 1 (h >>> i))
              pitch := (max 1 (w >>> i) * pixelSize) % 4294967296
              data := [] }) ∧
        (r.levels[Nat.log 2 (max w h)]?).map Level.size = some (1, 1)) ∧
    ((t.mipmaps = false ∨ t.renderTarget = true ∨
        (npot = false ∧ (isPOT w = false ∨ isPOT h = false))) →
      ∃ r, calculateSizes pixelSize npot isPOT fuel t (w, h) = some r ∧
        r.size = (w, h) ∧
        r.levels = [{ size := (w, h), pitch := (w * pixelSize) % 4294967296, data := [] }]) := by
  refine ⟨?_, ?_⟩
  · intro hm hr hp
    have hcond : (t.mipmaps && !t.renderTarget && (npot || (isPOT w && isPOT h))) = true := by
      rw [hm, hr]
      rcases hp with hp | ⟨hp1, hp2⟩
      · rw [hp]
        rfl
      · rw [hp1, hp2]
        simp
    obtain ⟨s, hs, s2, hs2, hlev⟩ := loops_chain pixelSize w h fuel hw hh hfuel
    have hres : calculateSizes pixelSize npot isPOT fuel t (w, h) =
        some { t with size := (w, h), levels := s2.levels } := by
      simp only [calculateSizes, hcond, if_true, hs, hs2]
    have hget : ∀ i, i ≤ Nat.log 2 (max w h) →
        s2.levels[i]? = some (mipLevel pixelSize w h i) := by
      intro i hi
      rw [hlev, List.getElem?_map, List.getElem?_range (by omega)]
      rfl
    refine ⟨_, hres, rfl, ?_, ?_, ?_⟩
    · show s2.levels.length = _
      rw [hlev, List.length_map, List.length_range]
    · intro i hi
      exact hget i hi
    · show (s2.levels[Nat.log 2 (max w h)]?).map Level.size = some (1, 1)
      rw [hget _ (le_refl _)]
      have p1 : w >>> Nat.log 2 (max w h) ≤ 1 :=
        shiftRight_le_one hw (Nat.log_mono_right (le_max_left w h))
      have p2 : h >>> Nat.log 2 (max w h) ≤ 1 :=
        shiftRight_le_one hh (Nat.log_mono_right (le_max_right w h))
      simp only [mipLevel, Option.map_some', Nat.max_eq_left p1, Nat.max_eq_left p2]
  · intro hc
    have hcond : (t.mipmaps && !t.renderTarget && (npot || (isPOT w && isPOT h))) = false := by
      rcases hc with hc | hc | ⟨hc1, hc2⟩
      · rw [hc]
        rfl
      · rw [hc]
        simp
      · rw [hc1]
        rcases hc2 with hc2 | hc2 <;> rw [hc2] <;> simp
    have hres : calculateSizes pixelSize npot isPOT fuel t (w, h) =
        some { t with
          size := (w, h)
          levels := [{ size := (w, h), pitch := audio.mulUInt32 w pixelSize, data := [] }] } := by
      simp only [calculateSizes, hcond, Bool.false_eq_true, if_false]
    exact ⟨_, hres, rfl, rfl⟩

/-- Witness of `c29_calculateSizes`: a 6 x 20 texture with 4-byte pixels. -/
theorem c29_calculateSizes_witness :
    1 ≤ 6 ∧ 1 ≤ 20 ∧ Nat.log 2 (max 6 20) ≤ 4 ∧
    calculateSizes 4 true (fun _ => false) 4 mipmapped (6, 20) =
      some { mipmapped with
        size := (6, 20)
        levels := [⟨(6, 20), 24, []⟩, ⟨(3, 10), 12, []⟩, ⟨(1, 5), 4, []⟩, ⟨(1, 2), 4, []⟩,
          ⟨(1, 1), 4, []⟩] } ∧
    ((mipmapped.mipmaps = true → mipmapped.renderTarget = false →
      (true = true ∨ ((fun _ => false) 6 = true ∧ (fun _ => false) 20 = true)) →
      ∃ r, calculateSizes 4 true (fun _ => false) 4 mipmapped (6, 20) = some r ∧
        r.size = (6, 20) ∧
        r.levels.length = Nat.log 2 (max 6 20) + 1 ∧
        (∀ i, i ≤ Nat.log 2 (max 6 20) →
          r.levels[i]? = some
            { size := (max 1 (6 >>> i), max 1 (20 >>> i))
              pitch := (max 1 (6 >>> i) * 4) % 4294967296
              data := [] }) ∧
        (r.levels[Nat.log 2 (max 6 20)]?).map Level.size = some (1, 1)) ∧
    ((mipmapped.mipmaps = false ∨ mipmapped.renderTarget = true ∨
        (true = false ∧ ((fun _ => false) 6 = false ∨ (fun _ => false) 20 = false))) →
      ∃ r, calculateSizes 4 true (fun _ => false) 4 mipmapped (6, 20) = some r ∧
        r.size = (6, 20) ∧
        r.levels = [{ size := (6, 20), pitch := (6 * 4) % 4294967296, data := [] }])) :=
  ⟨by decide, by decide, by simp [Nat.log], by decide,
    c29_calculateSizes 4 true (fun _ => false) 4 mipmapped 6 20 (by decide) (by decide)
      (by simp [Nat.log])⟩

end graphics

/-! ## The particle count and the particle array -/

namespace scene

variable {L R : Type}

/-- The emit loop stays inside the array when its slots do, and keeps the length. -/
theorem emitLoop_ok (draw : Draw L R) (d : ParticleSystemData) :
    ∀ (n i : Nat) (ps : List (Particle L R)), i + n ≤ ps.length →
    ∃ r, emitLoop draw d n i ps = .ok r ∧ r.length = ps.length := by
  intro n
  induction n with
  | zero => intro i ps _; exact ⟨ps, rfl, rfl⟩
  | succ n ih =>
    intro i ps h
    have hi : i < ps.length := by omega
    obtain ⟨r, hr, hlen⟩ := ih (i + 1) (ps.set i (emitted draw d i ps[i]))
      (by rw [List.length_set]; omega)
    refine ⟨r, ?_, by rw [hlen, List.length_set]⟩
    rw [emitLoop, List.getElem?_eq_getElem hi]
    exact hr

/-- The method `emitParticles` keeps the count in range, whatever `count` it is given, and
touches neither the data nor the flags. -/
theorem emitParticles_inv (draw : Draw L R) (count : Nat) (s : ParticleSystem L R)
    (h : CountInRange s) :
    ∃ r, emitParticles draw count s = .ok r ∧ CountInRange r ∧
      r.particleSystemData = s.particleSystemData ∧ r.active = s.active ∧
      r.running = s.running ∧ r.actor = s.actor := by
  obtain ⟨h1, h2, h3⟩ := h
  unfold emitParticles
  simp only
  generalize hc : (if audio.addUInt32 s.particleCount count > s.particleSystemData.maxParticles
    then audio.subUInt32 s.particleSystemData.maxParticles s.particleCount else count) = c
  have hb : audio.addUInt32 s.particleCount c ≤ s.particleSystemData.maxParticles := by
    by_cases hgt : audio.addUInt32 s.particleCount count > s.particleSystemData.maxParticles
    · rw [if_pos hgt] at hc
      rw [← hc]
      unfold audio.addUInt32 audio.subUInt32
      unfold audio.UINT32_MOD at *
      omega
    · rw [if_neg hgt] at hc
      rw [← hc]
      omega
  by_cases hgo : c ≠ 0 ∧ s.actor = true
  · rw [if_pos hgo]
    obtain ⟨r, hr, hlen⟩ := emitLoop_ok draw s.particleSystemData
      (audio.addUInt32 s.particleCount c - s.particleCount) s.particleCount s.particles
      (by omega)
    rw [hr]
    exact ⟨_, rfl, ⟨hb, by rw [← h2]; exact hlen, h3⟩, rfl, rfl, rfl, rfl⟩
  · rw [if_neg hgo]
    exact ⟨_, rfl, ⟨h1, h2, h3⟩, rfl, rfl, rfl, rfl⟩

/-- The life loop from `counter` down: if the count is inside the array, `counter` is at
most the count and the particles from `counter` up to the count pass the life test, then no
index leaves the array, the array keeps its length, the count does not grow, and in the end
every particle below the count passes the life test. -/
theorem lifeLoop_inv (f : Floats L R) (d : ParticleSystemData) :
    ∀ (counter : Nat) (ps : List (Particle L R)) (particleCount : Nat),
    counter ≤ particleCount → particleCount ≤ ps.length → particleCount < audio.UINT32_MOD →
    (∀ i p, counter ≤ i → i < particleCount → ps[i]? = some p → f.nonneg p.life = true) →
    ∃ r, lifeLoop f d counter (ps, particleCount) = .ok r ∧ r.1.length = ps.length ∧
      r.2 ≤ particleCount ∧
      ∀ i p, i < r.2 → r.1[i]? = some p → f.nonneg p.life = true := by
  intro counter
  induction counter with
  | zero =>
    intro ps pc _ _ _ hal
    exact ⟨(ps, pc), rfl, rfl, le_refl _, fun i p hi hp => hal i p (Nat.zero_le _) hi hp⟩
  | succ c ih =>
    intro ps pc hc hlen h32 hal
    have hi : c < ps.length := by omega
    rw [lifeLoop, List.getElem?_eq_getElem hi]
    simp only
    by_cases hlife : f.nonneg (f.subStep ps[c].life) = true
    · rw [if_pos hlife]
      obtain ⟨r, hr, r1, r2, r3⟩ := ih
        (ps.set c { life := f.subStep ps[c].life
                    rest := f.move d { life := f.subStep ps[c].life, rest := ps[c].rest } })
        pc (by omega) (by rw [List.length_set]; exact hlen) h32 (by
          intro i p h1 h2 hp
          rw [List.getElem?_set] at hp
          by_cases hic : c = i
          · rw [if_pos hic, if_pos hi] at hp
            cases hp
            exact hlife
          · rw [if_neg hic] at hp
            exact hal i p (by omega) h2 hp)
      exact ⟨r, hr, by rw [r1, List.length_set], r2, r3⟩
    · rw [if_neg hlife]
      have hsub : audio.subUInt32 pc 1 = pc - 1 := by
        unfold audio.subUInt32
        unfold audio.UINT32_MOD at *
        omega
      rw [hsub]
      have hj : pc - 1 < (ps.set c { life := f.subStep ps[c].life, rest := ps[c].rest }).length := by
        rw [List.length_set]
        omega
      rw [List.getElem?_eq_getElem hj]
      simp only
      obtain ⟨r, hr, r1, r2, r3⟩ := ih
        ((ps.set c { life := f.subStep ps[c].life, rest := ps[c].rest }).set c
          ((ps.set c { life := f.subStep ps[c].life, rest := ps[c].rest })[pc - 1]))
        (pc - 1) (by omega) (by rw [List.length_set, List.length_set]; omega) (by omega) (by
          intro i p h1 h2 hp
          rw [List.getElem?_set] at hp
          by_cases hic : c = i
          · rw [if_pos hic, if_pos (by rw [List.length_set]; exact hi)] at hp
            have hne : c ≠ pc - 1 := by omega
            have hq : (ps.set c { life := f.subStep ps[c].life, rest := ps[c].rest })[pc - 1]? =
                some p := by
              rw [List.getElem?_eq_getElem hj]
              exact hp
            rw [List.getElem?_set, if_neg hne] at hq
            exact hal (pc - 1) p (by omega) (by omega) hq
          · rw [if_neg hic, List.getElem?_set, if_neg hic] at hp
            exact hal i p (by omega) (by omega) hp)
      exact ⟨r, hr, by rw [r1, List.length_set, List.length_set], by omega, r3⟩

/-- The second half of an update step, the life loop of an active system: the count stays
in range and afterwards every particle below the count passes the life test. -/
theorem lifePhase_inv (f : Floats L R) (s : ParticleSystem L R) (h : CountInRange s) :
    ∃ r, (if s.active = true then
        match lifeLoop f s.particleSystemData s.particleCount (s.particles, s.particleCount) with
        | .error e => .error e
        | .ok st =>
          .ok ({ s with particles := st.1, particleCount := st.2, needsMeshUpdate := true },
            false)
      else (.ok (s, false) : Except Fault (ParticleSystem L R × Bool))) = .ok (r, false) ∧
      CountInRange r ∧ r.particleSystemData = s.particleSystemData ∧
      (s.active = true → AllAlive f r) := by
  obtain ⟨h1, h2, h3⟩ := h
  by_cases ha : s.active = true
  · rw [if_pos ha]
    obtain ⟨st, hst, r1, r2, r3⟩ := lifeLoop_inv f s.particleSystemData s.particleCount
      s.particles s.particleCount (le_refl _) (by omega) (by omega)
      (fun i p c1 c2 _ => absurd c1 (by omega))
    rw [hst]
    have c1 : st.2 ≤ s.particleSystemData.maxParticles := by omega
    have c2 : st.1.length = s.particleSystemData.maxParticles := by omega
    exact ⟨_, rfl, ⟨c1, c2, h3⟩, rfl, fun _ => r3⟩
  · rw [if_neg ha]
    exact ⟨s, rfl, ⟨h1, h2, h3⟩, rfl, fun c => absurd c ha⟩

/-- One update step keeps the count in range and hands no index outside the array to
`particles[i]`; when the step runs the life loop (the system is active and the step does not
leave through `return`), every particle below the count passes the life test afterwards. -/
theorem updateStep_inv (f : Floats L R) (draw : Draw L R) (emitCount : Nat)
    (durationOver : Bool) (s : ParticleSystem L R) (h : CountInRange s) :
    ∃ r b, updateStep f draw emitCount durationOver s = .ok (r, b) ∧ CountInRange r ∧
      r.particleSystemData = s.particleSystemData ∧
      (b = false → s.active = true → AllAlive f r) ∧
      (b = true → r.particleCount = 0 ∧ r.active = false) := by
  unfold updateStep
  by_cases hrun : (s.running && s.particleSystemData.emissionRatePositive) = true
  · obtain ⟨e, he, e1, e2, e3, _, _⟩ := emitParticles_inv draw emitCount s h
    simp only [hrun, if_true, he]
    have hs1 : CountInRange (if durationOver = true then stop { e with finished := true }
        else e) := by
      split
      · exact e1
      · exact e1
    have hact : (if durationOver = true then stop { e with finished := true } else e).active =
        s.active := by
      split
      · exact e3
      · exact e3
    have hdat : (if durationOver = true then stop { e with finished := true }
        else e).particleSystemData = s.particleSystemData := by
      split
      · exact e2
      · exact e2
    obtain ⟨r, hr, r1, r2, r3⟩ := lifePhase_inv f _ hs1
    refine ⟨r, false, hr, r1, by rw [r2, hdat], fun _ ha => r3 (by rw [hact]; exact ha), ?_⟩
    intro hb
    cases hb
  · have hrun2 : (s.running && s.particleSystemData.emissionRatePositive) = false := by
      simpa using hrun
    by_cases hidle : (s.active && s.particleCount == 0) = true
    · simp only [hrun2, hidle, Bool.false_eq_true, if_false, if_true]
      have hz : s.particleCount = 0 := by
        simp only [Bool.and_eq_true, beq_iff_eq] at hidle
        exact hidle.2
      refine ⟨_, true, rfl, ⟨h.1, h.2.1, h.2.2⟩, rfl, ?_, fun _ => ⟨hz, rfl⟩⟩
      intro hb
      cases hb
    · have hidle2 : (s.active && s.particleCount == 0) = false := by
        simpa using hidle
      simp only [hrun2, hidle2, Bool.false_eq_true, if_false]
      obtain ⟨r, hr, r1, r2, r3⟩ := lifePhase_inv f s h
      refine ⟨r, false, hr, r1, r2, fun _ ha => r3 ha, ?_⟩
      intro hb
      cases hb

/-- The steps of `update` keep the count in range. -/
theorem updateSteps_inv (f : Floats L R) (steps : List (Draw L R × Nat × Bool)) :
    ∀ (s : ParticleSystem L R) (b : Bool), CountInRange s →
    ∃ r, updateSteps f steps (s, b) = .ok r ∧ CountInRange r.1 ∧
      r.1.particleSystemData = s.particleSystemData := by
  induction steps with
  | nil => intro s b h; exact ⟨_, rfl, h, rfl⟩
  | cons st rest ih =>
    intro s b h
    obtain ⟨draw, emitCount, durationOver⟩ := st
    obtain ⟨r, ret, hr, r1, r2, _, _⟩ := updateStep_inv f draw emitCount durationOver s h
    cases ret with
    | true =>
      simp only [updateSteps, hr]
      exact ⟨_, rfl, r1, r2⟩
    | false =>
      simp only [updateSteps, hr]
      obtain ⟨q, hq, q1, q2⟩ := ih r (b || r.active) r1
      exact ⟨q, hq, q1, by rw [q2, r2]⟩

/-- The method `update` keeps the count in range and reads no particle outside the array. -/
theorem update_inv (f : Floats L R) (steps : List (Draw L R × Nat × Bool))
    (s : ParticleSystem L R) (h : CountInRange s) :
    ∃ r, update f steps s = .ok r ∧ CountInRange r ∧
      r.particleSystemData = s.particleSystemData := by
  obtain ⟨⟨r, ret, bb⟩, hr, r1, r2⟩ := updateSteps_inv f steps s false h
  simp only at r1 r2
  unfold update
  rw [hr]
  cases ret with
  | true => exact ⟨r, rfl, r1, r2⟩
  | false =>
    simp only
    by_cases hbb : bb = true
    · rw [if_pos hbb]
      have hno : ¬ (r.particles.length < r.particleCount) := by
        have := r1.1
        have := r1.2.1
        omega
      refine ⟨r, ?_, r1, r2⟩
      simp only [updateBoundingBox, hno, decide_False, Bool.and_false, Bool.false_eq_true,
        if_false]
    · rw [if_neg hbb]
      exact ⟨r, rfl, r1, r2⟩

/-- The method `reset` keeps the count in range. -/
theorem reset_inv (s : ParticleSystem L R) (h : CountInRange s) : CountInRange (reset s) :=
  ⟨Nat.zero_le _, h.2.1, h.2.2⟩

/-- The mesh loop ends when `maxParticles` fits a `uint16_t`. -/
theorem meshLoop_ok (maxParticles : Nat) (hmax : maxParticles < 65536) :
    ∀ (fuel i : Nat) (sizes : Nat × Nat), i ≤ maxParticles → maxParticles ≤ i + fuel →
    ∃ r, meshLoop maxParticles fuel i sizes = .ok r := by
  intro fuel
  induction fuel with
  | zero =>
    intro i sizes h1 h2
    have : ¬ i < maxParticles := by omega
    exact ⟨sizes, by simp only [meshLoop, this, if_false]⟩
  | succ fuel ih =>
    intro i sizes h1 h2
    by_cases hi : i < maxParticles
    · obtain ⟨r, hr⟩ := ih (i + 1) (sizes.1 + 6, sizes.2 + 4) (by omega) (by omega)
      have hmod : (i + 1) % 65536 = i + 1 := Nat.mod_eq_of_lt (by omega)
      exact ⟨r, by simp only [meshLoop, hi, if_true, hmod, hr]⟩
    · exact ⟨sizes, by simp only [meshLoop, hi, if_false]⟩

/-- The mesh loop never ends when `maxParticles` does not fit a `uint16_t`: its counter
wraps around before it reaches the bound. -/
theorem meshLoop_diverges (maxParticles : Nat) (hmax : 65536 ≤ maxParticles) :
    ∀ (fuel i : Nat) (sizes : Nat × Nat), i < 65536 →
    meshLoop maxParticles fuel i sizes = .error .outOfFuel := by
  intro fuel
  induction fuel with
  | zero =>
    intro i sizes hi
    have : i < maxParticles := by omega
    simp only [meshLoop, this, if_true]
  | succ fuel ih =>
    intro i sizes hi
    have : i < maxParticles := by omega
    simp only [meshLoop, this, if_true]
    exact ih _ _ (Nat.mod_lt _ (by decide))

/-- The method `init` with data that has a texture and at most 65535 particles: it returns,
the array has the new `maxParticles` elements, and the count is what it was. -/
theorem init_ok (f : Floats L R) (fuel : Nat) (d : ParticleSystemData)
    (s : ParticleSystem L R) (htex : d.texture = true) (hmax : d.maxParticles < 65536)
    (hfuel : d.maxParticles ≤ fuel) :
    ∃ r, init f fuel d s = .ok r ∧ r.particleSystemData = d ∧
      r.particles.length = d.maxParticles ∧ r.particleCount = s.particleCount := by
  obtain ⟨sizes, hsz⟩ := meshLoop_ok d.maxParticles hmax fuel 0 (s.indices, s.vertices)
    (Nat.zero_le _) (by omega)
  have hlen : (s.particles.take d.maxParticles ++
      List.replicate (d.maxParticles - s.particles.length) f.fresh).length = d.maxParticles := by
    rw [List.length_append, List.length_take, List.length_replicate]
    omega
  unfold init createParticleMesh
  simp only [htex, Bool.not_true, Bool.false_eq_true, if_false, hsz]
  unfold resume
  split
  · exact ⟨_, rfl, rfl, hlen, rfl⟩
  · exact ⟨_, rfl, rfl, hlen, rfl⟩

/-- C28: the particle count and the particle array. From a state in which `particleCount` is
at most `maxParticles`, the size of the array, each of `emitParticles` (any `count`), one step
of `update`, `update` and `reset` returns such a state again and indexes the array only
inside it; after an update step that runs the life loop every particle below the count passes
`life >= 0.0F`. The method `init` returns (for data with a texture and at most 65535
particles) with the array resized to the new `maxParticles` but with `particleCount` as it
was. So `init` on a system that holds more particles than the new data allows breaks the
bound: a system initialised for two particles that has emitted both and is initialised again
for one particle has `particleCount = 2` over an array of size 1, and its next `update`
indexes the array outside its bounds. -/
theorem c28_particle_count_in_range :
    (∀ (L R : Type) (f : Floats L R) (draw : Draw L R) (count emitCount : Nat)
      (durationOver : Bool) (steps : List (Draw L R × Nat × Bool)) (s : ParticleSystem L R),
      CountInRange s →
      (∃ r, emitParticles draw count s = .ok r ∧ CountInRange r) ∧
      (∃ r b, updateStep f draw emitCount durationOver s = .ok (r, b) ∧ CountInRange r ∧
        (b = false → s.active = true → AllAlive f r) ∧ (b = true → r.particleCount = 0)) ∧
      (∃ r, update f steps s = .ok r ∧ CountInRange r) ∧
      CountInRange (reset s)) ∧
    (∀ (L R : Type) (f : Floats L R) (fuel : Nat) (d : ParticleSystemData)
      (s : ParticleSystem L R), d.texture = true → d.maxParticles < 65536 →
      d.maxParticles ≤ fuel →
      ∃ r, init f fuel d s = .ok r ∧ r.particleSystemData = d ∧
        r.particles.length = d.maxParticles ∧ r.particleCount = s.particleCount) ∧
    (∃ s2 s3, twoParticles = .ok s2 ∧ CountInRange s2 ∧ s2.particleCount = 2 ∧
      init intFloats 1 { gravityData 1 with emissionRatePositive := false } s2 = .ok s3 ∧
      s3.particleCount = 2 ∧ s3.particleSystemData.maxParticles = 1 ∧
      s3.particles.length = 1 ∧
      update intFloats [(threeSteps, 0, false)] s3 = .error .outOfRange) := by
  refine ⟨?_, ?_, ?_⟩
  · intro L R f draw count emitCount durationOver steps s h
    obtain ⟨r1, e1, e2, _⟩ := emitParticles_inv draw count s h
    obtain ⟨r2, b, u1, u2, _, u3, u4⟩ := updateStep_inv f draw emitCount durationOver s h
    obtain ⟨r3, v1, v2, _⟩ := update_inv f steps s h
    exact ⟨⟨r1, e1, e2⟩, ⟨r2, b, u1, u2, u3, fun hb => (u4 hb).1⟩, ⟨r3, v1, v2⟩, reset_inv s h⟩
  · intro L R f fuel d s htex hmax hfuel
    exact init_ok f fuel d s htex hmax hfuel
  · refine ⟨_, _, (by decide : twoParticles = .ok
        { particleSystemData := gravityData 2
          particles := [{ life := 2, rest := () }, { life := 2, rest := () }]
          particleCount := 2, running := true, active := true, finished := false
          actor := true, needsMeshUpdate := true, indices := 12, vertices := 8 }),
      ⟨by decide, by decide, by decide⟩, rfl,
      (by decide : init intFloats 1 { gravityData 1 with emissionRatePositive := false } _ =
        .ok { particleSystemData := { gravityData 1 with emissionRatePositive := false }
              particles := [{ life := 2, rest := () }]
              particleCount := 2, running := true, active := true, finished := false
              actor := true, needsMeshUpdate := true, indices := 18, vertices := 12 }),
      rfl, rfl, rfl, by decide⟩

end scene

/-! ## OBF: encoding and decoding -/

namespace obf

variable {D : Type}

theorem encodeBigEndian_length (n value : Nat) : (encodeBigEndian n value).length = n := by
  induction n generalizing value with
  | zero => rfl
  | succ n ih => simp [encodeBigEndian, ih]

/-- What `writeBytes` appends and returns. -/
theorem writeBytes_eq (n : Nat) (buffer value : List Nat) :
    writeBytes n buffer value = (buffer ++ (encodeBigEndian n value.length ++ value),
      (encodeBigEndian n value.length ++ value).length % audio.UINT32_MOD) := by
  unfold writeBytes
  simp only [List.append_assoc, Prod.mk.injEq, true_and, List.length_append,
    encodeBigEndian_length]
  unfold audio.addUInt32 audio.toUInt32
  unfold audio.UINT32_MOD at *
  omega

mutual

/-- The method `encode` only appends: the buffer after the call is the buffer before it
followed by what the same call appends to an empty buffer, and the returned size is the number
of bytes appended, reduced modulo `2^32`. -/
theorem encode_appends (fmt : Format D) (hf : ∀ d, (fmt.floatBytes d).length = 4)
    (hd : ∀ d, (fmt.doubleBytes d).length = 8) :
    ∀ (v : Value D) (buffer : List Nat),
    Value.encode fmt v buffer = (buffer ++ (Value.encode fmt v []).1,
      (Value.encode fmt v []).1.length % audio.UINT32_MOD)
  | .NONE, buffer => by
    simp only [Value.encode, List.nil_append, List.length_singleton]
    rfl
  | .INT intValue, buffer => by
    simp only [Value.encode]
    split_ifs <;>
      simp only [List.nil_append, List.append_assoc, List.length_append, List.length_cons,
        List.length_nil, encodeBigEndian_length, List.singleton_append] <;> rfl
  | .FLOAT d, buffer => by
    simp only [Value.encode, List.nil_append, List.append_assoc, List.length_append,
      List.length_cons, List.length_nil, hf, List.singleton_append]
    rfl
  | .DOUBLE d, buffer => by
    simp only [Value.encode, List.nil_append, List.append_assoc, List.length_append,
      List.length_cons, List.length_nil, hd, List.singleton_append]
    rfl
  | .STRING stringValue, buffer => by
    simp only [Value.encode]
    split_ifs <;>
    · simp only [writeBytes_eq, List.nil_append,
        List.append_assoc, List.length_append, List.length_cons, List.length_nil,
        encodeBigEndian_length, List.singleton_append, Prod.mk.injEq, true_and]
      unfold audio.addUInt32
      unfold audio.UINT32_MOD
      omega
  | .BYTE_ARRAY byteArrayValue, buffer => by
    simp only [Value.encode, writeBytes_eq,
      List.nil_append, List.append_assoc, List.length_append, List.length_cons,
      List.length_nil, encodeBigEndian_length, List.singleton_append, Prod.mk.injEq, true_and]
    unfold audio.addUInt32
    unfold audio.UINT32_MOD
    omega
  | .OBJECT objectValue, buffer => by
    have h1 := writeObjectLoop_appends fmt hf hd objectValue
      (buffer ++ [fmt.code .OBJECT] ++ encodeBigEndian 4 objectValue.length) 4
    have h2 := writeObjectLoop_appends fmt hf hd objectValue
      ([] ++ [fmt.code .OBJECT] ++ encodeBigEndian 4 objectValue.length) 4
    simp only [List.nil_append, List.append_assoc, List.singleton_append] at h1 h2
    simp only [Value.encode]
    rw [Prod.ext_iff]
    simp only [List.nil_append, List.append_assoc, List.singleton_append]
    rw [h1.1, h2.1]
    simp only [List.append_assoc, List.cons_append, true_and, List.length_append,
      List.length_cons, encodeBigEndian_length]
    have e1 := h1.2
    unfold audio.addUInt32
    unfold audio.UINT32_MOD at *
    omega
  | .ARRAY arrayValue, buffer => by
    have h1 := writeArrayLoop_appends fmt hf hd arrayValue
      (buffer ++ [fmt.code .ARRAY] ++ encodeBigEndian 4 arrayValue.length) 4
    have h2 := writeArrayLoop_appends fmt hf hd arrayValue
      ([] ++ [fmt.code .ARRAY] ++ encodeBigEndian 4 arrayValue.length) 4
    simp only [List.nil_append, List.append_assoc, List.singleton_append] at h1 h2
    simp only [Value.encode]
    rw [Prod.ext_iff]
    simp only [List.nil_append, List.append_assoc, List.singleton_append]
    rw [h1.1, h2.1]
    simp only [List.append_assoc, List.cons_append, true_and, List.length_append,
      List.length_cons, encodeBigEndian_length]
    have e1 := h1.2
    unfold audio.addUInt32
    unfold audio.UINT32_MOD at *
    omega
  | .DICTIONARY dictionaryValue, buffer => by
    have h1 := writeDictionaryLoop_appends fmt hf hd dictionaryValue
      (buffer ++ [fmt.code .DICTIONARY] ++ encodeBigEndian 4 dictionaryValue.length) 4
    have h2 := writeDictionaryLoop_appends fmt hf hd dictionaryValue
      ([] ++ [fmt.code .DICTIONARY] ++ encodeBigEndian 4 dictionaryValue.length) 4
    simp only [List.nil_append, List.append_assoc, List.singleton_append] at h1 h2
    simp only [Value.encode]
    rw [Prod.ext_iff]
    simp only [List.nil_append, List.append_assoc, List.singleton_append]
    rw [h1.1, h2.1]
    simp only [List.append_assoc, List.cons_append, true_and, List.length_append,
      List.length_cons, encodeBigEndian_length]
    have e1 := h1.2
    unfold audio.addUInt32
    unfold audio.UINT32_MOD at *
    omega

/-- The loop of `writeObject` only appends, and adds the number of bytes appended to `size`
(modulo `2^32`). -/
theorem writeObjectLoop_appends (fmt : Format D) (hf : ∀ d, (fmt.floatBytes d).length = 4)
    (hd : ∀ d, (fmt.doubleBytes d).length = 8) :
    ∀ (entries : List (Nat × Value D)) (buffer : List Nat) (size : Nat),
    (writeObjectLoop fmt entries (buffer, size)).1 =
      buffer ++ (writeObjectLoop fmt entries ([], 0)).1 ∧
    (writeObjectLoop fmt entries (buffer, size)).2 % audio.UINT32_MOD =
      (size + (writeObjectLoop fmt entries ([], 0)).1.length) % audio.UINT32_MOD
  | [], buffer, size => by
    simp only [writeObjectLoop, List.append_nil, List.length_nil, Nat.add_zero, and_self]
  | (key, value) :: rest, buffer, size => by
    have e1 := encode_appends fmt hf hd value (buffer ++ encodeBigEndian 4 key)
    have e2 := encode_appends fmt hf hd value ([] ++ encodeBigEndian 4 key)
    have r1 := writeObjectLoop_appends fmt hf hd rest
      (Value.encode fmt value (buffer ++ encodeBigEndian 4 key)).1
      (audio.addUInt32 (audio.addUInt32 size 4)
        (Value.encode fmt value (buffer ++ encodeBigEndian 4 key)).2)
    have r2 := writeObjectLoop_appends fmt hf hd rest
      (Value.encode fmt value ([] ++ encodeBigEndian 4 key)).1
      (audio.addUInt32 (audio.addUInt32 0 4)
        (Value.encode fmt value ([] ++ encodeBigEndian 4 key)).2)
    simp only [writeObjectLoop]
    rw [r1.1, r2.1, r1.2]
    rw [e1, e2]
    simp only [List.nil_append, List.append_assoc, true_and, List.length_append,
      encodeBigEndian_length]
    unfold audio.addUInt32
    unfold audio.UINT32_MOD at *
    omega

/-- The loop of `writeArray` only appends, and adds the number of bytes appended to `size`
(modulo `2^32`). -/
theorem writeArrayLoop_appends (fmt : Format D) (hf : ∀ d, (fmt.floatBytes d).length = 4)
    (hd : ∀ d, (fmt.doubleBytes d).length = 8) :
    ∀ (values : List (Value D)) (buffer : List Nat) (size : Nat),
    (writeArrayLoop fmt values (buffer, size)).1 =
      buffer ++ (writeArrayLoop fmt values ([], 0)).1 ∧
    (writeArrayLoop fmt values (buffer, size)).2 % audio.UINT32_MOD =
      (size + (writeArrayLoop fmt values ([], 0)).1.length) % audio.UINT32_MOD
  | [], buffer, size => by
    simp only [writeArrayLoop, List.append_nil, List.length_nil, Nat.add_zero, and_self]
  | value :: rest, buffer, size => by
    have e1 := encode_appends fmt hf hd value buffer
    have e2 := encode_appends fmt hf hd value []
    have r1 := writeArrayLoop_appends fmt hf hd rest
      (Value.encode fmt value buffer).1
      (audio.addUInt32 size (Value.encode fmt value buffer).2)
    have r2 := writeArrayLoop_appends fmt hf hd rest
      (Value.encode fmt value []).1
      (audio.addUInt32 0 (Value.encode fmt value []).2)
    simp only [writeArrayLoop]
    rw [r1.1, r2.1, r1.2]
    rw [e1]
    simp only [List.nil_append, List.append_assoc, true_and, List.length_append]
    unfold audio.addUInt32
    unfold audio.UINT32_MOD at *
    omega

/-- The loop of `writeDictionary` only appends, and adds the number of bytes appended to
`size` (modulo `2^32`). -/
theorem writeDictionaryLoop_appends (fmt : Format D)
    (hf : ∀ d, (fmt.floatBytes d).length = 4) (hd : ∀ d, (fmt.doubleBytes d).length = 8) :
    ∀ (entries : List (List Nat × Value D)) (buffer : List Nat) (size : Nat),
    (writeDictionaryLoop fmt entries (buffer, size)).1 =
      buffer ++ (writeDictionaryLoop fmt entries ([], 0)).1 ∧
    (writeDictionaryLoop fmt entries (buffer, size)).2 % audio.UINT32_MOD =
      (size + (writeDictionaryLoop fmt entries ([], 0)).1.length) % audio.UINT32_MOD
  | [], buffer, size => by
    simp only [writeDictionaryLoop, List.append_nil, List.length_nil, Nat.add_zero, and_self]
  | (key, value) :: rest, buffer, size => by
    have e1 := encode_appends fmt hf hd value (buffer ++ encodeBigEndian 2 key.length ++ key)
    have e2 := encode_appends fmt hf hd value ([] ++ encodeBigEndian 2 key.length ++ key)
    have r1 := writeDictionaryLoop_appends fmt hf hd rest
      (Value.encode fmt value (buffer ++ encodeBigEndian 2 key.length ++ key)).1
      (audio.addUInt32 (audio.addUInt32 (audio.addUInt32 size 2) (audio.toUInt32 key.length))
        (Value.encode fmt value (buffer ++ encodeBigEndian 2 key.length ++ key)).2)
    have r2 := writeDictionaryLoop_appends fmt hf hd rest
      (Value.encode fmt value ([] ++ encodeBigEndian 2 key.length ++ key)).1
      (audio.addUInt32 (audio.addUInt32 (audio.addUInt32 0 2) (audio.toUInt32 key.length))
        (Value.encode fmt value ([] ++ encodeBigEndian 2 key.length ++ key)).2)
    simp only [writeDictionaryLoop]
    rw [r1.1, r2.1, r1.2]
    rw [e1, e2]
    simp only [List.nil_append, List.append_assoc, true_and, List.length_append,
      encodeBigEndian_length]
    unfold audio.addUInt32 audio.toUInt32
    unfold audio.UINT32_MOD at *
    omega

end

theorem bigBytes_length : bigBytes.length = 4294967291 := List.length_replicate _ _

theorem sampleFormat_floatBytes (d : List Nat) : (sampleFormat.floatBytes d).length = 4 := by
  simp only [sampleFormat, List.length_append, List.length_take, List.length_replicate]
  omega

theorem sampleFormat_doubleBytes (d : List Nat) : (sampleFormat.doubleBytes d).length = 8 := by
  simp only [sampleFormat, List.length_append, List.length_take, List.length_replicate]
  omega

/-- The bytes `encodeBigEndian` writes for the four widths: most significant byte first. -/
theorem encodeBigEndian_bytes (value : Nat) :
    encodeBigEndian 1 value = [value % 256] ∧
    encodeBigEndian 2 value = [value / 256 % 256, value % 256] ∧
    encodeBigEndian 4 value =
      [value / 16777216 % 256, value / 65536 % 256, value / 256 % 256, value % 256] ∧
    encodeBigEndian 8 value =
      [value / 72057594037927936 % 256, value / 281474976710656 % 256,
        value / 1099511627776 % 256, value / 4294967296 % 256,
        value / 16777216 % 256, value / 65536 % 256, value / 256 % 256, value % 256] := by
  simp [encodeBigEndian, Nat.div_div_eq_div_mul]

/-- A byte array of `2^32 - 5` bytes is encoded in `2^32` bytes, and the size returned for
it is 0. -/
theorem encode_byteArray_wraps (fmt : Format D) (bytes : List Nat)
    (hb : bytes.length = 4294967291) :
    ((Value.BYTE_ARRAY bytes : Value D).encode fmt []).1.length = 4294967296 ∧
    ((Value.BYTE_ARRAY bytes : Value D).encode fmt []).2 = 0 := by
  refine ⟨?_, ?_⟩
  · simp only [Value.encode, writeBytes_eq, List.nil_append, List.length_append,
      List.length_cons, List.length_nil, encodeBigEndian_length, hb]
  · simp only [Value.encode, writeBytes_eq, List.nil_append, List.length_append,
      List.length_cons, List.length_nil, encodeBigEndian_length, hb]
    rfl

/-- C24 (as stated, refuted): a `BYTE_ARRAY` value holding `2^32 - 5` bytes. The call
`encode` appends `2^32` bytes (marker, four length bytes, the data) to the empty buffer and
returns 0, not the number of bytes appended. -/
theorem c24_returned_size_wraps :
    bigBytes.length = 4294967291 ∧
    ((Value.BYTE_ARRAY bigBytes : Value (List Nat)).encode sampleFormat []).1.length =
      4294967296 ∧
    ((Value.BYTE_ARRAY bigBytes : Value (List Nat)).encode sampleFormat []).2 = 0 :=
  ⟨bigBytes_length, encode_byteArray_wraps sampleFormat bigBytes bigBytes_length⟩

/-- C24 (amended): `encode` only appends to the buffer: the buffer after the call is the
buffer before it followed by the bytes the same call appends to an empty buffer; the returned
size is the number of those bytes modulo `2^32`, so exactly that number when fewer than
`2^32` bytes are appended. An `INT` value is written with the narrowest marker that holds it
(`INT8` up to 255, `INT16` up to 65535, `INT32` up to `2^32 - 1`, else `INT64`), most
significant byte first. -/
theorem c24_encode_appends (fmt : Format D) (hf : ∀ d, (fmt.floatBytes d).length = 4)
    (hd : ∀ d, (fmt.doubleBytes d).length = 8) (v : Value D) (buffer : List Nat) :
    (v.encode fmt buffer).1 = buffer ++ (v.encode fmt []).1 ∧
    (v.encode fmt buffer).2 = (v.encode fmt []).1.length % 4294967296 ∧
    ((v.encode fmt []).1.length < 4294967296 →
      (v.encode fmt buffer).2 = (v.encode fmt []).1.length) ∧
    (∀ n : Nat, (Value.INT n : Value D).encode fmt buffer =
      if n ≤ 255 then (buffer ++ [fmt.code .INT8, n % 256], 2)
      else if n ≤ 65535 then (buffer ++ [fmt.code .INT16, n / 256 % 256, n % 256], 3)
      else if n ≤ 4294967295 then
        (buffer ++ [fmt.code .INT32, n / 16777216 % 256, n / 65536 % 256, n / 256 % 256,
          n % 256], 5)
      else
        (buffer ++ [fmt.code .INT64, n / 72057594037927936 % 256,
          n / 281474976710656 % 256, n / 1099511627776 % 256, n / 4294967296 % 256,
          n / 16777216 % 256, n / 65536 % 256, n / 256 % 256, n % 256], 9)) := by
  have h := encode_appends fmt hf hd v buffer
  have h2 : (v.encode fmt buffer).2 = (v.encode fmt []).1.length % 4294967296 := by
    rw [h]
    rfl
  refine ⟨by rw [h], h2, fun hlt => by rw [h2, Nat.mod_eq_of_lt hlt], ?_⟩
  intro n
  obtain ⟨b1, b2, b4, b8⟩ := encodeBigEndian_bytes n
  simp only [Value.encode, b1, b2, b4, b8, List.append_assoc, List.singleton_append]
  by_cases h1 : n ≤ 255
  · rw [if_neg (by omega), if_neg (by omega), if_neg (by omega), if_pos h1]
    rfl
  · by_cases h3 : n ≤ 65535
    · rw [if_neg (by omega), if_neg (by omega), if_pos (by omega), if_neg h1, if_pos h3]
      rfl
    · by_cases h4 : n ≤ 4294967295
      · rw [if_neg (by omega), if_pos (by omega), if_neg h1, if_neg h3, if_pos h4]
        rfl
      · rw [if_pos (by omega), if_neg h1, if_neg h3, if_neg h4]
        rfl

/-- Witness of `c24_encode_appends`: an array holding an integer and a string, encoded
behind the two bytes 200, 201. -/
theorem c24_encode_appends_witness :
    (Value.ARRAY [.INT 300, .STRING [104, 105]] : Value (List Nat)).encode sampleFormat
      [200, 201] = ([200, 201, 11, 0, 0, 0, 2, 2, 1, 44, 7, 0, 2, 104, 105], 13) ∧
    (((Value.ARRAY [.INT 300, .STRING [104, 105]] : Value (List Nat)).encode sampleFormat
        [200, 201]).1 = [200, 201] ++
        ((Value.ARRAY [.INT 300, .STRING [104, 105]] : Value (List Nat)).encode
          sampleFormat []).1 ∧
    ((Value.ARRAY [.INT 300, .STRING [104, 105]] : Value (List Nat)).encode sampleFormat
        [200, 201]).2 =
      ((Value.ARRAY [.INT 300, .STRING [104, 105]] : Value (List Nat)).encode
        sampleFormat []).1.length % 4294967296 ∧
    (((Value.ARRAY [.INT 300, .STRING [104, 105]] : Value (List Nat)).encode
        sampleFormat []).1.length < 4294967296 →
      ((Value.ARRAY [.INT 300, .STRING [104, 105]] : Value (List Nat)).encode sampleFormat
        [200, 201]).2 =
      ((Value.ARRAY [.INT 300, .STRING [104, 105]] : Value (List Nat)).encode
        sampleFormat []).1.length) ∧
    (∀ n : Nat, (Value.INT n : Value (List Nat)).encode sampleFormat [200, 201] =
      if n ≤ 255 then ([200, 201] ++ [sampleFormat.code .INT8, n % 256], 2)
      else if n ≤ 65535 then
        ([200, 201] ++ [sampleFormat.code .INT16, n / 256 % 256, n % 256], 3)
      else if n ≤ 4294967295 then
        ([200, 201] ++ [sampleFormat.code .INT32, n / 16777216 % 256, n / 65536 % 256,
          n / 256 % 256, n % 256], 5)
      else
        ([200, 201] ++ [sampleFormat.code .INT64, n / 72057594037927936 % 256,
          n / 281474976710656 % 256, n / 1099511627776 % 256, n / 4294967296 % 256,
          n / 16777216 % 256, n / 65536 % 256, n / 256 % 256, n % 256], 9))) :=
  ⟨rfl, c24_encode_appends sampleFormat sampleFormat_floatBytes sampleFormat_doubleBytes
    (.ARRAY [.INT 300, .STRING [104, 105]]) [200, 201]⟩

/-! ### Decoding stays inside the buffer -/

/-- The test of the readers, for an offset inside a buffer of fewer than `2^32` bytes. -/
theorem notEnough_eq (buffer : List Nat) (hS : buffer.length < audio.UINT32_MOD)
    (offset n : Nat) (ho : offset ≤ buffer.length) :
    notEnough buffer offset n = decide (buffer.length - offset < n) := by
  unfold notEnough
  rw [audio.sizeSub_of_le ho hS]

theorem bytesAt_ok (buffer : List Nat) (offset n : Nat) (h : offset + n ≤ buffer.length) :
    bytesAt buffer offset n = .ok ((buffer.drop offset).take n) := by
  unfold bytesAt
  rw [if_pos h]

/-- A checked read of `n` bytes: either the exception, or the bytes lie inside the buffer. -/
theorem checked_read (buffer : List Nat) (hS : buffer.length < audio.UINT32_MOD)
    (offset n : Nat) (ho : offset ≤ buffer.length) :
    (notEnough buffer offset n = true ∧ buffer.length < offset + n) ∨
    (notEnough buffer offset n = false ∧ offset + n ≤ buffer.length ∧
      bytesAt buffer offset n = .ok ((buffer.drop offset).take n) ∧
      audio.addUInt32 offset n = offset + n) := by
  rw [notEnough_eq buffer hS offset n ho]
  by_cases h : buffer.length - offset < n
  · exact Or.inl ⟨decide_eq_true h, by omega⟩
  · refine Or.inr ⟨decide_eq_false h, by omega, bytesAt_ok buffer offset n (by omega), ?_⟩
    unfold audio.addUInt32
    unfold audio.UINT32_MOD at *
    omega

theorem readInt_within (buffer : List Nat) (hS : buffer.length < audio.UINT32_MOD)
    (n offset : Nat) (ho : offset ≤ buffer.length) (strict : Bool) :
    Within buffer.length offset strict (readInt n buffer offset) := by
  unfold readInt
  rcases checked_read buffer hS offset n ho with ⟨h1, _⟩ | ⟨h1, h2, h3, _⟩
  · rw [h1, if_pos rfl]
    exact Or.inl rfl
  · rw [h1, if_neg (by simp), h3]
    exact h2

theorem readRaw_within (buffer : List Nat) (hS : buffer.length < audio.UINT32_MOD)
    (n offset : Nat) (ho : offset ≤ buffer.length) (strict : Bool) :
    Within buffer.length offset strict (readRaw n buffer offset) := by
  unfold readRaw
  rcases checked_read buffer hS offset n ho with ⟨h1, _⟩ | ⟨h1, h2, h3, _⟩
  · rw [h1, if_pos rfl]
    exact Or.inl rfl
  · rw [h1, if_neg (by simp), h3]
    exact h2

theorem readBytes_within (buffer : List Nat) (hS : buffer.length < audio.UINT32_MOD)
    (n offset : Nat) (ho : offset ≤ buffer.length) (strict : Bool) :
    Within buffer.length offset strict (readBytes n buffer offset) := by
  unfold readBytes
  simp only
  rcases checked_read buffer hS offset n ho with ⟨h1, _⟩ | ⟨h1, h2, h3, h4⟩
  · rw [h1, if_pos rfl]
    exact Or.inl rfl
  · rw [h1, if_neg (by simp), h3]
    simp only [h4]
    rcases checked_read buffer hS (offset + n)
        (decodeBigEndian ((buffer.drop offset).take n)) h2 with ⟨k1, _⟩ | ⟨k1, k2, k3, k4⟩
    · rw [k1, if_pos rfl]
      exact Or.inl rfl
    · rw [k1, if_neg (by simp), k3]
      simp only [k4]
      show offset + audio.subUInt32 _ _ ≤ _
      unfold audio.subUInt32
      unfold audio.UINT32_MOD at *
      omega

theorem readCount_within (buffer : List Nat) (hS : buffer.length < audio.UINT32_MOD)
    (offset : Nat) (ho : offset ≤ buffer.length) :
    readCount buffer offset = .error .notEnoughData ∨
    (offset + 4 ≤ buffer.length ∧
      readCount buffer offset =
        .ok (decodeBigEndian ((buffer.drop offset).take 4), offset + 4)) := by
  unfold readCount
  rcases checked_read buffer hS offset 4 ho with ⟨h1, _⟩ | ⟨h1, h2, h3, h4⟩
  · rw [h1, if_pos rfl]
    exact Or.inl rfl
  · rw [h1, if_neg (by simp), h3]
    simp only [h4]
    exact Or.inr ⟨h2, trivial⟩

theorem Within.weaken {α : Type} {size offset : Nat} {b : Bool} {r : Except Error (α × Nat)}
    (h : Within size offset true r) : Within size offset b r := by
  cases r with
  | ok r => exact h
  | error e =>
    rcases h with h | h | ⟨h, _⟩
    · exact Or.inl h
    · exact Or.inr (Or.inl h)
    · cases h

theorem Within.toFalse {α : Type} {size offset : Nat} {b : Bool} {r : Except Error (α × Nat)}
    (h : Within size offset b r) : Within size offset false r := by
  cases r with
  | ok r => exact h
  | error e =>
    rcases h with h | h | ⟨_, h⟩
    · exact Or.inl h
    · exact Or.inr (Or.inl h)
    · exact Or.inr (Or.inr ⟨rfl, h⟩)

/-- The loop of `readArray` stays inside the buffer when `decode` does. -/
theorem readArrayLoop_within (buffer : List Nat) (hS : buffer.length < audio.UINT32_MOD)
    (strict : Bool) (lo : Nat) (decode : Nat → Except Error (Value D × Nat))
    (hdec : ∀ o, lo ≤ o → o ≤ buffer.length → Within buffer.length o strict (decode o)) :
    ∀ (count offset : Nat) (result : List (Value D)), lo ≤ offset → offset ≤ buffer.length →
      LoopWithin buffer.length offset strict (readArrayLoop decode count offset result)
  | 0, offset, result, _, ho => by
    show offset ≤ offset ∧ offset ≤ _
    exact ⟨le_refl _, ho⟩
  | count + 1, offset, result, hlo, ho => by
    unfold readArrayLoop
    have h := hdec offset hlo ho
    cases hd : decode offset with
    | error e =>
      rw [hd] at h
      exact h
    | ok r =>
      obtain ⟨node, ret⟩ := r
      rw [hd] at h
      have h1 : offset + ret ≤ buffer.length := h
      have h2 : audio.addUInt32 offset ret = offset + ret := by
        unfold audio.addUInt32
        unfold audio.UINT32_MOD at *
        omega
      simp only [h2]
      have ih := readArrayLoop_within buffer hS strict lo decode hdec count (offset + ret)
        (result ++ [node]) (by omega) h1
      cases hl : readArrayLoop decode count (offset + ret) (result ++ [node]) with
      | error e =>
        rw [hl] at ih
        exact ih
      | ok r2 =>
        rw [hl] at ih
        exact ⟨by have := ih.1; omega, ih.2⟩

/-- The loop of `readObject` stays inside the buffer when `decode` does. -/
theorem readObjectLoop_within (buffer : List Nat) (hS : buffer.length < audio.UINT32_MOD)
    (strict : Bool) (lo : Nat) (decode : Nat → Except Error (Value D × Nat))
    (hdec : ∀ o, lo ≤ o → o ≤ buffer.length → Within buffer.length o strict (decode o)) :
    ∀ (count offset : Nat) (result : List (Nat × Value D)), lo ≤ offset →
      offset ≤ buffer.length →
      LoopWithin buffer.length offset strict (readObjectLoop decode buffer count offset result)
  | 0, offset, result, _, ho => by
    show offset ≤ offset ∧ offset ≤ _
    exact ⟨le_refl _, ho⟩
  | count + 1, offset, result, hlo, ho => by
    unfold readObjectLoop
    rcases checked_read buffer hS offset 4 ho with ⟨h1, _⟩ | ⟨h1, h2, h3, h4⟩
    · rw [h1, if_pos rfl]
      exact Or.inl rfl
    · rw [h1, if_neg (by simp), h3]
      simp only [h4]
      have h := hdec (offset + 4) (by omega) h2
      cases hd : decode (offset + 4) with
      | error e =>
        rw [hd] at h
        exact h
      | ok r =>
        obtain ⟨node, ret⟩ := r
        rw [hd] at h
        have k1 : offset + 4 + ret ≤ buffer.length := h
        have k2 : audio.addUInt32 (offset + 4) ret = offset + 4 + ret := by
          unfold audio.addUInt32
          unfold audio.UINT32_MOD at *
          omega
        simp only [k2]
        have ih := readObjectLoop_within buffer hS strict lo decode hdec count
          (offset + 4 + ret)
          (mapAssign (fun a b => decide (a < b))
            (decodeBigEndian ((buffer.drop offset).take 4)) node result) (by omega) k1
        cases hl : readObjectLoop decode buffer count (offset + 4 + ret)
          (mapAssign (fun a b => decide (a < b))
            (decodeBigEndian ((buffer.drop offset).take 4)) node result) with
        | error e =>
          rw [hl] at ih
          exact ih
        | ok r2 =>
          rw [hl] at ih
          exact ⟨by have := ih.1; omega, ih.2⟩

/-- The loop of `readDictionary` stays inside the buffer when `decode` does. -/
theorem readDictionaryLoop_within (buffer : List Nat) (hS : buffer.length < audio.UINT32_MOD)
    (strict : Bool) (lo : Nat) (decode : Nat → Except Error (Value D × Nat))
    (hdec : ∀ o, lo ≤ o → o ≤ buffer.length → Within buffer.length o strict (decode o)) :
    ∀ (count offset : Nat) (result : List (List Nat × Value D)), lo ≤ offset →
      offset ≤ buffer.length →
      LoopWithin buffer.length offset strict
        (readDictionaryLoop decode buffer count offset result)
  | 0, offset, result, _, ho => by
    show offset ≤ offset ∧ offset ≤ _
    exact ⟨le_refl _, ho⟩
  | count + 1, offset, result, hlo, ho => by
    unfold readDictionaryLoop
    rcases checked_read buffer hS offset 2 ho with ⟨h1, _⟩ | ⟨h1, h2, h3, h4⟩
    · rw [h1, if_pos rfl]
      exact Or.inl rfl
    · rw [h1, if_neg (by simp), h3]
      simp only [h4]
      rcases checked_read buffer hS (offset + 2)
          (decodeBigEndian ((buffer.drop offset).take 2)) h2 with ⟨j1, _⟩ | ⟨j1, j2, j3, j4⟩
      · rw [j1, if_pos rfl]
        exact Or.inl rfl
      · rw [j1, if_neg (by simp), j3]
        simp only [j4]
        have h := hdec (offset + 2 + decodeBigEndian ((buffer.drop offset).take 2))
          (by omega) j2
        cases hd : decode (offset + 2 + decodeBigEndian ((buffer.drop offset).take 2)) with
        | error e =>
          rw [hd] at h
          exact h
        | ok r =>
          obtain ⟨node, ret⟩ := r
          rw [hd] at h
          have k1 : offset + 2 + decodeBigEndian ((buffer.drop offset).take 2) + ret ≤
              buffer.length := h
          have k2 : audio.addUInt32
              (offset + 2 + decodeBigEndian ((buffer.drop offset).take 2)) ret =
              offset + 2 + decodeBigEndian ((buffer.drop offset).take 2) + ret := by
            unfold audio.addUInt32
            unfold audio.UINT32_MOD at *
            omega
          simp only [k2]
          have ih := readDictionaryLoop_within buffer hS strict lo decode hdec count
            (offset + 2 + decodeBigEndian ((buffer.drop offset).take 2) + ret)
            (mapAssign stringLess
              ((buffer.drop (offset + 2)).take
                (decodeBigEndian ((buffer.drop offset).take 2))) node result)
            (by omega) k1
          cases hl : readDictionaryLoop decode buffer count
            (offset + 2 + decodeBigEndian ((buffer.drop offset).take 2) + ret)
            (mapAssign stringLess
              ((buffer.drop (offset + 2)).take
                (decodeBigEndian ((buffer.drop offset).take 2))) node result) with
          | error e =>
            rw [hl] at ih
            exact ih
          | ok r2 =>
            rw [hl] at ih
            exact ⟨by have := ih.1; omega, ih.2⟩

theorem Within.map {α β : Type} {size offset : Nat} {b : Bool} {r : Except Error (α × Nat)}
    (g : α → β) (h : Within size offset b r) :
    Within size offset b (r.map fun r => (g r.1, r.2)) := by
  cases r with
  | ok r => exact h
  | error e => exact h

/-- The tail shared by `readArray`, `readObject` and `readDictionary`: the returned size
`offset - originalOffset` after a loop that stayed inside the buffer. -/
theorem container_within (buffer : List Nat)
    (hS : buffer.length < audio.UINT32_MOD) (offset offset2 : Nat)
    (h : offset + 4 ≤ offset2 ∧ offset2 ≤ buffer.length) :
    offset + audio.subUInt32 offset2 offset ≤ buffer.length := by
  unfold audio.subUInt32
  unfold audio.UINT32_MOD at *
  omega

theorem readArray_within (buffer : List Nat) (hS : buffer.length < audio.UINT32_MOD)
    (strict : Bool) (offset : Nat) (ho : offset ≤ buffer.length)
    (decode : Nat → Except Error (Value D × Nat))
    (hdec : ∀ o, offset + 4 ≤ o → o ≤ buffer.length → Within buffer.length o strict (decode o)) :
    Within buffer.length offset strict (readArray decode buffer offset) := by
  unfold readArray
  rcases readCount_within buffer hS offset ho with h | ⟨h1, h2⟩
  · rw [h]
    exact Or.inl rfl
  · rw [h2]
    simp only
    have hl := readArrayLoop_within buffer hS strict (offset + 4) decode hdec
      (decodeBigEndian ((buffer.drop offset).take 4)) (offset + 4) [] (le_refl _) h1
    cases hr : readArrayLoop decode (decodeBigEndian ((buffer.drop offset).take 4))
        (offset + 4) [] with
    | error e =>
      rw [hr] at hl
      exact hl
    | ok r =>
      rw [hr] at hl
      exact container_within buffer hS offset r.2 hl

theorem readObject_within (buffer : List Nat) (hS : buffer.length < audio.UINT32_MOD)
    (strict : Bool) (offset : Nat) (ho : offset ≤ buffer.length)
    (decode : Nat → Except Error (Value D × Nat))
    (hdec : ∀ o, offset + 4 ≤ o → o ≤ buffer.length → Within buffer.length o strict (decode o)) :
    Within buffer.length offset strict (readObject decode buffer offset) := by
  unfold readObject
  rcases readCount_within buffer hS offset ho with h | ⟨h1, h2⟩
  · rw [h]
    exact Or.inl rfl
  · rw [h2]
    simp only
    have hl := readObjectLoop_within buffer hS strict (offset + 4) decode hdec
      (decodeBigEndian ((buffer.drop offset).take 4)) (offset + 4) [] (le_refl _) h1
    cases hr : readObjectLoop decode buffer (decodeBigEndian ((buffer.drop offset).take 4))
        (offset + 4) [] with
    | error e =>
      rw [hr] at hl
      exact hl
    | ok r =>
      rw [hr] at hl
      exact container_within buffer hS offset r.2 hl

theorem readDictionary_within (buffer : List Nat) (hS : buffer.length < audio.UINT32_MOD)
    (strict : Bool) (offset : Nat) (ho : offset ≤ buffer.length)
    (decode : Nat → Except Error (Value D × Nat))
    (hdec : ∀ o, offset + 4 ≤ o → o ≤ buffer.length → Within buffer.length o strict (decode o)) :
    Within buffer.length offset strict (readDictionary decode buffer offset) := by
  unfold readDictionary
  rcases readCount_within buffer hS offset ho with h | ⟨h1, h2⟩
  · rw [h]
    exact Or.inl rfl
  · rw [h2]
    simp only
    have hl := readDictionaryLoop_within buffer hS strict (offset + 4) decode hdec
      (decodeBigEndian ((buffer.drop offset).take 4)) (offset + 4) [] (le_refl _) h1
    cases hr : readDictionaryLoop decode buffer (decodeBigEndian ((buffer.drop offset).take 4))
        (offset + 4) [] with
    | error e =>
      rw [hr] at hl
      exact hl
    | ok r =>
      rw [hr] at hl
      exact container_within buffer hS offset r.2 hl

/-- Every `case` of `decode` stays inside the buffer when the nested `decode` does. -/
theorem decodeCase_within (fmt : Format D) (buffer : List Nat)
    (hS : buffer.length < audio.UINT32_MOD)
    (strict : Bool) (offset : Nat) (ho : offset ≤ buffer.length)
    (decode : Nat → Except Error (Value D × Nat))
    (hdec : ∀ o, offset + 4 ≤ o → o ≤ buffer.length → Within buffer.length o strict (decode o))
    (marker : Marker) :
    Within buffer.length offset strict (decodeCase fmt decode buffer offset marker) := by
  cases marker with
  | NONE => exact (Nat.add_zero offset).le.trans ho
  | INT8 => exact Within.map _ (readInt_within buffer hS 1 offset ho strict)
  | INT16 => exact Within.map _ (readInt_within buffer hS 2 offset ho strict)
  | INT32 => exact Within.map _ (readInt_within buffer hS 4 offset ho strict)
  | INT64 => exact Within.map _ (readInt_within buffer hS 8 offset ho strict)
  | FLOAT =>
    exact Within.map (fun b => Value.FLOAT (fmt.ofFloatBytes b)) (readRaw_within buffer hS 4 offset ho strict)
  | DOUBLE =>
    exact Within.map (fun b => Value.DOUBLE (fmt.ofDoubleBytes b)) (readRaw_within buffer hS 8 offset ho strict)
  | STRING => exact Within.map _ (readBytes_within buffer hS 2 offset ho strict)
  | LONG_STRING => exact Within.map _ (readBytes_within buffer hS 4 offset ho strict)
  | BYTE_ARRAY => exact Within.map _ (readBytes_within buffer hS 4 offset ho strict)
  | OBJECT => exact Within.map _ (readObject_within buffer hS strict offset ho decode hdec)
  | ARRAY => exact Within.map _ (readArray_within buffer hS strict offset ho decode hdec)
  | DICTIONARY =>
    exact Within.map _ (readDictionary_within buffer hS strict offset ho decode hdec)

/-- On a buffer of fewer than `2^32` bytes, `decode` at an offset inside the buffer stays
inside the buffer, and with more fuel than bytes left it does not run out of fuel. -/
theorem decode_within (fmt : Format D) (buffer : List Nat)
    (hS : buffer.length < audio.UINT32_MOD) :
    ∀ (fuel offset : Nat), offset ≤ buffer.length →
      Within buffer.length offset (decide (buffer.length - offset < fuel))
        (Value.decode fmt fuel buffer offset)
  | 0, offset, _ => by
    unfold Value.decode
    exact Or.inr (Or.inr ⟨by simp, rfl⟩)
  | fuel + 1, offset, ho => by
    unfold Value.decode
    simp only
    rcases checked_read buffer hS offset 1 ho with ⟨h1, _⟩ | ⟨h1, h2, h3, h4⟩
    · rw [h1, if_pos rfl]
      exact Or.inl rfl
    · rw [h1, if_neg (by simp), h3]
      simp only [h4]
      cases hm : markerOf fmt (decodeBigEndian ((buffer.drop offset).take 1)) with
      | none => exact Or.inr (Or.inl rfl)
      | some marker =>
        simp only
        have hdec : ∀ o, offset + 1 + 4 ≤ o → o ≤ buffer.length →
            Within buffer.length o (decide (buffer.length - offset < fuel + 1))
              (Value.decode fmt fuel buffer o) := by
          intro o h5 h6
          have ih := decode_within fmt buffer hS fuel o h6
          by_cases hb : buffer.length - offset < fuel + 1
          · have hb2 : buffer.length - o < fuel := by omega
            rw [decide_eq_true hb2] at ih
            exact ih.weaken
          · rw [decide_eq_false hb]
            exact ih.toFalse
        have hc := decodeCase_within fmt buffer hS
          (decide (buffer.length - offset < fuel + 1)) (offset + 1) h2
          (Value.decode fmt fuel buffer) hdec marker
        cases hr : decodeCase fmt (Value.decode fmt fuel buffer) buffer (offset + 1) marker with
        | error e =>
          rw [hr] at hc
          exact hc
        | ok r =>
          obtain ⟨value, ret⟩ := r
          rw [hr] at hc
          have k1 : offset + 1 + ret ≤ buffer.length := hc
          show offset + audio.subUInt32 (audio.addUInt32 (offset + 1) ret) offset ≤ _
          unfold audio.subUInt32 audio.addUInt32
          unfold audio.UINT32_MOD at *
          omega

/-! ### Buffers of `2^32` bytes and more -/

/-- A read that lies inside a buffer passes the test of the readers. -/
theorem read_inside (buffer : List Nat) (hS : buffer.length < audio.SIZE_MOD)
    (offset n : Nat) (h : offset + n ≤ buffer.length) :
    notEnough buffer offset n = false ∧
    bytesAt buffer offset n = .ok ((buffer.drop offset).take n) := by
  refine ⟨?_, bytesAt_ok buffer offset n h⟩
  unfold notEnough
  rw [audio.PCMSource.sizeSub_inside (by omega) hS]
  exact decide_eq_false (by omega)

/-- On a buffer of `2^32` bytes that holds the `INT8` marker in its first and in its last
byte, `decode` at the last byte `o` reads the marker there and the integer at offset 0, and
returns the size 2. -/
theorem decode_at_last_byte (buf : List Nat) (o : Nat) (ho : o = 4294967295)
    (hlen : buf.length = o + 1)
    (hlast : (buf.drop o).take 1 = [1]) (hfirst : (buf.drop 0).take 1 = [1])
    (fuel : Nat) :
    Value.decode sampleFormat (fuel + 1) buf o = .ok (.INT 1, 2) := by
  have hS : buf.length < audio.SIZE_MOD := by
    unfold audio.SIZE_MOD
    omega
  obtain ⟨a1, a2⟩ := read_inside buf hS o 1 (by omega)
  obtain ⟨b1, b2⟩ := read_inside buf hS 0 1 (by omega)
  have e1 : audio.addUInt32 o 1 = 0 := by
    unfold audio.addUInt32 audio.UINT32_MOD
    omega
  have e2 : audio.addUInt32 0 1 = 1 := rfl
  have e3 : audio.subUInt32 1 o = 2 := by
    unfold audio.subUInt32 audio.UINT32_MOD
    omega
  have m1 : markerOf sampleFormat (decodeBigEndian [1]) = some Marker.INT8 := rfl
  have r1 : readInt 1 buf 0 = .ok (1, 1) := by
    unfold readInt
    rw [b1, if_neg (by simp), b2, hfirst]
    rfl
  rw [Value.decode]
  simp only
  rw [a1, if_neg (by simp), a2, hlast]
  simp only [e1, m1, decodeCase, r1, Except.map, e2, e3]

theorem allInt8_length : allInt8.length = 4294967296 := List.length_replicate _ _

theorem allInt8_last : (allInt8.drop 4294967295).take 1 = [1] := by
  unfold allInt8
  rw [List.drop_replicate, List.take_replicate]
  norm_num

theorem allInt8_first : (allInt8.drop 0).take 1 = [1] := by
  unfold allInt8
  rw [List.drop_replicate, List.take_replicate]
  norm_num

/-- C22 (as stated, refuted): a buffer of `2^32` bytes, each the `INT8` marker, and the
offset `2^32 - 1`, which is inside the buffer. The call `decode` reads the marker at the last
byte, its 32-bit offset wraps to 0, it reads the integer there and returns the size 2: the
offset plus the returned size is beyond the size of the buffer. -/
theorem c22_returned_size_beyond_buffer :
    allInt8.length = 4294967296 ∧ 4294967295 ≤ allInt8.length ∧
    (∀ fuel, Value.decode sampleFormat (fuel + 1) allInt8 4294967295 = .ok (.INT 1, 2)) ∧
    allInt8.length < 4294967295 + 2 :=
  ⟨allInt8_length, by rw [allInt8_length]; omega,
    decode_at_last_byte allInt8 4294967295 rfl allInt8_length allInt8_last allInt8_first,
    by rw [allInt8_length]; omega⟩

theorem drop_flatten_replicate (l : List Nat) :
    ∀ (k n : Nat), k < n →
      ((List.replicate n l).flatten).drop (k * l.length) =
        l ++ (List.replicate (n - k - 1) l).flatten
  | 0, n + 1, _ => by
    rw [List.replicate_succ, List.flatten_cons]
    simp
  | k + 1, n + 1, h => by
    rw [List.replicate_succ, List.flatten_cons, Nat.succ_mul, Nat.add_comm (k * l.length),
      ← List.drop_drop, List.drop_left, drop_flatten_replicate l k n (by omega)]
    congr 3
    omega

/-- One step of `decode` on a buffer that holds `nestPattern` at offset `o`: the nested
`decode` runs at the offset behind the pattern, taken modulo `2^32`. -/
theorem decode_nest_step (buf : List Nat) (hS : buf.length < audio.SIZE_MOD) (o : Nat)
    (ho : o + 8 ≤ buf.length) (ho2 : o + 8 ≤ audio.UINT32_MOD)
    (rest : List Nat) (hpat : buf.drop o = nestPattern ++ rest)
    (fuel : Nat)
    (hrec : Value.decode sampleFormat fuel buf ((o + 8) % audio.UINT32_MOD) =
      .error .outOfFuel) :
    Value.decode sampleFormat (fuel + 1) buf o = .error .outOfFuel := by
  have hd : ∀ j, buf.drop (o + j) = (nestPattern ++ rest).drop j := by
    intro j
    rw [← hpat, List.drop_drop]
  obtain ⟨a1, a2⟩ := read_inside buf hS o 1 (by omega)
  obtain ⟨b1, b2⟩ := read_inside buf hS (o + 1) 4 (by omega)
  obtain ⟨c1, c2⟩ := read_inside buf hS (o + 5) 2 (by omega)
  obtain ⟨d1, d2⟩ := read_inside buf hS (o + 7) 1 (by omega)
  have e1 : audio.addUInt32 o 1 = o + 1 := by
    unfold audio.addUInt32
    unfold audio.UINT32_MOD at *
    omega
  have e2 : audio.addUInt32 (o + 1) 4 = o + 5 := by
    unfold audio.addUInt32
    unfold audio.UINT32_MOD at *
    omega
  have e3 : audio.addUInt32 (o + 5) 2 = o + 7 := by
    unfold audio.addUInt32
    unfold audio.UINT32_MOD at *
    omega
  have e4 : audio.addUInt32 (o + 7) 1 = (o + 8) % audio.UINT32_MOD := rfl
  have p1 : (buf.drop o).take 1 = [12] := by
    rw [hpat]
    rfl
  have p2 : (buf.drop (o + 1)).take 4 = [0, 0, 0, 1] := by
    rw [hd 1]
    rfl
  have p3 : (buf.drop (o + 5)).take 2 = [0, 1] := by
    rw [hd 5]
    rfl
  have p4 : (buf.drop (o + 7)).take 1 = [0] := by
    rw [hd 7]
    rfl
  have m1 : markerOf sampleFormat (decodeBigEndian [12]) = some Marker.DICTIONARY := rfl
  have n1 : decodeBigEndian [0, 0, 0, 1] = 1 := rfl
  have n2 : decodeBigEndian [0, 1] = 1 := rfl
  have rc : readCount buf (o + 1) = .ok (1, o + 5) := by
    unfold readCount
    rw [b1, if_neg (by simp), b2, p2]
    simp only [n1, e2]
  have rl : readDictionaryLoop (Value.decode sampleFormat fuel buf) buf 1 (o + 5) [] =
      .error .outOfFuel := by
    unfold readDictionaryLoop
    rw [c1, if_neg (by simp), c2, p3]
    simp only [n2, e3]
    rw [d1, if_neg (by simp), d2, p4]
    simp only [e4, hrec]
  rw [Value.decode]
  simp only
  rw [a1, if_neg (by simp), a2, p1]
  simp only [e1, m1, decodeCase, readDictionary, rc, rl, Except.map]


/-- On a buffer of `2^32` bytes that holds `nestPattern` at every multiple of 8, `decode`
at a multiple of 8 runs out of fuel, whatever the fuel. -/
theorem decode_nest_forever (buf : List Nat) (hlen : buf.length = audio.UINT32_MOD)
    (hpat : ∀ k, k < 536870912 → ∃ rest, buf.drop (k * 8) = nestPattern ++ rest) :
    ∀ (fuel k : Nat), k < 536870912 →
      Value.decode sampleFormat fuel buf (k * 8) = .error .outOfFuel
  | 0, k, _ => rfl
  | fuel + 1, k, hk => by
    obtain ⟨rest, hrest⟩ := hpat k hk
    have hS : buf.length < audio.SIZE_MOD := by
      rw [hlen]
      decide
    have h8 : k * 8 + 8 ≤ audio.UINT32_MOD := by
      unfold audio.UINT32_MOD
      omega
    refine decode_nest_step buf hS (k * 8) (by omega) h8 rest hrest fuel ?_
    have e : (k * 8 + 8) % audio.UINT32_MOD = ((k + 1) % 536870912) * 8 := by
      unfold audio.UINT32_MOD
      omega
    rw [e]
    exact decode_nest_forever buf hlen hpat fuel _ (Nat.mod_lt _ (by omega))

theorem nestForever_length : nestForever.length = audio.UINT32_MOD := by
  unfold nestForever
  rw [audio.PCMSource.length_flatten_replicate]
  rfl

/-- C23 (as stated, refuted): a buffer of `2^32` bytes, `2^29` copies of a dictionary
header with one entry whose value is the next copy. The 32-bit offset of `decode`
wraps from the end of the buffer to 0, so that the nesting never ends: whatever the fuel, the
call at offset 0 does not return. -/
theorem c23_nesting_never_ends :
    nestForever.length = 4294967296 ∧ 0 ≤ nestForever.length ∧
    ∀ fuel, Value.decode sampleFormat fuel nestForever 0 = .error .outOfFuel :=
  ⟨nestForever_length, Nat.zero_le _, fun fuel =>
    decode_nest_forever nestForever nestForever_length
      (fun k hk => ⟨_, drop_flatten_replicate nestPattern k 536870912 hk⟩) fuel 0 (by omega)⟩

/-! ### The bytes of an encoding, constructor by constructor -/

theorem bytes_none (fmt : Format D) : (Value.NONE : Value D).bytes fmt = [fmt.code .NONE] := rfl

theorem bytes_int (fmt : Format D) (n : Nat) :
    (Value.INT n : Value D).bytes fmt =
      if n > 4294967295 then fmt.code .INT64 :: encodeBigEndian 8 n
      else if n > 65535 then fmt.code .INT32 :: encodeBigEndian 4 n
      else if n > 255 then fmt.code .INT16 :: encodeBigEndian 2 n
      else fmt.code .INT8 :: encodeBigEndian 1 n := by
  unfold Value.bytes
  simp only [Value.encode]
  split_ifs <;> rfl

theorem bytes_float (fmt : Format D) (d : D) :
    (Value.FLOAT d : Value D).bytes fmt = fmt.code .FLOAT :: fmt.floatBytes d := rfl

theorem bytes_double (fmt : Format D) (d : D) :
    (Value.DOUBLE d : Value D).bytes fmt = fmt.code .DOUBLE :: fmt.doubleBytes d := rfl

theorem bytes_string (fmt : Format D) (s : List Nat) :
    (Value.STRING s : Value D).bytes fmt =
      if s.length > 65535 then fmt.code .LONG_STRING :: (encodeBigEndian 4 s.length ++ s)
      else fmt.code .STRING :: (encodeBigEndian 2 s.length ++ s) := by
  unfold Value.bytes
  simp only [Value.encode]
  split_ifs <;> simp only [writeBytes_eq, List.nil_append, List.singleton_append]

theorem bytes_byteArray (fmt : Format D) (b : List Nat) :
    (Value.BYTE_ARRAY b : Value D).bytes fmt =
      fmt.code .BYTE_ARRAY :: (encodeBigEndian 4 b.length ++ b) := by
  unfold Value.bytes
  simp only [Value.encode, writeBytes_eq, List.nil_append, List.singleton_append]

theorem bytes_array (fmt : Format D) (hf : ∀ d, (fmt.floatBytes d).length = 4)
    (hd : ∀ d, (fmt.doubleBytes d).length = 8) (values : List (Value D)) :
    (Value.ARRAY values : Value D).bytes fmt =
      fmt.code .ARRAY :: (encodeBigEndian 4 values.length ++ arrayBytes fmt values) := by
  unfold Value.bytes arrayBytes
  simp only [Value.encode]
  rw [(writeArrayLoop_appends fmt hf hd values _ 4).1]
  simp only [List.nil_append, List.singleton_append, List.cons_append]

theorem bytes_object (fmt : Format D) (hf : ∀ d, (fmt.floatBytes d).length = 4)
    (hd : ∀ d, (fmt.doubleBytes d).length = 8) (entries : List (Nat × Value D)) :
    (Value.OBJECT entries : Value D).bytes fmt =
      fmt.code .OBJECT :: (encodeBigEndian 4 entries.length ++ objectBytes fmt entries) := by
  unfold Value.bytes objectBytes
  simp only [Value.encode]
  rw [(writeObjectLoop_appends fmt hf hd entries _ 4).1]
  simp only [List.nil_append, List.singleton_append, List.cons_append]

theorem bytes_dictionary (fmt : Format D) (hf : ∀ d, (fmt.floatBytes d).length = 4)
    (hd : ∀ d, (fmt.doubleBytes d).length = 8) (entries : List (List Nat × Value D)) :
    (Value.DICTIONARY entries : Value D).bytes fmt =
      fmt.code .DICTIONARY ::
        (encodeBigEndian 4 entries.length ++ dictionaryBytes fmt entries) := by
  unfold Value.bytes dictionaryBytes
  simp only [Value.encode]
  rw [(writeDictionaryLoop_appends fmt hf hd entries _ 4).1]
  simp only [List.nil_append, List.singleton_append, List.cons_append]

theorem arrayBytes_nil (fmt : Format D) : arrayBytes fmt ([] : List (Value D)) = [] := rfl

theorem arrayBytes_cons (fmt : Format D) (hf : ∀ d, (fmt.floatBytes d).length = 4)
    (hd : ∀ d, (fmt.doubleBytes d).length = 8) (v : Value D) (rest : List (Value D)) :
    arrayBytes fmt (v :: rest) = v.bytes fmt ++ arrayBytes fmt rest := by
  unfold arrayBytes Value.bytes
  simp only [writeArrayLoop]
  rw [(writeArrayLoop_appends fmt hf hd rest _ _).1]

theorem objectBytes_nil (fmt : Format D) : objectBytes fmt ([] : List (Nat × Value D)) = [] :=
  rfl

theorem objectBytes_cons (fmt : Format D) (hf : ∀ d, (fmt.floatBytes d).length = 4)
    (hd : ∀ d, (fmt.doubleBytes d).length = 8) (key : Nat) (v : Value D)
    (rest : List (Nat × Value D)) :
    objectBytes fmt ((key, v) :: rest) =
      encodeBigEndian 4 key ++ (v.bytes fmt ++ objectBytes fmt rest) := by
  unfold objectBytes Value.bytes
  simp only [writeObjectLoop]
  rw [(writeObjectLoop_appends fmt hf hd rest _ _).1, encode_appends fmt hf hd v]
  simp only [List.nil_append, List.append_assoc]

theorem dictionaryBytes_nil (fmt : Format D) :
    dictionaryBytes fmt ([] : List (List Nat × Value D)) = [] := rfl

theorem dictionaryBytes_cons (fmt : Format D) (hf : ∀ d, (fmt.floatBytes d).length = 4)
    (hd : ∀ d, (fmt.doubleBytes d).length = 8) (key : List Nat) (v : Value D)
    (rest : List (List Nat × Value D)) :
    dictionaryBytes fmt ((key, v) :: rest) =
      encodeBigEndian 2 key.length ++ (key ++ (v.bytes fmt ++ dictionaryBytes fmt rest)) := by
  unfold dictionaryBytes Value.bytes
  simp only [writeDictionaryLoop]
  rw [(writeDictionaryLoop_appends fmt hf hd rest _ _).1, encode_appends fmt hf hd v]
  simp only [List.nil_append, List.append_assoc]

/-! ### Reading back what was written -/

theorem decodeBigEndian_append (a : List Nat) (b : Nat) :
    decodeBigEndian (a ++ [b]) = decodeBigEndian a * 256 + b := by
  unfold decodeBigEndian
  rw [List.foldl_append]
  rfl

/-- Reading back `n` big-endian bytes gives the value modulo `256^n`. -/
theorem decodeBigEndian_encodeBigEndian (n value : Nat) :
    decodeBigEndian (encodeBigEndian n value) = value % 256 ^ n := by
  induction n generalizing value with
  | zero =>
    simp only [encodeBigEndian, pow_zero, Nat.mod_one]
    rfl
  | succ n ih =>
    rw [encodeBigEndian, decodeBigEndian_append, ih, pow_succ, Nat.mul_comm (256 ^ n) 256,
      Nat.mod_mul]
    ring

theorem decodeBigEndian_encodeBigEndian_of_lt (n value : Nat) (h : value < 256 ^ n) :
    decodeBigEndian (encodeBigEndian n value) = value := by
  rw [decodeBigEndian_encodeBigEndian, Nat.mod_eq_of_lt h]

/-- The `switch` of `decode` finds the marker a byte was written for: the `case` labels of a
`switch` are distinct. -/
theorem markerOf_code (fmt : Format D) (hc : Function.Injective fmt.code) (marker : Marker) :
    markerOf fmt (decodeBigEndian [fmt.code marker]) = some marker := by
  have e : decodeBigEndian [fmt.code marker] = fmt.code marker := by
    unfold decodeBigEndian
    simp
  rw [e]
  unfold markerOf
  cases marker <;> simp [List.find?, hc.eq_iff]

theorem stringLess_asymm : ∀ (a b : List Nat), stringLess a b = true → stringLess b a = false
  | [], [], _ => rfl
  | [], _ :: _, _ => rfl
  | _ :: _, [], h => by simp [stringLess] at h
  | a :: as, b :: bs, h => by
    unfold stringLess at h ⊢
    by_cases h1 : a < b
    · rw [if_neg (by omega), if_pos h1]
    · rw [if_neg h1] at h
      by_cases h2 : b < a
      · rw [if_pos h2] at h
        cases h
      · rw [if_neg h2] at h
        rw [if_neg h2, if_neg h1]
        exact stringLess_asymm as bs h

/-- Assigning a key greater than every key of the map adds the entry at the end. -/
theorem mapAssign_append {K V : Type} (less : K → K → Bool)
    (hasym : ∀ a b, less a b = true → less b a = false) (key : K) (node : V) :
    ∀ (entries : List (K × V)), (∀ e ∈ entries, less e.1 key = true) →
      mapAssign less key node entries = entries ++ [(key, node)]
  | [], _ => rfl
  | (k, v) :: rest, h => by
    have h1 : less k key = true := h (k, v) (List.mem_cons_self _ _)
    have h2 : less key k = false := hasym _ _ h1
    unfold mapAssign
    rw [h2, h1]
    simp only [Bool.false_eq_true, if_false, if_true, List.cons_append, List.cons.injEq,
      true_and]
    exact mapAssign_append less hasym key node rest
      (fun e he => h e (List.mem_cons_of_mem _ he))

theorem At.left {full : List Nat} {o : Nat} {a b : List Nat} (h : At full o (a ++ b)) :
    At full o a := by
  obtain ⟨h1, post, h2⟩ := h
  exact ⟨h1, b ++ post, by rw [h2, List.append_assoc]⟩

theorem At.length_le {full : List Nat} {o : Nat} {a : List Nat} (h : At full o a) :
    o + a.length ≤ full.length := by
  obtain ⟨h1, post, h2⟩ := h
  have := congrArg List.length h2
  rw [List.length_drop, List.length_append] at this
  omega

theorem At.right {full : List Nat} {o : Nat} {a b : List Nat} (h : At full o (a ++ b)) :
    At full (o + a.length) b := by
  have hl := h.left.length_le
  obtain ⟨_, post, h2⟩ := h
  refine ⟨hl, post, ?_⟩
  rw [← List.drop_drop, h2, List.append_assoc, List.drop_left]

theorem At.take {full : List Nat} {o : Nat} {a : List Nat} (h : At full o a) :
    (full.drop o).take a.length = a := by
  obtain ⟨_, post, h2⟩ := h
  rw [h2, List.take_left]

/-- A checked read, on the first `m` bytes of `full`, of a chunk that stands in `full`:
with the chunk inside the first `m` bytes the read delivers it, else the test of the readers
fails. -/
theorem take_read (full : List Nat) (hfull : full.length < audio.UINT32_MOD) (m o : Nat)
    (hom : o ≤ m) (chunk : List Nat) (hat : At full o chunk) :
    (o + chunk.length ≤ m →
      notEnough (full.take m) o chunk.length = false ∧
      bytesAt (full.take m) o chunk.length = .ok chunk ∧
      audio.addUInt32 o chunk.length = o + chunk.length) ∧
    (m < o + chunk.length → notEnough (full.take m) o chunk.length = true) := by
  have hl := hat.length_le
  have hlen : (full.take m).length = min m full.length := List.length_take _ _
  have hS : (full.take m).length < audio.UINT32_MOD := by
    rw [hlen]
    omega
  have ho : o ≤ (full.take m).length := by
    rw [hlen]
    omega
  constructor
  · intro h
    rcases checked_read (full.take m) hS o chunk.length ho with ⟨_, h2⟩ | ⟨h1, _, h3, h4⟩
    · rw [hlen] at h2
      omega
    · refine ⟨h1, ?_, h4⟩
      rw [h3, List.drop_take, List.take_take, Nat.min_eq_left (by omega), hat.take]
  · intro h
    rcases checked_read (full.take m) hS o chunk.length ho with ⟨h1, _⟩ | ⟨_, h2, _, _⟩
    · exact h1
    · rw [hlen] at h2
      omega

theorem readInt_take (full : List Nat) (hfull : full.length < audio.UINT32_MOD) (m o : Nat)
    (hom : o ≤ m) (n value : Nat) (hv : value < 256 ^ n)
    (hat : At full o (encodeBigEndian n value)) :
    readInt n (full.take m) o =
      if o + n ≤ m then .ok (value, n) else .error .notEnoughData := by
  have h := take_read full hfull m o hom _ hat
  rw [encodeBigEndian_length] at h
  unfold readInt
  by_cases hm : o + n ≤ m
  · obtain ⟨h1, h2, _⟩ := h.1 hm
    rw [h1, if_neg (by simp), h2, if_pos hm]
    simp only [decodeBigEndian_encodeBigEndian_of_lt n value hv]
  · rw [h.2 (by omega), if_pos rfl, if_neg hm]

theorem readRaw_take (full : List Nat) (hfull : full.length < audio.UINT32_MOD) (m o : Nat)
    (hom : o ≤ m) (n : Nat) (raw : List Nat) (hn : raw.length = n) (hat : At full o raw) :
    readRaw n (full.take m) o =
      if o + n ≤ m then .ok (raw, n) else .error .notEnoughData := by
  have h := take_read full hfull m o hom _ hat
  rw [hn] at h
  unfold readRaw
  by_cases hm : o + n ≤ m
  · obtain ⟨h1, h2, _⟩ := h.1 hm
    rw [h1, if_neg (by simp), h2, if_pos hm]
  · rw [h.2 (by omega), if_pos rfl, if_neg hm]

theorem readBytes_take (full : List Nat) (hfull : full.length < audio.UINT32_MOD) (m o : Nat)
    (hom : o ≤ m) (n : Nat) (s : List Nat) (hs : s.length < 256 ^ n)
    (hat : At full o (encodeBigEndian n s.length ++ s)) :
    readBytes n (full.take m) o =
      if o + (n + s.length) ≤ m then .ok (s, n + s.length) else .error .notEnoughData := by
  have hl := hat.length_le
  rw [List.length_append, encodeBigEndian_length] at hl
  have h := take_read full hfull m o hom _ hat.left
  have hr := hat.right
  rw [encodeBigEndian_length] at h hr
  unfold readBytes
  simp only
  by_cases hm : o + n ≤ m
  · obtain ⟨h1, h2, h3⟩ := h.1 hm
    rw [h1, if_neg (by simp), h2]
    simp only [h3, decodeBigEndian_encodeBigEndian_of_lt n s.length hs]
    have k := take_read full hfull m (o + n) hm _ hr
    by_cases hm2 : o + n + s.length ≤ m
    · obtain ⟨k1, k2, k3⟩ := k.1 hm2
      rw [k1, if_neg (by simp), k2, if_pos (by omega)]
      simp only [k3]
      have e : audio.subUInt32 (o + n + s.length) o = n + s.length := by
        unfold audio.subUInt32
        unfold audio.UINT32_MOD at *
        omega
      rw [e]
    · rw [k.2 (by omega), if_pos rfl, if_neg (by omega)]
  · rw [h.2 (by omega), if_pos rfl, if_neg (by omega)]

theorem readCount_take (full : List Nat) (hfull : full.length < audio.UINT32_MOD) (m o : Nat)
    (hom : o ≤ m) (count : Nat) (hc : count < audio.UINT32_MOD)
    (hat : At full o (encodeBigEndian 4 count)) :
    readCount (full.take m) o =
      if o + 4 ≤ m then .ok (count, o + 4) else .error .notEnoughData := by
  have h := take_read full hfull m o hom _ hat
  rw [encodeBigEndian_length] at h
  unfold readCount
  by_cases hm : o + 4 ≤ m
  · obtain ⟨h1, h2, h3⟩ := h.1 hm
    rw [h1, if_neg (by simp), h2, if_pos hm]
    simp only [h3, decodeBigEndian_encodeBigEndian_of_lt 4 count hc]
  · rw [h.2 (by omega), if_pos rfl, if_neg hm]

/-- The head of `decode` on a buffer cut before the marker. -/
theorem decode_marker_cut (fmt : Format D) (full : List Nat)
    (hfull : full.length < audio.UINT32_MOD) (m o : Nat) (hom : o ≤ m) (marker : Marker)
    (hat : At full o [fmt.code marker]) (hm : m < o + 1) (fuel : Nat) :
    Value.decode fmt (fuel + 1) (full.take m) o = .error .notEnoughData := by
  have h := take_read full hfull m o hom _ hat
  rw [List.length_singleton] at h
  rw [Value.decode]
  simp only
  rw [h.2 hm, if_pos rfl]

/-- The head and the tail of `decode` around a `case` that delivers a result. -/
theorem decode_marker_ok (fmt : Format D) (hc : Function.Injective fmt.code)
    (full : List Nat) (hfull : full.length < audio.UINT32_MOD) (m o : Nat) (hom : o ≤ m)
    (marker : Marker) (hat : At full o [fmt.code marker]) (hm : o + 1 ≤ m) (fuel : Nat)
    (value : Value D) (ret : Nat) (hret : o + 1 + ret ≤ full.length)
    (hcase : decodeCase fmt (Value.decode fmt fuel (full.take m)) (full.take m) (o + 1)
      marker = .ok (value, ret)) :
    Value.decode fmt (fuel + 1) (full.take m) o = .ok (value, 1 + ret) := by
  have h := take_read full hfull m o hom _ hat
  rw [List.length_singleton] at h
  obtain ⟨h1, h2, h3⟩ := h.1 hm
  have h4 : audio.addUInt32 o 1 = o + 1 := h3
  have e : audio.subUInt32 (audio.addUInt32 (o + 1) ret) o = 1 + ret := by
    unfold audio.subUInt32 audio.addUInt32
    unfold audio.UINT32_MOD at *
    omega
  rw [Value.decode]
  simp only
  rw [h1, if_neg (by simp), h2]
  simp only [h4, markerOf_code fmt hc marker, hcase, e]

/-- The head of `decode` before a `case` that throws. -/
theorem decode_marker_error (fmt : Format D) (hc : Function.Injective fmt.code)
    (full : List Nat) (hfull : full.length < audio.UINT32_MOD) (m o : Nat) (hom : o ≤ m)
    (marker : Marker) (hat : At full o [fmt.code marker]) (hm : o + 1 ≤ m) (fuel : Nat)
    (e : Error)
    (hcase : decodeCase fmt (Value.decode fmt fuel (full.take m)) (full.take m) (o + 1)
      marker = .error e) :
    Value.decode fmt (fuel + 1) (full.take m) o = .error e := by
  have h := take_read full hfull m o hom _ hat
  rw [List.length_singleton] at h
  obtain ⟨h1, h2, h3⟩ := h.1 hm
  have h4 : audio.addUInt32 o 1 = o + 1 := h3
  rw [Value.decode]
  simp only
  rw [h1, if_neg (by simp), h2]
  simp only [h4, markerOf_code fmt hc marker, hcase]

theorem Except.map_ite {ε α β : Type} (c : Prop) [Decidable c] (g : α → β) (x : α) (e : ε) :
    Except.map g (if c then Except.ok x else Except.error e) =
      if c then Except.ok (g x) else Except.error e := by
  split_ifs <;> rfl

/-- The method `decode` around a `case` that, on the first `m` bytes, delivers `value` and
the size `k` when the `k` bytes are there and throws `"Not enough data"` when not. -/
theorem decode_of_case (fmt : Format D) (hc : Function.Injective fmt.code)
    (full : List Nat) (hfull : full.length < audio.UINT32_MOD) (m o : Nat) (hom : o ≤ m)
    (marker : Marker) (hat : At full o [fmt.code marker]) (fuel : Nat)
    (value : Value D) (k : Nat) (hk : o + 1 + k ≤ full.length)
    (hcase : o + 1 ≤ m →
      decodeCase fmt (Value.decode fmt fuel (full.take m)) (full.take m) (o + 1) marker =
        if o + 1 + k ≤ m then .ok (value, k) else .error .notEnoughData) :
    Value.decode fmt (fuel + 1) (full.take m) o =
      if o + (k + 1) ≤ m then .ok (value, k + 1) else .error .notEnoughData := by
  by_cases hm : o + 1 ≤ m
  · have h := hcase hm
    by_cases hm2 : o + 1 + k ≤ m
    · rw [if_pos hm2] at h
      rw [decode_marker_ok fmt hc full hfull m o hom marker hat hm fuel value k hk h,
        if_pos (by omega), Nat.add_comm]
    · rw [if_neg hm2] at h
      rw [decode_marker_error fmt hc full hfull m o hom marker hat hm fuel _ h,
        if_neg (by omega)]
  · rw [decode_marker_cut fmt full hfull m o hom marker hat (by omega), if_neg (by omega)]

theorem readArray_take (decode : Nat → Except Error (Value D × Nat)) (full : List Nat)
    (hfull : full.length < audio.UINT32_MOD) (m o : Nat) (hom : o ≤ m) (count : Nat)
    (hc : count < audio.UINT32_MOD) (len : Nat) (result : List (Value D))
    (hat : At full o (encodeBigEndian 4 count)) (hlen : o + 4 + len ≤ full.length)
    (hloop : o + 4 ≤ m → readArrayLoop decode count (o + 4) [] =
      if o + 4 + len ≤ m then .ok (result, o + 4 + len) else .error .notEnoughData) :
    readArray decode (full.take m) o =
      if o + (4 + len) ≤ m then .ok (result, 4 + len) else .error .notEnoughData := by
  unfold readArray
  rw [readCount_take full hfull m o hom count hc hat]
  by_cases h4 : o + 4 ≤ m
  · rw [if_pos h4]
    simp only
    rw [hloop h4]
    by_cases h5 : o + 4 + len ≤ m
    · have e : audio.subUInt32 (o + 4 + len) o = 4 + len := by
        unfold audio.subUInt32
        unfold audio.UINT32_MOD at *
        omega
      rw [if_pos h5, if_pos (by omega)]
      simp only [e]
    · rw [if_neg h5, if_neg (by omega)]
  · rw [if_neg h4, if_neg (by omega)]

theorem readObject_take (decode : Nat → Except Error (Value D × Nat)) (full : List Nat)
    (hfull : full.length < audio.UINT32_MOD) (m o : Nat) (hom : o ≤ m) (count : Nat)
    (hc : count < audio.UINT32_MOD) (len : Nat) (result : List (Nat × Value D))
    (hat : At full o (encodeBigEndian 4 count)) (hlen : o + 4 + len ≤ full.length)
    (hloop : o + 4 ≤ m → readObjectLoop decode (full.take m) count (o + 4) [] =
      if o + 4 + len ≤ m then .ok (result, o + 4 + len) else .error .notEnoughData) :
    readObject decode (full.take m) o =
      if o + (4 + len) ≤ m then .ok (result, 4 + len) else .error .notEnoughData := by
  unfold readObject
  rw [readCount_take full hfull m o hom count hc hat]
  by_cases h4 : o + 4 ≤ m
  · rw [if_pos h4]
    simp only
    rw [hloop h4]
    by_cases h5 : o + 4 + len ≤ m
    · have e : audio.subUInt32 (o + 4 + len) o = 4 + len := by
        unfold audio.subUInt32
        unfold audio.UINT32_MOD at *
        omega
      rw [if_pos h5, if_pos (by omega)]
      simp only [e]
    · rw [if_neg h5, if_neg (by omega)]
  · rw [if_neg h4, if_neg (by omega)]

theorem readDictionary_take (decode : Nat → Except Error (Value D × Nat)) (full : List Nat)
    (hfull : full.length < audio.UINT32_MOD) (m o : Nat) (hom : o ≤ m) (count : Nat)
    (hc : count < audio.UINT32_MOD) (len : Nat) (result : List (List Nat × Value D))
    (hat : At full o (encodeBigEndian 4 count)) (hlen : o + 4 + len ≤ full.length)
    (hloop : o + 4 ≤ m → readDictionaryLoop decode (full.take m) count (o + 4) [] =
      if o + 4 + len ≤ m then .ok (result, o + 4 + len) else .error .notEnoughData) :
    readDictionary decode (full.take m) o =
      if o + (4 + len) ≤ m then .ok (result, 4 + len) else .error .notEnoughData := by
  unfold readDictionary
  rw [readCount_take full hfull m o hom count hc hat]
  by_cases h4 : o + 4 ≤ m
  · rw [if_pos h4]
    simp only
    rw [hloop h4]
    by_cases h5 : o + 4 + len ≤ m
    · have e : audio.subUInt32 (o + 4 + len) o = 4 + len := by
        unfold audio.subUInt32
        unfold audio.UINT32_MOD at *
        omega
      rw [if_pos h5, if_pos (by omega)]
      simp only [e]
    · rw [if_neg h5, if_neg (by omega)]
  · rw [if_neg h4, if_neg (by omega)]

/-- Every encoding starts with its marker. -/
theorem bytes_pos (fmt : Format D) (hf : ∀ d, (fmt.floatBytes d).length = 4)
    (hd : ∀ d, (fmt.doubleBytes d).length = 8) (v : Value D) : 1 ≤ (v.bytes fmt).length := by
  cases v with
  | NONE => rw [bytes_none]; simp
  | INT n => rw [bytes_int]; split_ifs <;> simp
  | FLOAT d => rw [bytes_float]; simp
  | DOUBLE d => rw [bytes_double]; simp
  | STRING s => rw [bytes_string]; split_ifs <;> simp
  | BYTE_ARRAY b => rw [bytes_byteArray]; simp
  | OBJECT entries => rw [bytes_object fmt hf hd]; simp
  | ARRAY values => rw [bytes_array fmt hf hd]; simp
  | DICTIONARY entries => rw [bytes_dictionary fmt hf hd]; simp

/-- The method `decode` on the encoding of a value, a marker followed by a payload, given
what the `case` of the marker does on the payload. -/
theorem decode_leaf (fmt : Format D) (hc : Function.Injective fmt.code)
    (full : List Nat) (hfull : full.length < audio.UINT32_MOD) (m : Nat) (v : Value D)
    (marker : Marker) (payload : List Nat) (hb : v.bytes fmt = fmt.code marker :: payload)
    (o fuel : Nat) (hom : o ≤ m) (hat : At full o (v.bytes fmt))
    (hfuel : (v.bytes fmt).length ≤ fuel)
    (hcase : ∀ f, o + 1 ≤ m → At full (o + 1) payload → payload.length ≤ f →
      decodeCase fmt (Value.decode fmt f (full.take m)) (full.take m) (o + 1) marker =
        if o + 1 + payload.length ≤ m then .ok (v, payload.length)
        else .error .notEnoughData) :
    Value.decode fmt fuel (full.take m) o =
      if o + (v.bytes fmt).length ≤ m then .ok (v, (v.bytes fmt).length)
      else .error .notEnoughData := by
  have hat2 : At full o ([fmt.code marker] ++ payload) := by
    rw [List.singleton_append, ← hb]
    exact hat
  have hl := hat.length_le
  rw [hb] at hl hfuel ⊢
  rw [List.length_cons] at hl hfuel ⊢
  obtain ⟨fuel, rfl⟩ : ∃ f, fuel = f + 1 := ⟨fuel - 1, by omega⟩
  exact decode_of_case fmt hc full hfull m o hom marker hat2.left fuel v payload.length
    (by omega) (fun h => hcase fuel h hat2.right (by omega))

mutual

/-- Decoding, on the first `m` bytes of `full`, a well-formed value whose encoding stands in
`full` at offset `o`: with the whole encoding inside the first `m` bytes the result is the
value and the number of its bytes, else `"Not enough data"`. -/
theorem decode_take (fmt : Format D) (hc : Function.Injective fmt.code)
    (hf : ∀ d, (fmt.floatBytes d).length = 4) (hd : ∀ d, (fmt.doubleBytes d).length = 8)
    (full : List Nat) (hfull : full.length < audio.UINT32_MOD) (m : Nat) :
    ∀ (v : Value D), v.WellFormed fmt → ∀ (o fuel : Nat), o ≤ m →
      At full o (v.bytes fmt) → (v.bytes fmt).length ≤ fuel →
      Value.decode fmt fuel (full.take m) o =
        if o + (v.bytes fmt).length ≤ m then .ok (v, (v.bytes fmt).length)
        else .error .notEnoughData
  | .NONE, _, o, fuel, hom, hat, hfuel =>
    decode_leaf fmt hc full hfull m .NONE .NONE [] (bytes_none fmt) o fuel hom hat hfuel
      (fun f h _ _ => by
        rw [if_pos (by simpa using h)]
        rfl)
  | .INT n, hv, o, fuel, hom, hat, hfuel => by
    have hn : n < 18446744073709551616 := hv
    by_cases h1 : n > 4294967295
    · refine decode_leaf fmt hc full hfull m (.INT n) .INT64 (encodeBigEndian 8 n)
        (by rw [bytes_int, if_pos h1]) o fuel hom hat hfuel (fun f h hr _ => ?_)
      simp only [decodeCase, encodeBigEndian_length]
      rw [readInt_take full hfull m (o + 1) h 8 n hn hr, Except.map_ite]
    · by_cases h2 : n > 65535
      · refine decode_leaf fmt hc full hfull m (.INT n) .INT32 (encodeBigEndian 4 n)
          (by rw [bytes_int, if_neg h1, if_pos h2]) o fuel hom hat hfuel (fun f h hr _ => ?_)
        simp only [decodeCase, encodeBigEndian_length]
        rw [readInt_take full hfull m (o + 1) h 4 n (by show n < 4294967296; omega) hr,
          Except.map_ite]
      · by_cases h3 : n > 255
        · refine decode_leaf fmt hc full hfull m (.INT n) .INT16 (encodeBigEndian 2 n)
            (by rw [bytes_int, if_neg h1, if_neg h2, if_pos h3]) o fuel hom hat hfuel
            (fun f h hr _ => ?_)
          simp only [decodeCase, encodeBigEndian_length]
          rw [readInt_take full hfull m (o + 1) h 2 n (by show n < 65536; omega) hr,
            Except.map_ite]
        · refine decode_leaf fmt hc full hfull m (.INT n) .INT8 (encodeBigEndian 1 n)
            (by rw [bytes_int, if_neg h1, if_neg h2, if_neg h3]) o fuel hom hat hfuel
            (fun f h hr _ => ?_)
          simp only [decodeCase, encodeBigEndian_length]
          rw [readInt_take full hfull m (o + 1) h 1 n (by show n < 256; omega) hr,
            Except.map_ite]
  | .FLOAT d, hv, o, fuel, hom, hat, hfuel => by
    have hd2 : fmt.ofFloatBytes (fmt.floatBytes d) = d := hv
    refine decode_leaf fmt hc full hfull m (.FLOAT d) .FLOAT (fmt.floatBytes d)
      (bytes_float fmt d) o fuel hom hat hfuel (fun f h hr _ => ?_)
    simp only [decodeCase, hf]
    rw [readRaw_take full hfull m (o + 1) h 4 _ (hf d) hr, Except.map_ite]
    simp only [hd2]
  | .DOUBLE d, hv, o, fuel, hom, hat, hfuel => by
    have hd2 : fmt.ofDoubleBytes (fmt.doubleBytes d) = d := hv
    refine decode_leaf fmt hc full hfull m (.DOUBLE d) .DOUBLE (fmt.doubleBytes d)
      (bytes_double fmt d) o fuel hom hat hfuel (fun f h hr _ => ?_)
    simp only [decodeCase, hd]
    rw [readRaw_take full hfull m (o + 1) h 8 _ (hd d) hr, Except.map_ite]
    simp only [hd2]
  | .STRING s, hv, o, fuel, hom, hat, hfuel => by
    have hs : s.length < audio.UINT32_MOD := hv
    by_cases h1 : s.length > 65535
    · refine decode_leaf fmt hc full hfull m (.STRING s) .LONG_STRING
        (encodeBigEndian 4 s.length ++ s) (by rw [bytes_string, if_pos h1]) o fuel hom hat
        hfuel (fun f h hr _ => ?_)
      simp only [decodeCase, List.length_append, encodeBigEndian_length]
      rw [readBytes_take full hfull m (o + 1) h 4 s hs hr, Except.map_ite]
    · refine decode_leaf fmt hc full hfull m (.STRING s) .STRING
        (encodeBigEndian 2 s.length ++ s) (by rw [bytes_string, if_neg h1]) o fuel hom hat
        hfuel (fun f h hr _ => ?_)
      simp only [decodeCase, List.length_append, encodeBigEndian_length]
      rw [readBytes_take full hfull m (o + 1) h 2 s (by show s.length < 65536; omega) hr,
        Except.map_ite]
  | .BYTE_ARRAY b, hv, o, fuel, hom, hat, hfuel => by
    have hs : b.length < audio.UINT32_MOD := hv
    refine decode_leaf fmt hc full hfull m (.BYTE_ARRAY b) .BYTE_ARRAY
      (encodeBigEndian 4 b.length ++ b) (bytes_byteArray fmt b) o fuel hom hat
      hfuel (fun f h hr _ => ?_)
    simp only [decodeCase, List.length_append, encodeBigEndian_length]
    rw [readBytes_take full hfull m (o + 1) h 4 b hs hr, Except.map_ite]
  | .OBJECT entries, hv, o, fuel, hom, hat, hfuel => by
    rw [Value.WellFormed] at hv
    obtain ⟨hcount, hsorted, hw⟩ := hv
    refine decode_leaf fmt hc full hfull m (.OBJECT entries) .OBJECT
      (encodeBigEndian 4 entries.length ++ objectBytes fmt entries)
      (bytes_object fmt hf hd entries) o fuel hom hat hfuel (fun f h hr hfl => ?_)
    have hl := hr.length_le
    have hr2 := hr.right
    simp only [List.length_append, encodeBigEndian_length] at hl hr2 hfl ⊢
    simp only [decodeCase]
    rw [readObject_take (Value.decode fmt f (full.take m)) full hfull m (o + 1) h
      entries.length hcount (objectBytes fmt entries).length entries hr.left (by omega)
      (fun h4 => by
        have := readObjectLoop_take fmt hc hf hd full hfull m entries hw hsorted (o + 1 + 4)
          f [] (fun a ha => by cases ha) h4 hr2 (by omega)
        rw [this, List.nil_append]),
      Except.map_ite]
  | .ARRAY values, hv, o, fuel, hom, hat, hfuel => by
    rw [Value.WellFormed] at hv
    obtain ⟨hcount, hw⟩ := hv
    refine decode_leaf fmt hc full hfull m (.ARRAY values) .ARRAY
      (encodeBigEndian 4 values.length ++ arrayBytes fmt values)
      (bytes_array fmt hf hd values) o fuel hom hat hfuel (fun f h hr hfl => ?_)
    have hl := hr.length_le
    have hr2 := hr.right
    simp only [List.length_append, encodeBigEndian_length] at hl hr2 hfl ⊢
    simp only [decodeCase]
    rw [readArray_take (Value.decode fmt f (full.take m)) full hfull m (o + 1) h
      values.length hcount (arrayBytes fmt values).length values hr.left (by omega)
      (fun h4 => by
        have := readArrayLoop_take fmt hc hf hd full hfull m values hw (o + 1 + 4)
          f [] h4 hr2 (by omega)
        rw [this, List.nil_append]),
      Except.map_ite]
  | .DICTIONARY entries, hv, o, fuel, hom, hat, hfuel => by
    rw [Value.WellFormed] at hv
    obtain ⟨hcount, hsorted, hw⟩ := hv
    refine decode_leaf fmt hc full hfull m (.DICTIONARY entries) .DICTIONARY
      (encodeBigEndian 4 entries.length ++ dictionaryBytes fmt entries)
      (bytes_dictionary fmt hf hd entries) o fuel hom hat hfuel (fun f h hr hfl => ?_)
    have hl := hr.length_le
    have hr2 := hr.right
    simp only [List.length_append, encodeBigEndian_length] at hl hr2 hfl ⊢
    simp only [decodeCase]
    rw [readDictionary_take (Value.decode fmt f (full.take m)) full hfull m (o + 1) h
      entries.length hcount (dictionaryBytes fmt entries).length entries hr.left (by omega)
      (fun h4 => by
        have := readDictionaryLoop_take fmt hc hf hd full hfull m entries hw hsorted
          (o + 1 + 4) f [] (fun a ha => by cases ha) h4 hr2 (by omega)
        rw [this, List.nil_append]),
      Except.map_ite]

/-- The loop of `readArray` on the first `m` bytes of `full`, over the encodings of
well-formed elements. -/
theorem readArrayLoop_take (fmt : Format D) (hc : Function.Injective fmt.code)
    (hf : ∀ d, (fmt.floatBytes d).length = 4) (hd : ∀ d, (fmt.doubleBytes d).length = 8)
    (full : List Nat) (hfull : full.length < audio.UINT32_MOD) (m : Nat) :
    ∀ (values : List (Value D)), arrayWellFormed fmt values →
      ∀ (o fuel : Nat) (acc : List (Value D)), o ≤ m → At full o (arrayBytes fmt values) →
      (arrayBytes fmt values).length ≤ fuel →
      readArrayLoop (Value.decode fmt fuel (full.take m)) values.length o acc =
        if o + (arrayBytes fmt values).length ≤ m then
          .ok (acc ++ values, o + (arrayBytes fmt values).length)
        else .error .notEnoughData
  | [], _, o, fuel, acc, hom, _, _ => by
    rw [arrayBytes_nil]
    simp only [List.length_nil, Nat.add_zero, readArrayLoop, List.append_nil]
    rw [if_pos hom]
  | v :: rest, hw, o, fuel, acc, hom, hat, hfuel => by
    rw [arrayWellFormed] at hw
    rw [arrayBytes_cons fmt hf hd] at hat hfuel ⊢
    have hl := hat.length_le
    rw [List.length_append] at hl hfuel ⊢
    have hv := decode_take fmt hc hf hd full hfull m v hw.1 o fuel hom hat.left (by omega)
    simp only [List.length_cons, readArrayLoop]
    rw [hv]
    by_cases h1 : o + (v.bytes fmt).length ≤ m
    · have e : audio.addUInt32 o (v.bytes fmt).length = o + (v.bytes fmt).length := by
        unfold audio.addUInt32
        unfold audio.UINT32_MOD at *
        omega
      rw [if_pos h1]
      simp only [e]
      rw [readArrayLoop_take fmt hc hf hd full hfull m rest hw.2 _ fuel _ h1 hat.right
        (by omega)]
      simp only [Nat.add_assoc, List.append_assoc, List.singleton_append]
    · rw [if_neg h1, if_neg (by omega)]

/-- The loop of `readObject` on the first `m` bytes of `full`, over the encodings of
well-formed entries in increasing key order. -/
theorem readObjectLoop_take (fmt : Format D) (hc : Function.Injective fmt.code)
    (hf : ∀ d, (fmt.floatBytes d).length = 4) (hd : ∀ d, (fmt.doubleBytes d).length = 8)
    (full : List Nat) (hfull : full.length < audio.UINT32_MOD) (m : Nat) :
    ∀ (entries : List (Nat × Value D)), objectWellFormed fmt entries →
      (entries.map Prod.fst).Pairwise (fun a b => a < b) →
      ∀ (o fuel : Nat) (acc : List (Nat × Value D)),
      (∀ a ∈ acc, ∀ e ∈ entries, a.1 < e.1) → o ≤ m →
      At full o (objectBytes fmt entries) → (objectBytes fmt entries).length ≤ fuel →
      readObjectLoop (Value.decode fmt fuel (full.take m)) (full.take m) entries.length o acc =
        if o + (objectBytes fmt entries).length ≤ m then
          .ok (acc ++ entries, o + (objectBytes fmt entries).length)
        else .error .notEnoughData
  | [], _, _, o, fuel, acc, _, hom, _, _ => by
    rw [objectBytes_nil]
    simp only [List.length_nil, Nat.add_zero, readObjectLoop, List.append_nil]
    rw [if_pos hom]
  | (key, v) :: rest, hw, hsorted, o, fuel, acc, hacc, hom, hat, hfuel => by
    rw [objectWellFormed] at hw
    obtain ⟨hkey, hwv, hwrest⟩ := hw
    rw [List.map_cons, List.pairwise_cons] at hsorted
    rw [objectBytes_cons fmt hf hd] at hat hfuel ⊢
    have hl := hat.length_le
    have hr := hat.right
    have hl2 := hr.left.length_le
    have hr2 := hr.right
    simp only [List.length_append, encodeBigEndian_length] at hl hl2 hr hr2 hfuel ⊢
    have hk := take_read full hfull m o hom _ hat.left
    rw [encodeBigEndian_length] at hk
    simp only [List.length_cons, readObjectLoop]
    by_cases h4 : o + 4 ≤ m
    · obtain ⟨k1, k2, k3⟩ := hk.1 h4
      rw [k1, if_neg (by simp), k2]
      simp only [k3, decodeBigEndian_encodeBigEndian_of_lt 4 key hkey]
      rw [decode_take fmt hc hf hd full hfull m v hwv (o + 4) fuel h4 hr.left (by omega)]
      by_cases h1 : o + 4 + (v.bytes fmt).length ≤ m
      · have e : audio.addUInt32 (o + 4) (v.bytes fmt).length = o + 4 + (v.bytes fmt).length := by
          unfold audio.addUInt32
          unfold audio.UINT32_MOD at *
          omega
        have ha : mapAssign (fun a b => decide (a < b)) key v acc = acc ++ [(key, v)] :=
          mapAssign_append _ (fun a b h => by
            simp only [decide_eq_true_eq, decide_eq_false_iff_not] at h ⊢
            omega) key v acc
            (fun a ha => decide_eq_true (hacc a ha (key, v) (List.mem_cons_self _ _)))
        rw [if_pos h1]
        simp only [e, ha]
        rw [readObjectLoop_take fmt hc hf hd full hfull m rest hwrest hsorted.2 _ fuel _
          (fun a ha e he => by
            rcases List.mem_append.1 ha with h | h
            · exact hacc a h e (List.mem_cons_of_mem _ he)
            · rw [List.mem_singleton] at h
              rw [h]
              exact hsorted.1 e.1 (List.mem_map_of_mem _ he))
          h1 hr2 (by omega)]
        simp only [Nat.add_assoc, List.append_assoc, List.singleton_append]
      · rw [if_neg h1, if_neg (by omega)]
    · rw [hk.2 (by omega), if_pos rfl, if_neg (by omega)]

/-- The loop of `readDictionary` on the first `m` bytes of `full`, over the encodings of
well-formed entries in increasing key order. -/
theorem readDictionaryLoop_take (fmt : Format D) (hc : Function.Injective fmt.code)
    (hf : ∀ d, (fmt.floatBytes d).length = 4) (hd : ∀ d, (fmt.doubleBytes d).length = 8)
    (full : List Nat) (hfull : full.length < audio.UINT32_MOD) (m : Nat) :
    ∀ (entries : List (List Nat × Value D)), dictionaryWellFormed fmt entries →
      (entries.map Prod.fst).Pairwise (fun a b => stringLess a b = true) →
      ∀ (o fuel : Nat) (acc : List (List Nat × Value D)),
      (∀ a ∈ acc, ∀ e ∈ entries, stringLess a.1 e.1 = true) → o ≤ m →
      At full o (dictionaryBytes fmt entries) → (dictionaryBytes fmt entries).length ≤ fuel →
      readDictionaryLoop (Value.decode fmt fuel (full.take m)) (full.take m) entries.length o
          acc =
        if o + (dictionaryBytes fmt entries).length ≤ m then
          .ok (acc ++ entries, o + (dictionaryBytes fmt entries).length)
        else .error .notEnoughData
  | [], _, _, o, fuel, acc, _, hom, _, _ => by
    rw [dictionaryBytes_nil]
    simp only [List.length_nil, Nat.add_zero, readDictionaryLoop, List.append_nil]
    rw [if_pos hom]
  | (key, v) :: rest, hw, hsorted, o, fuel, acc, hacc, hom, hat, hfuel => by
    rw [dictionaryWellFormed] at hw
    obtain ⟨hkey, hwv, hwrest⟩ := hw
    rw [List.map_cons, List.pairwise_cons] at hsorted
    rw [dictionaryBytes_cons fmt hf hd] at hat hfuel ⊢
    have hl := hat.length_le
    have hr := hat.right
    have hl2 := hr.left.length_le
    have hr2 := hr.right
    have hl3 := hr2.left.length_le
    have hr3 := hr2.right
    simp only [List.length_append, encodeBigEndian_length] at hl hl2 hl3 hr hr2 hr3 hfuel ⊢
    have hk := take_read full hfull m o hom _ hat.left
    rw [encodeBigEndian_length] at hk
    simp only [List.length_cons, readDictionaryLoop]
    by_cases h2 : o + 2 ≤ m
    · obtain ⟨k1, k2, k3⟩ := hk.1 h2
      rw [k1, if_neg (by simp), k2]
      simp only [k3, decodeBigEndian_encodeBigEndian_of_lt 2 key.length
        (by show key.length < 65536; omega)]
      have hk2 := take_read full hfull m (o + 2) h2 _ hr.left
      by_cases h3 : o + 2 + key.length ≤ m
      · obtain ⟨j1, j2, j3⟩ := hk2.1 h3
        rw [j1, if_neg (by simp), j2]
        simp only [j3]
        rw [decode_take fmt hc hf hd full hfull m v hwv (o + 2 + key.length) fuel h3 hr2.left
          (by omega)]
        by_cases h1 : o + 2 + key.length + (v.bytes fmt).length ≤ m
        · have e : audio.addUInt32 (o + 2 + key.length) (v.bytes fmt).length =
              o + 2 + key.length + (v.bytes fmt).length := by
            unfold audio.addUInt32
            unfold audio.UINT32_MOD at *
            omega
          have ha : mapAssign stringLess key v acc = acc ++ [(key, v)] :=
            mapAssign_append _ stringLess_asymm key v acc
              (fun a ha => hacc a ha (key, v) (List.mem_cons_self _ _))
          rw [if_pos h1]
          simp only [e, ha]
          rw [readDictionaryLoop_take fmt hc hf hd full hfull m rest hwrest hsorted.2 _ fuel _
            (fun a ha e he => by
              rcases List.mem_append.1 ha with h | h
              · exact hacc a h e (List.mem_cons_of_mem _ he)
              · rw [List.mem_singleton] at h
                rw [h]
                exact hsorted.1 e.1 (List.mem_map_of_mem _ he))
            h1 hr3 (by omega)]
          simp only [Nat.add_assoc, List.append_assoc, List.singleton_append]
        · rw [if_neg h1, if_neg (by omega)]
      · rw [hk2.2 (by omega), if_pos rfl, if_neg (by omega)]
    · rw [hk.2 (by omega), if_pos rfl, if_neg (by omega)]

end

theorem sampleCode_injective : Function.Injective sampleCode := by
  intro a b h
  cases a <;> cases b <;> first | rfl | (exact absurd h (by decide))

/-- The round trip at offset 0: a well-formed value encoded into fewer than `2^32` bytes. -/
theorem decode_bytes (fmt : Format D) (hc : Function.Injective fmt.code)
    (hf : ∀ d, (fmt.floatBytes d).length = 4) (hd : ∀ d, (fmt.doubleBytes d).length = 8)
    (v : Value D) (hv : v.WellFormed fmt) (hlen : (v.bytes fmt).length < audio.UINT32_MOD)
    (m fuel : Nat) (hfuel : (v.bytes fmt).length ≤ fuel) :
    Value.decode fmt fuel ((v.bytes fmt).take m) 0 =
      if (v.bytes fmt).length ≤ m then .ok (v, (v.bytes fmt).length)
      else .error .notEnoughData := by
  have h := decode_take fmt hc hf hd (v.bytes fmt) hlen m v hv 0 fuel (Nat.zero_le _)
    ⟨Nat.zero_le _, [], by rw [List.drop_zero, List.append_nil]⟩ hfuel
  rw [Nat.zero_add] at h
  exact h

/-- C21 (amended): a well-formed value `v` (in particular every value of type `NONE`, `INT`,
`STRING`, `BYTE_ARRAY`, `ARRAY`, `OBJECT` or `DICTIONARY`, recursively, whose strings, byte
arrays and containers have fewer than `2^32` elements and whose dictionary keys are at most
65535 bytes long) whose encoding has fewer than `2^32` bytes: decoding the bytes that
`encode` produces, at offset 0 and with fuel for the nesting, yields `v` and returns the
number of bytes encoded. -/
theorem c21_round_trip (fmt : Format D) (hc : Function.Injective fmt.code)
    (hf : ∀ d, (fmt.floatBytes d).length = 4) (hd : ∀ d, (fmt.doubleBytes d).length = 8)
    (v : Value D) (hv : v.WellFormed fmt)
    (hlen : (v.encode fmt []).1.length < 4294967296)
    (fuel : Nat) (hfuel : (v.encode fmt []).1.length ≤ fuel) :
    Value.decode fmt fuel (v.encode fmt []).1 0 = .ok (v, (v.encode fmt []).1.length) := by
  have h := decode_bytes fmt hc hf hd v hv hlen (v.bytes fmt).length fuel hfuel
  rw [List.take_length, if_pos (le_refl _)] at h
  exact h

/-- Witness of `c21_round_trip`: a dictionary that holds an array and an object. -/
theorem c21_round_trip_witness :
    (Value.DICTIONARY [([97], .ARRAY [.INT 300, .STRING [104, 105], .INT 70000]),
      ([97, 98], .OBJECT [(1, .NONE), (7, .BYTE_ARRAY [1, 2, 3])])] :
        Value (List Nat)).WellFormed sampleFormat ∧
    ((Value.DICTIONARY [([97], .ARRAY [.INT 300, .STRING [104, 105], .INT 70000]),
      ([97, 98], .OBJECT [(1, .NONE), (7, .BYTE_ARRAY [1, 2, 3])])] :
        Value (List Nat)).encode sampleFormat []).1.length = 52 ∧
    Value.decode sampleFormat 52
      ((Value.DICTIONARY [([97], .ARRAY [.INT 300, .STRING [104, 105], .INT 70000]),
        ([97, 98], .OBJECT [(1, .NONE), (7, .BYTE_ARRAY [1, 2, 3])])] :
          Value (List Nat)).encode sampleFormat []).1 0 =
      .ok (.DICTIONARY [([97], .ARRAY [.INT 300, .STRING [104, 105], .INT 70000]),
        ([97, 98], .OBJECT [(1, .NONE), (7, .BYTE_ARRAY [1, 2, 3])])], 52) :=
  ⟨by simp [Value.WellFormed, dictionaryWellFormed, arrayWellFormed, objectWellFormed,
      stringLess, audio.UINT32_MOD],
    rfl,
    c21_round_trip sampleFormat sampleCode_injective sampleFormat_floatBytes
      sampleFormat_doubleBytes _
      (by simp [Value.WellFormed, dictionaryWellFormed, arrayWellFormed, objectWellFormed,
        stringLess, audio.UINT32_MOD])
      (by decide) 52 (by decide)⟩

/-- The encoding of an array of two elements, a byte array of `2^32 - 5` bytes and the
integer 5. -/
theorem encode_array_big (big : List Nat) (hb : big.length = 4294967291) :
    ((Value.ARRAY [.BYTE_ARRAY big, .INT 5] : Value (List Nat)).encode sampleFormat []).1 =
      [11, 0, 0, 0, 2, 9, 255, 255, 255, 251] ++ (big ++ [1, 5]) := by
  have e : encodeBigEndian 4 4294967291 = [255, 255, 255, 251] := by
    norm_num [encodeBigEndian]
  have e5 : (Value.INT 5 : Value (List Nat)).bytes sampleFormat = [1, 5] := rfl
  have e2 : encodeBigEndian 4
      [(Value.BYTE_ARRAY big : Value (List Nat)), Value.INT 5].length = [0, 0, 0, 2] := by
    norm_num [encodeBigEndian]
  show (Value.ARRAY [.BYTE_ARRAY big, .INT 5] : Value (List Nat)).bytes sampleFormat = _
  rw [bytes_array sampleFormat sampleFormat_floatBytes sampleFormat_doubleBytes,
    arrayBytes_cons sampleFormat sampleFormat_floatBytes sampleFormat_doubleBytes,
    arrayBytes_cons sampleFormat sampleFormat_floatBytes sampleFormat_doubleBytes,
    arrayBytes_nil, bytes_byteArray, hb, e, e5, e2]
  simp only [List.cons_append, List.append_assoc, List.nil_append, List.append_nil]
  rfl

/-- One run of `decode` through a `case` that delivers a result, from the outcomes of its
steps. -/
theorem decode_step (fmt : Format D) (buffer : List Nat) (offset offset1 fuel byte : Nat)
    (marker : Marker) (value : Value D) (ret size : Nat)
    (h1 : notEnough buffer offset 1 = false) (h2 : bytesAt buffer offset 1 = .ok [byte])
    (ho : audio.addUInt32 offset 1 = offset1)
    (hm : markerOf fmt (decodeBigEndian [byte]) = some marker)
    (hcase : decodeCase fmt (Value.decode fmt fuel buffer) buffer offset1 marker =
      .ok (value, ret))
    (hsize : audio.subUInt32 (audio.addUInt32 offset1 ret) offset = size) :
    Value.decode fmt (fuel + 1) buffer offset = .ok (value, size) := by
  rw [Value.decode]
  simp only
  rw [h1, if_neg (by simp), h2]
  simp only [ho, hm, hcase, hsize]

/-- One run of `readString`, `readLongString` or `readByteArray`, from the outcomes of its
steps. -/
theorem readBytes_step (n : Nat) (buffer : List Nat) (offset offset1 length size : Nat)
    (lengthBytes result : List Nat)
    (h1 : notEnough buffer offset n = false) (h2 : bytesAt buffer offset n = .ok lengthBytes)
    (hl : decodeBigEndian lengthBytes = length) (ho : audio.addUInt32 offset n = offset1)
    (h3 : notEnough buffer offset1 length = false)
    (h4 : bytesAt buffer offset1 length = .ok result)
    (hsize : audio.subUInt32 (audio.addUInt32 offset1 length) offset = size) :
    readBytes n buffer offset = .ok (result, size) := by
  unfold readBytes
  simp only
  rw [h1, if_neg (by simp), h2]
  simp only [hl, ho]
  rw [h3, if_neg (by simp), h4]
  simp only [hsize]

/-- One run of `readArray` over two elements, each decoded at the same offset with the
returned size 0. -/
theorem readArray_twice (decode : Nat → Except Error (Value D × Nat)) (buffer : List Nat)
    (offset offset1 size : Nat) (countBytes : List Nat) (node : Value D)
    (h1 : notEnough buffer offset 4 = false) (h2 : bytesAt buffer offset 4 = .ok countBytes)
    (hc : decodeBigEndian countBytes = 2) (ho : audio.addUInt32 offset 4 = offset1)
    (hd : decode offset1 = .ok (node, 0)) (h0 : audio.addUInt32 offset1 0 = offset1)
    (hsize : audio.subUInt32 offset1 offset = size) :
    readArray decode buffer offset = .ok ([node, node], size) := by
  have rc : readCount buffer offset = .ok (2, offset1) := by
    unfold readCount
    rw [h1, if_neg (by simp), h2]
    simp only [hc, ho]
  have rl : readArrayLoop decode 2 offset1 [] = .ok ([node, node], offset1) := by
    simp only [readArrayLoop, hd, h0, List.nil_append, List.singleton_append]
  unfold readArray
  rw [rc]
  simp only [rl, hsize]

theorem decodeCase_byteArray_ok (fmt : Format D) (decode : Nat → Except Error (Value D × Nat))
    (buffer : List Nat) (offset : Nat) (result : List Nat) (size : Nat)
    (h : readBytes 4 buffer offset = .ok (result, size)) :
    decodeCase fmt decode buffer offset .BYTE_ARRAY = .ok (.BYTE_ARRAY result, size) := by
  simp only [decodeCase, h, Except.map]

theorem decodeCase_array_ok (fmt : Format D) (decode : Nat → Except Error (Value D × Nat))
    (buffer : List Nat) (offset : Nat) (result : List (Value D)) (size : Nat)
    (h : readArray decode buffer offset = .ok (result, size)) :
    decodeCase fmt decode buffer offset .ARRAY = .ok (.ARRAY result, size) := by
  simp only [decodeCase, h, Except.map]

/-- On a buffer of `2^32 + 7` bytes that holds, at offset 5, a byte array of `len = 2^32 - 5`
bytes, the 32-bit offset of `readByteArray` wraps around, and `decode` at offset 5 returns
the size 0. -/
theorem decode_byteArray_wraps (buf big : List Nat) (len : Nat) (hlen : len = 4294967291)
    (hbuf : buf.length = len + 12) (h5 : (buf.drop 5).take 1 = [9])
    (h6 : (buf.drop 6).take 4 = [255, 255, 255, 251]) (h10 : (buf.drop 10).take len = big)
    (fuel : Nat) :
    Value.decode sampleFormat (fuel + 1) buf 5 = .ok (.BYTE_ARRAY big, 0) := by
  have hS : buf.length < audio.SIZE_MOD := by
    unfold audio.SIZE_MOD
    omega
  obtain ⟨a1, a2⟩ := read_inside buf hS 5 1 (by omega)
  obtain ⟨b1, b2⟩ := read_inside buf hS 6 4 (by omega)
  obtain ⟨c1, c2⟩ := read_inside buf hS 10 len (by omega)
  rw [h5] at a2
  rw [h6] at b2
  rw [h10] at c2
  have n1 : decodeBigEndian [255, 255, 255, 251] = len := by
    rw [hlen]
    norm_num [decodeBigEndian]
  have e3 : audio.subUInt32
      (audio.addUInt32 6 (audio.subUInt32 (audio.addUInt32 10 len) 6)) 5 = 0 := by
    unfold audio.subUInt32 audio.addUInt32 audio.UINT32_MOD
    omega
  have rb : readBytes 4 buf 6 =
      .ok (big, audio.subUInt32 (audio.addUInt32 10 len) 6) :=
    readBytes_step 4 buf 6 10 len _ _ big b1 b2 n1 rfl c1 c2 rfl
  exact decode_step sampleFormat buf 5 6 fuel 9 .BYTE_ARRAY (.BYTE_ARRAY big)
    (audio.subUInt32 (audio.addUInt32 10 len) 6) 0 a1 a2 rfl rfl
    (decodeCase_byteArray_ok sampleFormat _ buf 6 big _ rb) e3

/-- On such a buffer that starts with the header of an array of two elements, `decode` at
offset 0 reads the byte array at offset 5 twice. -/
theorem decode_array_wraps (buf big : List Nat) (len : Nat) (hlen : len = 4294967291)
    (hbuf : buf.length = len + 12) (h0 : (buf.drop 0).take 1 = [11])
    (h1 : (buf.drop 1).take 4 = [0, 0, 0, 2]) (h5 : (buf.drop 5).take 1 = [9])
    (h6 : (buf.drop 6).take 4 = [255, 255, 255, 251]) (h10 : (buf.drop 10).take len = big)
    (fuel : Nat) :
    Value.decode sampleFormat (fuel + 2) buf 0 =
      .ok (.ARRAY [.BYTE_ARRAY big, .BYTE_ARRAY big], 5) := by
  have hS : buf.length < audio.SIZE_MOD := by
    unfold audio.SIZE_MOD
    omega
  have hd := decode_byteArray_wraps buf big len hlen hbuf h5 h6 h10 fuel
  obtain ⟨a1, a2⟩ := read_inside buf hS 0 1 (by omega)
  obtain ⟨b1, b2⟩ := read_inside buf hS 1 4 (by omega)
  rw [h0] at a2
  rw [h1] at b2
  have ra : readArray (Value.decode sampleFormat (fuel + 1) buf) buf 1 =
      .ok ([.BYTE_ARRAY big, .BYTE_ARRAY big], 4) :=
    readArray_twice _ buf 1 5 4 _ _ b1 b2 rfl rfl hd rfl rfl
  exact decode_step sampleFormat buf 0 1 (fuel + 1) 11 .ARRAY _ 4 5 a1 a2 rfl rfl
    (decodeCase_array_ok sampleFormat _ buf 1 _ 4 ra) rfl

/-- C21 (as stated, refuted): the array of a byte array of `2^32 - 5` bytes and the integer
5. Its byte array and the array itself have fewer than `2^32` elements; the encoding has
`2^32 + 7` bytes. Decoding it at offset 0 yields an array that holds the byte array twice,
not the integer, and returns the size 5: the 32-bit offset wraps around behind the byte
array. -/
theorem c21_long_encoding_decodes_differently :
    (Value.ARRAY [.BYTE_ARRAY bigBytes, .INT 5] : Value (List Nat)).WellFormed sampleFormat ∧
    ((Value.ARRAY [.BYTE_ARRAY bigBytes, .INT 5] : Value (List Nat)).encode
      sampleFormat []).1.length = 4294967303 ∧
    ∀ fuel, Value.decode sampleFormat (fuel + 2)
      ((Value.ARRAY [.BYTE_ARRAY bigBytes, .INT 5] : Value (List Nat)).encode
        sampleFormat []).1 0 =
      .ok (.ARRAY [.BYTE_ARRAY bigBytes, .BYTE_ARRAY bigBytes], 5) := by
  have hb := bigBytes_length
  have hw : (Value.ARRAY [.BYTE_ARRAY bigBytes, .INT 5] : Value (List Nat)).WellFormed
      sampleFormat := by
    rw [Value.WellFormed, arrayWellFormed, arrayWellFormed, arrayWellFormed,
      Value.WellFormed, Value.WellFormed, hb]
    unfold audio.UINT32_MOD
    decide
  have hl : ([11, 0, 0, 0, 2, 9, 255, 255, 255, 251] ++ (bigBytes ++ [1, 5])).length =
      4294967291 + 12 := by
    rw [List.length_append, List.length_append, hb]
    rfl
  refine ⟨hw, ?_, fun fuel => ?_⟩
  · rw [encode_array_big bigBytes hb, hl]
  · rw [encode_array_big bigBytes hb]
    exact decode_array_wraps _ bigBytes 4294967291 rfl hl rfl rfl rfl rfl
      (by
        show (bigBytes ++ [1, 5]).take 4294967291 = bigBytes
        rw [← hb, List.take_left])
      fuel

/-! ### More fuel does not change a result -/

theorem readArrayLoop_fuel (dec1 dec2 : Nat → Except Error (Value D × Nat))
    (h : ∀ o, dec1 o ≠ .error .outOfFuel → dec2 o = dec1 o) :
    ∀ (count offset : Nat) (result : List (Value D)),
      readArrayLoop dec1 count offset result ≠ .error .outOfFuel →
      readArrayLoop dec2 count offset result = readArrayLoop dec1 count offset result
  | 0, _, _, _ => rfl
  | count + 1, offset, result, hne => by
    rw [readArrayLoop] at hne ⊢
    rw [readArrayLoop]
    cases hd : dec1 offset with
    | error e =>
      rw [hd] at hne
      simp only at hne
      rw [h offset (by rw [hd]; exact fun he => hne (by cases he; rfl)), hd]
    | ok r =>
      rw [hd] at hne
      rw [h offset (by rw [hd]; simp), hd]
      exact readArrayLoop_fuel dec1 dec2 h count _ _ hne

theorem readObjectLoop_fuel (dec1 dec2 : Nat → Except Error (Value D × Nat))
    (h : ∀ o, dec1 o ≠ .error .outOfFuel → dec2 o = dec1 o) (buffer : List Nat) :
    ∀ (count offset : Nat) (result : List (Nat × Value D)),
      readObjectLoop dec1 buffer count offset result ≠ .error .outOfFuel →
      readObjectLoop dec2 buffer count offset result =
        readObjectLoop dec1 buffer count offset result
  | 0, _, _, _ => rfl
  | count + 1, offset, result, hne => by
    rw [readObjectLoop] at hne ⊢
    rw [readObjectLoop]
    by_cases h1 : notEnough buffer offset 4 = true
    · rw [if_pos h1, if_pos h1]
    · rw [if_neg h1] at hne ⊢
      rw [if_neg h1]
      cases hb : bytesAt buffer offset 4 with
      | error e => rfl
      | ok keyBytes =>
        rw [hb] at hne
        simp only at hne ⊢
        cases hd : dec1 (audio.addUInt32 offset 4) with
        | error e =>
          rw [hd] at hne
          simp only at hne
          rw [h _ (by rw [hd]; exact fun he => hne (by cases he; rfl)), hd]
        | ok r =>
          rw [hd] at hne
          rw [h _ (by rw [hd]; simp), hd]
          exact readObjectLoop_fuel dec1 dec2 h buffer count _ _ hne

theorem readDictionaryLoop_fuel (dec1 dec2 : Nat → Except Error (Value D × Nat))
    (h : ∀ o, dec1 o ≠ .error .outOfFuel → dec2 o = dec1 o) (buffer : List Nat) :
    ∀ (count offset : Nat) (result : List (List Nat × Value D)),
      readDictionaryLoop dec1 buffer count offset result ≠ .error .outOfFuel →
      readDictionaryLoop dec2 buffer count offset result =
        readDictionaryLoop dec1 buffer count offset result
  | 0, _, _, _ => rfl
  | count + 1, offset, result, hne => by
    rw [readDictionaryLoop] at hne ⊢
    rw [readDictionaryLoop]
    by_cases h1 : notEnough buffer offset 2 = true
    · rw [if_pos h1, if_pos h1]
    · rw [if_neg h1] at hne ⊢
      rw [if_neg h1]
      cases hb : bytesAt buffer offset 2 with
      | error e => rfl
      | ok lengthBytes =>
        rw [hb] at hne
        simp only at hne ⊢
        by_cases h2 : notEnough buffer (audio.addUInt32 offset 2)
            (decodeBigEndian lengthBytes) = true
        · rw [if_pos h2, if_pos h2]
        · rw [if_neg h2] at hne ⊢
          rw [if_neg h2]
          cases hk : bytesAt buffer (audio.addUInt32 offset 2)
              (decodeBigEndian lengthBytes) with
          | error e => rfl
          | ok key =>
            rw [hk] at hne
            simp only at hne ⊢
            cases hd : dec1 (audio.addUInt32 (audio.addUInt32 offset 2)
                (decodeBigEndian lengthBytes)) with
            | error e =>
              rw [hd] at hne
              simp only at hne
              rw [h _ (by rw [hd]; exact fun he => hne (by cases he; rfl)), hd]
            | ok r =>
              rw [hd] at hne
              rw [h _ (by rw [hd]; simp), hd]
              exact readDictionaryLoop_fuel dec1 dec2 h buffer count _ _ hne

theorem readArray_fuel (dec1 dec2 : Nat → Except Error (Value D × Nat))
    (h : ∀ o, dec1 o ≠ .error .outOfFuel → dec2 o = dec1 o) (buffer : List Nat) (offset : Nat)
    (hne : readArray dec1 buffer offset ≠ .error .outOfFuel) :
    readArray dec2 buffer offset = readArray dec1 buffer offset := by
  unfold readArray at hne ⊢
  cases hc : readCount buffer offset with
  | error e => rfl
  | ok r =>
    rw [hc] at hne
    simp only at hne ⊢
    rw [readArrayLoop_fuel dec1 dec2 h r.1 r.2 [] (fun hl => by rw [hl] at hne; exact hne rfl)]

theorem readObject_fuel (dec1 dec2 : Nat → Except Error (Value D × Nat))
    (h : ∀ o, dec1 o ≠ .error .outOfFuel → dec2 o = dec1 o) (buffer : List Nat) (offset : Nat)
    (hne : readObject dec1 buffer offset ≠ .error .outOfFuel) :
    readObject dec2 buffer offset = readObject dec1 buffer offset := by
  unfold readObject at hne ⊢
  cases hc : readCount buffer offset with
  | error e => rfl
  | ok r =>
    rw [hc] at hne
    simp only at hne ⊢
    rw [readObjectLoop_fuel dec1 dec2 h buffer r.1 r.2 []
      (fun hl => by rw [hl] at hne; exact hne rfl)]

theorem readDictionary_fuel (dec1 dec2 : Nat → Except Error (Value D × Nat))
    (h : ∀ o, dec1 o ≠ .error .outOfFuel → dec2 o = dec1 o) (buffer : List Nat) (offset : Nat)
    (hne : readDictionary dec1 buffer offset ≠ .error .outOfFuel) :
    readDictionary dec2 buffer offset = readDictionary dec1 buffer offset := by
  unfold readDictionary at hne ⊢
  cases hc : readCount buffer offset with
  | error e => rfl
  | ok r =>
    rw [hc] at hne
    simp only at hne ⊢
    rw [readDictionaryLoop_fuel dec1 dec2 h buffer r.1 r.2 []
      (fun hl => by rw [hl] at hne; exact hne rfl)]

theorem Except.map_ne_outOfFuel {α β : Type} (g : α → β) (r : Except Error α)
    (h : r.map g ≠ .error .outOfFuel) : r ≠ .error .outOfFuel := by
  intro hr
  rw [hr] at h
  exact h rfl

theorem decodeCase_fuel (fmt : Format D) (dec1 dec2 : Nat → Except Error (Value D × Nat))
    (h : ∀ o, dec1 o ≠ .error .outOfFuel → dec2 o = dec1 o) (buffer : List Nat) (offset : Nat)
    (marker : Marker)
    (hne : decodeCase fmt dec1 buffer offset marker ≠ .error .outOfFuel) :
    decodeCase fmt dec2 buffer offset marker = decodeCase fmt dec1 buffer offset marker := by
  cases marker with
  | OBJECT =>
    simp only [decodeCase] at hne ⊢
    rw [readObject_fuel dec1 dec2 h buffer offset (Except.map_ne_outOfFuel _ _ hne)]
  | ARRAY =>
    simp only [decodeCase] at hne ⊢
    rw [readArray_fuel dec1 dec2 h buffer offset (Except.map_ne_outOfFuel _ _ hne)]
  | DICTIONARY =>
    simp only [decodeCase] at hne ⊢
    rw [readDictionary_fuel dec1 dec2 h buffer offset (Except.map_ne_outOfFuel _ _ hne)]
  | _ => rfl

/-- A run of `decode` that does not run out of fuel gives the same result with one more
unit of fuel. -/
theorem decode_fuel_succ (fmt : Format D) (buffer : List Nat) :
    ∀ (fuel offset : Nat), Value.decode fmt fuel buffer offset ≠ .error .outOfFuel →
      Value.decode fmt (fuel + 1) buffer offset = Value.decode fmt fuel buffer offset
  | 0, offset, hne => absurd rfl hne
  | fuel + 1, offset, hne => by
    rw [Value.decode] at hne ⊢
    rw [Value.decode]
    simp only at hne ⊢
    by_cases h1 : notEnough buffer offset 1 = true
    · rw [if_pos h1, if_pos h1]
    · rw [if_neg h1] at hne ⊢
      rw [if_neg h1]
      cases hb : bytesAt buffer offset 1 with
      | error e => rfl
      | ok markerBytes =>
        rw [hb] at hne
        simp only at hne ⊢
        cases hm : markerOf fmt (decodeBigEndian markerBytes) with
        | none => rfl
        | some marker =>
          rw [hm] at hne
          simp only at hne ⊢
          have hc := decodeCase_fuel fmt (Value.decode fmt fuel buffer)
            (Value.decode fmt (fuel + 1) buffer)
            (fun o ho => decode_fuel_succ fmt buffer fuel o ho) buffer
            (audio.addUInt32 offset 1) marker
            (fun hl => by rw [hl] at hne; exact hne rfl)
          rw [hc]

/-- A run of `decode` that does not run out of fuel gives the same result with more fuel. -/
theorem decode_fuel_le (fmt : Format D) (buffer : List Nat) (offset fuel : Nat)
    (hne : Value.decode fmt fuel buffer offset ≠ .error .outOfFuel) :
    ∀ (more : Nat), Value.decode fmt (fuel + more) buffer offset =
      Value.decode fmt fuel buffer offset
  | 0 => rfl
  | more + 1 => by
    have ih := decode_fuel_le fmt buffer offset fuel hne more
    rw [← Nat.add_assoc, decode_fuel_succ fmt buffer (fuel + more) offset (by rw [ih]; exact hne),
      ih]

/-- On a buffer of fewer than `2^32` bytes, a run of `decode` that returns has consumed at
least the marker byte. -/
theorem decode_consumes (fmt : Format D) (buffer : List Nat)
    (hS : buffer.length < audio.UINT32_MOD) (fuel offset : Nat) (ho : offset ≤ buffer.length)
    (value : Value D) (size : Nat)
    (h : Value.decode fmt fuel buffer offset = .ok (value, size)) : 1 ≤ size := by
  cases fuel with
  | zero => cases h
  | succ fuel =>
    rw [Value.decode] at h
    simp only at h
    rcases checked_read buffer hS offset 1 ho with ⟨h1, _⟩ | ⟨h1, h2, h3, h4⟩
    · rw [h1, if_pos rfl] at h
      cases h
    · rw [h1, if_neg (by simp), h3] at h
      simp only [h4] at h
      cases hm : markerOf fmt (decodeBigEndian ((buffer.drop offset).take 1)) with
      | none =>
        rw [hm] at h
        cases h
      | some marker =>
        rw [hm] at h
        simp only at h
        have hc := decodeCase_within fmt buffer hS false (offset + 1) h2
          (Value.decode fmt fuel buffer)
          (fun o _ ho2 => (decode_within fmt buffer hS fuel o ho2).toFalse) marker
        cases hr : decodeCase fmt (Value.decode fmt fuel buffer) buffer (offset + 1) marker with
        | error e =>
          rw [hr] at h
          cases h
        | ok r =>
          rw [hr] at h hc
          have k1 : offset + 1 + r.2 ≤ buffer.length := hc
          simp only [Except.ok.injEq, Prod.mk.injEq] at h
          rw [← h.2]
          unfold audio.subUInt32 audio.addUInt32
          unfold audio.UINT32_MOD at *
          omega

/-- C22 (amended): on a buffer of fewer than `2^32` bytes and at an offset inside it,
`decode` never reads a byte outside the buffer; it throws `"Not enough data"` or
`"Unsupported marker"`, or returns a size `r` with `offset + r` inside the buffer (with too
little fuel for the nesting the run of the model ends for lack of fuel). Every truncated
prefix of the encoding of a well-formed value, fewer than `2^32` bytes long, is rejected with
`"Not enough data"`. -/
theorem c22_decode_bounds_safe (fmt : Format D) (hc : Function.Injective fmt.code)
    (hf : ∀ d, (fmt.floatBytes d).length = 4) (hd : ∀ d, (fmt.doubleBytes d).length = 8)
    (buffer : List Nat) (hS : buffer.length < 4294967296) (offset : Nat)
    (ho : offset ≤ buffer.length) (fuel : Nat)
    (v : Value D) (hv : v.WellFormed fmt) (hlen : (v.encode fmt []).1.length < 4294967296)
    (n : Nat) (hn : n < (v.encode fmt []).1.length)
    (fuel2 : Nat) (hfuel2 : (v.encode fmt []).1.length ≤ fuel2) :
    Value.decode fmt fuel buffer offset ≠ .error .outOfBounds ∧
    (∀ value r, Value.decode fmt fuel buffer offset = .ok (value, r) →
      offset + r ≤ buffer.length) ∧
    (∀ e, Value.decode fmt fuel buffer offset = .error e →
      e = .notEnoughData ∨ e = .unsupportedMarker ∨
        (e = .outOfFuel ∧ fuel ≤ buffer.length - offset)) ∧
    Value.decode fmt fuel2 ((v.encode fmt []).1.take n) 0 = .error .notEnoughData := by
  have h := decode_within fmt buffer hS fuel offset ho
  refine ⟨?_, ?_, ?_, ?_⟩
  · intro he
    rw [he] at h
    rcases h with h | h | ⟨_, h⟩ <;> cases h
  · intro value r he
    rw [he] at h
    exact h
  · intro e he
    rw [he] at h
    rcases h with h | h | ⟨h1, h2⟩
    · exact Or.inl h
    · exact Or.inr (Or.inl h)
    · refine Or.inr (Or.inr ⟨h2, ?_⟩)
      have := of_decide_eq_false h1
      omega
  · have := decode_bytes fmt hc hf hd v hv hlen n fuel2 hfuel2
    rw [if_neg (by
      show ¬ (v.encode fmt []).1.length ≤ n
      omega)] at this
    exact this

/-- Witness of `c22_decode_bounds_safe`: a buffer whose array header declares `2^32 - 1`
elements, and the encoding of an array cut behind 9 of its 10 bytes. -/
theorem c22_decode_bounds_safe_witness :
    Value.decode sampleFormat 5 [11, 255, 255, 255, 255, 0, 0, 0] 0 = .error .notEnoughData ∧
    Value.decode sampleFormat 5 [11, 255, 255, 255, 255, 0, 0, 0] 5 = .ok (.NONE, 1) ∧
    ((Value.ARRAY [.INT 300, .INT 7] : Value (List Nat)).encode sampleFormat []).1 =
      [11, 0, 0, 0, 2, 2, 1, 44, 1, 7] ∧
    (Value.decode sampleFormat 5 [11, 255, 255, 255, 255, 0, 0, 0] 5 ≠ .error .outOfBounds ∧
    (∀ value r, Value.decode sampleFormat 5 [11, 255, 255, 255, 255, 0, 0, 0] 5 =
        .ok (value, r) → 5 + r ≤ [11, 255, 255, 255, 255, 0, 0, 0].length) ∧
    (∀ e, Value.decode sampleFormat 5 [11, 255, 255, 255, 255, 0, 0, 0] 5 = .error e →
      e = .notEnoughData ∨ e = .unsupportedMarker ∨
        (e = .outOfFuel ∧ 5 ≤ [11, 255, 255, 255, 255, 0, 0, 0].length - 5)) ∧
    Value.decode sampleFormat 10
      (((Value.ARRAY [.INT 300, .INT 7] : Value (List Nat)).encode sampleFormat []).1.take 9)
        0 = .error .notEnoughData) :=
  ⟨rfl, rfl, rfl,
    c22_decode_bounds_safe sampleFormat sampleCode_injective sampleFormat_floatBytes
      sampleFormat_doubleBytes [11, 255, 255, 255, 255, 0, 0, 0] (by decide) 5 (by decide) 5
      (.ARRAY [.INT 300, .INT 7])
      (by simp [Value.WellFormed, arrayWellFormed, audio.UINT32_MOD])
      (by decide) 9 (by decide) 10 (by decide)⟩

/-- C23 (amended): on a buffer of fewer than `2^32` bytes and at an offset inside it,
`decode` terminates, whatever the headers declare and however deep the nesting: with more
fuel than bytes left behind the offset the run does not end for lack of fuel, and its result
is that of the run with one unit of fuel per byte left and one more. A run that returns has
consumed at least one byte and no more than the bytes left, so that every nested `decode`
runs on fewer bytes. -/
theorem c23_decode_terminates (fmt : Format D) (buffer : List Nat)
    (hS : buffer.length < 4294967296) (offset : Nat) (ho : offset ≤ buffer.length)
    (fuel : Nat) (hfuel : buffer.length - offset < fuel) :
    Value.decode fmt fuel buffer offset ≠ .error .outOfFuel ∧
    Value.decode fmt fuel buffer offset =
      Value.decode fmt (buffer.length - offset + 1) buffer offset ∧
    (∀ value r, Value.decode fmt fuel buffer offset = .ok (value, r) →
      1 ≤ r ∧ offset + r ≤ buffer.length) := by
  have hne : ∀ f, buffer.length - offset < f →
      Value.decode fmt f buffer offset ≠ .error .outOfFuel := by
    intro f hf he
    have h := decode_within fmt buffer hS f offset ho
    rw [he, decide_eq_true hf] at h
    rcases h with h | h | ⟨h, _⟩ <;> cases h
  refine ⟨hne fuel hfuel, ?_, ?_⟩
  · have h := decode_fuel_le fmt buffer offset (buffer.length - offset + 1)
      (hne _ (by omega)) (fuel - (buffer.length - offset + 1))
    rw [← h]
    congr 1
    omega
  · intro value r he
    have h := decode_within fmt buffer hS fuel offset ho
    rw [he] at h
    exact ⟨decode_consumes fmt buffer hS fuel offset ho value r he, h⟩

/-- Witness of `c23_decode_terminates`: a buffer whose array header declares `2^32 - 1`
elements and holds three; the run ends with `"Not enough data"`. -/
theorem c23_decode_terminates_witness :
    Value.decode sampleFormat 9 [11, 255, 255, 255, 255, 0, 0, 0] 0 = .error .notEnoughData ∧
    (Value.decode sampleFormat 9 [11, 255, 255, 255, 255, 0, 0, 0] 0 ≠ .error .outOfFuel ∧
    Value.decode sampleFormat 9 [11, 255, 255, 255, 255, 0, 0, 0] 0 =
      Value.decode sampleFormat ([11, 255, 255, 255, 255, 0, 0, 0].length - 0 + 1)
        [11, 255, 255, 255, 255, 0, 0, 0] 0 ∧
    (∀ value r, Value.decode sampleFormat 9 [11, 255, 255, 255, 255, 0, 0, 0] 0 =
        .ok (value, r) → 1 ≤ r ∧ 0 + r ≤ [11, 255, 255, 255, 255, 0, 0, 0].length)) :=
  ⟨rfl, c23_decode_terminates sampleFormat [11, 255, 255, 255, 255, 0, 0, 0] (by decide) 0
    (by decide) 9 (by decide)⟩

end obf

end ouzel
